import Mathlib

/-!
# Peloton storage / execution core: logical tiles and sequential scans

A shallow embedding of `src/executor/logical_tile.cpp` and
`src/executor/seq_scan_executor.cpp`, followed by theorems about it.

Conventions of the embedding

* `oid_t` is an unsigned 32-bit integer; it is embedded as a natural number and
  every place where the source stores a wider value into an `oid_t` or
  increments or decrements one is written with an explicit `% OID_MOD`.
* `std::vector` is a `List`.  `operator[]` is unchecked in the source; the
  embedding reads a default value past the end of a vector and a write past the
  end leaves the vector as it is.
* An operation that contains a `PELOTON_ASSERT` and writes its object returns a
  pair: `none` in the first component when an assertion failed, and the state of
  the object at the moment the operation ended in the second component.  An
  operation that only reads returns an `Option`.
* Code of the repository that the operations call and that is not among the
  sources (tiles, schemas, tile groups, values, the assertion macro) is modelled
  from the specification; the doc comment of such a definition says so.
-/

namespace peloton

/-- Number of values of `oid_t`, the unsigned 32-bit type of object identifiers. -/
def OID_MOD : Nat := 4294967296

/-- Modelled from the spec: `INVALID_OID` of `common/internal_types.h`, which is not among
the sources; it is the largest 32-bit identifier (identifiers are `u32` in the spec). -/
def INVALID_OID : Nat := OID_MOD - 1

/-- Modelled from the spec: `NULL_OID` of `common/internal_types.h`, which is not among the
sources; the sentinel "no physical row" identifier, the largest identifier below
`INVALID_OID`. -/
def NULL_OID : Nat := OID_MOD - 2

/-- Modelled from the spec: `START_OID` of `common/internal_types.h`, the first
identifier. -/
def START_OID : Nat := 0

/-- Modelled from the spec: `type::TypeId`, the code of a column type. -/
abbrev TypeId := Nat

namespace type

/-- Modelled from the spec: `type::Value` (the `type/` directory is not among the sources):
either a typed null or a value of a type with a payload. -/
inductive Value where
  | null (type_id : TypeId)
  | data (type_id : TypeId) (payload : Int)
deriving DecidableEq, Repr

/-- Modelled from the spec: the result of the external expression evaluator on a bound
tuple, `true | false | null` (a boolean `type::Value` in the source). -/
inductive CmpBool where
  | CmpFalse
  | CmpTrue
  | NULL
deriving DecidableEq, Repr

/-- Modelled from the spec: `Value::IsTrue` of an evaluation result. -/
def CmpBool.IsTrue (v : CmpBool) : Bool := v = CmpBool.CmpTrue

/-- Modelled from the spec: `Value::IsFalse` of an evaluation result. -/
def CmpBool.IsFalse (v : CmpBool) : Bool := v = CmpBool.CmpFalse

/-- Modelled from the spec: `type::ValueFactory::GetNullValueByType`: the null value of
the given type. -/
def GetNullValueByType (type_id : TypeId) : Value := Value.null type_id

end type

namespace catalog

/-- Modelled from the spec: `catalog::Column` (`catalog/` is not among the sources): the
type of the column, its byte offset in a tuple, whether it is stored inline, and its
length. -/
structure Column where
  type_id : TypeId
  offset : Nat
  is_inlined : Bool
  length : Nat
deriving DecidableEq, Repr

/-- Modelled from the spec: `catalog::Schema`, the ordered list of its column
descriptors. -/
abbrev Schema := List Column

/-- Default column read by an out-of-range schema access. -/
def Column.none : Column := ⟨0, 0, true, 0⟩

/-- Modelled from the spec: `Schema::GetColumn` (`catalog/schema.h` is not among the
sources): the column descriptor at a column id. -/
def Schema.GetColumn (s : Schema) (column_id : Nat) : Column := s.getD column_id Column.none

/-- Modelled from the spec: `Schema::GetType`: the type of a column. -/
def Schema.GetType (s : Schema) (column_id : Nat) : TypeId := (s.GetColumn column_id).type_id

/-- Modelled from the spec: `Schema::GetOffset`: the byte offset of a column in a tuple. -/
def Schema.GetOffset (s : Schema) (column_id : Nat) : Nat := (s.GetColumn column_id).offset

/-- Modelled from the spec: `Schema::IsInlined`: the inlined flag of a column. -/
def Schema.IsInlined (s : Schema) (column_id : Nat) : Bool := (s.GetColumn column_id).is_inlined

/-- Modelled from the spec: `Schema::GetAppropriateLength`: the byte length of a column. -/
def Schema.GetAppropriateLength (s : Schema) (column_id : Nat) : Nat :=
  (s.GetColumn column_id).length

/-- Modelled from the spec: `Schema::GetColumnCount`: the number of columns. -/
def Schema.GetColumnCount (s : Schema) : Nat := s.length

/-- Lays columns out one after the other from byte offset `column_offset` on. -/
def Schema.layout : List Column → Nat → List Column
  | [], _ => []
  | column :: rest, column_offset =>
    { column with offset := column_offset } :: Schema.layout rest (column_offset + column.length)

/-- Modelled from the spec: the constructor `catalog::Schema(columns)` (`catalog/schema.cpp`
is not among the sources): the schema keeps the type, the length and the inlined flag
of every column, in order, and places each column at the byte offset where the
previous one ends. -/
def Schema.ofColumns (columns : List Column) : Schema := Schema.layout columns 0

end catalog

namespace storage

/-- Modelled from the spec: `storage::Tile` (`storage/tile.cpp` is not among the sources):
dense storage for the columns of its schema.  `addr` stands for the address of the
tile (tiles are compared by pointer in the source), `num_tuple_slots` is the number of
tuple slots it was allocated with, `cells tuple offset` is the value stored for tuple
slot `tuple` at byte offset `offset`. -/
structure Tile where
  addr : Nat
  schema : catalog.Schema
  num_tuple_slots : Nat
  cells : Nat → Nat → type.Value

/-- Modelled from the spec: `Tile::GetValueFast`: decodes the field at the given tuple
slot and byte offset. -/
def Tile.GetValueFast (tile : Tile) (tuple_offset : Nat) (column_offset : Nat)
    (_column_type : TypeId) (_is_inlined : Bool) : type.Value :=
  tile.cells tuple_offset column_offset

/-- Modelled from the spec: `Tile::GetValue`: the field of column `column_id` of a tuple
slot, located through the schema of the tile. -/
def Tile.GetValue (tile : Tile) (tuple_offset : Nat) (column_id : Nat) : type.Value :=
  tile.GetValueFast tuple_offset (tile.schema.GetOffset column_id)
    (tile.schema.GetType column_id) (tile.schema.IsInlined column_id)

/-- Modelled from the spec: `Tile::SetValueFast`: stores a value at the given tuple slot
and byte offset. -/
def Tile.SetValueFast (tile : Tile) (value : type.Value) (tuple_offset : Nat)
    (column_offset : Nat) (_is_inlined : Bool) (_column_length : Nat) : Tile :=
  { tile with cells := fun t o =>
      if t = tuple_offset ∧ o = column_offset then value else tile.cells t o }

/-- Modelled from the spec: `Tile::GetColumnCount`: the number of columns of the schema of
the tile. -/
def Tile.GetColumnCount (tile : Tile) : Nat := tile.schema.GetColumnCount

/-- Tile read by an out-of-range schema access. -/
def Tile.none : Tile := ⟨0, [], 0, fun _ _ => type.Value.null 0⟩

/-- Conversion of a count to the `int` of the source (32-bit two's complement). -/
def to_int (n : Nat) : Int :=
  if n % 4294967296 < 2147483648 then (n % 4294967296 : Nat) else (n % 4294967296 : Nat) - 4294967296

/-- Modelled from the spec: `TileFactory::GetTempTile(schema, tuple_count)`
(`storage/tile_factory.cpp` is not among the sources): a new tile with the given schema
and `tuple_count` tuple slots (an `int`), every cell of which is still empty. -/
def TileFactory.GetTempTile (schema : catalog.Schema) (tuple_count : Int) : Tile :=
  ⟨0, schema, tuple_count.toNat, fun _ _ => type.Value.null 0⟩

/-- Modelled from the spec: `storage::TileGroup` (`storage/tile_group.cpp` and
`storage/layout.cpp` are not among the sources): the tiles of the group, the next free
tuple slot, which is the number of tuple slots in use (`GetNextTupleSlot`), and the
layout, which sends a column id to the offset of its tile in the group and the column
id within that tile (`Layout::LocateTileAndColumn`). -/
structure TileGroup where
  tile_group_id : Nat
  tiles : List Tile
  next_tuple_slot : Nat
  layout : Nat → Nat × Nat

/-- Modelled from the spec: `TileGroup::GetNextTupleSlot`: the number of tuple slots in
use. -/
def TileGroup.GetNextTupleSlot (g : TileGroup) : Nat := g.next_tuple_slot

/-- Modelled from the spec: `TileGroup::GetTileReference`: the tile at an offset of the
group. -/
def TileGroup.GetTileReference (g : TileGroup) (tile_offset : Nat) : Tile :=
  g.tiles.getD tile_offset Tile.none

/-- Tile group read by an out-of-range access. -/
def TileGroup.none : TileGroup := ⟨0, [], 0, fun _ => (0, 0)⟩

/-- Modelled from the spec: `peloton::LayoutType` of `common/internal_types.h`, which is
not among the sources: row store, column store or hybrid. -/
inductive LayoutType where
  | INVALID
  | ROW
  | COLUMN
  | HYBRID
deriving DecidableEq, Repr

end storage

namespace executor

/-- Modelled from the spec: `PELOTON_ASSERT` of `common/macros.h`, which is not among the
sources.  A contract violation is fatal to the current operation: when the condition
is false the operation is aborted in the state `s` it has reached, otherwise it goes on
with `body`. -/
def PELOTON_ASSERT {σ α : Type} (cond : Prop) [Decidable cond] (s : σ) (body : Option α × σ) :
    Option α × σ :=
  if cond then body else (none, s)

/-- Embeds `std::vector::resize(n, v)`: truncates to `n` elements or appends copies of `v`. -/
def vector_resize {α : Type} (xs : List α) (n : Nat) (v : α) : List α :=
  xs.take n ++ List.replicate (n - xs.length) v

/-- Embeds `LogicalTile::ColumnInfo`. -/
structure ColumnInfo where
  base_tile : storage.Tile
  origin_column_id : Nat
  position_list_idx : Nat

/-- Embeds `LogicalTile::PositionList`. -/
abbrev PositionList := List Nat

/-- The state of a `LogicalTile` that the operations below read and write. -/
structure LogicalTile where
  schema_ : List ColumnInfo
  position_lists_ : List PositionList
  visible_rows_ : List Bool
  total_tuples_ : Nat
  visible_tuples_ : Nat

/-- Embeds `LogicalTile::LogicalTile()`: a fresh tile. -/
def LogicalTile.fresh : LogicalTile := ⟨[], [], [], 0, 0⟩

/-- Embeds `LogicalTile::AddPositionList`.  The returned index is an `int` in the source. -/
def LogicalTile.AddPositionList (t : LogicalTile) (position_list : PositionList) :
    Option Nat × LogicalTile :=
  PELOTON_ASSERT (t.position_lists_.length = 0 ∨
      (t.position_lists_.getD 0 []).length = position_list.length) t <|
    let t1 : LogicalTile :=
      if t.position_lists_.length = 0 then
        { t with
            visible_tuples_ := position_list.length % OID_MOD
            visible_rows_ := vector_resize t.visible_rows_ position_list.length true
            total_tuples_ := position_list.length % OID_MOD }
      else t
    let t2 : LogicalTile := { t1 with position_lists_ := t1.position_lists_ ++ [position_list] }
    (some (t2.position_lists_.length - 1), t2)

/-- Embeds `LogicalTile::RemoveVisibility`. -/
def LogicalTile.RemoveVisibility (t : LogicalTile) (tuple_id : Nat) :
    Option Unit × LogicalTile :=
  PELOTON_ASSERT (tuple_id < t.total_tuples_) t <|
  PELOTON_ASSERT (t.visible_rows_.getD tuple_id false = true) t <|
    (some (), { t with
      visible_rows_ := t.visible_rows_.set tuple_id false
      visible_tuples_ := (t.visible_tuples_ + OID_MOD - 1) % OID_MOD })

/-- Embeds `LogicalTile::GetTupleCount`. -/
def LogicalTile.GetTupleCount (t : LogicalTile) : Nat := t.visible_tuples_

/-- Embeds `LogicalTile::GetColumnCount`. -/
def LogicalTile.GetColumnCount (t : LogicalTile) : Nat := t.schema_.length

/-- A call on a logical tile: `AddPositionList` or `RemoveVisibility`. -/
inductive TileCall where
  | addPositionList (position_list : PositionList)
  | removeVisibility (tuple_id : Nat)

/-- Runs a sequence of calls, each of which has to succeed. -/
def LogicalTile.run (t : LogicalTile) : List TileCall → Option LogicalTile
  | [] => some t
  | TileCall.addPositionList pl :: rest =>
    match t.AddPositionList pl with
    | (some _, t1) => LogicalTile.run t1 rest
    | (none, _) => none
  | TileCall.removeVisibility r :: rest =>
    match t.RemoveVisibility r with
    | (some _, t1) => LogicalTile.run t1 rest
    | (none, _) => none

/-- The position lists handed to `AddPositionList` in a sequence of calls all have a
length that an `oid_t` can hold. -/
def TileCall.listsFit : List TileCall → Prop
  | [] => True
  | TileCall.addPositionList pl :: rest => pl.length < OID_MOD ∧ TileCall.listsFit rest
  | TileCall.removeVisibility _ :: rest => TileCall.listsFit rest

/-- The loop `while (pos_ < total_tile_tuples && !tile_->visible_rows_[pos_]) pos_++`
of the iterator, unrolled at most `fuel` times.  Inside the loop `pos_` is below
`total_tuples_`, so the increment never leaves the range of an `oid_t`. -/
def LogicalTile.findVisibleAux (t : LogicalTile) : Nat → Nat → Nat
  | 0, pos => pos
  | fuel + 1, pos =>
    if pos < t.total_tuples_ ∧ t.visible_rows_.getD pos false = false then
      LogicalTile.findVisibleAux t fuel (pos + 1)
    else pos

/-- The same loop run to its end: it leaves after at most `total_tuples_ - pos`
increments, because each one brings `pos_` closer to `total_tuples_`. -/
def LogicalTile.findVisible (t : LogicalTile) (pos : Nat) : Nat :=
  t.findVisibleAux (t.total_tuples_ - pos) pos

/-- Embeds `LogicalTile::iterator::iterator(tile, begin)`; the iterator is its `pos_`. -/
def LogicalTile.iterator (t : LogicalTile) (begin : Bool) : Nat :=
  if begin = false then INVALID_OID
  else
    let pos := t.findVisible 0
    if pos = t.total_tuples_ then INVALID_OID else pos

/-- Embeds `LogicalTile::begin`. -/
def LogicalTile.begin (t : LogicalTile) : Nat := t.iterator true

/-- Embeds `LogicalTile::end`. -/
def LogicalTile.end_ (t : LogicalTile) : Nat := t.iterator false

/-- Embeds `LogicalTile::iterator::operator++` in its pre-increment form: one increment,
which wraps around as an `oid_t` does, then the loop over invisible rows. -/
def LogicalTile.next (t : LogicalTile) (pos : Nat) : Nat :=
  let pos1 := t.findVisible ((pos + 1) % OID_MOD)
  if pos1 = t.total_tuples_ then INVALID_OID else pos1

/-- The range-based loop `for (oid_t tuple_id : tile)`: dereferences and increments the
iterator `it` until it equals `end()`, collecting the ids; `none` when `fuel`
increments were not enough to reach `end()`. -/
def LogicalTile.traverseFrom (t : LogicalTile) : Nat → Nat → Option (List Nat)
  | 0, it => if it = t.end_ then some [] else none
  | fuel + 1, it =>
    if it = t.end_ then some []
    else (LogicalTile.traverseFrom t fuel (t.next it)).map (fun rest => it :: rest)

/-- A traversal from `begin()` to `end()`. -/
def LogicalTile.traverse (t : LogicalTile) (fuel : Nat) : Option (List Nat) :=
  t.traverseFrom fuel t.begin

/-- The row ids below `total_tuples_` whose bit in `visible_rows_` is set, ascending. -/
def LogicalTile.visibleIds (t : LogicalTile) : List Nat :=
  (List.range t.total_tuples_).filter (fun i => t.visible_rows_.getD i false)

/-- Column read by an out-of-range access to `schema_`. -/
def ColumnInfo.none : ColumnInfo := ⟨storage.Tile.none, 0, 0⟩

/-- Embeds `schema_[column_id]`. -/
def LogicalTile.GetColumnInfo (t : LogicalTile) (column_id : Nat) : ColumnInfo :=
  t.schema_.getD column_id ColumnInfo.none

/-- Embeds `position_lists_[idx][tuple_id]`. -/
def LogicalTile.position (t : LogicalTile) (idx tuple_id : Nat) : Nat :=
  (t.position_lists_.getD idx []).getD tuple_id 0

/-- Embeds `LogicalTile::GetBaseTile`. -/
def LogicalTile.GetBaseTile (t : LogicalTile) (column_id : Nat) : storage.Tile :=
  (t.GetColumnInfo column_id).base_tile

/-- Embeds `LogicalTile::GetValue`; `none` when one of its two assertions fails.  The tile is
not written. -/
def LogicalTile.GetValue (t : LogicalTile) (tuple_id column_id : Nat) : Option type.Value :=
  (PELOTON_ASSERT (column_id < t.schema_.length) t <|
   PELOTON_ASSERT (tuple_id < t.total_tuples_) t <|
    let cp := t.GetColumnInfo column_id
    let base_tuple_id := t.position cp.position_list_idx tuple_id
    let base_tile := cp.base_tile
    if base_tuple_id = NULL_OID then
      (some (type.GetNullValueByType (base_tile.schema.GetType column_id)), t)
    else
      (some (base_tile.GetValue base_tuple_id cp.origin_column_id), t)).1

/-- The value that `LogicalTile::GetAllValuesAsStrings` reads for the cell
`(tuple_itr, column_itr)` before it formats it (the body of its inner loop up to the
choice of the format). -/
def LogicalTile.GetAllValuesAsStrings_value (t : LogicalTile) (tuple_itr column_itr : Nat) :
    type.Value :=
  let cp := t.GetColumnInfo column_itr
  let base_tuple_id := t.position cp.position_list_idx tuple_itr
  if base_tuple_id = NULL_OID then
    type.GetNullValueByType (cp.base_tile.schema.GetType cp.origin_column_id)
  else
    cp.base_tile.GetValue base_tuple_id cp.origin_column_id

/-- The loop of `LogicalTile::ProjectColumns` over `column_ids`: `std::find` of the id
in `original_column_ids`, the assertion that it was found, and the push of
`schema_[*ret]`, where `*ret` is the element that was found. -/
def LogicalTile.ProjectColumns_loop (t : LogicalTile) (original_column_ids : List Nat) :
    List Nat → List ColumnInfo → Option (List ColumnInfo) × LogicalTile
  | [], new_schema => (some new_schema, t)
  | id :: rest, new_schema =>
    let ret := original_column_ids.find? (fun x => x = id)
    PELOTON_ASSERT (ret.isSome = true) t <|
      LogicalTile.ProjectColumns_loop t original_column_ids rest
        (new_schema ++ [t.GetColumnInfo (ret.getD 0)])

/-- Embeds `LogicalTile::ProjectColumns`. -/
def LogicalTile.ProjectColumns (t : LogicalTile) (original_column_ids column_ids : List Nat) :
    Option Unit × LogicalTile :=
  match t.ProjectColumns_loop original_column_ids column_ids [] with
  | (some new_schema, _) => (some (), { t with schema_ := new_schema })
  | (none, t1) => (none, t1)

/-- Embeds `LogicalTile::GetPhysicalSchema`. -/
def LogicalTile.GetPhysicalSchema (t : LogicalTile) : catalog.Schema :=
  catalog.Schema.ofColumns
    (t.schema_.map (fun column => column.base_tile.schema.GetColumn column.origin_column_id))

/-- The row ids that the loop `for (oid_t old_tuple_id : *this)` visits: the traversal
from `begin()` to `end()`, which takes at most `total_tuples_` increments. -/
def LogicalTile.rows (t : LogicalTile) : List Nat :=
  (t.traverse t.total_tuples_).getD []

/-- Adds `col` to the columns of the tile at address `tile` in the map
`cols_in_physical_tile` (`cols_in_physical_tile[base_tile].push_back(col)`); the map is
the list of its entries in the order in which the keys were inserted. -/
def push_back_col : List (Nat × List Nat) → Nat → Nat → List (Nat × List Nat)
  | [], tile, col => [(tile, [col])]
  | (key, cols) :: rest, tile, col =>
    if key = tile then (key, cols ++ [col]) :: rest
    else (key, cols) :: push_back_col rest tile col

/-- Embeds `LogicalTile::GenerateTileToColMap`; `old_to_new_cols` is the sequence in which the
iteration over the `std::unordered_map` yields its entries. -/
def LogicalTile.GenerateTileToColMap (t : LogicalTile) (old_to_new_cols : List (Nat × Nat))
    (cols_in_physical_tile : List (Nat × List Nat)) : List (Nat × List Nat) :=
  old_to_new_cols.foldl
    (fun m kv => push_back_col m (t.GetBaseTile kv.1).addr kv.1) cols_in_physical_tile

/-- What both copy loops look up once per column ("amortize schema lookups"): the
position list, the base tile and the offset, type and inlined flag of the old column,
and the offset, inlined flag and length of the new column. -/
structure ColumnCopy where
  position_list_idx : Nat
  old_tile : storage.Tile
  old_column_offset : Nat
  old_column_type : TypeId
  old_is_inlined : Bool
  new_column_offset : Nat
  new_is_inlined : Bool
  new_column_length : Nat

/-- The lookups for the column `old_col_id`; `none` when
`PELOTON_ASSERT(it != old_to_new_cols.end())` fails. -/
def LogicalTile.lookupColumn (t : LogicalTile) (old_to_new_cols : List (Nat × Nat))
    (dest_tile : storage.Tile) (old_col_id : Nat) : Option ColumnCopy :=
  let column_info := t.GetColumnInfo old_col_id
  let old_tile := column_info.base_tile
  let old_schema := old_tile.schema
  let old_column_id := column_info.origin_column_id
  match old_to_new_cols.lookup old_col_id with
  | none => none
  | some new_column_id =>
    let new_schema := dest_tile.schema
    some
      { position_list_idx := column_info.position_list_idx
        old_tile := old_tile
        old_column_offset := old_schema.GetOffset old_column_id
        old_column_type := old_schema.GetType old_column_id
        old_is_inlined := old_schema.IsInlined old_column_id
        new_column_offset := new_schema.GetOffset new_column_id
        new_is_inlined := new_schema.IsInlined new_column_id
        new_column_length := new_schema.GetAppropriateLength new_column_id }

/-- The copy of one field: `GetValueFast` on the base tile at the physical tuple id of
the position list, `SetValueFast` on the destination tile. -/
def LogicalTile.copyField (t : LogicalTile) (c : ColumnCopy) (old_tuple_id new_tuple_id : Nat)
    (dest_tile : storage.Tile) : storage.Tile :=
  let base_tuple_id := t.position c.position_list_idx old_tuple_id
  let value := c.old_tile.GetValueFast base_tuple_id c.old_column_offset c.old_column_type
    c.old_is_inlined
  dest_tile.SetValueFast value new_tuple_id c.new_column_offset c.new_is_inlined
    c.new_column_length

/-- First loop of `MaterializeRowAtAtATime` for one base tile: the lookups for all its
columns, kept in parallel vectors in the source. -/
def LogicalTile.amortize (t : LogicalTile) (old_to_new_cols : List (Nat × Nat))
    (dest_tile : storage.Tile) : List Nat → Option (List ColumnCopy)
  | [] => some []
  | old_col_id :: rest =>
    match t.lookupColumn old_to_new_cols dest_tile old_col_id with
    | none => none
    | some c => (LogicalTile.amortize t old_to_new_cols dest_tile rest).map (fun cs => c :: cs)

/-- Loop "EACH COLUMN" of `MaterializeRowAtAtATime` for one tuple. -/
def LogicalTile.rowAtATime_columns (t : LogicalTile) (old_tuple_id new_tuple_id : Nat) :
    List ColumnCopy → storage.Tile → storage.Tile
  | [], dest_tile => dest_tile
  | c :: rest, dest_tile =>
    LogicalTile.rowAtATime_columns t old_tuple_id new_tuple_id rest
      (t.copyField c old_tuple_id new_tuple_id dest_tile)

/-- Loop "EACH TUPLE" of `MaterializeRowAtAtATime`; `new_tuple_id` is an `oid_t`. -/
def LogicalTile.rowAtATime_tuples (t : LogicalTile) (cs : List ColumnCopy) :
    List Nat → Nat → storage.Tile → storage.Tile
  | [], _, dest_tile => dest_tile
  | old_tuple_id :: rest, new_tuple_id, dest_tile =>
    LogicalTile.rowAtATime_tuples t cs rest ((new_tuple_id + 1) % OID_MOD)
      (t.rowAtATime_columns old_tuple_id new_tuple_id cs dest_tile)

/-- Loop "EACH PHYSICAL TILE" of `MaterializeRowAtAtATime` over the entries of
`tile_to_cols` in the order in which the iteration yields them. -/
def LogicalTile.rowAtATime_tiles (t : LogicalTile) (old_to_new_cols : List (Nat × Nat)) :
    List (Nat × List Nat) → storage.Tile → Option storage.Tile
  | [], dest_tile => some dest_tile
  | kv :: rest, dest_tile =>
    let old_column_ids := kv.2
    match t.amortize old_to_new_cols dest_tile old_column_ids with
    | none => none
    | some cs =>
      if cs.length = old_column_ids.length then
        LogicalTile.rowAtATime_tiles t old_to_new_cols rest
          (t.rowAtATime_tuples cs t.rows 0 dest_tile)
      else none

/-- Embeds `LogicalTile::MaterializeRowAtAtATime`: the destination tile after the copy, `none`
when an assertion failed. -/
def LogicalTile.MaterializeRowAtAtATime (t : LogicalTile) (old_to_new_cols : List (Nat × Nat))
    (tile_to_cols : List (Nat × List Nat)) (dest_tile : storage.Tile) : Option storage.Tile :=
  t.rowAtATime_tiles old_to_new_cols tile_to_cols dest_tile

/-- Loop "EACH TUPLE" of `MaterializeColumnAtATime` for one column. -/
def LogicalTile.columnAtATime_tuples (t : LogicalTile) (c : ColumnCopy) :
    List Nat → Nat → storage.Tile → storage.Tile
  | [], _, dest_tile => dest_tile
  | old_tuple_id :: rest, new_tuple_id, dest_tile =>
    LogicalTile.columnAtATime_tuples t c rest ((new_tuple_id + 1) % OID_MOD)
      (t.copyField c old_tuple_id new_tuple_id dest_tile)

/-- Loop "EACH COLUMN" of `MaterializeColumnAtATime` for one base tile. -/
def LogicalTile.columnAtATime_columns (t : LogicalTile) (old_to_new_cols : List (Nat × Nat)) :
    List Nat → storage.Tile → Option storage.Tile
  | [], dest_tile => some dest_tile
  | old_col_id :: rest, dest_tile =>
    match t.lookupColumn old_to_new_cols dest_tile old_col_id with
    | none => none
    | some c =>
      LogicalTile.columnAtATime_columns t old_to_new_cols rest
        (t.columnAtATime_tuples c t.rows 0 dest_tile)

/-- Loop "EACH PHYSICAL TILE" of `MaterializeColumnAtATime`. -/
def LogicalTile.columnAtATime_tiles (t : LogicalTile) (old_to_new_cols : List (Nat × Nat)) :
    List (Nat × List Nat) → storage.Tile → Option storage.Tile
  | [], dest_tile => some dest_tile
  | kv :: rest, dest_tile =>
    match t.columnAtATime_columns old_to_new_cols kv.2 dest_tile with
    | none => none
    | some dest_tile1 => LogicalTile.columnAtATime_tiles t old_to_new_cols rest dest_tile1

/-- Embeds `LogicalTile::MaterializeColumnAtATime`: the destination tile after the copy, `none`
when an assertion failed. -/
def LogicalTile.MaterializeColumnAtATime (t : LogicalTile) (old_to_new_cols : List (Nat × Nat))
    (tile_to_cols : List (Nat × List Nat)) (dest_tile : storage.Tile) : Option storage.Tile :=
  t.columnAtATime_tiles old_to_new_cols tile_to_cols dest_tile

/-- Embeds `LogicalTile::MaterializeByTiles`. -/
def LogicalTile.MaterializeByTiles (t : LogicalTile) (old_to_new_cols : List (Nat × Nat))
    (tile_to_cols : List (Nat × List Nat)) (dest_tile : storage.Tile)
    (peloton_layout_mode : storage.LayoutType) : Option storage.Tile :=
  let row_wise_materialization := true
  let row_wise_materialization :=
    if peloton_layout_mode = storage.LayoutType.COLUMN then false else row_wise_materialization
  let dest_tile_column_count := dest_tile.GetColumnCount
  let column_count_threshold := 20
  let row_wise_materialization :=
    if peloton_layout_mode = storage.LayoutType.HYBRID ∧
        dest_tile_column_count ≤ column_count_threshold then false
    else row_wise_materialization
  if row_wise_materialization = true then
    t.MaterializeRowAtAtATime old_to_new_cols tile_to_cols dest_tile
  else
    t.MaterializeColumnAtATime old_to_new_cols tile_to_cols dest_tile

/-- The entries `old_to_new_cols[col] = col` that `Materialize` inserts, for
`col < column_count`. -/
def identity_cols (column_count : Nat) : List (Nat × Nat) :=
  (List.range column_count).map (fun col => (col, col))

/-- Embeds `LogicalTile::Materialize`.  The two maps are `std::unordered_map`s, whose iteration
order is not fixed: `order_cols` and `order_tiles` turn the entries of `old_to_new_cols`
and of `tile_to_cols` into the sequence in which the iteration yields them.
`peloton_layout_mode` is the default argument of `MaterializeByTiles`, declared in a
header that is not among the sources. -/
def LogicalTile.Materialize (t : LogicalTile)
    (order_cols : List (Nat × Nat) → List (Nat × Nat))
    (order_tiles : List (Nat × List Nat) → List (Nat × List Nat))
    (peloton_layout_mode : storage.LayoutType) : Option storage.Tile :=
  let source_tile_schema := t.GetPhysicalSchema
  let num_tuples : Int := storage.to_int t.GetTupleCount
  let column_count := source_tile_schema.GetColumnCount
  let old_to_new_cols := order_cols (identity_cols column_count)
  let tile_to_cols := order_tiles (t.GenerateTileToColMap old_to_new_cols [])
  let dest_tile := storage.TileFactory.GetTempTile source_tile_schema num_tuples
  t.MaterializeByTiles old_to_new_cols tile_to_cols dest_tile peloton_layout_mode

/-- The value that the copy loops read for the column `c` and the row `old_tuple_id`. -/
def LogicalTile.sourceValue (t : LogicalTile) (c : ColumnCopy) (old_tuple_id : Nat) : type.Value :=
  c.old_tile.GetValueFast (t.position c.position_list_idx old_tuple_id) c.old_column_offset
    c.old_column_type c.old_is_inlined

/-- The value of the logical tile at the `k`-th visited row and the column `c`, read
from the base tile of the column through its position list. -/
def LogicalTile.visitedValue (t : LogicalTile) (c k : Nat) : type.Value :=
  (t.GetColumnInfo c).base_tile.cells
    (t.position (t.GetColumnInfo c).position_list_idx (t.rows.getD k 0))
    ((t.GetColumnInfo c).base_tile.schema.GetOffset (t.GetColumnInfo c).origin_column_id)

/-- The lookups for a column that the mapping sends to itself, with the destination
schema `S`. -/
def LogicalTile.identityCopy (t : LogicalTile) (S : catalog.Schema) (col : Nat) : ColumnCopy :=
  { position_list_idx := (t.GetColumnInfo col).position_list_idx
    old_tile := (t.GetColumnInfo col).base_tile
    old_column_offset :=
      (t.GetColumnInfo col).base_tile.schema.GetOffset (t.GetColumnInfo col).origin_column_id
    old_column_type :=
      (t.GetColumnInfo col).base_tile.schema.GetType (t.GetColumnInfo col).origin_column_id
    old_is_inlined :=
      (t.GetColumnInfo col).base_tile.schema.IsInlined (t.GetColumnInfo col).origin_column_id
    new_column_offset := S.GetOffset col
    new_is_inlined := S.IsInlined col
    new_column_length := S.GetAppropriateLength col }

/-- All columns of all entries of a tile-to-columns map. -/
def flat_cols (tile_to_cols : List (Nat × List Nat)) : List Nat :=
  tile_to_cols.flatMap (fun kv => kv.2)

/-- The spec's example scenario, base tile: 5 rows and the columns `a` (byte offset 0)
and `b` (byte offset 4), both of type 5; row `r` holds `a = 10 r` and `b = 10 r + 1`. -/
def example_base_tile : storage.Tile :=
  ⟨1, [⟨5, 0, true, 4⟩, ⟨5, 4, true, 4⟩], 5, fun r o => type.Value.data 5 (10 * r + o / 4)⟩

/-- The spec's example scenario, logical tile: columns `[a, b]`, 5 rows, visibility
removed on the rows 1 and 3. -/
def example_logical_tile : LogicalTile :=
  ⟨[⟨example_base_tile, 0, 0⟩, ⟨example_base_tile, 1, 0⟩], [[0, 1, 2, 3, 4]],
    [true, false, true, false, true], 5, 3⟩

/-- Embeds `LogicalTile::AddColumn`. -/
def LogicalTile.AddColumn (t : LogicalTile) (base_tile : storage.Tile)
    (origin_column_id position_list_idx : Nat) : LogicalTile :=
  { t with schema_ := t.schema_ ++ [⟨base_tile, origin_column_id, position_list_idx⟩] }

/-- Embeds `LogicalTile::AddColumns` for a tile group that is not null. -/
def LogicalTile.AddColumns (t : LogicalTile) (tile_group : storage.TileGroup)
    (column_ids : List Nat) : LogicalTile :=
  let position_list_idx := 0
  column_ids.foldl
    (fun t origin_column_id =>
      let located := tile_group.layout origin_column_id
      t.AddColumn (tile_group.GetTileReference located.1) located.2 position_list_idx)
    t

end executor

namespace type

/-- Modelled from the spec: `Value::CompareLessThan` (`type/value.h` is not among the
sources) on integer values: the comparison of the payloads, null when one side is
null. -/
def Value.CompareLessThan : Value → Value → CmpBool
  | Value.data _ a, Value.data _ b => if a < b then CmpBool.CmpTrue else CmpBool.CmpFalse
  | _, _ => CmpBool.NULL

/-- Modelled from the spec: `Value::CompareGreaterThan` on integer values. -/
def Value.CompareGreaterThan : Value → Value → CmpBool
  | Value.data _ a, Value.data _ b => if b < a then CmpBool.CmpTrue else CmpBool.CmpFalse
  | _, _ => CmpBool.NULL

/-- Modelled from the spec: `Value::CompareEquals` on integer values. -/
def Value.CompareEquals : Value → Value → CmpBool
  | Value.data _ a, Value.data _ b => if a = b then CmpBool.CmpTrue else CmpBool.CmpFalse
  | _, _ => CmpBool.NULL

/-- Modelled from the spec: the default-constructed `type::Value`, a value of the invalid
type (code 0). -/
def Value.default : Value := Value.null 0

/-- Modelled from the spec: `Value::SerializeTo` of an integer value into four bytes that
are then read as a `uint32_t`: the payload in two's complement, and the bit pattern
of the smallest `int32_t` for a null value. -/
def Value.to_uint32 : Value → Nat
  | Value.data _ payload => (payload % 4294967296).toNat
  | Value.null _ => 2147483648

end type

namespace expression

/-- Modelled from the spec: `ExpressionType` of `common/internal_types.h`, which is not
among the sources; the kinds of expression that the scan tells apart, and some others. -/
inductive ExpressionType where
  | INVALID
  | OPERATOR_PLUS
  | OPERATOR_NOT
  | COMPARE_EQUAL
  | COMPARE_NOTEQUAL
  | COMPARE_LESSTHAN
  | COMPARE_GREATERTHAN
  | COMPARE_LESSTHANOREQUALTO
  | COMPARE_GREATERTHANOREQUALTO
  | COMPARE_LIKE
  | COMPARE_DISTINCT_FROM
  | CONJUNCTION_AND
  | CONJUNCTION_OR
  | VALUE_CONSTANT
  | VALUE_PARAMETER
  | VALUE_TUPLE
  | FUNCTION
deriving DecidableEq, Repr

/-- Modelled from the spec: a pointer to an `expression::AbstractExpression`
(`expression/` is not among the sources): the null pointer, or an expression with its
type, its children 0 and 1 (`GetChild`, null when the expression has no such child),
and what its subclasses hold: the value of a `ConstantValueExpression`, the index of a
`ParameterValueExpression` and the column id of a `TupleValueExpression`. -/
inductive AbstractExpression where
  | null
  | node (exp_type : ExpressionType) (child0 child1 : AbstractExpression)
      (value : type.Value) (value_idx : Nat) (column_id : Int)

/-- A `TupleValueExpression` for a column. -/
def tuple_value (column_id : Int) : AbstractExpression :=
  AbstractExpression.node ExpressionType.VALUE_TUPLE AbstractExpression.null
    AbstractExpression.null type.Value.default 0 column_id

/-- A `ConstantValueExpression`. -/
def constant_value (value : type.Value) : AbstractExpression :=
  AbstractExpression.node ExpressionType.VALUE_CONSTANT AbstractExpression.null
    AbstractExpression.null value 0 0

/-- A `ParameterValueExpression`. -/
def parameter_value (value_idx : Nat) : AbstractExpression :=
  AbstractExpression.node ExpressionType.VALUE_PARAMETER AbstractExpression.null
    AbstractExpression.null type.Value.default value_idx 0

/-- An expression with two children and no value of its own: a comparison or a
conjunction. -/
def binary (exp_type : ExpressionType) (left right : AbstractExpression) : AbstractExpression :=
  AbstractExpression.node exp_type left right type.Value.default 0 0

/-- The comparison of a column with a constant. -/
def compare_constant (exp_type : ExpressionType) (column_id : Int) (value : type.Value) :
    AbstractExpression :=
  binary exp_type (tuple_value column_id) (constant_value value)

/-- The types for which `GetPredicateInfo` looks at the right child. -/
def ExpressionType.isSimpleComparison (exp_type : ExpressionType) : Bool :=
  decide (exp_type = ExpressionType.COMPARE_EQUAL ∨
    exp_type = ExpressionType.COMPARE_LESSTHAN ∨
    exp_type = ExpressionType.COMPARE_LESSTHANOREQUALTO ∨
    exp_type = ExpressionType.COMPARE_GREATERTHAN ∨
    exp_type = ExpressionType.COMPARE_GREATERTHANOREQUALTO)

end expression

namespace executor

/-- Embeds `Predicate_Inf`; `comparison_operator` is the integer code of the expression
type in the source. -/
structure Predicate_Inf where
  col_id : Int
  comparison_operator : expression.ExpressionType
  predicate_value : type.Value
deriving DecidableEq, Repr

/-- The members of `LogicalTile` that the column-store and hash scans set
(`AddTableColumns`, `AddTileTupleVisible`), next to the members of `LogicalTile` that the
row scans use: a tile of those scans names a table and a range of tile groups instead
of holding position lists. -/
structure LogicalTileKV extends LogicalTile where
  column_ids_ : List Nat := []
  table_id_ : Nat := 0
  database_id_ : Nat := 0
  visible_range_ : List (Nat × Nat) := []
  tile_tuple_visible_ : List Nat := []
  tile_group_st_ : Nat := 0
  tile_group_ed_ : Nat := 0
  column_id_ : Nat := 0
  is_point_ : Bool := false

/-- Embeds `LogicalTileFactory::GetTile()` for a tile of the column-store and hash
scans: a fresh tile. -/
def LogicalTileKV.fresh : LogicalTileKV := { toLogicalTile := LogicalTile.fresh }

/-- Embeds `LogicalTile::AddTableColumns`. -/
def LogicalTileKV.AddTableColumns (t : LogicalTileKV) (table_id : Nat) (column_ids : List Nat)
    (database_id : Nat) : LogicalTileKV :=
  { t with
    column_ids_ := column_ids.foldl (fun ids origin_column_id => ids ++ [origin_column_id])
      t.column_ids_
    table_id_ := table_id
    database_id_ := database_id }

/-- Embeds the overload of `LogicalTile::AddTileTupleVisible` that takes a range of tile
groups. -/
def LogicalTileKV.AddTileTupleVisible (t : LogicalTileKV) (tile_tuple_visible : List (Nat × Nat))
    (tuple_count tile_group_st tile_group_ed column_id : Nat) ( is_point : Bool) :
    Option Unit × LogicalTileKV :=
  PELOTON_ASSERT (t.tile_tuple_visible_.length = 0) t <|
    (some (),
      { t with
        visible_range_ := tile_tuple_visible
        total_tuples_ := tuple_count
        tile_group_st_ := tile_group_st
        tile_group_ed_ := tile_group_ed
        column_id_ := column_id
        is_point_ := is_point })

/-- The state of a `SeqScanExecutor` that the scans read and write.  `predicate_` is
`none` for the null pointer, otherwise the evaluation of the predicate on the tuple
`tuple_id` of a tile group, and `predicate_expr_` is the expression that the pointer
points to; `target_table_` is the sequence of the tile groups of the table in table
order, through which `DataTable::GetTileGroup(offset)` resolves; `output_` is what
`SetOutput` stored last; `param_values_` are the parameter values of the executor
context; `output_kv_` is what `SetOutput` stored last when the tile was one of the
column-store and hash scans.  For the scan over a child executor, `children_` holds the
tiles that the calls `children_[0]->Execute()` still to come will output, in order (an
empty list for no child or a child that is exhausted), and `predicate_on_tile_` is the
evaluation of the predicate on the tuple `tuple_id` of a logical tile, `none` for the
null pointer. -/
structure SeqScanExecutor where
  predicate_ : Option (storage.TileGroup → Nat → type.CmpBool)
  column_ids_ : List Nat
  target_table_ : List storage.TileGroup
  current_tile_group_offset_ : Nat
  table_tile_group_count_ : Nat
  output_ : Option LogicalTile
  predicate_expr_ : expression.AbstractExpression := expression.AbstractExpression.null
  param_values_ : List type.Value := []
  predicate_infos : List Predicate_Inf := []
  total_tuple : Nat := 0
  table_id : Nat := 0
  database_id : Nat := 0
  is_point : Bool := false
  low_ : type.Value := type.Value.default
  high_ : type.Value := type.Value.default
  tile_group_l_ : Nat := 0
  tile_group_h_ : Nat := 0
  output_kv_ : Option LogicalTileKV := none
  children_ : List LogicalTile := []
  predicate_on_tile_ : Option (LogicalTile → Nat → type.CmpBool) := none

/-- The loop of `DExecute` over the tuple slots of a tile group, which builds the
position list: `tuple_id` is pushed when there is no predicate or when the predicate
evaluates to true on the tuple. -/
def SeqScanExecutor.build_position_list (e : SeqScanExecutor) (tile_group : storage.TileGroup) :
    PositionList :=
  (List.range tile_group.GetNextTupleSlot).foldl
    (fun position_list tuple_id =>
      match e.predicate_ with
      | none => position_list ++ [tuple_id]
      | some predicate =>
        let eval := predicate tile_group tuple_id
        if eval.IsTrue = true then position_list ++ [tuple_id] else position_list)
    []

/-- The loop `while (current_tile_group_offset_ < table_tile_group_count_)` of the
array scan, unrolled at most `fuel` times, followed by the final `return false` of
`DExecute`.  The result is what `DExecute` returns, `none` when the assertion of
`DataTable::GetTileGroup` failed.  `current_tile_group_offset_` is below
`table_tile_group_count_` when it is incremented, so the increment stays in the range
of an `oid_t`. -/
def SeqScanExecutor.array_scan_loop : Nat → SeqScanExecutor → Option Bool × SeqScanExecutor
  | 0, e => (some false, e)
  | fuel + 1, e =>
    if e.current_tile_group_offset_ < e.table_tile_group_count_ then
      let tile_group_offset := e.current_tile_group_offset_
      let e1 := { e with current_tile_group_offset_ := e.current_tile_group_offset_ + 1 }
      PELOTON_ASSERT (tile_group_offset < e.target_table_.length) e1 <|
        let tile_group := e.target_table_.getD tile_group_offset storage.TileGroup.none
        let position_list := e.build_position_list tile_group
        if position_list.length = 0 then SeqScanExecutor.array_scan_loop fuel e1
        else
          let logical_tile := LogicalTile.fresh
          let logical_tile := logical_tile.AddColumns tile_group e.column_ids_
          let logical_tile := (logical_tile.AddPositionList position_list).2
          (some true, { e1 with output_ := some logical_tile })
    else (some false, e)

/-- Embeds `SeqScanExecutor::DExecute` when the table is scanned (no child executor) with the
strategy `SeqScanType::HEAPARRAYSCAN`: the loop leaves after at most
`table_tile_group_count_ - current_tile_group_offset_` rounds. -/
def SeqScanExecutor.DExecute_HEAPARRAYSCAN (e : SeqScanExecutor) :
    Option Bool × SeqScanExecutor :=
  e.array_scan_loop (e.table_tile_group_count_ - e.current_tile_group_offset_)

/-- The tuple ids of a tile group that match: all ids below `GetNextTupleSlot()` when
there is no predicate, otherwise those on which the predicate evaluates to true;
ascending. -/
def SeqScanExecutor.matching (e : SeqScanExecutor) (tile_group : storage.TileGroup) : List Nat :=
  (List.range tile_group.GetNextTupleSlot).filter (fun tuple_id =>
    match e.predicate_ with
    | none => true
    | some predicate => decide (predicate tile_group tuple_id = type.CmpBool.CmpTrue))

/-- The tile group of the table at an offset. -/
def SeqScanExecutor.group (e : SeqScanExecutor) (offset : Nat) : storage.TileGroup :=
  e.target_table_.getD offset storage.TileGroup.none

/-- The logical tile that the array scan builds for a tile group and a position list. -/
def SeqScanExecutor.scan_tile (e : SeqScanExecutor) (tile_group : storage.TileGroup)
    (position_list : PositionList) : LogicalTile :=
  ((LogicalTile.fresh.AddColumns tile_group e.column_ids_).AddPositionList position_list).2

/-- The executor with its cursor moved to the tile group offset `offset`. -/
def SeqScanExecutor.advance (e : SeqScanExecutor) (offset : Nat) : SeqScanExecutor :=
  { e with current_tile_group_offset_ := offset }

/-- The executor after a call of `DExecute` that emitted the tile of the tile group at
`offset`: the cursor is behind that group and the output is the tile. -/
def SeqScanExecutor.emitted (e : SeqScanExecutor) (offset : Nat) : SeqScanExecutor :=
  { e with
      current_tile_group_offset_ := offset + 1
      output_ := some (e.scan_tile (e.group offset) (e.matching (e.group offset))) }

/-- Example table for the array scan: three tile groups with 2, 3 and 2 tuple slots in
use. -/
def example_table : List storage.TileGroup :=
  [⟨10, [example_base_tile], 2, fun c => (0, c)⟩,
   ⟨11, [example_base_tile], 3, fun c => (0, c)⟩,
   ⟨12, [example_base_tile], 2, fun c => (0, c)⟩]

/-- Example executor: the predicate is true on the tuples 0 and 2 of the group 11, null
on its tuple 1, and false on every other tuple. -/
def example_executor : SeqScanExecutor :=
  { predicate_ := some (fun g tuple_id =>
      if g.tile_group_id = 11 then
        (if tuple_id = 1 then type.CmpBool.NULL else type.CmpBool.CmpTrue)
      else type.CmpBool.CmpFalse)
    column_ids_ := [0, 1]
    target_table_ := example_table
    current_tile_group_offset_ := 0
    table_tile_group_count_ := 3
    output_ := none }

/-- Example for `ProjectColumns`: the schema entries `A` (origin column 10) and `B`
(origin column 11) of a tile whose columns are described by the ids `[1, 0]`. -/
def example_projection_tile : LogicalTile :=
  ⟨[⟨storage.Tile.none, 10, 0⟩, ⟨storage.Tile.none, 11, 0⟩], [[0]], [true], 1, 1⟩

/-- Example for `GetValue`: the base tile has columns of the types 5 and 10; the only
column of the logical tile is column 1 of the base tile, and its only row has the
sentinel in the position list. -/
def example_null_tile : LogicalTile :=
  ⟨[⟨⟨1, [⟨5, 0, true, 4⟩, ⟨10, 4, true, 8⟩], 1, fun _ _ => type.Value.data 10 7⟩, 1, 0⟩],
    [[NULL_OID]], [true], 1, 1⟩

/-- The invariant of a logical tile that was built through its interface: the cached
counter is the number of set bits, the bit vector has one bit per row, the row count
fits an `oid_t`, and a tile without position lists has no rows yet. -/
def LogicalTile.Inv (t : LogicalTile) : Prop :=
  t.visible_tuples_ = t.visible_rows_.count true ∧
  t.visible_rows_.length = t.total_tuples_ ∧
  t.total_tuples_ < OID_MOD ∧
  (t.position_lists_ = [] → t.visible_rows_ = [])

/-- The visible row ids from `p` on, ascending. -/
def LogicalTile.visibleIdsFrom (t : LogicalTile) (p : Nat) : List Nat :=
  (List.range' p (t.total_tuples_ - p)).filter (fun i => t.visible_rows_.getD i false)

/-- The iterator that the constructor and `operator++` leave after the loop stopped at
`q`: `INVALID_OID` when `q` is `total_tuples_`. -/
def LogicalTile.settle (t : LogicalTile) (q : Nat) : Nat :=
  if q = t.total_tuples_ then INVALID_OID else q

end executor

namespace storage

/-- Looks a key up in a map that is kept as the list of its entries, the most recent
entry of a key first. -/
def map_find {κ ν : Type} [DecidableEq κ] : List (κ × ν) → κ → Option ν
  | [], _ => none
  | (key, value) :: rest, k => if key = k then some value else map_find rest k

/-- Removes the entries of a key from a map. -/
def map_erase {κ ν : Type} [DecidableEq κ] (m : List (κ × ν)) (k : κ) : List (κ × ν) :=
  m.filter (fun entry => decide (entry.1 ≠ k))

/-- Modelled from the spec: `CuckooMap::Upsert` (`common/container/cuckoo_map.h` is not
among the sources): inserts the entry, or replaces the value when the key is present. -/
def CuckooMap.Upsert {κ ν : Type} [DecidableEq κ] (m : List (κ × ν)) (k : κ) (v : ν) :
    List (κ × ν) :=
  (k, v) :: map_erase m k

/-- Modelled from the spec: `CuckooMap::Erase`: removes the entry of the key. -/
def CuckooMap.Erase {κ ν : Type} [DecidableEq κ] (m : List (κ × ν)) (k : κ) : List (κ × ν) :=
  map_erase m k

/-- Modelled from the spec: `CuckooMap::Find`: the value of the key, if it has one. -/
def CuckooMap.Find {κ ν : Type} [DecidableEq κ] (m : List (κ × ν)) (k : κ) : Option ν :=
  map_find m k

/-- Modelled from the spec: `CuckooMap::Contains`. -/
def CuckooMap.Contains {κ ν : Type} [DecidableEq κ] (m : List (κ × ν)) (k : κ) : Bool :=
  (map_find m k).isSome

/-- Modelled from the spec: `CuckooMap::Insert`: inserts the entry when the key is absent,
and leaves the map as it is otherwise. -/
def CuckooMap.Insert {κ ν : Type} [DecidableEq κ] (m : List (κ × ν)) (k : κ) (v : ν) :
    List (κ × ν) :=
  if (map_find m k).isSome then m else (k, v) :: m

/-- Modelled from the spec: `CuckooMap::Update`: replaces the value when the key is
present, and leaves the map as it is otherwise. -/
def CuckooMap.Update {κ ν : Type} [DecidableEq κ] (m : List (κ × ν)) (k : κ) (v : ν) :
    List (κ × ν) :=
  if (map_find m k).isSome then (k, v) :: map_erase m k else m

/-- The member `insert(std::pair(key, value))` of the third-party containers
`tsl::hopscotch_map` and `GoogleBtree::btree_map`, which are not among the sources: as
for the standard associative containers, the entry is inserted only if the container
does not already hold an entry with this key. -/
def unique_insert {κ ν : Type} [DecidableEq κ] (m : List (κ × ν)) (k : κ) (v : ν) :
    List (κ × ν) :=
  if (map_find m k).isSome then m else (k, v) :: m

/-- What a lookup that returns a pointer to a tile group can end in: the address of a
tile group, the null pointer, or no defined result at all, when the iterator `end()` of
the container was dereferenced. -/
inductive Location where
  | found (address : Nat)
  | null
  | undefined
deriving DecidableEq, Repr

/-- Modelled from the spec: `storage::Database`, of which the storage manager reads the
oid and the name. -/
structure Database where
  oid : Nat
  name : String
deriving DecidableEq, Repr

/-- The state of the `StorageManager` singleton.  A pointer to a tile group or to a tile
(shared or raw) is the address of the object; keys of the secondary structures are the
pairs `(table_id, tile_group_offset)` and the triples
`(table_id, column_id, tile_group_offset)`. -/
structure StorageManager where
  databases_ : List Database := []
  tile_oid_ : Nat := 0
  tile_group_oid_ : Nat := 0
  tile_group_locator_ : List (Nat × Nat) := []
  tile_group_list_ : List Nat := []
  tile_group_tree_ : List ((Nat × Nat) × Nat) := []
  column_google_tree_ : List ((Nat × Nat × Nat) × Nat) := []
  column_mass_tree_ : List ((Nat × Nat × Nat) × Nat) := []
  tuples_hopscotch_map_ : List ((Nat × Nat) × Nat) := []
  tuples_cuckoo_map_ : List ((Nat × Nat) × Nat) := []

/-- Embeds `StorageManager::AddTileGroup(oid, location)`. -/
def StorageManager.AddTileGroup (sm : StorageManager) (oid location : Nat) : StorageManager :=
  { sm with tile_group_locator_ := CuckooMap.Upsert sm.tile_group_locator_ oid location }

/-- Embeds `StorageManager::DropTileGroup`. -/
def StorageManager.DropTileGroup (sm : StorageManager) (oid : Nat) : StorageManager :=
  { sm with tile_group_locator_ := CuckooMap.Erase sm.tile_group_locator_ oid }

/-- Embeds `StorageManager::GetTileGroup`; `Location.null` is the empty shared pointer
`empty_tile_group_`. -/
def StorageManager.GetTileGroup (sm : StorageManager) (oid : Nat) : Location :=
  match CuckooMap.Find sm.tile_group_locator_ oid with
  | some location => Location.found location
  | none => Location.null

/-- Embeds `StorageManager::GetTileGroupByBTree`: `find(key)->second.get()`, without a
comparison of the iterator with `end()`. -/
def StorageManager.GetTileGroupByBTree (sm : StorageManager) (table_id tile_group_offset : Nat) :
    Location :=
  match map_find sm.tile_group_tree_ (table_id, tile_group_offset) with
  | some location => Location.found location
  | none => Location.undefined

/-- Embeds `StorageManager::AddToHopscotchMap`. -/
def StorageManager.AddToHopscotchMap (sm : StorageManager) (key_ : Nat × Nat) (tile : Nat) :
    Bool × StorageManager :=
  let sm1 := { sm with tuples_hopscotch_map_ := unique_insert sm.tuples_hopscotch_map_ key_ tile }
  if (map_find sm1.tuples_hopscotch_map_ key_).isSome then (true, sm1) else (false, sm1)

/-- Embeds `StorageManager::GetHopscotchKValue`. -/
def StorageManager.GetHopscotchKValue (sm : StorageManager) (key_ : Nat × Nat) : Location :=
  let tile_ := Location.null
  match map_find sm.tuples_hopscotch_map_ key_ with
  | some location => Location.found location
  | none => tile_

/-- Embeds `StorageManager::AddToCuckooMap`. -/
def StorageManager.AddToCuckooMap (sm : StorageManager) (key_ : Nat × Nat) (tile : Nat) :
    Bool × StorageManager :=
  let sm1 := { sm with tuples_cuckoo_map_ := CuckooMap.Upsert sm.tuples_cuckoo_map_ key_ tile }
  (CuckooMap.Contains sm1.tuples_cuckoo_map_ key_, sm1)

/-- Embeds `StorageManager::GetCuckooKValue`. -/
def StorageManager.GetCuckooKValue (sm : StorageManager) (key_ : Nat × Nat) : Location :=
  let tile_ := Location.null
  match CuckooMap.Find sm.tuples_cuckoo_map_ key_ with
  | some location => Location.found location
  | none => tile_

/-- A call on the identity map: `AddTileGroup(oid, location)` or `DropTileGroup(oid)`. -/
inductive LocatorCall where
  | add (oid location : Nat)
  | drop (oid : Nat)
deriving DecidableEq, Repr

/-- The oid a call is about. -/
def LocatorCall.oid : LocatorCall → Nat
  | LocatorCall.add oid _ => oid
  | LocatorCall.drop oid => oid

/-- Runs a sequence of calls on the identity map, the first call first. -/
def StorageManager.runLocator (sm : StorageManager) : List LocatorCall → StorageManager
  | [] => sm
  | LocatorCall.add oid location :: rest => (sm.AddTileGroup oid location).runLocator rest
  | LocatorCall.drop oid :: rest => (sm.DropTileGroup oid).runLocator rest

/-- The effect of the last call about `oid` in a sequence of calls: `none` when no call
is about it, `some none` when the last one is a drop, `some (some location)` when the
last one is an add. -/
def LocatorCall.lastFor (oid : Nat) : List LocatorCall → Option (Option Nat)
  | [] => none
  | call :: rest =>
    match LocatorCall.lastFor oid rest with
    | some effect => some effect
    | none =>
      match call with
      | LocatorCall.add o location => if o = oid then some (some location) else none
      | LocatorCall.drop o => if o = oid then some none else none

end storage

namespace executor

/-- The branch of `SeqScanExecutor::GetPredicateInfo` for a comparison with the children
`expr_l` and `expr_r`: the list `infos` after it; `none` when it has no defined result,
because it reads the type of a right child or the column of a left child that is null,
or because `at` throws for the index of a parameter. -/
def GetPredicateInfo_comparison (param_values : List type.Value)
    (expr_type : expression.ExpressionType) (expr_l expr_r : expression.AbstractExpression)
    (infos : List Predicate_Inf) : Option (List Predicate_Inf) :=
  match expr_r with
  | expression.AbstractExpression.null => none
  | expression.AbstractExpression.node right_type _ _ right_value right_idx _ =>
    if right_type = expression.ExpressionType.VALUE_CONSTANT ∨
        right_type = expression.ExpressionType.VALUE_PARAMETER then
      let predicate_val :=
        if right_type = expression.ExpressionType.VALUE_CONSTANT then some right_value
        else param_values[right_idx]?
      match predicate_val, expr_l with
      | some value, expression.AbstractExpression.node _ _ _ _ _ col_id =>
        some (infos ++ [⟨col_id, expr_type, value⟩])
      | _, _ => none
    else some infos

/-- Embeds `SeqScanExecutor::GetPredicateInfo`: the list `infos` after the call; `none`
when the call has no defined result (see `GetPredicateInfo_comparison`). -/
def GetPredicateInfo (param_values : List type.Value) :
    expression.AbstractExpression → List Predicate_Inf → Option (List Predicate_Inf)
  | expression.AbstractExpression.null, infos => some infos
  | expression.AbstractExpression.node expr_type expr_l expr_r _ _ _, infos =>
    if expr_type = expression.ExpressionType.CONJUNCTION_AND then
      (GetPredicateInfo param_values expr_l infos).bind
        (fun infos1 => GetPredicateInfo param_values expr_r infos1)
    else if expr_type.isSimpleComparison = true then
      GetPredicateInfo_comparison param_values expr_type expr_l expr_r infos
    else some infos

/-- The triples of an expression in the words of the specification: those of the left
child followed by those of the right child for an AND node; one triple (column of the
left child, operator, constant or bound parameter) for a comparison `=`, `<`, `<=`,
`>`, `>=` whose right child is a constant or a parameter; nothing for any other
expression and for the null expression. -/
def flattened_triples (param_values : List type.Value) :
    expression.AbstractExpression → List Predicate_Inf
  | expression.AbstractExpression.null => []
  | expression.AbstractExpression.node expr_type left right _ _ _ =>
    if expr_type = expression.ExpressionType.CONJUNCTION_AND then
      flattened_triples param_values left ++ flattened_triples param_values right
    else if expr_type.isSimpleComparison = true then
      match left, right with
      | expression.AbstractExpression.node _ _ _ _ _ column_id,
        expression.AbstractExpression.node right_type _ _ constant value_idx _ =>
        if right_type = expression.ExpressionType.VALUE_CONSTANT then
          [⟨column_id, expr_type, constant⟩]
        else if right_type = expression.ExpressionType.VALUE_PARAMETER then
          [⟨column_id, expr_type, param_values.getD value_idx type.Value.default⟩]
        else []
      | _, _ => []
    else []

/-- The expressions on which `GetPredicateInfo` reads no null pointer and no parameter
out of range: every comparison it looks at has a right child, and, when that child is
a constant or a parameter, a left child and a parameter index within the parameter
values. -/
def well_formed (param_values : List type.Value) : expression.AbstractExpression → Prop
  | expression.AbstractExpression.null => True
  | expression.AbstractExpression.node expr_type left right _ _ _ =>
    if expr_type = expression.ExpressionType.CONJUNCTION_AND then
      well_formed param_values left ∧ well_formed param_values right
    else if expr_type.isSimpleComparison = true then
      match right with
      | expression.AbstractExpression.null => False
      | expression.AbstractExpression.node right_type _ _ _ value_idx _ =>
        if right_type = expression.ExpressionType.VALUE_CONSTANT then
          left ≠ expression.AbstractExpression.null
        else if right_type = expression.ExpressionType.VALUE_PARAMETER then
          left ≠ expression.AbstractExpression.null ∧ value_idx < param_values.length
        else True
    else True

/-- The loop of the column-store branch of `DExecute` over the predicate infos: the
members `low_` and `high_` after it.  A greater-than info sets `low_` and a less-than
info sets `high_`. -/
def SeqScanExecutor.range_bounds (infos : List Predicate_Inf) (low_ high_ : type.Value) :
    type.Value × type.Value :=
  infos.foldl
    (fun bounds preinfo =>
      let low :=
        if preinfo.comparison_operator = expression.ExpressionType.COMPARE_GREATERTHAN then
          preinfo.predicate_value
        else bounds.1
      let high :=
        if preinfo.comparison_operator = expression.ExpressionType.COMPARE_LESSTHAN then
          preinfo.predicate_value
        else bounds.2
      (low, high))
    (low_, high_)

/-- The statement `k_high_ - k_low_==0 ? total_tuple=0: total_tuple=(k_high_ - k_low_ - 1)`
of the column-store branch, in the arithmetic of `uint32_t`. -/
def SeqScanExecutor.range_total_tuple (k_low_ k_high_ : Nat) : Nat :=
  if (k_high_ + OID_MOD - k_low_) % OID_MOD = 0 then 0
  else ((k_high_ + OID_MOD - k_low_) % OID_MOD + OID_MOD - 1) % OID_MOD

/-- Embeds the branch of `SeqScanExecutor::DExecute` for the scan types
`GOOGLEBTREESCAN`, `MASSBTREESCAN`, `HOPSCOTCHMAPSCAN` and `CUCKOOMAPSCAN`.  The constant
`TEST_TUPLES_PER_TILEGROUP` is not among the sources and is a parameter; the null test
of `predicate_` is made on `predicate_expr_`.  The result is what `DExecute` returns,
`none` when `GetPredicateInfo` has no defined result, when a division by a zero
`TEST_TUPLES_PER_TILEGROUP` is reached, or when the assertion of `AddTileTupleVisible`
fails. -/
def SeqScanExecutor.DExecute_KVSCAN (TEST_TUPLES_PER_TILEGROUP : Nat) (e : SeqScanExecutor) :
    Option Bool × SeqScanExecutor :=
  let tile_group_st := 0
  let tile_group_ed := e.table_tile_group_count_
  match GetPredicateInfo e.param_values_ e.predicate_expr_ e.predicate_infos with
  | none => (none, e)
  | some infos =>
    let e1 := { e with predicate_infos := infos }
    let emit := fun (e2 : SeqScanExecutor) (tile_map_ : List (Nat × Nat))
        (tile_group_st tile_group_ed : Nat) =>
      let logical_tile :=
        LogicalTileKV.fresh.AddTableColumns e2.table_id e2.column_ids_ e2.database_id
      match logical_tile.AddTileTupleVisible tile_map_ e2.total_tuple tile_group_st
          tile_group_ed 0 e2.is_point with
      | (none, _) => ((none : Option Bool), e2)
      | (some _, logical_tile1) => (some false, { e2 with output_kv_ := some logical_tile1 })
    match e.predicate_expr_ with
    | expression.AbstractExpression.null => emit e1 [] tile_group_st tile_group_ed
    | expression.AbstractExpression.node _ _ _ _ _ _ =>
      if TEST_TUPLES_PER_TILEGROUP = 0 then (none, e1)
      else if infos.length = 1 then
        let preinfo := infos.getD 0 ⟨0, expression.ExpressionType.INVALID, type.Value.default⟩
        let low_ := preinfo.predicate_value
        let k_low_ := low_.to_uint32
        let tile_group_l_ := k_low_ / TEST_TUPLES_PER_TILEGROUP
        let tile_group_st := tile_group_l_
        emit { e1 with low_ := low_, tile_group_l_ := tile_group_l_, is_point := true,
                       total_tuple := 1 }
          [(k_low_ % TEST_TUPLES_PER_TILEGROUP, tile_group_st)] tile_group_st tile_group_ed
      else
        let bounds := SeqScanExecutor.range_bounds infos e1.low_ e1.high_
        let k_low_ := bounds.1.to_uint32
        let tile_group_l_ := k_low_ / TEST_TUPLES_PER_TILEGROUP
        let k_high_ := bounds.2.to_uint32
        let tile_group_h_ := k_high_ / TEST_TUPLES_PER_TILEGROUP
        let tile_group_st := tile_group_l_
        let tile_group_ed := tile_group_h_
        emit { e1 with low_ := bounds.1, high_ := bounds.2, tile_group_l_ := tile_group_l_,
                       tile_group_h_ := tile_group_h_,
                       total_tuple := SeqScanExecutor.range_total_tuple k_low_ k_high_,
                       is_point := false }
          [(k_low_ % TEST_TUPLES_PER_TILEGROUP, tile_group_st),
           (k_high_ % TEST_TUPLES_PER_TILEGROUP, tile_group_ed)] tile_group_st tile_group_ed

/-- The predicate `low < column AND column < high` on constants. -/
def range_predicate (column_id : Int) (low high : type.Value) : expression.AbstractExpression :=
  expression.binary expression.ExpressionType.CONJUNCTION_AND
    (expression.compare_constant expression.ExpressionType.COMPARE_GREATERTHAN column_id low)
    (expression.compare_constant expression.ExpressionType.COMPARE_LESSTHAN column_id high)

/-- The predicate `column < high AND low < column` on constants: the conjuncts of
`range_predicate` in the other order. -/
def range_predicate_swapped (column_id : Int) (low high : type.Value) :
    expression.AbstractExpression :=
  expression.binary expression.ExpressionType.CONJUNCTION_AND
    (expression.compare_constant expression.ExpressionType.COMPARE_LESSTHAN column_id high)
    (expression.compare_constant expression.ExpressionType.COMPARE_GREATERTHAN column_id low)

/-- The predicate `column = k` on a constant. -/
def point_predicate (column_id : Int) (k : type.Value) : expression.AbstractExpression :=
  expression.compare_constant expression.ExpressionType.COMPARE_EQUAL column_id k

/-- An executor of a column-store scan before its first `DExecute`: a table of three
tile groups, the output columns 0 and 1 and the given predicate. -/
def example_kv_executor (predicate : expression.AbstractExpression) : SeqScanExecutor :=
  { predicate_ := none, column_ids_ := [0, 1], target_table_ := [],
    current_tile_group_offset_ := 0, table_tile_group_count_ := 3, output_ := none,
    predicate_expr_ := predicate, table_id := 7, database_id := 1 }

/-- The loop `for (oid_t tuple_id : *tile)` of the scan over a child executor, from the
iterator `it` on, unrolled at most `fuel` times: the tile after the loop, where
`RemoveVisibility` was called on the tuples on which the predicate evaluates to false.
`none` when an assertion of `RemoveVisibility` fails or when `fuel` increments were
not enough to reach `end()`. -/
def SeqScanExecutor.invalidate_tuples (predicate : LogicalTile → Nat → type.CmpBool) :
    Nat → Nat → LogicalTile → Option LogicalTile
  | 0, it, tile => if it = tile.end_ then some tile else none
  | fuel + 1, it, tile =>
    if it = tile.end_ then some tile
    else
      let tuple_id := it
      let eval := predicate tile tuple_id
      if eval.IsFalse = true then
        match tile.RemoveVisibility tuple_id with
        | (none, _) => none
        | (some _, tile1) =>
          SeqScanExecutor.invalidate_tuples predicate fuel (tile1.next it) tile1
      else SeqScanExecutor.invalidate_tuples predicate fuel (tile.next it) tile

/-- The loop `while (children_[0]->Execute())` of the scan over a child executor and the
`return false` after it; `fuel` bounds the iterations of the loop over the tuples of
each tile.  The result is what `DExecute` returns, `none` when the loop over the tuples
has no result. -/
def SeqScanExecutor.child_scan_loop (fuel : Nat) :
    List LogicalTile → SeqScanExecutor → Option Bool × SeqScanExecutor
  | [], e => (some false, { e with children_ := [] })
  | tile :: rest, e =>
    let e1 := { e with children_ := rest }
    let filtered :=
      match e.predicate_on_tile_ with
      | none => some tile
      | some predicate => SeqScanExecutor.invalidate_tuples predicate fuel tile.begin tile
    match filtered with
    | none => (none, e1)
    | some tile1 =>
      if 0 = tile1.GetTupleCount then SeqScanExecutor.child_scan_loop fuel rest e1
      else (some true, { e1 with output_ := some tile1 })

/-- Embeds the branch of `SeqScanExecutor::DExecute` that scans the logical tiles of a
child executor.  The null pointer `target_table_` of this branch is the table without
tile groups in this state. -/
def SeqScanExecutor.DExecute_child (fuel : Nat) (e : SeqScanExecutor) :
    Option Bool × SeqScanExecutor :=
  PELOTON_ASSERT (e.target_table_.length = 0) e <|
  PELOTON_ASSERT (e.column_ids_.length = 0) e <|
    SeqScanExecutor.child_scan_loop fuel e.children_ e

/-- Example for the scan over a child executor: the child outputs one tile with the
rows 0, 1 and 2 of column `a` of the example base tile, all visible; the predicate is
false on row 0, null on row 1 and true on row 2. -/
def example_child_executor : SeqScanExecutor :=
  { predicate_ := none, column_ids_ := [], target_table_ := [],
    current_tile_group_offset_ := 0, table_tile_group_count_ := 0, output_ := none,
    children_ := [⟨[⟨example_base_tile, 0, 0⟩], [[0, 1, 2]], [true, true, true], 3, 3⟩],
    predicate_on_tile_ := some (fun _ tuple_id =>
      if tuple_id = 0 then type.CmpBool.CmpFalse
      else if tuple_id = 1 then type.CmpBool.NULL
      else type.CmpBool.CmpTrue) }

end executor

namespace storage

/-- Modelled from the spec: `Tile::SetValue`: stores a value in the field of column
`column_id` of a tuple slot, located through the schema of the tile. -/
def Tile.SetValue (tile : Tile) (value : type.Value) (tuple_offset column_id : Nat) : Tile :=
  tile.SetValueFast value tuple_offset (tile.schema.GetOffset column_id)
    (tile.schema.IsInlined column_id) (tile.schema.GetAppropriateLength column_id)

/-- Modelled from the spec: `storage::Tuple` (`storage/tuple.h` is not among the sources),
the values of a tuple by column. -/
abbrev Tuple := List type.Value

/-- Modelled from the spec: `Tuple::GetValue`. -/
def Tuple.GetValue (tuple : Tuple) (column_id : Nat) : type.Value :=
  tuple.getD column_id type.Value.default

/-- Modelled from the spec: `TileGroup::GetAllocatedTupleCount`: the number of tuple
slots the group was allocated with, which is that of each of its tiles. -/
def TileGroup.GetAllocatedTupleCount (g : TileGroup) : Nat :=
  (g.GetTileReference 0).num_tuple_slots

/-- Modelled from the spec: `TileGroup::GetTileGroupId`. -/
def TileGroup.GetTileGroupId (g : TileGroup) : Nat := g.tile_group_id

/-- Modelled from the spec: `TileGroup::GetValue`: the field of a column of a tuple slot,
in the tile and at the column where the layout places the column. -/
def TileGroup.GetValue (g : TileGroup) (tuple_id column_id : Nat) : type.Value :=
  let location := g.layout column_id
  (g.GetTileReference location.1).GetValue tuple_id location.2

/-- The inner loop of `TileGroup::CopyTuple` over the columns of one tile: the column
`tile_column_itr` of the tile receives the value of the column
`column_itr + tile_column_itr` of the tuple. -/
def Tile.CopyTuple (tile : Tile) (tuple : Tuple) (tuple_slot_id column_itr : Nat) : Tile :=
  (List.range tile.schema.GetColumnCount).foldl
    (fun tl tile_column_itr =>
      tl.SetValue (tuple.GetValue (column_itr + tile_column_itr)) tuple_slot_id tile_column_itr)
    tile

/-- The outer loop of `TileGroup::CopyTuple` over the tiles of the group; `column_itr`
counts the columns of the tuple that the tiles before have taken. -/
def TileGroup.CopyTuple_tiles (tuple : Tuple) (tuple_slot_id : Nat) : List Tile → Nat → List Tile
  | [], _ => []
  | tile :: rest, column_itr =>
    tile.CopyTuple tuple tuple_slot_id column_itr ::
      TileGroup.CopyTuple_tiles tuple tuple_slot_id rest (column_itr + tile.schema.GetColumnCount)

/-- Modelled from the spec: `TileGroup::CopyTuple`: stores the values of a tuple in a
tuple slot, tile by tile and column by column. -/
def TileGroup.CopyTuple (g : TileGroup) (tuple : Tuple) (tuple_slot_id : Nat) : TileGroup :=
  { g with tiles := TileGroup.CopyTuple_tiles tuple tuple_slot_id g.tiles 0 }

/-- Modelled from the spec: `TileGroup::InsertTuple`: takes the next empty tuple slot of
the group and copies the tuple into it unless the tuple is the null pointer; the
result is the slot, or `INVALID_OID` when the group has no empty slot. -/
def TileGroup.InsertTuple (g : TileGroup) (tuple : Option Tuple) : Nat × TileGroup :=
  if g.next_tuple_slot < g.GetAllocatedTupleCount then
    let tuple_slot_id := g.next_tuple_slot
    let g1 := { g with next_tuple_slot := g.next_tuple_slot + 1 }
    match tuple with
    | Option.none => (tuple_slot_id, g1)
    | Option.some tuple => (tuple_slot_id, g1.CopyTuple tuple tuple_slot_id)
  else (INVALID_OID, g)

/-- Embeds `ItemPointer`; the pointers `tile_group_location_` and `tile_location_` are
addresses, `none` for the null pointer. -/
structure ItemPointer where
  block : Nat := INVALID_OID
  offset : Nat := INVALID_OID
  tile_group_location_ : Option Nat := none
  tile_location_ : Option Nat := none
deriving DecidableEq, Repr

/-- Embeds `ItemPointer::IsNull`. -/
def ItemPointer.IsNull (p : ItemPointer) : Bool :=
  decide (p.block = INVALID_OID ∧ p.offset = INVALID_OID)

/-- Embeds `ItemPointer::SetLocation`. -/
def ItemPointer.SetLocation (p : ItemPointer) (tile_group_location : Nat) : ItemPointer :=
  { p with tile_group_location_ := some tile_group_location }

/-- Embeds `INVALID_ITEMPOINTER`, the default-constructed item pointer. -/
def INVALID_ITEMPOINTER : ItemPointer := {}

/-- What the data table works on besides its own members: the `StorageManager`
singleton, the tile groups that were allocated, by address, with the next address
that an allocation returns, the recycled tuple slots that the garbage collector
holds for each table oid (`gc::GCManager` is not among the sources), and the tiles
of the column store, by address. -/
structure Runtime where
  manager : StorageManager := {}
  tile_groups : Nat → Option TileGroup := fun _ => none
  next_address : Nat := 1
  recycled_slots : List (Nat × ItemPointer) := []
  tiles : Nat → Option Tile := fun _ => none

/-- The tile group at an address is replaced by its new state. -/
def Runtime.store (rt : Runtime) (address : Nat) (g : TileGroup) : Runtime :=
  { rt with tile_groups := fun a => if a = address then some g else rt.tile_groups a }

/-- Modelled from the spec: `GCManager::ReturnFreeSlot(table_oid)`: hands out a recycled
tuple slot of the table and forgets it, or returns `INVALID_ITEMPOINTER` when it holds
none for the table. -/
def Runtime.ReturnFreeSlot (rt : Runtime) (table_oid : Nat) : ItemPointer × Runtime :=
  match map_find rt.recycled_slots table_oid with
  | none => (INVALID_ITEMPOINTER, rt)
  | some free_item_pointer =>
    (free_item_pointer,
      { rt with recycled_slots := rt.recycled_slots.erase (table_oid, free_item_pointer) })

/-- Embeds `StorageManager::GetDatabaseWithOid`; `none` when it throws the
`CatalogException`. -/
def StorageManager.GetDatabaseWithOid (sm : StorageManager) (database_oid : Nat) :
    Option Database :=
  sm.databases_.find? (fun database => decide (database.oid = database_oid))

/-- Embeds `StorageManager::GetNextTileGroupId`. -/
def StorageManager.GetNextTileGroupId (sm : StorageManager) : Nat × StorageManager :=
  let next := (sm.tile_group_oid_ + 1) % OID_MOD
  (next, { sm with tile_group_oid_ := next })

/-- The statements of `StorageManager::AddTileGroup` on `tile_group_list_`: the new tile
group goes before the previous one when the list holds the previous one, otherwise
the previous one and the new one are appended. -/
def list_insert_before : List Nat → Nat → Nat → List Nat
  | [], location_prev, location => [location_prev, location]
  | x :: rest, location_prev, location =>
    if x = location_prev then location :: x :: rest
    else x :: list_insert_before rest location_prev location

/-- Embeds the overload `StorageManager::AddTileGroup(database_id, table_id,
tile_group_offset, tile_group_id, location, location_prev)`; `none` when
`GetDatabaseWithOid` throws. -/
def StorageManager.AddTileGroupWithOffset (sm : StorageManager)
    (database_id table_id tile_group_offset tile_group_id location : Nat)
    (location_prev : Option Nat) : Option Unit × StorageManager :=
  let sm1 :=
    { sm with tile_group_locator_ := CuckooMap.Upsert sm.tile_group_locator_ tile_group_id location }
  match sm1.GetDatabaseWithOid database_id with
  | none => (none, sm1)
  | some database =>
    if database.name = "default_database" then
      let sm2 :=
        { sm1 with tile_group_tree_ :=
            unique_insert sm1.tile_group_tree_ (table_id, tile_group_offset) location }
      match location_prev with
      | some prev =>
        (some (), { sm2 with tile_group_list_ := list_insert_before sm2.tile_group_list_ prev location })
      | none => (some (), { sm2 with tile_group_list_ := sm2.tile_group_list_ ++ [location] })
    else (some (), sm1)

/-- The members of a `DataTable` that the allocation of tuple slots reads and writes.
Shared and raw pointers to tile groups are addresses (`none` for a null pointer);
`tile_schemas_` and `default_layout_` stand for the default layout of the table: the
schemas of the tiles of a tile group, and where the layout places each column;
`sparse_index` maps a key to a pair of values. -/
structure DataTable where
  database_oid : Nat
  table_oid : Nat
  tuples_per_tilegroup_ : Nat
  tile_schemas_ : List catalog.Schema
  default_layout_ : Nat → Nat × Nat
  active_tilegroup_count_ : Nat := 1
  active_tile_groups_ : List (Option Nat) := []
  tile_groups_ : List Nat := []
  tile_group_array_ : List Nat := []
  tile_group_count_ : Nat := 0
  number_of_tuples_ : Nat := 0
  tile_group_pre : Option Nat := none
  tile_group_id_latest : Nat := 0
  sparse_index : List (Nat × (type.Value × type.Value)) := []

/-- Embeds `DataTable::GetTileGroupCount`. -/
def DataTable.GetTileGroupCount (table : DataTable) : Nat := table.tile_group_count_

/-- Embeds `DataTable::GetTileGroupWithLayout` for the default layout.  Modelled from the
spec: `AbstractTable::GetTileGroupWithLayout` and the tile group factory (not among the
sources) build a tile group with the given id, one tile for each tile schema of the
layout, each with `tuples_per_tilegroup_` tuple slots that are still empty and a tile
id of its own; no tuple slot is in use.  The address of a tile is the pairing of the
tile group id with the offset of the tile. -/
def DataTable.GetTileGroupWithLayout (table : DataTable) (rt : Runtime) : TileGroup × Runtime :=
  let next := rt.manager.GetNextTileGroupId
  let tile_group_id := next.1
  let tiles := (List.range table.tile_schemas_.length).map (fun tile_itr =>
    ({ addr := Nat.pair tile_group_id tile_itr
       schema := table.tile_schemas_.getD tile_itr []
       num_tuple_slots := table.tuples_per_tilegroup_
       cells := fun _ _ => type.Value.null 0 } : Tile))
  let manager :=
    { next.2 with tile_oid_ := (next.2.tile_oid_ + table.tile_schemas_.length) % OID_MOD }
  (⟨tile_group_id, tiles, 0, table.default_layout_⟩, { rt with manager := manager })

/-- Embeds `DataTable::AddDefaultTileGroup(active_tile_group_id)`: the id of the new
tile group, with the table and the runtime after the call; `none` when
`GetDatabaseWithOid` throws inside `StorageManager::AddTileGroup`.  An
`active_tile_group_id` outside `active_tile_groups_` writes nothing here. -/
def DataTable.AddDefaultTileGroup (table : DataTable) (rt : Runtime)
    (active_tile_group_id : Nat) : Option Nat × DataTable × Runtime :=
  let created := table.GetTileGroupWithLayout rt
  let address := created.2.next_address
  let rt1 := { created.2.store address created.1 with next_address := address + 1 }
  let tile_group_id := created.1.GetTileGroupId
  let table1 := { table with tile_groups_ := table.tile_groups_ ++ [tile_group_id] }
  match rt1.manager.AddTileGroupWithOffset table.database_oid table.table_oid
      (table.tile_group_count_ % OID_MOD) tile_group_id address table.tile_group_pre with
  | (none, manager) => (none, table1, { rt1 with manager := manager })
  | (some _, manager) =>
    (some tile_group_id,
      { table1 with
        active_tile_groups_ := table1.active_tile_groups_.set active_tile_group_id (some address)
        tile_group_array_ := table1.tile_group_array_ ++ [address]
        tile_group_count_ := table1.tile_group_count_ + 1
        tile_group_pre := some address
        tile_group_id_latest := tile_group_id },
      { rt1 with manager := manager })

/-- The loop `for (i = 0; i < active_tilegroup_count_; ++i) AddDefaultTileGroup(i)` of the
constructor, from `i` on, for `rounds` more rounds. -/
def DataTable.construct_loop : Nat → Nat → DataTable → Runtime → Option Unit × DataTable × Runtime
  | 0, _, table, rt => (some (), table, rt)
  | rounds + 1, i, table, rt =>
    match table.AddDefaultTileGroup rt i with
    | (none, table1, rt1) => (none, table1, rt1)
    | (some _, table1, rt1) => DataTable.construct_loop rounds (i + 1) table1 rt1

/-- Embeds the constructor of `DataTable` as far as tile groups go: the active tile
groups are created, one after the other.  `active_tilegroup_count` is the value of
`default_active_tilegroup_count_` (1 for a catalog table). -/
def DataTable.create (rt : Runtime) (database_oid table_oid tuples_per_tilegroup : Nat)
    (tile_schemas : List catalog.Schema) (default_layout : Nat → Nat × Nat)
    (active_tilegroup_count : Nat) : Option Unit × DataTable × Runtime :=
  let table : DataTable :=
    { database_oid := database_oid, table_oid := table_oid,
      tuples_per_tilegroup_ := tuples_per_tilegroup, tile_schemas_ := tile_schemas,
      default_layout_ := default_layout, active_tilegroup_count_ := active_tilegroup_count,
      active_tile_groups_ := List.replicate active_tilegroup_count none }
  DataTable.construct_loop active_tilegroup_count 0 table rt

/-- The statements of `DataTable::GetEmptyTupleSlot` on the sparse index, under the key
`(oid_t)tile_group_count_`. -/
def DataTable.update_sparse_index (table : DataTable) (tp_0 tp_slot : type.Value) : DataTable :=
  let key := table.tile_group_count_ % OID_MOD
  if CuckooMap.Contains table.sparse_index key = true then
    { table with sparse_index := CuckooMap.Update table.sparse_index key (tp_0, tp_slot) }
  else
    { table with sparse_index := CuckooMap.Insert table.sparse_index key (tp_0, tp_slot) }

/-- Embeds `DataTable::GetEmptyTupleSlot` for one thread: the item pointer it returns,
with the table and the runtime after the call.  There is no result (`none`) when a
null pointer is dereferenced (a recycled slot in a tile group that is not registered,
an active tile group that was never set, a null `tuple` when its leading value is
read), when `active_tilegroup_count_` is zero, when `GetDatabaseWithOid` throws, and
when the active tile group has no empty slot, because the loop `while (true)` then
asks the same tile group again and again. -/
def DataTable.GetEmptyTupleSlot (table : DataTable) (rt : Runtime) (tuple : Option Tuple) :
    Option ItemPointer × DataTable × Runtime :=
  let returned := rt.ReturnFreeSlot table.table_oid
  let free_item_pointer := returned.1
  let rt0 := returned.2
  if free_item_pointer.IsNull = false then
    match tuple with
    | some tuple =>
      match rt0.manager.GetTileGroup free_item_pointer.block with
      | Location.found address =>
        match rt0.tile_groups address with
        | some tile_group =>
          (some free_item_pointer, table,
            rt0.store address (tile_group.CopyTuple tuple free_item_pointer.offset))
        | none => (none, table, rt0)
      | _ => (none, table, rt0)
    | none => (some free_item_pointer, table, rt0)
  else if table.active_tilegroup_count_ = 0 then (none, table, rt0)
  else
    let active_tile_group_id := table.number_of_tuples_ % table.active_tilegroup_count_
    match table.active_tile_groups_.getD active_tile_group_id none with
    | none => (none, table, rt0)
    | some address =>
      match rt0.tile_groups address with
      | none => (none, table, rt0)
      | some tile_group0 =>
        let inserted := tile_group0.InsertTuple tuple
        let tuple_slot := inserted.1
        let tile_group := inserted.2
        if tuple_slot = INVALID_OID then (none, table, rt0)
        else
          let rt1 := rt0.store address tile_group
          let tile_group_id := tile_group.GetTileGroupId
          let added : Option Nat × DataTable × Runtime :=
            if tuple_slot = (tile_group.GetAllocatedTupleCount + OID_MOD - 1) % OID_MOD then
              table.AddDefaultTileGroup rt1 active_tile_group_id
            else (some tile_group_id, table, rt1)
          match added with
          | (none, table1, rt2) => (none, table1, rt2)
          | (some _, table1, rt2) =>
            let tp_0 := tile_group.GetValue 0 0
            match tuple with
            | none => (none, table1, rt2)
            | some tuple =>
              let tp_slot := tuple.GetValue 0
              match rt2.manager.GetDatabaseWithOid table1.database_oid with
              | none => (none, table1, rt2)
              | some database =>
                let table2 :=
                  if database.name = "default_database" then
                    table1.update_sparse_index tp_0 tp_slot
                  else table1
                let location : ItemPointer := { block := tile_group_id, offset := tuple_slot }
                (some (location.SetLocation address), table2, rt2)

/-- Inserts tuples one after the other through `GetEmptyTupleSlot`; `none` as soon as
one of the calls has no result. -/
def DataTable.insert_all : List Tuple → DataTable → Runtime → Option (DataTable × Runtime)
  | [], table, rt => some (table, rt)
  | tuple :: rest, table, rt =>
    match table.GetEmptyTupleSlot rt (some tuple) with
    | (none, _, _) => none
    | (some _, table1, rt1) => DataTable.insert_all rest table1 rt1

end storage

namespace executor

/-- The loop `while (current_tile_group_offset_ < table_tile_group_count_)` of the
ordered scan with sparse-index pruning, unrolled at most `fuel` times, followed by the
final `return false` of `DExecute`.  `rt` and `table` are what `target_table_` points
to: the tile group of an offset is found through `DataTable::GetTileGroupBTree`, and
`index_` is the sparse index of the table; a key that `Find` does not hold leaves
`min_max` default-constructed.  The result is what `DExecute` returns, `none` when the
lookup of the tile group has no defined result or does not give a tile group, and
when `fuel` rounds were not enough. -/
def SeqScanExecutor.tree_scan_loop (rt : storage.Runtime) (table : storage.DataTable)
    (min max : type.Value) ( _point : Bool) : Nat → SeqScanExecutor → Option Bool × SeqScanExecutor
  | 0, e =>
    if e.current_tile_group_offset_ < e.table_tile_group_count_ then (none, e)
    else (some false, e)
  | fuel + 1, e =>
    if e.current_tile_group_offset_ < e.table_tile_group_count_ then
      let e1 :=
        { e with current_tile_group_offset_ := (e.current_tile_group_offset_ + 1) % OID_MOD }
      match rt.manager.GetTileGroupByBTree e.table_id e.current_tile_group_offset_ with
      | storage.Location.found address =>
        match rt.tile_groups address with
        | none => (none, e1)
        | some tile_group =>
          let emit := fun (position_list : PositionList) =>
            if position_list.length = 0 then
              SeqScanExecutor.tree_scan_loop rt table min max _point fuel e1
            else
              let logical_tile := LogicalTile.fresh
              let logical_tile := logical_tile.AddColumns tile_group e.column_ids_
              let logical_tile := (logical_tile.AddPositionList position_list).2
              (some true, { e1 with output_ := some logical_tile })
          match e.predicate_ with
          | some _ =>
            let min_max :=
              (storage.CuckooMap.Find table.sparse_index e1.current_tile_group_offset_).getD
                (type.Value.default, type.Value.default)
            if _point = true ∧
                (min.CompareLessThan min_max.1 = type.CmpBool.CmpTrue ∨
                  min.CompareGreaterThan min_max.2 = type.CmpBool.CmpTrue) then
              SeqScanExecutor.tree_scan_loop rt table min max _point fuel e1
            else if _point = false ∧
                (min.CompareGreaterThan min_max.2 = type.CmpBool.CmpTrue ∨
                  max.CompareLessThan min_max.1 = type.CmpBool.CmpTrue) then
              SeqScanExecutor.tree_scan_loop rt table min max _point fuel e1
            else emit (e.build_position_list tile_group)
          | none => emit (e.build_position_list tile_group)
      | _ => (none, e1)
    else (some false, e)

/-- Embeds `SeqScanExecutor::DExecute` when the table is scanned with the strategy
`SeqScanType::HEAPTREESCANINDEX`.  The null test of `predicate_` is made on
`predicate_`, the predicate infos come from `predicate_expr_`.  There is no result
when `GetPredicateInfo` has none and when `predicate_infos` is read past its end; the
loop leaves after at most `table_tile_group_count_ - current_tile_group_offset_`
rounds. -/
def SeqScanExecutor.DExecute_HEAPTREESCANINDEX (rt : storage.Runtime) (table : storage.DataTable)
    (e : SeqScanExecutor) : Option Bool × SeqScanExecutor :=
  match GetPredicateInfo e.param_values_ e.predicate_expr_ e.predicate_infos with
  | none => (none, e)
  | some infos =>
    let e1 := { e with predicate_infos := infos }
    let pred_info_num := infos.length
    let fuel := e.table_tile_group_count_ - e.current_tile_group_offset_
    match e.predicate_ with
    | some _ =>
      if pred_info_num = 1 then
        match infos[0]? with
        | some info0 =>
          SeqScanExecutor.tree_scan_loop rt table info0.predicate_value type.Value.default true
            fuel e1
        | none => (none, e1)
      else
        match infos[0]?, infos[1]? with
        | some info0, some info1 =>
          SeqScanExecutor.tree_scan_loop rt table info0.predicate_value info1.predicate_value
            false fuel e1
        | _, _ => (none, e1)
    | none =>
      SeqScanExecutor.tree_scan_loop rt table type.Value.default type.Value.default false fuel e1

/-- Embeds `SeqScanExecutor::DInit` for a scan of a table, as far as the members of the
scans go: the offset starts at `START_OID`, the number of tile groups, the oids and
the tuple count are those of the table, and empty `column_ids_` become all columns
(`column_count` of them). -/
def SeqScanExecutor.DInit (table : storage.DataTable) (column_count : Nat)
    (e : SeqScanExecutor) : SeqScanExecutor :=
  { e with
    current_tile_group_offset_ := 0
    table_tile_group_count_ := table.GetTileGroupCount % OID_MOD
    column_ids_ := if e.column_ids_.length = 0 then List.range column_count else e.column_ids_
    table_id := table.table_oid
    database_id := table.database_oid
    total_tuple := table.number_of_tuples_ % OID_MOD }

/-- Modelled from the spec: the evaluation of a conjunction on two evaluation results in
three-valued logic. -/
def conjunction (left right : type.CmpBool) : type.CmpBool :=
  if left = type.CmpBool.CmpFalse ∨ right = type.CmpBool.CmpFalse then type.CmpBool.CmpFalse
  else if left = type.CmpBool.CmpTrue ∧ right = type.CmpBool.CmpTrue then type.CmpBool.CmpTrue
  else type.CmpBool.NULL

/-- The evaluation of `range_predicate column_id low high`, and of the same predicate
with the conjuncts swapped, on a tuple of a tile group. -/
def range_evaluate (column_id : Nat) (low high : type.Value) (tile_group : storage.TileGroup)
    (tuple_id : Nat) : type.CmpBool :=
  conjunction ((tile_group.GetValue tuple_id column_id).CompareGreaterThan low)
    ((tile_group.GetValue tuple_id column_id).CompareLessThan high)

/-- The evaluation of `point_predicate column_id k` on a tuple of a tile group. -/
def point_evaluate (column_id : Nat) (k : type.Value) (tile_group : storage.TileGroup)
    (tuple_id : Nat) : type.CmpBool :=
  (tile_group.GetValue tuple_id column_id).CompareEquals k

/-- The runtime in which the example tables are created: nothing is allocated or
registered yet, and the database with oid 1 is `default_database`. -/
def example_runtime : storage.Runtime :=
  { manager := { databases_ := [⟨1, "default_database"⟩] } }

/-- The tuple `(id, val)` of the example tables, with `val = 100 + id`. -/
def example_tuple (id : Int) : storage.Tuple := [type.Value.data 5 id, type.Value.data 5 (100 + id)]

/-- The example scenario of the specification: a table of the database 1 with table oid
7, the columns `(id, val)` in one tile and tile groups of capacity 4, filled by
inserting the rows with `id = 0..9` in order. -/
def example_table_of_ten : Option (storage.DataTable × storage.Runtime) :=
  match storage.DataTable.create example_runtime 1 7 4 [[⟨5, 0, true, 4⟩, ⟨5, 4, true, 4⟩]]
      (fun c => (0, c)) 1 with
  | (none, _, _) => none
  | (some _, table, rt) =>
    storage.DataTable.insert_all ((List.range 10).map (fun id => example_tuple (Int.ofNat id))) table rt

/-- An ordered scan of a table after `DInit`, with the given predicate and its
evaluation. -/
def example_tree_executor (table : storage.DataTable)
    (predicate : expression.AbstractExpression)
    (evaluate : storage.TileGroup → Nat → type.CmpBool) : SeqScanExecutor :=
  SeqScanExecutor.DInit table 2
    { predicate_ := some evaluate, column_ids_ := [], target_table_ := [],
      current_tile_group_offset_ := 0, table_tile_group_count_ := 0, output_ := none,
      predicate_expr_ := predicate }

/-- What the first `DExecute` of an ordered scan with the predicate `id = k` gives on the
example table: the value it returns and the position lists of the tile it emits. -/
def example_point_scan (k : Int) : Option (Option Bool × Option (List PositionList)) :=
  example_table_of_ten.map (fun s =>
    let scanned :=
      (example_tree_executor s.1 (point_predicate 0 (type.Value.data 5 k))
        (point_evaluate 0 (type.Value.data 5 k))).DExecute_HEAPTREESCANINDEX s.2 s.1
    (scanned.1, scanned.2.output_.map (fun tile => tile.position_lists_)))

/-- The row stored in the tuple slot `slot` of the tile group that the ordered scan
finds for the offset `offset` of the example table. -/
def example_stored_row (offset slot : Nat) : Option (type.Value × type.Value) :=
  example_table_of_ten.bind (fun s =>
    match s.2.manager.GetTileGroupByBTree s.1.table_oid offset with
    | storage.Location.found address =>
      (s.2.tile_groups address).bind (fun tile_group =>
        if slot < tile_group.GetNextTupleSlot then
          some (tile_group.GetValue slot 0, tile_group.GetValue slot 1)
        else none)
    | _ => none)

/-- A table with tile groups of capacity 8 and the columns `(id, val)`, filled by
inserting the rows with `id = 4, 5, 6, 7` in order: one tile group, for which the
sparse index holds the bounds `(4, 7)`. -/
def example_table_of_four : Option (storage.DataTable × storage.Runtime) :=
  match storage.DataTable.create example_runtime 1 7 8 [[⟨5, 0, true, 4⟩, ⟨5, 4, true, 4⟩]]
      (fun c => (0, c)) 1 with
  | (none, _, _) => none
  | (some _, table, rt) =>
    storage.DataTable.insert_all ([4, 5, 6, 7].map (fun id => example_tuple id)) table rt

/-- What the first `DExecute` of an ordered scan with the predicate `5 < id < 9` gives on
`example_table_of_four`, for the predicate `predicate` that expresses it: the value it
returns and the position lists of the tile it emits. -/
def example_range_scan (predicate : expression.AbstractExpression) :
    Option (Option Bool × Option (List PositionList)) :=
  example_table_of_four.map (fun s =>
    let scanned :=
      (example_tree_executor s.1 predicate
        (range_evaluate 0 (type.Value.data 5 5) (type.Value.data 5 9))).DExecute_HEAPTREESCANINDEX
          s.2 s.1
    (scanned.1, scanned.2.output_.map (fun tile => tile.position_lists_)))

/-- The leading values stored in the tile group that the ordered scan finds for the
offset 0 of `example_table_of_four`. -/
def example_leading_values : Option (List type.Value) :=
  example_table_of_four.bind (fun s =>
    match s.2.manager.GetTileGroupByBTree s.1.table_oid 0 with
    | storage.Location.found address =>
      (s.2.tile_groups address).map (fun tile_group =>
        (List.range tile_group.GetNextTupleSlot).map (fun slot => tile_group.GetValue slot 0))
    | _ => none)

end executor

namespace type

/-- The order `min ≤ v ≤ max` on integer values; it does not hold when one of the three
is null. -/
def Value.within : Value → Value → Value → Prop
  | Value.data _ v, Value.data _ min, Value.data _ max => min ≤ v ∧ v ≤ max
  | _, _, _ => False

instance Value.within_decidable (v min max : Value) : Decidable (v.within min max) := by
  unfold Value.within
  split <;> infer_instance

end type

namespace storage

/-- A tile group in which the leading column is column 0 of the first tile, at a byte
offset that no other column of that tile has, and whose tiles have `cap` tuple
slots. -/
def TileGroup.leading_first (g : TileGroup) (cap : Nat) : Prop :=
  g.layout 0 = (0, 0) ∧
  ∃ tile rest, g.tiles = tile :: rest ∧ tile.num_tuple_slots = cap ∧ 0 < tile.schema.length ∧
    ∀ j, 0 < j → j < tile.schema.length → tile.schema.GetOffset j ≠ tile.schema.GetOffset 0

/-- The leading value stored in the tuple slot `slot` of the tile group that the ordered
scan finds for the offset `offset` of the table, if the scan finds a tile group and
the slot is in use. -/
def DataTable.stored_leading_value (table : DataTable) (rt : Runtime) (offset slot : Nat) :
    Option type.Value :=
  match rt.manager.GetTileGroupByBTree table.table_oid offset with
  | Location.found address =>
    (rt.tile_groups address).bind (fun tile_group =>
      if slot < tile_group.GetNextTupleSlot then some (tile_group.GetValue slot 0) else none)
  | _ => none

/-- The entry of the sparse index that the ordered scan consults for the tile group at
an offset: the one under the key `offset + 1`, to which the scan has incremented
`current_tile_group_offset_` when it calls `Find`. -/
def DataTable.consulted_entry (table : DataTable) (offset : Nat) :
    Option (type.Value × type.Value) :=
  CuckooMap.Find table.sparse_index ((offset + 1) % OID_MOD)

/-- The constructor of a table with one active tile group, followed by the inserts of
the tuples in order. -/
def DataTable.create_and_insert (rt : Runtime) (database_oid table_oid tuples_per_tilegroup : Nat)
    (tile_schemas : List catalog.Schema) (default_layout : Nat → Nat × Nat)
    (tuples : List Tuple) : Option (DataTable × Runtime) :=
  match DataTable.create rt database_oid table_oid tuples_per_tilegroup tile_schemas
      default_layout 1 with
  | (none, _, _) => none
  | (some _, table, rt1) => DataTable.insert_all tuples table rt1

end storage

namespace executor

end executor

namespace storage

/-- The state of a table with one active tile group, in a default database and without
recycled slots, as the constructor and the inserts of leading values in
non-decreasing order keep it; `b` bounds the leading values inserted so far.  The tile
groups at the offsets below `tile_group_count_` are registered in the ordered tree and
are distinct objects, the last of them is the active one and has an empty slot; when
the active one holds tuples, the sparse index holds under the key `tile_group_count_`
the leading value of its first tuple and the leading value inserted last; for every
other tile group the entry under its key bounds the leading values of all its slots
but the last one. -/
structure DataTable.SparseInv (table : DataTable) (rt : Runtime) (cap : Nat) (b : Int) : Prop where
  active_count : table.active_tilegroup_count_ = 1
  cap_eq : table.tuples_per_tilegroup_ = cap
  layout0 : table.default_layout_ 0 = (0, 0)
  schemas : ∃ s0 rest, table.tile_schemas_ = s0 :: rest ∧ 0 < s0.length ∧
    ∀ j, 0 < j → j < s0.length → s0.GetOffset j ≠ s0.GetOffset 0
  no_recycled : map_find rt.recycled_slots table.table_oid = none
  database : ∃ db, rt.manager.GetDatabaseWithOid table.database_oid = some db ∧
    db.name = "default_database"
  count_pos : 0 < table.tile_group_count_
  unregistered : ∀ o, table.tile_group_count_ ≤ o →
    map_find rt.manager.tile_group_tree_ (table.table_oid, o) = none
  groups : ∀ o, o < table.tile_group_count_ → ∃ address g,
    map_find rt.manager.tile_group_tree_ (table.table_oid, o) = some address ∧
    rt.tile_groups address = some g ∧ address < rt.next_address ∧ g.leading_first cap
  active : ∃ address g, table.active_tile_groups_ = [some address] ∧
    map_find rt.manager.tile_group_tree_ (table.table_oid, table.tile_group_count_ - 1) =
      some address ∧
    rt.tile_groups address = some g ∧ g.next_tuple_slot < cap ∧
    (∀ o, o + 1 < table.tile_group_count_ →
      map_find rt.manager.tile_group_tree_ (table.table_oid, o) ≠ some address) ∧
    (0 < g.next_tuple_slot → ∃ ty0 v0 ty1 mx,
      g.GetValue 0 0 = type.Value.data ty0 v0 ∧
      CuckooMap.Find table.sparse_index table.tile_group_count_ =
        some (type.Value.data ty0 v0, type.Value.data ty1 mx) ∧
      mx ≤ b ∧
      ∀ s, s < g.next_tuple_slot → ∃ ty v, g.GetValue s 0 = type.Value.data ty v ∧
        v0 ≤ v ∧ v ≤ mx)
  full : ∀ o, o + 1 < table.tile_group_count_ → ∀ address g,
    map_find rt.manager.tile_group_tree_ (table.table_oid, o) = some address →
    rt.tile_groups address = some g →
    ∀ s, s < g.next_tuple_slot → s + 1 ≠ cap →
      ∃ min max, CuckooMap.Find table.sparse_index (o + 1) = some (min, max) ∧
        (g.GetValue s 0).within min max

end storage

namespace executor

/-- A table with tile groups of capacity 4 and the columns `(id, val)`, into which the
rows with `id = 5` and then `id = 3` were inserted: the leading values do not come in
non-decreasing order. -/
def example_table_unsorted : Option (storage.DataTable × storage.Runtime) :=
  storage.DataTable.create_and_insert example_runtime 1 7 4
    [[⟨5, 0, true, 4⟩, ⟨5, 4, true, 4⟩]] (fun c => (0, c)) [example_tuple 5, example_tuple 3]

/-- The value of `row_wise_materialization` when `MaterializeByTiles` chooses the copy:
true until the layout is `COLUMN`, or is `HYBRID` with a destination tile of at most
`column_count_threshold = 20` columns. -/
def LogicalTile.row_wise_materialization (dest_tile : storage.Tile)
    (peloton_layout_mode : storage.LayoutType) : Bool :=
  let row_wise_materialization := true
  let row_wise_materialization :=
    if peloton_layout_mode = storage.LayoutType.COLUMN then false else row_wise_materialization
  let dest_tile_column_count := dest_tile.GetColumnCount
  let column_count_threshold := 20
  if peloton_layout_mode = storage.LayoutType.HYBRID ∧
      dest_tile_column_count ≤ column_count_threshold then false
  else row_wise_materialization

/-- A destination tile with `column_count` columns of type 5 and one tuple slot. -/
def example_dest_tile (column_count : Nat) : storage.Tile :=
  storage.TileFactory.GetTempTile
    (catalog.Schema.ofColumns (List.replicate column_count ⟨5, 0, true, 4⟩)) 1

/-- The storage manager after the key `(7, 0)` was registered twice through each of the
three backends, first for the tile group at the address 100 (tile group id 1) and then
for the one at the address 200 (tile group id 2): through the overload of
`AddTileGroup` that inserts into the ordered tree, through `AddToHopscotchMap` and
through `AddToCuckooMap`. -/
def example_registered_twice : storage.StorageManager :=
  let sm0 := example_runtime.manager
  let sm1 := (sm0.AddTileGroupWithOffset 1 7 0 1 100 none).2
  let sm2 := (sm1.AddToHopscotchMap (7, 0) 100).2
  let sm3 := (sm2.AddToCuckooMap (7, 0) 100).2
  let sm4 := (sm3.AddTileGroupWithOffset 1 7 0 2 200 (some 100)).2
  let sm5 := (sm4.AddToHopscotchMap (7, 0) 200).2
  (sm5.AddToCuckooMap (7, 0) 200).2

end executor

namespace storage

/-- The state of a table with one active tile group after `n` inserts into the freshly
constructed table, without recycled slots: there are `n / cap + 1` tile groups, in
creation order in `tile_group_array_`, distinct objects with `cap` tuple slots each;
all but the last are full, the last holds `n % cap` tuples and is the active one. -/
structure DataTable.FillInv (table : DataTable) (rt : Runtime) (cap n : Nat) : Prop where
  active_count : table.active_tilegroup_count_ = 1
  cap_eq : table.tuples_per_tilegroup_ = cap
  schemas : table.tile_schemas_ ≠ []
  no_recycled : map_find rt.recycled_slots table.table_oid = none
  database : ∃ db, rt.manager.GetDatabaseWithOid table.database_oid = some db
  count_eq : table.tile_group_count_ = n / cap + 1
  array_length : table.tile_group_array_.length = table.tile_group_count_
  groups : ∀ o, o < table.tile_group_count_ → ∃ address g,
    table.tile_group_array_[o]? = some address ∧ rt.tile_groups address = some g ∧
    address < rt.next_address ∧ g.GetAllocatedTupleCount = cap ∧
    g.next_tuple_slot = (if o + 1 = table.tile_group_count_ then n % cap else cap)
  active : ∃ address, table.active_tile_groups_ = [some address] ∧
    table.tile_group_array_[table.tile_group_count_ - 1]? = some address ∧
    ∀ o, o + 1 < table.tile_group_count_ → table.tile_group_array_[o]? ≠ some address

/-- The numbers of tuple slots in use in the tile groups of a table, in creation order;
`none` stands for an address at which there is no tile group. -/
def DataTable.fill (table : DataTable) (rt : Runtime) : List (Option Nat) :=
  table.tile_group_array_.map (fun address =>
    (rt.tile_groups address).map TileGroup.GetNextTupleSlot)

end storage

namespace executor

end executor

namespace storage

/-- Embeds `DataTable::AddDefaultTileGroup()`, which chooses the active tile group to
replace by `number_of_tuples_ % active_tilegroup_count_`; no result for a count of
zero. -/
def DataTable.AddDefaultTileGroupActive (table : DataTable) (rt : Runtime) :
    Option Nat × DataTable × Runtime :=
  if table.active_tilegroup_count_ = 0 then (none, table, rt)
  else table.AddDefaultTileGroup rt (table.number_of_tuples_ % table.active_tilegroup_count_)

/-- A call on a data table: `AddDefaultTileGroup()` or `GetEmptyTupleSlot(tuple)`. -/
inductive TableCall where
  | addDefaultTileGroup
  | getEmptyTupleSlot (tuple : Option Tuple)

/-- Runs a sequence of calls on a table, the first call first; `none` as soon as one of
the calls has no result. -/
def DataTable.run_calls : List TableCall → DataTable → Runtime → Option (DataTable × Runtime)
  | [], table, rt => some (table, rt)
  | TableCall.addDefaultTileGroup :: rest, table, rt =>
    match table.AddDefaultTileGroupActive rt with
    | (none, _, _) => none
    | (some _, table1, rt1) => DataTable.run_calls rest table1 rt1
  | TableCall.getEmptyTupleSlot tuple :: rest, table, rt =>
    match table.GetEmptyTupleSlot rt tuple with
    | (none, _, _) => none
    | (some _, table1, rt1) => DataTable.run_calls rest table1 rt1

/-- The constructor of a table followed by a sequence of calls. -/
def DataTable.create_and_run (rt : Runtime) (database_oid table_oid tuples_per_tilegroup : Nat)
    (tile_schemas : List catalog.Schema) (default_layout : Nat → Nat × Nat)
    (active_tilegroup_count : Nat) (calls : List TableCall) : Option (DataTable × Runtime) :=
  match DataTable.create rt database_oid table_oid tuples_per_tilegroup tile_schemas
      default_layout active_tilegroup_count with
  | (none, _, _) => none
  | (some _, table, rt1) => DataTable.run_calls calls table rt1

/-- The offset `i` of a table is published: the id sequence of the table holds an id for
it, the identity map and the ordered tree (under the key of the table and the offset)
both give the address of a tile group for it, and the tile group at that address has
this id. -/
def DataTable.published (table : DataTable) (rt : Runtime) (i : Nat) : Prop :=
  ∃ id address g, table.tile_groups_[i]? = some id ∧
    rt.manager.GetTileGroup id = Location.found address ∧
    rt.manager.GetTileGroupByBTree table.table_oid i = Location.found address ∧
    rt.tile_groups address = some g ∧ g.GetTileGroupId = id

/-- The state of a table of `default_database` as the constructor, `AddDefaultTileGroup`
and `GetEmptyTupleSlot` keep it: the id sequence has one id for each offset below the
count, the ids are ids that the storage manager has handed out, the ordered tree has
no entry for an offset from the count on, the tile groups of the heap lie below the
next address, and every offset below the count is published. -/
structure DataTable.PubInv (table : DataTable) (rt : Runtime) : Prop where
  database : ∃ db, rt.manager.GetDatabaseWithOid table.database_oid = some db ∧
    db.name = "default_database"
  ids_length : table.tile_groups_.length = table.tile_group_count_
  ids_fresh : ∀ id ∈ table.tile_groups_, id ≤ rt.manager.tile_group_oid_
  unregistered : ∀ o, table.tile_group_count_ ≤ o →
    map_find rt.manager.tile_group_tree_ (table.table_oid, o) = none
  allocated : ∀ a g, rt.tile_groups a = some g → a < rt.next_address
  pub : ∀ i, i < table.tile_group_count_ → table.published rt i

/-- A change of the runtime that leaves the storage manager and the next address as they
are, puts no tile group at an address that had none, and leaves every tile group at
its address with its id. -/
def Runtime.heap_step (rt rt1 : Runtime) : Prop :=
  rt1.manager = rt.manager ∧
  rt1.next_address = rt.next_address ∧
  (∀ a, rt.tile_groups a = none → rt1.tile_groups a = none) ∧
  ∀ a g, rt.tile_groups a = some g → ∃ g1, rt1.tile_groups a = some g1 ∧
    g1.tile_group_id = g.tile_group_id

/-- A change of the table that leaves its id sequence, its count and its oids as they
are. -/
def DataTable.same_groups (table table1 : DataTable) : Prop :=
  table1.tile_groups_ = table.tile_groups_ ∧
  table1.tile_group_count_ = table.tile_group_count_ ∧
  table1.table_oid = table.table_oid ∧
  table1.database_oid = table.database_oid

end storage

namespace executor

end executor

namespace storage

/-- A runtime whose only database, with oid 2, is not `default_database`. -/
def example_runtime_other : Runtime :=
  { manager := { databases_ := [⟨2, "other_database"⟩] } }

/-- The calls of the publication example: two inserts, an `AddDefaultTileGroup()`, and
four more inserts, the last of which takes the last slot of a tile group of capacity
4. -/
def example_calls : List TableCall :=
  [TableCall.getEmptyTupleSlot (some [type.Value.data 5 0, type.Value.data 5 100]),
   TableCall.getEmptyTupleSlot (some [type.Value.data 5 1, type.Value.data 5 101]),
   TableCall.addDefaultTileGroup,
   TableCall.getEmptyTupleSlot (some [type.Value.data 5 2, type.Value.data 5 102]),
   TableCall.getEmptyTupleSlot (some [type.Value.data 5 3, type.Value.data 5 103]),
   TableCall.getEmptyTupleSlot (some [type.Value.data 5 4, type.Value.data 5 104]),
   TableCall.getEmptyTupleSlot (some [type.Value.data 5 5, type.Value.data 5 105])]

end storage

namespace executor

end executor

namespace storage

/-- The assignment `m[key] = value` of a `std::map` with keys of type `oid_t`, kept as the
list of its entries in the order of the keys, which is the order in which the map is
iterated. -/
def ordered_map_set {ν : Type} : List (Nat × ν) → Nat → ν → List (Nat × ν)
  | [], k, v => [(k, v)]
  | (k0, v0) :: rest, k, v =>
    if k < k0 then (k, v) :: (k0, v0) :: rest
    else if k = k0 then (k, v) :: rest
    else (k0, v0) :: ordered_map_set rest k v

/-- The first loop of `TransformTileGroupSchema` over the column ids of a list:
`schemas[new_tile_offset][new_tile_column_offset] = column_info`, where `column_info`
is the column that the original tile group holds for the column id.  The vector of
tiles of a tile group holds no null pointer here, so the assertion on the tile
holds. -/
def TransformTileGroupSchema_schemas (tile_group : TileGroup) (layout : Nat → Nat × Nat) :
    List Nat → List (Nat × List (Nat × catalog.Column)) → List (Nat × List (Nat × catalog.Column))
  | [], schemas => schemas
  | col_id :: rest, schemas =>
    let orig := tile_group.layout col_id
    let new := layout col_id
    let tile := tile_group.GetTileReference orig.1
    let column_info := tile.schema.GetColumn orig.2
    TransformTileGroupSchema_schemas tile_group layout rest
      (ordered_map_set schemas new.1
        (ordered_map_set ((map_find schemas new.1).getD []) new.2 column_info))

/-- Embeds `TransformTileGroupSchema`: the schemas of the tiles of the transformed tile
group, one for each tile offset that the layout uses, in the order of the tile
offsets, each with the columns in the order of their offsets in the tile.
`column_count` is `layout.GetColumnCount()`. -/
def TransformTileGroupSchema (tile_group : TileGroup) (layout : Nat → Nat × Nat)
    (column_count : Nat) : List catalog.Schema :=
  (TransformTileGroupSchema_schemas tile_group layout (List.range column_count) []).map
    (fun schemas_tile_entry =>
      catalog.Schema.ofColumns (schemas_tile_entry.2.map (fun schemas_column_entry =>
        schemas_column_entry.2)))

/-- Modelled from the spec: `TileGroupFactory::GetTileGroup` (not among the sources)
builds a tile group with the given id and layout, one tile for each schema, each with
`tuple_count` tuple slots that are still empty and a tile id of its own; no tuple slot
is in use.  The address of a tile is the pairing of the tile group id with the offset
of the tile. -/
def TileGroupFactory.GetTileGroup (sm : StorageManager) (tile_group_id : Nat)
    (schemas : List catalog.Schema) (layout : Nat → Nat × Nat) (tuple_count : Nat) :
    TileGroup × StorageManager :=
  let tiles := (List.range schemas.length).map (fun tile_itr =>
    ({ addr := Nat.pair tile_group_id tile_itr
       schema := schemas.getD tile_itr []
       num_tuple_slots := tuple_count
       cells := fun _ _ => type.Value.null 0 } : Tile))
  (⟨tile_group_id, tiles, 0, layout⟩,
    { sm with tile_oid_ := (sm.tile_oid_ + schemas.length) % OID_MOD })

/-- The tile at an offset of the group is replaced by its new state, as a write through
the pointer that `TileGroup::GetTile` returns does. -/
def TileGroup.SetTile (g : TileGroup) (tile_offset : Nat) (tile : Tile) : TileGroup :=
  { g with tiles := g.tiles.set tile_offset tile }

/-- The inner loop of `SetTransformedTileGroup` over the tuple slots of a list: the
column `column_itr` of the original tile group is copied to the new one. -/
def SetTransformedTileGroup_tuples (orig_tile_group : TileGroup) (column_itr : Nat) :
    List Nat → TileGroup → TileGroup
  | [], new_tile_group => new_tile_group
  | tuple_itr :: rest, new_tile_group =>
    let orig := orig_tile_group.layout column_itr
    let new := new_tile_group.layout column_itr
    let orig_tile := orig_tile_group.GetTileReference orig.1
    let new_tile := new_tile_group.GetTileReference new.1
    let val := orig_tile.GetValue tuple_itr orig.2
    SetTransformedTileGroup_tuples orig_tile_group column_itr rest
      (new_tile_group.SetTile new.1 (new_tile.SetValue val tuple_itr new.2))

/-- The outer loop of `SetTransformedTileGroup` over the column ids of a list. -/
def SetTransformedTileGroup_columns (orig_tile_group : TileGroup) (tuple_count : Nat) :
    List Nat → TileGroup → TileGroup
  | [], new_tile_group => new_tile_group
  | column_itr :: rest, new_tile_group =>
    SetTransformedTileGroup_columns orig_tile_group tuple_count rest
      (SetTransformedTileGroup_tuples orig_tile_group column_itr (List.range tuple_count)
        new_tile_group)

/-- Embeds `SetTransformedTileGroup`: the new tile group after the call, `none` when the
assertion on the column counts fails.  `new_column_count` and `orig_column_count` are
`GetColumnCount()` of the layouts of the two tile groups; the header of a tile group
is its next tuple slot. -/
def SetTransformedTileGroup (orig_tile_group new_tile_group : TileGroup)
    (new_column_count orig_column_count : Nat) : Option TileGroup :=
  if new_column_count = orig_column_count then
    let column_count := new_column_count
    let tuple_count := orig_tile_group.GetAllocatedTupleCount
    let copied := SetTransformedTileGroup_columns orig_tile_group tuple_count
      (List.range column_count) new_tile_group
    some { copied with next_tuple_slot := orig_tile_group.next_tuple_slot }
  else none

/-- Embeds `DataTable::TransformTileGroup`.  `Layout::GetLayoutDifference` and
`Layout::GetColumnCount` (`storage/layout.cpp` is not among the sources) are
parameters; a `double` is a rational number, the only operation on it being the
comparison.  The result is the address of the new tile group (`some none` for
`nullptr`), and `none` when the call has no defined result: the id at the offset has
no tile group, or the assertion of `SetTransformedTileGroup` fails.  The new tile
group is allocated at the next address. -/
def DataTable.TransformTileGroup (table : DataTable) (rt : Runtime)
    (GetLayoutDifference : (Nat → Nat × Nat) → (Nat → Nat × Nat) → ℚ)
    (GetColumnCount : (Nat → Nat × Nat) → Nat)
    (tile_group_offset : Nat) (theta : ℚ) : Option (Option Nat) × Runtime :=
  if tile_group_offset ≥ table.tile_groups_.length then (some none, rt)
  else
    let tile_group_id := table.tile_groups_.getD tile_group_offset INVALID_OID
    match rt.manager.GetTileGroup tile_group_id with
    | Location.found address =>
      match rt.tile_groups address with
      | some tile_group =>
        let diff := GetLayoutDifference tile_group.layout table.default_layout_
        if diff < theta then (some none, rt)
        else
          let new_schema := TransformTileGroupSchema tile_group table.default_layout_
            (GetColumnCount table.default_layout_)
          let created := TileGroupFactory.GetTileGroup rt.manager tile_group.GetTileGroupId
            new_schema table.default_layout_ tile_group.GetAllocatedTupleCount
          match SetTransformedTileGroup tile_group created.1
              (GetColumnCount created.1.layout) (GetColumnCount tile_group.layout) with
          | none => (none, rt)
          | some new_tile_group =>
            let new_address := rt.next_address
            let rt1 : Runtime :=
              { rt with
                manager := created.2.AddTileGroup tile_group_id new_address
                tile_groups := fun a =>
                  if a = new_address then some new_tile_group else rt.tile_groups a
                next_address := new_address + 1 }
            (some (some new_address), rt1)
      | none => (none, rt)
    | _ => (none, rt)

end storage

namespace executor

end executor

namespace storage

/-- What the first loop of `TransformTileGroupSchema` keeps, `handled` being the column
ids it has handled: the keys of the map and of its inner maps increase, an inner map
holds under `j` the column that the original tile group holds for a handled column id
which the layout places at `(k, j)`, no inner map is empty, and every handled column
id has its entry. -/
structure TransformTileGroupSchema_inv (tile_group : TileGroup) (layout : Nat → Nat × Nat)
    (handled : List Nat) (schemas : List (Nat × List (Nat × catalog.Column))) : Prop where
  sorted : (schemas.map Prod.fst).Sorted (· < ·)
  inner_sorted : ∀ k inner, map_find schemas k = some inner →
    (inner.map Prod.fst).Sorted (· < ·)
  from_column : ∀ k inner, map_find schemas k = some inner →
    ∀ j col, map_find inner j = some col → ∃ c ∈ handled, layout c = (k, j) ∧
      col = (tile_group.GetTileReference (tile_group.layout c).1).schema.GetColumn
        (tile_group.layout c).2
  nonempty : ∀ k inner, map_find schemas k = some inner → ∃ c ∈ handled, (layout c).1 = k
  present : ∀ c ∈ handled, ∃ inner, map_find schemas (layout c).1 = some inner ∧
    (map_find inner (layout c).2).isSome = true

end storage

namespace executor

end executor

namespace storage

/-- A tile group with the id 1 in the row layout: one tile with the columns `(id, val)`
and 4 tuple slots, 3 of which are in use and hold the rows `(t, 100 + t)`. -/
def example_row_group : TileGroup :=
  ⟨1, [⟨0, [⟨5, 0, true, 4⟩, ⟨5, 4, true, 4⟩], 4,
      fun t o => if t < 3 then type.Value.data 5 (if o = 0 then (t : Int) else 100 + (t : Int))
        else type.Value.null 0⟩],
    3, fun c => (0, c)⟩

/-- A runtime that holds `example_row_group` at the address 1, registered under its id
in the identity map. -/
def example_transform_runtime : Runtime :=
  { manager := { databases_ := [⟨1, "default_database"⟩], tile_group_oid_ := 1,
                 tile_group_locator_ := [(1, 1)] }
    tile_groups := fun a => if a = 1 then some example_row_group else none
    next_address := 2 }

/-- A table whose only tile group is `example_row_group` and whose default layout is the
column layout, which places the column `c` in a tile of its own. -/
def example_transform_table : DataTable :=
  { database_oid := 1, table_oid := 7, tuples_per_tilegroup_ := 4,
    tile_schemas_ := [[⟨5, 0, true, 4⟩], [⟨5, 0, true, 4⟩]],
    default_layout_ := fun c => (c, 0),
    active_tile_groups_ := [some 1], tile_groups_ := [1], tile_group_array_ := [1],
    tile_group_count_ := 1, number_of_tuples_ := 3 }

end storage

namespace executor

end executor

namespace type

/-- Modelled from the spec: `Value::IsNull`. -/
def Value.IsNull : Value → Bool
  | Value.null _ => true
  | Value.data _ _ => false

/-- Modelled from the spec: `Value::GetTypeId`. -/
def Value.GetTypeId : Value → TypeId
  | Value.null type_id => type_id
  | Value.data type_id _ => type_id

/-- Modelled from the spec: `type::TypeId::INTEGER`, the code of the 32-bit integers. -/
def TypeId.INTEGER : TypeId := 5

end type

namespace storage

/-- Modelled from the spec: `ConstraintType` (`common/internal_types.h` is not among the
sources): the five types that `CheckConstraints` names, and `other` for every other
one. -/
inductive ConstraintType where
  | CHECK
  | UNIQUE
  | PRIMARY
  | FOREIGN
  | EXCLUSION
  | other
deriving DecidableEq, Repr

/-- Modelled from the spec: what `CheckConstraints` reads of the schema of the table
(`catalog::Schema` is not among the sources): the columns with a NOT NULL constraint
(`GetNotNullColumns`), whether a column allows null (`AllowNull`), and the types of
the multi-column constraints (`GetConstraints`). -/
structure TableConstraints where
  GetNotNullColumns : List Nat := []
  AllowNull : Nat → Bool := fun _ => true
  GetConstraints : List ConstraintType := []

/-- How a call ends: it returns a value, it throws a `ConstraintException`, or it has no
defined result. -/
inductive Outcome (α : Type) where
  | returned (value : α)
  | ConstraintException
  | undefined
deriving DecidableEq, Repr

/-- Embeds `DataTable::CheckNotNulls`. -/
def DataTable.CheckNotNulls (tuple : Tuple) (column_idx : Nat) : Bool :=
  if (tuple.GetValue column_idx).IsNull then false else true

/-- The loop of `CheckConstraints` over the columns with a NOT NULL constraint: `true`
when it throws. -/
def DataTable.CheckConstraints_not_null (schema : TableConstraints) (tuple : Tuple) :
    List Nat → Bool
  | [] => false
  | column_id :: rest =>
    if schema.AllowNull column_id = false ∧ DataTable.CheckNotNulls tuple column_id = false then
      true
    else DataTable.CheckConstraints_not_null schema tuple rest

/-- The loop of `CheckConstraints` over the multi-column constraints: `true` when it
throws. -/
def DataTable.CheckConstraints_multi : List ConstraintType → Bool
  | [] => false
  | ConstraintType.other :: _ => true
  | _ :: rest => DataTable.CheckConstraints_multi rest

/-- Embeds `DataTable::CheckConstraints`, `schema` being the schema of the table. -/
def DataTable.CheckConstraints (schema : TableConstraints) (tuple : Tuple) : Outcome Bool :=
  if DataTable.CheckConstraints_not_null schema tuple schema.GetNotNullColumns = true then
    Outcome.ConstraintException
  else if DataTable.CheckConstraints_multi schema.GetConstraints = true then
    Outcome.ConstraintException
  else Outcome.returned true

/-- Embeds `DataTable::IncreaseTupleCount`; `number_of_tuples_` is a `size_t`. -/
def DataTable.IncreaseTupleCount (table : DataTable) (amount : Nat) : DataTable :=
  { table with number_of_tuples_ := (table.number_of_tuples_ + amount) % 18446744073709551616 }

/-- Embeds `DataTable::InsertTuple(tuple, location, transaction, index_entry_ptr,
check_fk)`.  The indexes and the foreign keys are not among the sources:
`index_count` is `GetIndexCount()`, `InsertInIndexes` gives the item pointer that
`*index_entry_ptr` points to afterwards, or `none` when it returns `false`, and
`CheckForeignKeyConstraints` gives what that check returns.  A failed assertion has
no defined result. -/
def DataTable.InsertTuple_location (table : DataTable) (schema : TableConstraints)
    (index_count : Nat) (InsertInIndexes : Tuple → ItemPointer → Option ItemPointer)
    (CheckForeignKeyConstraints : Tuple → Bool) (tuple : Tuple) (location : ItemPointer)
    (check_fk : Bool) : Outcome Bool × DataTable :=
  match DataTable.CheckConstraints schema tuple with
  | Outcome.ConstraintException => (Outcome.ConstraintException, table)
  | Outcome.undefined => (Outcome.undefined, table)
  | Outcome.returned false => (Outcome.returned false, table)
  | Outcome.returned true =>
    if index_count = 0 then
      if check_fk = true ∧ CheckForeignKeyConstraints tuple = false then
        (Outcome.returned false, table)
      else (Outcome.returned true, table.IncreaseTupleCount 1)
    else
      match InsertInIndexes tuple location with
      | none => (Outcome.returned false, table)
      | some index_entry =>
        if check_fk = true ∧ CheckForeignKeyConstraints tuple = false then
          (Outcome.returned false, table)
        else if index_entry.block = location.block ∧ index_entry.offset = location.offset then
          (Outcome.returned true, table.IncreaseTupleCount 1)
        else (Outcome.undefined, table)

/-- The inner loop of `KVStoreTileGroup` over the tuple slots of a list: the column
`column_itr` of the original tile is copied to the only column of the new tile. -/
def KVStoreTileGroup_tuples (org_tile : Tile) (column_itr : Nat) : List Nat → Tile → Tile
  | [], new_tile_h => new_tile_h
  | tuple_itr :: rest, new_tile_h =>
    KVStoreTileGroup_tuples org_tile column_itr rest
      (new_tile_h.SetValue (org_tile.GetValue tuple_itr column_itr) tuple_itr 0)

/-- The outer loop of `KVStoreTileGroup` over the columns of a list. -/
def KVStoreTileGroup_columns (org_tile : Tile) (tuple_count : Nat) :
    List Nat → TileGroup → TileGroup
  | [], new_tile_group_h => new_tile_group_h
  | column_itr :: rest, new_tile_group_h =>
    KVStoreTileGroup_columns org_tile tuple_count rest
      (new_tile_group_h.SetTile column_itr
        (KVStoreTileGroup_tuples org_tile column_itr (List.range tuple_count)
          (new_tile_group_h.GetTileReference column_itr)))

/-- Embeds `DataTable::KVStoreTileGroup`: when the tile group at the offset has tuple
slots in use, a tile group with one tile for each column of its first tile is built,
filled column by column, and entered in the hopscotch map under the key of the table
and the offset.  An offset outside the table is only logged; there is no defined
result when the id at the offset has no tile group.  The new tile group is allocated
at the next address. -/
def DataTable.KVStoreTileGroup (table : DataTable) (rt : Runtime) (tile_group_offset : Nat) :
    Option Unit × Runtime :=
  let tile_group_id := table.tile_groups_.getD tile_group_offset INVALID_OID
  match rt.manager.GetTileGroup tile_group_id with
  | Location.found address =>
    match rt.tile_groups address with
    | some tile_group =>
      let column_info := (tile_group.GetTileReference 0).schema
      let tuple_count := tile_group.GetNextTupleSlot
      let org_tile := tile_group.GetTileReference 0
      if tuple_count > 0 then
        let new_schema := column_info.map (fun column => catalog.Schema.ofColumns [column])
        let created := TileGroupFactory.GetTileGroup rt.manager tile_group.GetTileGroupId
          new_schema (fun col_id => (col_id, 0)) tuple_count
        let new_tile_group_h := KVStoreTileGroup_columns org_tile tuple_count
          (List.range column_info.length) created.1
        let new_address := rt.next_address
        let stored := created.2.AddToHopscotchMap (table.table_oid, tile_group_offset) new_address
        (some (),
          { rt with
            manager := stored.2
            tile_groups := fun a =>
              if a = new_address then some new_tile_group_h else rt.tile_groups a
            next_address := new_address + 1 })
      else (some (), rt)
    | none => (none, rt)
  | _ => (none, rt)

/-- The loop `for (i = 0; i < tile_group_count_; i++) KVStoreTileGroup(i)` of
`InsertTuple` over the offsets of a list. -/
def DataTable.KVStoreTileGroup_all (table : DataTable) : List Nat → Runtime → Option Unit × Runtime
  | [], rt => (some (), rt)
  | i :: rest, rt =>
    match table.KVStoreTileGroup rt i with
    | (none, rt1) => (none, rt1)
    | (some _, rt1) => DataTable.KVStoreTileGroup_all table rest rt1

/-- Embeds `DataTable::InsertTuple(tuple, transaction, index_entry_ptr, check_fk)` for a
tuple that is not the null pointer; the parameters are those of
`InsertTuple_location`, the transaction is not modelled.  A tuple whose leading value
is the integer `INT32_MAX - 1` is no insert but the request to store the tile groups of
the table column by column. -/
def DataTable.InsertTuple (table : DataTable) (rt : Runtime) (schema : TableConstraints)
    (index_count : Nat) (InsertInIndexes : Tuple → ItemPointer → Option ItemPointer)
    (CheckForeignKeyConstraints : Tuple → Bool) (tuple : Tuple) (check_fk : Bool) :
    Outcome ItemPointer × DataTable × Runtime :=
  let c0 := tuple.GetValue 0
  if c0.GetTypeId = type.TypeId.INTEGER ∧
      c0.CompareEquals (type.Value.data type.TypeId.INTEGER (2147483647 - 1)) =
        type.CmpBool.CmpTrue then
    match table.KVStoreTileGroup_all (List.range table.tile_group_count_) rt with
    | (none, rt1) => (Outcome.undefined, table, rt1)
    | (some _, rt1) => (Outcome.returned INVALID_ITEMPOINTER, table, rt1)
  else
    match table.GetEmptyTupleSlot rt (some tuple) with
    | (none, table1, rt1) => (Outcome.undefined, table1, rt1)
    | (some location, table1, rt1) =>
      if location.block = INVALID_OID then (Outcome.returned INVALID_ITEMPOINTER, table1, rt1)
      else
        match table1.InsertTuple_location schema index_count InsertInIndexes
            CheckForeignKeyConstraints tuple location check_fk with
        | (Outcome.returned false, table2) => (Outcome.returned INVALID_ITEMPOINTER, table2, rt1)
        | (Outcome.returned true, table2) => (Outcome.returned location, table2, rt1)
        | (Outcome.ConstraintException, table2) => (Outcome.ConstraintException, table2, rt1)
        | (Outcome.undefined, table2) => (Outcome.undefined, table2, rt1)

/-- The table of the example scenario right after its construction: one empty tile
group of capacity 4 with the columns `(id, val)`. -/
def example_fresh_table : DataTable × Runtime :=
  (DataTable.create executor.example_runtime 1 7 4 [[⟨5, 0, true, 4⟩, ⟨5, 4, true, 4⟩]]
    (fun c => (0, c)) 1).2

/-- Constraints of the example: the column `val` (column 1) is NOT NULL. -/
def example_constraints : TableConstraints :=
  { GetNotNullColumns := [1], AllowNull := fun column_id => decide (column_id ≠ 1) }

end storage

namespace executor

end executor

namespace storage

/-- Modelled from the spec: `Tile::GetAllocatedTupleCount`. -/
def Tile.GetAllocatedTupleCount (tile : Tile) : Nat := tile.num_tuple_slots

/-- Modelled from the spec: `Tile::GetBlock(tuple_count)` (`storage/tile.cpp` is not among
the sources) of a tile of the column store, which has one column: the values of the
first `tuple_count` tuple slots, which the source holds as strings. -/
def Tile.GetBlock (tile : Tile) (tuple_count : Nat) : List type.Value :=
  (List.range tuple_count).map (fun tuple_id => tile.GetValue tuple_id 0)

/-- The results of a list of steps, `none` as soon as one of them has no defined
result. -/
def collect {α : Type} : List (Option α) → Option (List α)
  | [] => some []
  | none :: _ => none
  | some x :: rest => (collect rest).map (fun xs => x :: xs)

/-- The entries of an ordered tree with the keys `(table_id, column_id, offset)` for the
tile group offsets from `tile_group_st` to `tile_group_ed`, both included, in the
order of the keys.  The keys are byte-comparable, so these are the entries between the
keys for `tile_group_st` and `tile_group_ed`. -/
def ordered_range (tree : List ((Nat × Nat × Nat) × Nat)) (table_id column_id : Nat)
    (tile_group_st tile_group_ed : Nat) : List Nat :=
  (List.range' tile_group_st (tile_group_ed + 1 - tile_group_st)).filterMap
    (fun tile_group_offset => map_find tree (table_id, column_id, tile_group_offset))

/-- The blocks of the tiles at a list of addresses, `none` when an address holds no
tile. -/
def Runtime.GetBlocks (rt : Runtime) (addresses : List Nat) : Option (List (List type.Value)) :=
  collect (addresses.map (fun address =>
    (rt.tiles address).map (fun vl => vl.GetBlock vl.GetAllocatedTupleCount)))

/-- Embeds `StorageManager::GetGoogleTreeKValues`: the blocks of the tiles from
`lower_bound` of the key for `tile_group_st` to `upper_bound` of the key for
`tile_group_ed`.  When `tile_group_ed` is below `tile_group_st` the iteration starts
behind its end: it has a result, the empty one, only if the tree has no key between the
two. -/
def Runtime.GetGoogleTreeKValues (rt : Runtime) (table_id column_id : Nat)
    (tile_group_st tile_group_ed : Nat) : Option (List (List type.Value)) :=
  if tile_group_st ≤ tile_group_ed then
    rt.GetBlocks (ordered_range rt.manager.column_google_tree_ table_id column_id
      tile_group_st tile_group_ed)
  else if ordered_range rt.manager.column_google_tree_ table_id column_id
      (tile_group_ed + 1) (tile_group_st - 1) = [] then some []
  else none

/-- Embeds `StorageManager::GetMassBtreeKValues`.  The range iterator of the third-party
tree (`ConcurrentMasstree::ScanIterator`) is not among the sources: `scan` gives the
addresses that it visits for a tree, a table, a column and the two tile group offsets,
in order.  `search` for a key that the tree does not hold gives the null pointer, which
is then dereferenced. -/
def Runtime.GetMassBtreeKValues (rt : Runtime)
    (scan : List ((Nat × Nat × Nat) × Nat) → Nat → Nat → Nat → Nat → List Nat)
    (table_id column_id : Nat) (tile_group_st tile_group_ed : Nat) :
    Option (List (List type.Value)) :=
  if tile_group_st = tile_group_ed then
    match map_find rt.manager.column_mass_tree_ (table_id, column_id, tile_group_st) with
    | some address => rt.GetBlocks [address]
    | none => none
  else
    rt.GetBlocks (scan rt.manager.column_mass_tree_ table_id column_id tile_group_st
      tile_group_ed)

end storage

namespace executor

/-- The reads `v[tp]` for `tp` from `first` up to, but without, `last`; `none` when one
of them is outside the vector. -/
def read_range {α : Type} (v : List α) (first last : Nat) : Option (List α) :=
  storage.collect ((List.range' first (last - first)).map (fun tp => v[tp]?))

/-- The body of the loop over the columns in the branch `visible_range_.size() > 0` of
`GetGoogleKValsAsStrings` and `GetMassKValsAsStrings`: the vector `column_tile` that is
built from the tiles `column_tiles_` of one column.  `tuple_id_st` and `tuple_id_ed` are
`oid_t`, the loop variables are `size_t`. -/
def LogicalTileKV.column_tile_in_range (t : LogicalTileKV) (tuple_id_st tuple_id_ed : Nat)
    (column_tiles_ : List (List type.Value)) : Option (List type.Value) :=
  let tile_count := column_tiles_.length
  let first : Option (List type.Value) :=
    if t.tile_group_st_ = t.tile_group_ed_ then
      if (tuple_id_st + 1) % OID_MOD < tuple_id_ed then
        (column_tiles_[0]?).bind (fun tile =>
          read_range tile ((tuple_id_st + 1) % OID_MOD) tuple_id_ed)
      else some []
    else
      (column_tiles_[0]?).bind (fun tile =>
        read_range tile ((tuple_id_st + 1) % OID_MOD) tile.length)
  let middle : Option (List type.Value) :=
    if tile_count = 0 then none
    else some ((column_tiles_.drop 1).take (tile_count - 1 - 1)).flatten
  let last : Option (List type.Value) :=
    if tile_count > 1 then
      (column_tiles_[tile_count - 1]?).bind (fun tile =>
        read_range tile 0 ((tuple_id_ed + 1) % OID_MOD))
    else some []
  first.bind (fun first => middle.bind (fun middle => last.bind (fun last =>
    some (first ++ middle ++ last))))

/-- The loop `project by partition` of the readers of the ordered trees: the row
`t` takes the element `t` of the vector of each column; `none` when a vector is too
short. -/
def LogicalTileKV.project_by_partition (t : LogicalTileKV) (columns_ : List (List type.Value)) :
    Option (List type.Value) :=
  (storage.collect ((List.range t.total_tuples_).map (fun row =>
    storage.collect ((List.range t.column_ids_.length).map (fun i =>
      (columns_[i]?).bind (fun column_tile => column_tile[row]?)))))).map List.flatten

/-- The text that `GetGoogleKValsAsStrings` and `GetMassKValsAsStrings` share, with the
call that gives the tiles of a column as `column_tiles`: the values that the reader
returns, `none` when it has no defined result (a read outside a vector, a null
pointer). -/
def LogicalTileKV.tree_rows (t : LogicalTileKV)
    (column_tiles : Nat → Option (List (List type.Value))) : Option (List type.Value) :=
  let columns_ : Option (List (List type.Value)) :=
    match t.visible_range_ with
    | [] =>
      storage.collect (t.column_ids_.map (fun column_id =>
        (column_tiles column_id).map List.flatten))
    | [_] => none
    | first :: second :: _ =>
      storage.collect (t.column_ids_.map (fun column_id =>
        (column_tiles column_id).bind (t.column_tile_in_range first.1 second.1)))
  columns_.bind t.project_by_partition

/-- Embeds `LogicalTile::GetGoogleKValsAsStrings`. -/
def LogicalTileKV.GetGoogleKValsAsStrings (t : LogicalTileKV) (rt : storage.Runtime) :
    Option (List type.Value) :=
  t.tree_rows (fun column_id =>
    rt.GetGoogleTreeKValues t.table_id_ column_id t.tile_group_st_ t.tile_group_ed_)

/-- Embeds `LogicalTile::GetMassKValsAsStrings`; `scan` is the range iterator of the
third-party tree. -/
def LogicalTileKV.GetMassKValsAsStrings (t : LogicalTileKV) (rt : storage.Runtime)
    (scan : List ((Nat × Nat × Nat) × Nat) → Nat → Nat → Nat → Nat → List Nat) :
    Option (List type.Value) :=
  t.tree_rows (fun column_id =>
    rt.GetMassBtreeKValues scan t.table_id_ column_id t.tile_group_st_ t.tile_group_ed_)

/-- The columns of one tile group in the readers of the hash maps: the blocks of the
tiles `GetTile(column_ids_[i])` of the tile group that `lookup` gives for the key of the
table and the offset; `none` for the null pointer. -/
def LogicalTileKV.tile_columns (t : LogicalTileKV) (rt : storage.Runtime)
    (lookup : Nat × Nat → storage.Location) (current_tile_group : Nat) :
    Option (List (List type.Value)) :=
  match lookup (t.table_id_, current_tile_group) with
  | storage.Location.found address =>
    (rt.tile_groups address).map (fun tile_group =>
      t.column_ids_.map (fun column_id =>
        (tile_group.GetTileReference column_id).GetBlock
          (tile_group.GetTileReference column_id).GetAllocatedTupleCount))
  | _ => none

/-- The loops `for tp … for c …` of the readers of the hash maps over the tuples from
`first` up to, but without, `last`, and the columns of `tile_columns`. -/
def rows_of_tile_columns (tile_columns : List (List type.Value)) (first last : Nat) :
    Option (List type.Value) :=
  (storage.collect ((List.range' first (last - first)).map (fun tp =>
    storage.collect (tile_columns.map (fun column => column[tp]?))))).map List.flatten

/-- The body of the loop `while (current_tile_group <= tile_group_ed_)` of the readers
of the hash maps: the values that one tile group adds to `rows`. -/
def LogicalTileKV.hash_rows_of_group (t : LogicalTileKV) (tuple_id_st tuple_id_ed : Nat)
    (tile_columns : List (List type.Value)) (current_tile_group : Nat) :
    Option (List type.Value) :=
  (tile_columns[0]?).bind (fun column0 =>
    if current_tile_group = t.tile_group_st_ ∧ current_tile_group = t.tile_group_ed_ then
      rows_of_tile_columns tile_columns tuple_id_st (min tuple_id_ed column0.length)
    else if current_tile_group = t.tile_group_st_ ∧ current_tile_group ≠ t.tile_group_ed_ then
      rows_of_tile_columns tile_columns tuple_id_st column0.length
    else if current_tile_group ≠ t.tile_group_st_ ∧ current_tile_group = t.tile_group_ed_ then
      rows_of_tile_columns tile_columns 0 (min tuple_id_ed column0.length)
    else rows_of_tile_columns tile_columns 0 column0.length)

/-- The text that `GetHopscotchKValuesAsStrings` and `GetCuckooKValuesAsStrings` share,
with the lookup of a tile group as `lookup`.  The loop variable is an `oid_t`: with
`tile_group_ed_` at its largest value the first loop does not end. -/
def LogicalTileKV.hash_rows (t : LogicalTileKV) (rt : storage.Runtime)
    (lookup : Nat × Nat → storage.Location) : Option (List type.Value) :=
  match t.visible_range_ with
  | [] =>
    (storage.collect ((List.range' t.tile_group_st_ (t.tile_group_ed_ - t.tile_group_st_)).map
      (fun current_tile_group =>
        (t.tile_columns rt lookup current_tile_group).bind (fun tile_columns =>
          (tile_columns[0]?).bind (fun column0 =>
            rows_of_tile_columns tile_columns 0 column0.length))))).map List.flatten
  | [_] => none
  | first :: second :: _ =>
    if t.tile_group_ed_ + 1 ≥ OID_MOD then none
    else
      (storage.collect
        ((List.range' t.tile_group_st_ (t.tile_group_ed_ + 1 - t.tile_group_st_)).map
          (fun current_tile_group =>
            (t.tile_columns rt lookup current_tile_group).bind (fun tile_columns =>
              t.hash_rows_of_group first.1 second.1 tile_columns current_tile_group)))).map
        List.flatten

/-- Embeds `LogicalTile::GetHopscotchKValuesAsStrings`. -/
def LogicalTileKV.GetHopscotchKValuesAsStrings (t : LogicalTileKV) (rt : storage.Runtime) :
    Option (List type.Value) :=
  t.hash_rows rt rt.manager.GetHopscotchKValue

/-- Embeds `LogicalTile::GetCuckooKValuesAsStrings`. -/
def LogicalTileKV.GetCuckooKValuesAsStrings (t : LogicalTileKV) (rt : storage.Runtime) :
    Option (List type.Value) :=
  t.hash_rows rt rt.manager.GetCuckooKValue

/-- A range iterator that visits the entries between the keys for `tile_group_st` and
`tile_group_ed`, both included, in the order of the keys. -/
def inclusive_scan (tree : List ((Nat × Nat × Nat) × Nat)) (table_id column_id : Nat)
    (tile_group_st tile_group_ed : Nat) : List Nat :=
  storage.ordered_range tree table_id column_id tile_group_st tile_group_ed

/-- The tile of the example column store for a column and a tile group offset: 4 tuple
slots, the slot `r` of which holds the value of the row `4 * offset + r`, which is the
row number in the column 0 and 100 more in the column 1. -/
def example_column_tile (column_id tile_group_offset : Nat) : storage.Tile :=
  ⟨100 + 10 * tile_group_offset + column_id, [⟨5, 0, true, 4⟩], 4,
    fun r _ => type.Value.data 5 ((100 * column_id + 4 * tile_group_offset + r : Nat) : Int)⟩

/-- The example column store: the table 7 with the columns 0 and 1 and the rows
`0, …, 11` in three tile groups of capacity 4, stored in the two ordered trees (one
tile for each column and tile group) and in the two hash maps (one tile group with a
tile for each column for each offset). -/
def example_column_store : storage.Runtime :=
  { manager :=
      { column_google_tree_ :=
          [((7, 0, 0), 100), ((7, 1, 0), 101), ((7, 0, 1), 110), ((7, 1, 1), 111),
           ((7, 0, 2), 120), ((7, 1, 2), 121)]
        column_mass_tree_ :=
          [((7, 0, 0), 100), ((7, 1, 0), 101), ((7, 0, 1), 110), ((7, 1, 1), 111),
           ((7, 0, 2), 120), ((7, 1, 2), 121)]
        tuples_hopscotch_map_ := [((7, 0), 200), ((7, 1), 201), ((7, 2), 202)]
        tuples_cuckoo_map_ := [((7, 0), 200), ((7, 1), 201), ((7, 2), 202)] }
    tiles := fun a =>
      if 100 ≤ a ∧ a < 130 ∧ a % 10 < 2 then
        some (example_column_tile (a % 10) ((a - 100) / 10))
      else none
    tile_groups := fun a =>
      if 200 ≤ a ∧ a < 203 then
        some ⟨a - 199, [example_column_tile 0 (a - 200), example_column_tile 1 (a - 200)], 4,
          fun c => (c, 0)⟩
      else none
    next_address := 203 }

/-- The tile that the column-store scan emits for the bounds `low < id < high` on the
example column store, with the requested columns `column_ids`. -/
def example_range_tile (low high : Nat) (column_ids : List Nat) : LogicalTileKV :=
  { toLogicalTile := { LogicalTile.fresh with total_tuples_ := high - low - 1 }
    column_ids_ := column_ids, table_id_ := 7,
    visible_range_ := [(low % 4, low / 4), (high % 4, high / 4)],
    tile_group_st_ := low / 4, tile_group_ed_ := high / 4 }

end executor
end peloton

/-! ## Theorems -/

namespace peloton
namespace executor

/-- Clearing a set bit of a bit vector lowers the number of set bits by one. -/
theorem count_set_false (l : List Bool) (r : Nat) (h : l.getD r false = true) :
    (l.set r false).count true + 1 = l.count true := by
  induction l generalizing r with
  | nil => simp at h
  | cons b bs ih =>
    cases r with
    | zero =>
      simp at h
      subst h
      simp
    | succ k =>
      have hk : bs.getD k false = true := by simpa using h
      have := ih k hk
      cases b <;> simp [List.count_cons] <;> omega

theorem LogicalTile.inv_fresh : LogicalTile.fresh.Inv := by
  simp [LogicalTile.Inv, LogicalTile.fresh, OID_MOD]

/-- Embeds `AddPositionList` on a tile without position lists. -/
theorem LogicalTile.AddPositionList_first (t : LogicalTile) (pl : PositionList)
    (h : t.position_lists_ = []) :
    t.AddPositionList pl = (some 0,
      { t with
          visible_tuples_ := pl.length % OID_MOD
          visible_rows_ := vector_resize t.visible_rows_ pl.length true
          total_tuples_ := pl.length % OID_MOD
          position_lists_ := [pl] }) := by
  unfold LogicalTile.AddPositionList PELOTON_ASSERT
  simp [h]

/-- Embeds `AddPositionList` of a list as long as the first one. -/
theorem LogicalTile.AddPositionList_next (t : LogicalTile) (pl : PositionList)
    (h : t.position_lists_ ≠ []) (hl : (t.position_lists_.getD 0 []).length = pl.length) :
    t.AddPositionList pl = (some t.position_lists_.length,
      { t with position_lists_ := t.position_lists_ ++ [pl] }) := by
  have hne : ¬ t.position_lists_.length = 0 := by
    simpa [List.length_eq_zero] using h
  unfold LogicalTile.AddPositionList PELOTON_ASSERT
  rw [if_pos (Or.inr hl)]
  simp only [if_neg hne, List.length_append, List.length_singleton, Nat.add_sub_cancel]

/-- Embeds `AddPositionList` of a list whose length differs from that of the first one. -/
theorem LogicalTile.AddPositionList_mismatch (t : LogicalTile) (pl : PositionList)
    (h : t.position_lists_ ≠ []) (hl : (t.position_lists_.getD 0 []).length ≠ pl.length) :
    t.AddPositionList pl = (none, t) := by
  have hne : ¬ t.position_lists_.length = 0 := by
    simpa [List.length_eq_zero] using h
  unfold LogicalTile.AddPositionList PELOTON_ASSERT
  rw [if_neg (by rintro (h0 | h1); exact hne h0; exact hl h1)]

/-- Embeds `RemoveVisibility` of a visible row below `total_tuples_`. -/
theorem LogicalTile.RemoveVisibility_ok (t : LogicalTile) (r : Nat)
    (hr : r < t.total_tuples_) (hv : t.visible_rows_.getD r false = true) :
    t.RemoveVisibility r = (some (),
      { t with
          visible_rows_ := t.visible_rows_.set r false
          visible_tuples_ := (t.visible_tuples_ + OID_MOD - 1) % OID_MOD }) := by
  unfold LogicalTile.RemoveVisibility PELOTON_ASSERT
  rw [if_pos hr, if_pos hv]

/-- Embeds `RemoveVisibility` of a row that is out of range or not visible. -/
theorem LogicalTile.RemoveVisibility_fail (t : LogicalTile) (r : Nat)
    (h : ¬ (r < t.total_tuples_ ∧ t.visible_rows_.getD r false = true)) :
    t.RemoveVisibility r = (none, t) := by
  unfold LogicalTile.RemoveVisibility PELOTON_ASSERT
  by_cases hr : r < t.total_tuples_
  · have hv : ¬ t.visible_rows_.getD r false = true := fun hv => h ⟨hr, hv⟩
    rw [if_pos hr, if_neg hv]
  · rw [if_neg hr]

theorem LogicalTile.inv_AddPositionList (t : LogicalTile) (pl : PositionList)
    (hfit : pl.length < OID_MOD) (h : t.Inv) : (t.AddPositionList pl).2.Inv := by
  obtain ⟨h1, h2, h3, h4⟩ := h
  by_cases he : t.position_lists_ = []
  · rw [LogicalTile.AddPositionList_first t pl he]
    have hv := h4 he
    simp [hv, LogicalTile.Inv, vector_resize, Nat.mod_eq_of_lt hfit, hfit]
  · by_cases hl : (t.position_lists_.getD 0 []).length = pl.length
    · rw [LogicalTile.AddPositionList_next t pl he hl]
      exact ⟨h1, h2, h3, by simp⟩
    · rw [LogicalTile.AddPositionList_mismatch t pl he hl]
      exact ⟨h1, h2, h3, h4⟩

theorem LogicalTile.inv_RemoveVisibility (t : LogicalTile) (r : Nat) (h : t.Inv) :
    (t.RemoveVisibility r).2.Inv := by
  by_cases hc : r < t.total_tuples_ ∧ t.visible_rows_.getD r false = true
  · obtain ⟨h1, h2, h3, h4⟩ := h
    obtain ⟨hr, hv⟩ := hc
    rw [LogicalTile.RemoveVisibility_ok t r hr hv]
    have hc := count_set_false t.visible_rows_ r hv
    have hle : t.visible_rows_.count true ≤ t.visible_rows_.length :=
      List.count_le_length true t.visible_rows_
    have hmod : (t.visible_tuples_ + OID_MOD - 1) % OID_MOD = t.visible_tuples_ - 1 := by
      have hpos : 1 ≤ t.visible_tuples_ := by omega
      have : t.visible_tuples_ + OID_MOD - 1 = (t.visible_tuples_ - 1) + OID_MOD := by omega
      rw [this, Nat.add_mod_right]
      exact Nat.mod_eq_of_lt (by omega)
    refine ⟨?_, ?_, h3, ?_⟩
    · show (t.visible_tuples_ + OID_MOD - 1) % OID_MOD = (t.visible_rows_.set r false).count true
      rw [hmod]
      omega
    · show (t.visible_rows_.set r false).length = t.total_tuples_
      rw [List.length_set]
      exact h2
    · intro hp
      have hnil := h4 hp
      rw [hnil] at hv
      simp at hv
  · rw [LogicalTile.RemoveVisibility_fail t r hc]
    exact h

theorem LogicalTile.inv_run (calls : List TileCall) :
    ∀ (t t1 : LogicalTile), t.Inv → TileCall.listsFit calls → t.run calls = some t1 → t1.Inv := by
  induction calls with
  | nil =>
    intro t t1 h _ hrun
    simp [LogicalTile.run] at hrun
    subst hrun
    exact h
  | cons c rest ih =>
    intro t t1 h hfit hrun
    cases c with
    | addPositionList pl =>
      have hi := LogicalTile.inv_AddPositionList t pl hfit.1 h
      simp only [LogicalTile.run] at hrun
      rcases hres : t.AddPositionList pl with ⟨res, t2⟩
      rw [hres] at hrun hi
      cases res with
      | none => simp at hrun
      | some v => exact ih t2 t1 hi hfit.2 hrun
    | removeVisibility r =>
      have hi := LogicalTile.inv_RemoveVisibility t r h
      simp only [LogicalTile.run] at hrun
      rcases hres : t.RemoveVisibility r with ⟨res, t2⟩
      rw [hres] at hrun hi
      cases res with
      | none => simp at hrun
      | some v => exact ih t2 t1 hi hfit hrun

/-- C1: on a tile built from a fresh tile by successful `AddPositionList` calls (whose
lists have a length an `oid_t` can hold) and successful `RemoveVisibility` calls, in any
order, `GetTupleCount()` is the number of true entries of `visible_rows_`, and so it is
at most `total_tuples_`. -/
theorem C1_visible_count_is_popcount (calls : List TileCall) (t : LogicalTile)
    (hfit : TileCall.listsFit calls) (hrun : LogicalTile.fresh.run calls = some t) :
    t.GetTupleCount = t.visible_rows_.count true ∧ t.GetTupleCount ≤ t.total_tuples_ := by
  obtain ⟨h1, h2, _, _⟩ := LogicalTile.inv_run calls LogicalTile.fresh t LogicalTile.inv_fresh hfit hrun
  refine ⟨h1, ?_⟩
  have hle : t.visible_rows_.count true ≤ t.visible_rows_.length :=
    List.count_le_length true t.visible_rows_
  unfold LogicalTile.GetTupleCount
  omega

theorem C1_visible_count_is_popcount_witness :
    TileCall.listsFit [TileCall.addPositionList [10, 11, 12, 13, 14],
        TileCall.removeVisibility 1, TileCall.removeVisibility 3] ∧
    LogicalTile.GetTupleCount
        ⟨[], [[10, 11, 12, 13, 14]], [true, false, true, false, true], 5, 3⟩ =
      List.count true [true, false, true, false, true] ∧
    LogicalTile.GetTupleCount
        ⟨[], [[10, 11, 12, 13, 14]], [true, false, true, false, true], 5, 3⟩ ≤ 5 :=
  ⟨⟨by decide, trivial⟩,
   C1_visible_count_is_popcount
     [TileCall.addPositionList [10, 11, 12, 13, 14],
        TileCall.removeVisibility 1, TileCall.removeVisibility 3]
     ⟨[], [[10, 11, 12, 13, 14]], [true, false, true, false, true], 5, 3⟩
     ⟨by decide, trivial⟩ rfl⟩

theorem LogicalTile.visibleIds_eq (t : LogicalTile) : t.visibleIds = t.visibleIdsFrom 0 := by
  simp [LogicalTile.visibleIds, LogicalTile.visibleIdsFrom, List.range_eq_range']

theorem LogicalTile.visibleIdsFrom_total (t : LogicalTile) (p : Nat) (h : t.total_tuples_ ≤ p) :
    t.visibleIdsFrom p = [] := by
  have : t.total_tuples_ - p = 0 := by omega
  simp [LogicalTile.visibleIdsFrom, this]

theorem LogicalTile.visibleIdsFrom_step (t : LogicalTile) (p : Nat) (h : p < t.total_tuples_) :
    t.visibleIdsFrom p =
      if t.visible_rows_.getD p false = true then p :: t.visibleIdsFrom (p + 1)
      else t.visibleIdsFrom (p + 1) := by
  have hs : t.total_tuples_ - p = (t.total_tuples_ - (p + 1)) + 1 := by omega
  unfold LogicalTile.visibleIdsFrom
  rw [hs, List.range'_succ, List.filter_cons]

/-- What the loop over invisible rows computes: it stops at the first position from
`pos` on that is visible or equal to `total_tuples_`. -/
theorem LogicalTile.findVisibleAux_spec (t : LogicalTile) :
    ∀ (fuel pos : Nat), t.total_tuples_ - pos ≤ fuel → pos ≤ t.total_tuples_ →
      pos ≤ t.findVisibleAux fuel pos ∧ t.findVisibleAux fuel pos ≤ t.total_tuples_ ∧
      (t.findVisibleAux fuel pos < t.total_tuples_ →
        t.visible_rows_.getD (t.findVisibleAux fuel pos) false = true) ∧
      t.visibleIdsFrom pos = t.visibleIdsFrom (t.findVisibleAux fuel pos) := by
  intro fuel
  induction fuel with
  | zero =>
    intro pos hf hp
    have : pos = t.total_tuples_ := by omega
    simp [LogicalTile.findVisibleAux, this]
  | succ n ih =>
    intro pos hf hp
    unfold LogicalTile.findVisibleAux
    by_cases hc : pos < t.total_tuples_ ∧ t.visible_rows_.getD pos false = false
    · rw [if_pos hc]
      obtain ⟨h1, h2, h3, h4⟩ := ih (pos + 1) (by omega) (by omega)
      refine ⟨by omega, h2, h3, ?_⟩
      rw [LogicalTile.visibleIdsFrom_step t pos hc.1, ← h4]
      simp only [hc.2, Bool.false_eq_true, if_false]
    · rw [if_neg hc]
      refine ⟨le_refl _, hp, ?_, rfl⟩
      intro hlt
      by_contra hv
      exact hc ⟨hlt, by simpa using hv⟩

theorem LogicalTile.findVisible_spec (t : LogicalTile) (pos : Nat) (hp : pos ≤ t.total_tuples_) :
    pos ≤ t.findVisible pos ∧ t.findVisible pos ≤ t.total_tuples_ ∧
      (t.findVisible pos < t.total_tuples_ →
        t.visible_rows_.getD (t.findVisible pos) false = true) ∧
      t.visibleIdsFrom pos = t.visibleIdsFrom (t.findVisible pos) :=
  LogicalTile.findVisibleAux_spec t (t.total_tuples_ - pos) pos (le_refl _) hp

theorem LogicalTile.traverseFrom_spec (t : LogicalTile) (hty : t.total_tuples_ < OID_MOD) :
    ∀ (n p fuel : Nat), t.total_tuples_ - p ≤ n → p ≤ t.total_tuples_ → n ≤ fuel →
      t.traverseFrom fuel (t.settle (t.findVisible p)) = some (t.visibleIdsFrom p) := by
  intro n
  induction n with
  | zero =>
    intro p fuel hn hp _
    have hpe : p = t.total_tuples_ := by omega
    obtain ⟨h1, h2, _, _⟩ := t.findVisible_spec p hp
    have hq : t.findVisible p = t.total_tuples_ := by omega
    rw [t.visibleIdsFrom_total p (by omega)]
    simp only [LogicalTile.settle, hq, if_true]
    cases fuel <;> simp [LogicalTile.traverseFrom, LogicalTile.end_, LogicalTile.iterator]
  | succ n ih =>
    intro p fuel hn hp hfuel
    obtain ⟨h1, h2, h3, h4⟩ := t.findVisible_spec p hp
    by_cases hq : t.findVisible p = t.total_tuples_
    · rw [h4, hq, t.visibleIdsFrom_total _ (le_refl _)]
      simp only [LogicalTile.settle, if_true]
      cases fuel <;> simp [LogicalTile.traverseFrom, LogicalTile.end_, LogicalTile.iterator]
    · have hlt : t.findVisible p < t.total_tuples_ := by omega
      have hvis := h3 hlt
      have hne : t.findVisible p ≠ t.end_ := by
        simp only [LogicalTile.end_, LogicalTile.iterator, if_true, INVALID_OID]
        omega
      obtain ⟨f, rfl⟩ : ∃ f, fuel = f + 1 := ⟨fuel - 1, by omega⟩
      simp only [LogicalTile.settle, if_neg hq]
      rw [LogicalTile.traverseFrom, if_neg hne]
      have hnext : t.next (t.findVisible p) = t.settle (t.findVisible (t.findVisible p + 1)) := by
        unfold LogicalTile.next LogicalTile.settle
        rw [Nat.mod_eq_of_lt (by omega)]
      rw [hnext, ih (t.findVisible p + 1) f (by omega) (by omega) (by omega)]
      rw [h4, t.visibleIdsFrom_step _ hlt, if_pos hvis]
      rfl

/-- C2: on every tile whose `total_tuples_` is an `oid_t`, a traversal from `begin()`
with `operator++` reaches `end()` (any fuel of at least `total_tuples_` increments is
enough) and yields `visibleIds`: exactly the row ids `i < total_tuples_` with
`visible_rows_[i] == true`, strictly ascending and so each once; the result is a
function of the tile alone, so every further traversal of the unchanged tile yields the
same sequence. -/
theorem C2_traversal_yields_visible_rows (t : LogicalTile) (hty : t.total_tuples_ < OID_MOD)
    (fuel : Nat) (hfuel : t.total_tuples_ ≤ fuel) :
    t.traverse fuel = some t.visibleIds ∧
    (∀ i, i ∈ t.visibleIds ↔ i < t.total_tuples_ ∧ t.visible_rows_.getD i false = true) ∧
    t.visibleIds.Pairwise (fun a b => a < b) ∧
    (∀ fuel2, t.total_tuples_ ≤ fuel2 → t.traverse fuel2 = t.traverse fuel) := by
  have hbegin : t.begin = t.settle (t.findVisible 0) := by
    simp [LogicalTile.begin, LogicalTile.iterator, LogicalTile.settle]
  have htrav : ∀ f, t.total_tuples_ ≤ f → t.traverse f = some t.visibleIds := by
    intro f hf
    unfold LogicalTile.traverse
    rw [hbegin, t.visibleIds_eq]
    exact LogicalTile.traverseFrom_spec t hty t.total_tuples_ 0 f (by omega) (by omega) hf
  refine ⟨htrav fuel hfuel, ?_, ?_, ?_⟩
  · intro i
    simp [LogicalTile.visibleIds, List.mem_filter, List.mem_range]
  · unfold LogicalTile.visibleIds
    exact List.Pairwise.filter _ (List.pairwise_lt_range _)
  · intro fuel2 h2
    rw [htrav fuel2 h2, htrav fuel hfuel]

theorem C2_traversal_yields_visible_rows_witness :
    (5 : Nat) < OID_MOD ∧
    LogicalTile.traverse ⟨[], [[7, 8, 9, 10, 11]], [true, false, true, false, true], 5, 3⟩ 5 =
      some [0, 2, 4] :=
  ⟨by decide,
   (C2_traversal_yields_visible_rows
     ⟨[], [[7, 8, 9, 10, 11]], [true, false, true, false, true], 5, 3⟩ (by decide) 5
     (by decide)).1⟩

/-- C5: when the tile already holds a position list, `AddPositionList` with a list of
another length than the first registered one is rejected, and the tile (its position
lists, `total_tuples_`, `visible_rows_`, `visible_tuples_` and schema) is exactly as it
was before the call. -/
theorem C5_add_position_list_mismatch_rejected (t : LogicalTile) (first : PositionList)
    (others : List PositionList) (pl : PositionList)
    (hlists : t.position_lists_ = first :: others) (hlen : pl.length ≠ first.length) :
    (t.AddPositionList pl).1 = none ∧ (t.AddPositionList pl).2 = t := by
  have hne : t.position_lists_ ≠ [] := by simp [hlists]
  have hl : (t.position_lists_.getD 0 []).length ≠ pl.length := by
    rw [hlists]
    intro h
    exact hlen h.symm
  rw [LogicalTile.AddPositionList_mismatch t pl hne hl]
  exact ⟨rfl, rfl⟩

theorem C5_add_position_list_mismatch_rejected_witness :
    (LogicalTile.AddPositionList ⟨[], [[4, 5, 6]], [true, false, true], 3, 2⟩ [1, 2]).1 = none ∧
    (LogicalTile.AddPositionList ⟨[], [[4, 5, 6]], [true, false, true], 3, 2⟩ [1, 2]).2 =
      ⟨[], [[4, 5, 6]], [true, false, true], 3, 2⟩ :=
  C5_add_position_list_mismatch_rejected
    ⟨[], [[4, 5, 6]], [true, false, true], 3, 2⟩ [4, 5, 6] [] [1, 2] rfl (by decide)

/-- C6: for a row `r < total_tuples_` that is visible, on a tile whose counter is the
cached number of visible rows (and an `oid_t`), `RemoveVisibility(r)` succeeds, sets
`visible_rows_[r]` to false, lowers `visible_tuples_` by exactly one, and leaves the
visibility of every other row, the length of the bit vector, the position lists, the
schema and `total_tuples_` unchanged. -/
theorem C6_remove_visibility_effect (t : LogicalTile) (r : Nat)
    (hr : r < t.total_tuples_) (hv : t.visible_rows_.getD r false = true)
    (hcount : t.visible_tuples_ = t.visible_rows_.count true)
    (hty : t.visible_tuples_ < OID_MOD) :
    (t.RemoveVisibility r).1 = some () ∧
    (t.RemoveVisibility r).2.visible_rows_.getD r true = false ∧
    (t.RemoveVisibility r).2.visible_tuples_ + 1 = t.visible_tuples_ ∧
    (∀ i, i ≠ r →
      (t.RemoveVisibility r).2.visible_rows_[i]? = t.visible_rows_[i]?) ∧
    (t.RemoveVisibility r).2.visible_rows_.length = t.visible_rows_.length ∧
    (t.RemoveVisibility r).2.position_lists_ = t.position_lists_ ∧
    (t.RemoveVisibility r).2.schema_ = t.schema_ ∧
    (t.RemoveVisibility r).2.total_tuples_ = t.total_tuples_ := by
  have hc := count_set_false t.visible_rows_ r hv
  have hlen : r < t.visible_rows_.length := by
    by_contra hge
    rw [List.getD_eq_default _ _ (by omega)] at hv
    exact Bool.false_ne_true hv
  rw [LogicalTile.RemoveVisibility_ok t r hr hv]
  refine ⟨rfl, ?_, ?_, ?_, ?_, rfl, rfl, rfl⟩
  · show (t.visible_rows_.set r false).getD r true = false
    simp [List.getD_eq_getElem?_getD, hlen]
  · show (t.visible_tuples_ + OID_MOD - 1) % OID_MOD + 1 = t.visible_tuples_
    have hpos : 1 ≤ t.visible_tuples_ := by omega
    have : t.visible_tuples_ + OID_MOD - 1 = (t.visible_tuples_ - 1) + OID_MOD := by omega
    rw [this, Nat.add_mod_right, Nat.mod_eq_of_lt (by omega)]
    omega
  · intro i hi
    show (t.visible_rows_.set r false)[i]? = t.visible_rows_[i]?
    rw [List.getElem?_set_ne (Ne.symm hi)]
  · show (t.visible_rows_.set r false).length = t.visible_rows_.length
    rw [List.length_set]

theorem C6_remove_visibility_effect_witness :
    (LogicalTile.RemoveVisibility
        ⟨[], [[4, 5, 6]], [true, true, true], 3, 3⟩ 1).2.visible_rows_ = [true, false, true] ∧
    (LogicalTile.RemoveVisibility
        ⟨[], [[4, 5, 6]], [true, true, true], 3, 3⟩ 1).2.visible_tuples_ + 1 = 3 :=
  ⟨rfl, (C6_remove_visibility_effect ⟨[], [[4, 5, 6]], [true, true, true], 3, 3⟩ 1
    (by decide) (by decide) (by decide) (by decide)).2.2.1⟩

/-- C7: `RemoveVisibility(r)` on a row that is not visible, or with
`r >= total_tuples_`, fails on its assertion and leaves the tile, in particular
`visible_rows_` and `visible_tuples_`, as it was: the counter is not lowered again. -/
theorem C7_remove_visibility_contract_error (t : LogicalTile) (r : Nat)
    (h : t.total_tuples_ ≤ r ∨ t.visible_rows_.getD r false = false) :
    (t.RemoveVisibility r).1 = none ∧ (t.RemoveVisibility r).2 = t ∧
    (t.RemoveVisibility r).2.visible_rows_ = t.visible_rows_ ∧
    (t.RemoveVisibility r).2.visible_tuples_ = t.visible_tuples_ := by
  have hn : ¬ (r < t.total_tuples_ ∧ t.visible_rows_.getD r false = true) := by
    rintro ⟨h1, h2⟩
    rcases h with h | h
    · omega
    · rw [h] at h2
      exact Bool.false_ne_true h2
  rw [LogicalTile.RemoveVisibility_fail t r hn]
  exact ⟨rfl, rfl, rfl, rfl⟩

theorem C7_remove_visibility_contract_error_witness :
    (LogicalTile.RemoveVisibility ⟨[], [[4, 5, 6]], [true, false, true], 3, 2⟩ 1).1 = none ∧
    (LogicalTile.RemoveVisibility ⟨[], [[4, 5, 6]], [true, false, true], 3, 2⟩ 1).2.visible_tuples_
      = 2 :=
  ⟨(C7_remove_visibility_contract_error ⟨[], [[4, 5, 6]], [true, false, true], 3, 2⟩ 1
      (Or.inr (by decide))).1,
   (C7_remove_visibility_contract_error ⟨[], [[4, 5, 6]], [true, false, true], 3, 2⟩ 1
      (Or.inr (by decide))).2.2.2⟩

/-- C8 (evaluation of the code): in `example_null_tile` the only column of the logical
tile is column 1 of its base tile, whose columns have the types 5 and 10, and the only
row has the sentinel `NULL_OID` in the position list.  `GetValue(0, 0)` is the null
value of type 5, the type of column 0 of the base tile (the logical column id indexes
the schema of the base tile), while the origin column has type 10, which is the type
of the null value that `GetAllValuesAsStrings` reads for the same cell. -/
theorem C8_null_type_taken_at_logical_column_id :
    example_null_tile.GetValue 0 0 = some (type.Value.null 5) ∧
    example_null_tile.GetAllValuesAsStrings_value 0 0 = type.Value.null 10 ∧
    (example_null_tile.GetColumnInfo 0).base_tile.schema.GetType
      (example_null_tile.GetColumnInfo 0).origin_column_id = 10 := by
  refine ⟨?_, ?_, ?_⟩ <;> decide

/-- C9 (evaluation of the code): in `example_projection_tile` the schema entries `A`
(origin column 10) and `B` (origin column 11) describe the columns `[1, 0]`, in this
order.  `ProjectColumns([1, 0], [1])` succeeds and leaves `schema_[1]`, which is `B`,
while the entry at the position of the id 1 in `[1, 0]`, position 0, is `A`. -/
theorem C9_project_indexes_schema_by_id :
    (example_projection_tile.ProjectColumns [1, 0] [1]).1 = some () ∧
    ((example_projection_tile.ProjectColumns [1, 0] [1]).2.schema_.map
      (fun cp => cp.origin_column_id)) = [11] ∧
    (example_projection_tile.GetColumnInfo (List.indexOf 1 [1, 0])).origin_column_id = 10 := by
  refine ⟨?_, ?_, ?_⟩ <;> decide

/-! ### The two copy strategies -/

theorem SetValueFast_comm (d : storage.Tile) (v1 v2 : type.Value) (k1 k2 o1 o2 : Nat)
    (i1 i2 : Bool) (l1 l2 : Nat) (h : k1 ≠ k2) :
    (d.SetValueFast v1 k1 o1 i1 l1).SetValueFast v2 k2 o2 i2 l2 =
      (d.SetValueFast v2 k2 o2 i2 l2).SetValueFast v1 k1 o1 i1 l1 := by
  unfold storage.Tile.SetValueFast
  simp only [storage.Tile.mk.injEq, true_and]
  funext t o
  by_cases h1 : t = k1 ∧ o = o1
  · have h2 : ¬ (t = k2 ∧ o = o2) := by
      rintro ⟨h2, _⟩
      exact h (h1.1.symm.trans h2)
    rw [if_neg h2, if_pos h1, if_pos h1]
  · by_cases h2 : t = k2 ∧ o = o2
    · rw [if_pos h2, if_pos h2, if_neg h1]
    · rw [if_neg h2, if_neg h1, if_neg h1, if_neg h2]

theorem LogicalTile.copyField_comm (t : LogicalTile) (c1 c2 : ColumnCopy) (r1 r2 n1 n2 : Nat)
    (d : storage.Tile) (h : n1 ≠ n2) :
    t.copyField c1 r1 n1 (t.copyField c2 r2 n2 d) =
      t.copyField c2 r2 n2 (t.copyField c1 r1 n1 d) := by
  unfold LogicalTile.copyField
  exact SetValueFast_comm d _ _ n2 n1 _ _ _ _ _ _ (Ne.symm h)

theorem LogicalTile.copyField_schema (t : LogicalTile) (c : ColumnCopy) (r n : Nat)
    (d : storage.Tile) : (t.copyField c r n d).schema = d.schema := rfl

theorem LogicalTile.columnAtATime_tuples_schema (t : LogicalTile) (c : ColumnCopy) :
    ∀ (rs : List Nat) (n : Nat) (d : storage.Tile),
      (t.columnAtATime_tuples c rs n d).schema = d.schema := by
  intro rs
  induction rs with
  | nil => intro n d; rfl
  | cons r rs ih =>
    intro n d
    rw [LogicalTile.columnAtATime_tuples, ih, LogicalTile.copyField_schema]

/-- A pass over the tuples for one column, which writes the rows from `m` on, commutes
with the copy of a field to an earlier row `n`. -/
theorem LogicalTile.columnAtATime_tuples_comm (t : LogicalTile) (c c2 : ColumnCopy) (r n : Nat) :
    ∀ (rs : List Nat) (m : Nat) (d : storage.Tile),
      (rs ≠ [] → n < m ∧ m + rs.length ≤ OID_MOD) →
      t.columnAtATime_tuples c rs m (t.copyField c2 r n d) =
        t.copyField c2 r n (t.columnAtATime_tuples c rs m d) := by
  intro rs
  induction rs with
  | nil => intro m d _; rfl
  | cons r1 rs ih =>
    intro m d h
    obtain ⟨hnm, hlen⟩ := h (by simp)
    simp only [List.length_cons] at hlen
    rw [LogicalTile.columnAtATime_tuples, LogicalTile.columnAtATime_tuples,
      t.copyField_comm c c2 r1 r m n d (by omega)]
    apply ih
    intro hne
    have hpos : 0 < rs.length := List.length_pos.mpr hne
    rw [Nat.mod_eq_of_lt (by omega)]
    omega

theorem foldl_const_id {σ γ : Type} (cs : List γ) (d : σ) :
    cs.foldl (fun d _ => d) d = d := by
  induction cs with
  | nil => rfl
  | cons c cs ih => simp

theorem foldl_comm_step {σ γ : Type} (A B : γ → σ → σ)
    (h : ∀ c c2 d, A c (B c2 d) = B c2 (A c d)) (c : γ) :
    ∀ (cs : List γ) (d : σ),
      cs.foldl (fun d c => B c d) (A c d) = A c (cs.foldl (fun d c => B c d) d) := by
  intro cs
  induction cs with
  | nil => intro d; rfl
  | cons c1 cs ih =>
    intro d
    simp only [List.foldl_cons]
    rw [← h c c1 d, ih]

/-- A loop whose body is two steps that commute across iterations is the first step for
all iterations followed by the second step for all iterations. -/
theorem foldl_comp_comm {σ γ : Type} (A B : γ → σ → σ)
    (h : ∀ c c2 d, A c (B c2 d) = B c2 (A c d)) :
    ∀ (cs : List γ) (d : σ),
      cs.foldl (fun d c => A c (B c d)) d =
        cs.foldl (fun d c => A c d) (cs.foldl (fun d c => B c d) d) := by
  intro cs
  induction cs with
  | nil => intro d; rfl
  | cons c cs ih =>
    intro d
    simp only [List.foldl_cons]
    rw [ih, foldl_comm_step A B h c cs (B c d)]

theorem LogicalTile.rowAtATime_columns_eq (t : LogicalTile) (r n : Nat) :
    ∀ (cs : List ColumnCopy) (d : storage.Tile),
      t.rowAtATime_columns r n cs d = cs.foldl (fun d c => t.copyField c r n d) d := by
  intro cs
  induction cs with
  | nil => intro d; rfl
  | cons c cs ih =>
    intro d
    rw [LogicalTile.rowAtATime_columns, ih, List.foldl_cons]

/-- Loop interchange: the tuple-major copy of a list of columns is the column-major
copy, as long as the new tuple ids do not wrap around. -/
theorem LogicalTile.rowAtATime_tuples_eq (t : LogicalTile) (cs : List ColumnCopy) :
    ∀ (rs : List Nat) (n : Nat) (d : storage.Tile), n + rs.length ≤ OID_MOD →
      t.rowAtATime_tuples cs rs n d =
        cs.foldl (fun d c => t.columnAtATime_tuples c rs n d) d := by
  intro rs
  induction rs with
  | nil =>
    intro n d _
    simp only [LogicalTile.rowAtATime_tuples, LogicalTile.columnAtATime_tuples]
    exact (foldl_const_id cs d).symm
  | cons r rs ih =>
    intro n d hlen
    simp only [List.length_cons] at hlen
    have hM : 0 < OID_MOD := by decide
    have hnext : (n + 1) % OID_MOD + rs.length ≤ OID_MOD := by
      rcases Nat.eq_zero_or_pos rs.length with h0 | hpos
      · have := Nat.mod_lt (n + 1) hM
        omega
      · rw [Nat.mod_eq_of_lt (by omega)]
        omega
    rw [LogicalTile.rowAtATime_tuples, ih _ _ hnext, LogicalTile.rowAtATime_columns_eq]
    simp only [LogicalTile.columnAtATime_tuples]
    symm
    apply foldl_comp_comm (fun c d => t.columnAtATime_tuples c rs ((n + 1) % OID_MOD) d)
      (fun c d => t.copyField c r n d)
    intro c c2 d2
    apply LogicalTile.columnAtATime_tuples_comm
    intro hne
    have hpos : 0 < rs.length := List.length_pos.mpr hne
    rw [Nat.mod_eq_of_lt (by omega)]
    omega

theorem LogicalTile.lookupColumn_schema (t : LogicalTile) (m : List (Nat × Nat))
    (d d2 : storage.Tile) (h : d.schema = d2.schema) (col : Nat) :
    t.lookupColumn m d col = t.lookupColumn m d2 col := by
  unfold LogicalTile.lookupColumn
  rw [h]

theorem LogicalTile.amortize_schema (t : LogicalTile) (m : List (Nat × Nat))
    (d d2 : storage.Tile) (h : d.schema = d2.schema) (cols : List Nat) :
    t.amortize m d cols = t.amortize m d2 cols := by
  induction cols with
  | nil => rfl
  | cons col cols ih =>
    rw [LogicalTile.amortize, LogicalTile.amortize, ih, t.lookupColumn_schema m d d2 h]

theorem LogicalTile.amortize_length (t : LogicalTile) (m : List (Nat × Nat)) (d : storage.Tile) :
    ∀ (cols : List Nat) (cs : List ColumnCopy), t.amortize m d cols = some cs →
      cs.length = cols.length := by
  intro cols
  induction cols with
  | nil =>
    intro cs h
    simp [LogicalTile.amortize] at h
    simp [← h]
  | cons col cols ih =>
    intro cs h
    rw [LogicalTile.amortize] at h
    cases hl : t.lookupColumn m d col with
    | none => simp [hl] at h
    | some c =>
      cases ha : t.amortize m d cols with
      | none => simp [hl, ha] at h
      | some cs1 =>
        simp [hl, ha] at h
        rw [← h, List.length_cons, ih cs1 ha, List.length_cons]

/-- The column loop of the column-at-a-time copy is the lookups for all columns followed
by the tuple passes, because the passes do not change the schema of the destination. -/
theorem LogicalTile.columnAtATime_columns_eq (t : LogicalTile) (m : List (Nat × Nat)) :
    ∀ (cols : List Nat) (d : storage.Tile),
      t.columnAtATime_columns m cols d =
        (t.amortize m d cols).map
          (fun cs => cs.foldl (fun d c => t.columnAtATime_tuples c t.rows 0 d) d) := by
  intro cols
  induction cols with
  | nil => intro d; rfl
  | cons col cols ih =>
    intro d
    rw [LogicalTile.columnAtATime_columns, LogicalTile.amortize]
    cases hl : t.lookupColumn m d col with
    | none => rfl
    | some c =>
      simp only []
      rw [ih, t.amortize_schema m _ d (t.columnAtATime_tuples_schema c t.rows 0 d) cols]
      cases t.amortize m d cols with
      | none => rfl
      | some cs => rfl

theorem LogicalTile.visibleIds_length_le (t : LogicalTile) :
    t.visibleIds.length ≤ t.total_tuples_ := by
  unfold LogicalTile.visibleIds
  calc ((List.range t.total_tuples_).filter _).length
      ≤ (List.range t.total_tuples_).length := List.length_filter_le _ _
    _ = t.total_tuples_ := List.length_range _

theorem LogicalTile.rows_eq (t : LogicalTile) (hty : t.total_tuples_ < OID_MOD) :
    t.rows = t.visibleIds := by
  have hbegin : t.begin = t.settle (t.findVisible 0) := by
    simp [LogicalTile.begin, LogicalTile.iterator, LogicalTile.settle]
  unfold LogicalTile.rows LogicalTile.traverse
  rw [hbegin, t.visibleIds_eq,
    LogicalTile.traverseFrom_spec t hty t.total_tuples_ 0 t.total_tuples_ (by omega) (by omega)
      (le_refl _)]
  rfl

theorem LogicalTile.rows_length_le (t : LogicalTile) (hty : t.total_tuples_ < OID_MOD) :
    t.rows.length ≤ OID_MOD := by
  rw [t.rows_eq hty]
  have := t.visibleIds_length_le
  omega

theorem LogicalTile.rowAtATime_tiles_eq (t : LogicalTile) (hty : t.total_tuples_ < OID_MOD)
    (m : List (Nat × Nat)) :
    ∀ (ttc : List (Nat × List Nat)) (d : storage.Tile),
      t.rowAtATime_tiles m ttc d = t.columnAtATime_tiles m ttc d := by
  intro ttc
  induction ttc with
  | nil => intro d; rfl
  | cons kv ttc ih =>
    intro d
    rw [LogicalTile.rowAtATime_tiles, LogicalTile.columnAtATime_tiles,
      LogicalTile.columnAtATime_columns_eq]
    cases ha : t.amortize m d kv.2 with
    | none => rfl
    | some cs =>
      have hl := t.amortize_length m d kv.2 cs ha
      simp only [hl, if_true, Option.map_some']
      rw [t.rowAtATime_tuples_eq cs t.rows 0 d (by have := t.rows_length_le hty; omega)]
      exact ih _

/-- C4: on every logical tile (with `total_tuples_` an `oid_t`), for every column
mapping `old_to_new_cols`, every sequence of entries of the tile-to-columns map and
every destination tile, `MaterializeRowAtAtATime` and `MaterializeColumnAtATime` end in
the same destination tile (the same value in every cell), or both stop on the same
failed assertion. -/
theorem C4_copy_strategies_agree (t : LogicalTile) (hty : t.total_tuples_ < OID_MOD)
    (old_to_new_cols : List (Nat × Nat)) (tile_to_cols : List (Nat × List Nat))
    (dest_tile : storage.Tile) :
    t.MaterializeRowAtAtATime old_to_new_cols tile_to_cols dest_tile =
      t.MaterializeColumnAtATime old_to_new_cols tile_to_cols dest_tile :=
  LogicalTile.rowAtATime_tiles_eq t hty old_to_new_cols tile_to_cols dest_tile

theorem C4_copy_strategies_agree_witness :
    example_logical_tile.total_tuples_ < OID_MOD ∧
    (example_logical_tile.MaterializeRowAtAtATime [(0, 1), (1, 0)] [(1, [0, 1])]
      (storage.TileFactory.GetTempTile [⟨5, 0, true, 4⟩, ⟨5, 4, true, 4⟩] 3)).isSome = true ∧
    example_logical_tile.MaterializeRowAtAtATime [(0, 1), (1, 0)] [(1, [0, 1])]
      (storage.TileFactory.GetTempTile [⟨5, 0, true, 4⟩, ⟨5, 4, true, 4⟩] 3) =
    example_logical_tile.MaterializeColumnAtATime [(0, 1), (1, 0)] [(1, [0, 1])]
      (storage.TileFactory.GetTempTile [⟨5, 0, true, 4⟩, ⟨5, 4, true, 4⟩] 3) :=
  ⟨by decide, by decide,
   C4_copy_strategies_agree example_logical_tile (by decide) [(0, 1), (1, 0)] [(1, [0, 1])]
     (storage.TileFactory.GetTempTile [⟨5, 0, true, 4⟩, ⟨5, 4, true, 4⟩] 3)⟩

/-! ### Materialization -/

theorem catalog.layout_length (cols : List catalog.Column) :
    ∀ off, (catalog.Schema.layout cols off).length = cols.length := by
  induction cols with
  | nil => intro off; rfl
  | cons c cs ih => intro off; simp [catalog.Schema.layout, ih]

theorem catalog.layout_offset_ge (cols : List catalog.Column) :
    ∀ off i, i < cols.length →
      off ≤ ((catalog.Schema.layout cols off).getD i catalog.Column.none).offset := by
  induction cols with
  | nil => intro off i h; simp at h
  | cons c cs ih =>
    intro off i h
    cases i with
    | zero => simp [catalog.Schema.layout]
    | succ j =>
      simp only [catalog.Schema.layout, List.getD_cons_succ]
      have := ih (off + c.length) j (by simpa using h)
      omega

/-- Columns of positive length that are laid out one after the other start at byte
offsets that increase with the column id. -/
theorem catalog.layout_offset_lt (cols : List catalog.Column)
    (hpos : ∀ c ∈ cols, 0 < c.length) :
    ∀ off i j, i < j → j < cols.length →
      ((catalog.Schema.layout cols off).getD i catalog.Column.none).offset <
        ((catalog.Schema.layout cols off).getD j catalog.Column.none).offset := by
  induction cols with
  | nil => intro off i j _ h; simp at h
  | cons c cs ih =>
    intro off i j hij hj
    have hc : 0 < c.length := hpos c (by simp)
    have hcs : ∀ c2 ∈ cs, 0 < c2.length := fun c2 h2 => hpos c2 (by simp [h2])
    cases j with
    | zero => omega
    | succ j1 =>
      have hj1 : j1 < cs.length := by simpa using hj
      cases i with
      | zero =>
        simp only [catalog.Schema.layout, List.getD_cons_succ, List.getD_cons_zero]
        have := catalog.layout_offset_ge cs (off + c.length) j1 hj1
        omega
      | succ i1 =>
        simp only [catalog.Schema.layout, List.getD_cons_succ]
        exact ih hcs (off + c.length) i1 j1 (by omega) hj1

theorem catalog.layout_type (cols : List catalog.Column) :
    ∀ off i, ((catalog.Schema.layout cols off).getD i catalog.Column.none).type_id =
      (cols.getD i catalog.Column.none).type_id := by
  induction cols with
  | nil => intro off i; rfl
  | cons c cs ih =>
    intro off i
    cases i with
    | zero => rfl
    | succ j =>
      simp only [catalog.Schema.layout, List.getD_cons_succ]
      exact ih (off + c.length) j

theorem storage.to_int_slots (n : Nat) (h : n < 2147483648) :
    (storage.to_int n).toNat = n := by
  unfold storage.to_int
  split <;> omega

theorem LogicalTile.visibleIdsFrom_length (t : LogicalTile)
    (hlen : t.visible_rows_.length = t.total_tuples_) :
    ∀ (n p : Nat), t.total_tuples_ - p = n → p ≤ t.total_tuples_ →
      (t.visibleIdsFrom p).length = (t.visible_rows_.drop p).count true := by
  intro n
  induction n with
  | zero =>
    intro p hn hp
    rw [t.visibleIdsFrom_total p (by omega), List.drop_eq_nil_of_le (by omega)]
    rfl
  | succ n ih =>
    intro p hn hp
    have hlt : p < t.visible_rows_.length := by omega
    rw [t.visibleIdsFrom_step p (by omega), List.drop_eq_getElem_cons hlt,
      List.getD_eq_getElem _ _ hlt]
    have := ih (p + 1) (by omega) (by omega)
    cases hb : t.visible_rows_[p] with
    | true => simp [this]
    | false => simp [this]

theorem LogicalTile.rows_length (t : LogicalTile) (hty : t.total_tuples_ < OID_MOD)
    (hlen : t.visible_rows_.length = t.total_tuples_) :
    t.rows.length = t.visible_rows_.count true := by
  rw [t.rows_eq hty, t.visibleIds_eq,
    t.visibleIdsFrom_length hlen t.total_tuples_ 0 (by omega) (by omega)]
  rfl

theorem LogicalTile.rows_lt (t : LogicalTile) (hty : t.total_tuples_ < OID_MOD) (k : Nat)
    (hk : k < t.rows.length) : t.rows.getD k 0 < t.total_tuples_ := by
  rw [t.rows_eq hty] at hk ⊢
  have hmem : t.visibleIds.getD k 0 ∈ t.visibleIds := by
    rw [List.getD_eq_getElem _ _ hk]
    exact List.getElem_mem hk
  generalize t.visibleIds.getD k 0 = r at hmem
  simp only [LogicalTile.visibleIds, List.mem_filter, List.mem_range] at hmem
  exact hmem.1

theorem LogicalTile.copyField_cells (t : LogicalTile) (c : ColumnCopy) (r n : Nat)
    (d : storage.Tile) (k o : Nat) :
    (t.copyField c r n d).cells k o =
      if k = n ∧ o = c.new_column_offset then t.sourceValue c r else d.cells k o := rfl

theorem LogicalTile.copyField_slots (t : LogicalTile) (c : ColumnCopy) (r n : Nat)
    (d : storage.Tile) : (t.copyField c r n d).num_tuple_slots = d.num_tuple_slots := rfl

theorem LogicalTile.columnAtATime_tuples_slots (t : LogicalTile) (c : ColumnCopy) :
    ∀ (rs : List Nat) (n : Nat) (d : storage.Tile),
      (t.columnAtATime_tuples c rs n d).num_tuple_slots = d.num_tuple_slots := by
  intro rs
  induction rs with
  | nil => intro n d; rfl
  | cons r rs ih =>
    intro n d
    rw [LogicalTile.columnAtATime_tuples, ih, LogicalTile.copyField_slots]

/-- The cells after the pass over the tuples for one column: the rows `n0` to
`n0 + rs.length - 1` of the column hold the values read for `rs`, every other cell is
as before. -/
theorem LogicalTile.columnAtATime_tuples_cells (t : LogicalTile) (c : ColumnCopy) :
    ∀ (rs : List Nat) (n0 : Nat) (d : storage.Tile), n0 + rs.length ≤ OID_MOD →
      ∀ k o, (t.columnAtATime_tuples c rs n0 d).cells k o =
        if o = c.new_column_offset ∧ n0 ≤ k ∧ k < n0 + rs.length then
          t.sourceValue c (rs.getD (k - n0) 0)
        else d.cells k o := by
  intro rs
  induction rs with
  | nil =>
    intro n0 d _ k o
    have : ¬ (o = c.new_column_offset ∧ n0 ≤ k ∧ k < n0 + ([] : List Nat).length) := by
      simp only [List.length_nil]
      omega
    rw [if_neg this]
    rfl
  | cons r rs ih =>
    intro n0 d hlen k o
    simp only [List.length_cons] at hlen
    have hM : 0 < OID_MOD := by decide
    rw [LogicalTile.columnAtATime_tuples]
    rcases Nat.eq_zero_or_pos rs.length with h0 | hpos
    · have hnil : rs = [] := List.length_eq_zero.mp h0
      subst hnil
      simp only [LogicalTile.columnAtATime_tuples, LogicalTile.copyField_cells,
        List.length_cons, List.length_nil]
      by_cases hk : k = n0 ∧ o = c.new_column_offset
      · obtain ⟨hk1, hk2⟩ := hk
        subst hk1
        rw [if_pos ⟨rfl, hk2⟩, if_pos ⟨hk2, le_refl _, by omega⟩]
        simp
      · rw [if_neg hk, if_neg]
        rintro ⟨h1, h2, h3⟩
        exact hk ⟨by omega, h1⟩
    · have hmod : (n0 + 1) % OID_MOD = n0 + 1 := Nat.mod_eq_of_lt (by omega)
      rw [hmod, ih (n0 + 1) _ (by omega) k o, LogicalTile.copyField_cells]
      simp only [List.length_cons]
      by_cases ho : o = c.new_column_offset
      · by_cases hk : k = n0
        · subst hk
          rw [if_neg (by omega), if_pos ⟨rfl, ho⟩, if_pos ⟨ho, le_refl _, by omega⟩]
          simp
        · by_cases hin : n0 + 1 ≤ k ∧ k < n0 + 1 + rs.length
          · rw [if_pos ⟨ho, hin⟩, if_pos ⟨ho, by omega, by omega⟩]
            have : k - n0 = (k - (n0 + 1)) + 1 := by omega
            rw [this, List.getD_cons_succ]
          · rw [if_neg (fun h => hin h.2), if_neg (fun h => hk h.1), if_neg]
            rintro ⟨_, h2, h3⟩
            exact hin ⟨by omega, by omega⟩
      · rw [if_neg (fun h => ho h.1), if_neg (fun h => ho h.2), if_neg (fun h => ho h.1)]

theorem lookup_identity (l : List (Nat × Nat)) (hid : ∀ kv ∈ l, kv.2 = kv.1) (c : Nat)
    (hc : (c, c) ∈ l) : l.lookup c = some c := by
  induction l with
  | nil => simp at hc
  | cons kv rest ih =>
    obtain ⟨k, v⟩ := kv
    rw [List.lookup_cons]
    by_cases hk : c = k
    · subst hk
      have hv : v = c := hid (c, v) (by simp)
      simp [hv]
    · have hne : (c == k) = false := by simpa using hk
      rw [hne]
      apply ih (fun kv h => hid kv (by simp [h]))
      rcases List.mem_cons.mp hc with h | h
      · exact absurd (Prod.mk.inj h).1 hk
      · exact h

theorem push_back_col_mem (c tile col : Nat) :
    ∀ (m : List (Nat × List Nat)),
      c ∈ flat_cols (push_back_col m tile col) ↔ c ∈ flat_cols m ∨ c = col := by
  intro m
  induction m with
  | nil => simp [push_back_col, flat_cols]
  | cons kv rest ih =>
    obtain ⟨key, cols⟩ := kv
    unfold push_back_col
    by_cases hk : key = tile
    · rw [if_pos hk]
      simp only [flat_cols, List.flatMap_cons, List.mem_append, List.mem_singleton]
      tauto
    · rw [if_neg hk]
      simp only [flat_cols, List.flatMap_cons, List.mem_append] at ih ⊢
      rw [ih]
      tauto

theorem LogicalTile.GenerateTileToColMap_mem (t : LogicalTile) (c : Nat) :
    ∀ (otn : List (Nat × Nat)) (m : List (Nat × List Nat)),
      c ∈ flat_cols (t.GenerateTileToColMap otn m) ↔
        c ∈ flat_cols m ∨ c ∈ otn.map Prod.fst := by
  intro otn
  induction otn with
  | nil => intro m; simp [LogicalTile.GenerateTileToColMap]
  | cons kv rest ih =>
    intro m
    have := ih (push_back_col m (t.GetBaseTile kv.1).addr kv.1)
    unfold LogicalTile.GenerateTileToColMap at this ⊢
    rw [List.foldl_cons, this, push_back_col_mem]
    simp only [List.map_cons, List.mem_cons]
    tauto

/-- The column loop of the column-at-a-time copy, for columns that the mapping sends to
themselves and a destination schema with pairwise different offsets: it succeeds,
every column of the loop then holds the visited rows, and columns that held them
before still do. -/
theorem LogicalTile.columnAtATime_columns_spec (t : LogicalTile) (otn : List (Nat × Nat))
    (S : catalog.Schema) (n : Nat)
    (hlook : ∀ c, c < n → otn.lookup c = some c)
    (hinj : ∀ c c2, c < n → c2 < n → c ≠ c2 → S.GetOffset c ≠ S.GetOffset c2)
    (hrows : t.rows.length ≤ OID_MOD) :
    ∀ (cols : List Nat) (d : storage.Tile), (∀ c ∈ cols, c < n) → d.schema = S →
      ∃ d2, t.columnAtATime_columns otn cols d = some d2 ∧ d2.schema = S ∧
        d2.num_tuple_slots = d.num_tuple_slots ∧
        ∀ c k, c < n → k < t.rows.length →
          (c ∈ cols → d2.cells k (S.GetOffset c) = t.visitedValue c k) ∧
          (d.cells k (S.GetOffset c) = t.visitedValue c k →
            d2.cells k (S.GetOffset c) = t.visitedValue c k) := by
  intro cols
  induction cols with
  | nil =>
    intro d _ hS
    exact ⟨d, rfl, hS, rfl, fun c k _ _ => ⟨fun h => absurd h (List.not_mem_nil c), id⟩⟩
  | cons col cols ih =>
    intro d hcols hS
    have hcol : col < n := hcols col (by simp)
    obtain ⟨cc, hl, hoff, hval⟩ : ∃ cc, t.lookupColumn otn d col = some cc ∧
        cc.new_column_offset = S.GetOffset col ∧
        ∀ k, t.sourceValue cc (t.rows.getD k 0) = t.visitedValue col k := by
      refine ⟨t.identityCopy S col, ?_, rfl, fun _ => rfl⟩
      unfold LogicalTile.lookupColumn
      simp only [hlook col hcol, hS]
      rfl
    rw [LogicalTile.columnAtATime_columns, hl]
    simp only []
    obtain ⟨d2, h1, h2, h3, h4⟩ := ih (t.columnAtATime_tuples cc t.rows 0 d)
      (fun c hc => hcols c (by simp [hc]))
      ((t.columnAtATime_tuples_schema cc t.rows 0 d).trans hS)
    refine ⟨d2, h1, h2, h3.trans (t.columnAtATime_tuples_slots cc t.rows 0 d), ?_⟩
    intro c k hc hk
    have hcell := t.columnAtATime_tuples_cells cc t.rows 0 d (by omega) k (S.GetOffset c)
    obtain ⟨h4a, h4b⟩ := h4 c k hc hk
    have hkeep : d.cells k (S.GetOffset c) = t.visitedValue c k →
        (t.columnAtATime_tuples cc t.rows 0 d).cells k (S.GetOffset c) = t.visitedValue c k := by
      intro hd
      rw [hcell]
      by_cases hsame : c = col
      · subst hsame
        rw [if_pos ⟨hoff.symm, by omega, by omega⟩, Nat.sub_zero, hval]
      · rw [if_neg]
        · exact hd
        · rintro ⟨ho, _⟩
          exact hinj c col hc hcol hsame (ho.trans hoff)
    refine ⟨?_, fun hd => h4b (hkeep hd)⟩
    intro hmem
    rcases List.mem_cons.mp hmem with hsame | hin
    · apply h4b
      subst hsame
      rw [hcell, if_pos ⟨hoff.symm, by omega, by omega⟩, Nat.sub_zero, hval]
    · exact h4a hin

theorem LogicalTile.columnAtATime_tiles_spec (t : LogicalTile) (otn : List (Nat × Nat))
    (S : catalog.Schema) (n : Nat)
    (hlook : ∀ c, c < n → otn.lookup c = some c)
    (hinj : ∀ c c2, c < n → c2 < n → c ≠ c2 → S.GetOffset c ≠ S.GetOffset c2)
    (hrows : t.rows.length ≤ OID_MOD) :
    ∀ (ttc : List (Nat × List Nat)) (d : storage.Tile), (∀ c ∈ flat_cols ttc, c < n) →
      d.schema = S →
      ∃ d2, t.columnAtATime_tiles otn ttc d = some d2 ∧ d2.schema = S ∧
        d2.num_tuple_slots = d.num_tuple_slots ∧
        ∀ c k, c < n → k < t.rows.length →
          (c ∈ flat_cols ttc → d2.cells k (S.GetOffset c) = t.visitedValue c k) ∧
          (d.cells k (S.GetOffset c) = t.visitedValue c k →
            d2.cells k (S.GetOffset c) = t.visitedValue c k) := by
  intro ttc
  induction ttc with
  | nil =>
    intro d _ hS
    refine ⟨d, rfl, hS, rfl, fun c k _ _ => ⟨fun h => ?_, id⟩⟩
    simp [flat_cols] at h
  | cons kv ttc ih =>
    intro d hcols hS
    have hflat : flat_cols (kv :: ttc) = kv.2 ++ flat_cols ttc := by
      simp [flat_cols]
    rw [hflat] at hcols
    obtain ⟨d1, g1, g2, g3, g4⟩ := t.columnAtATime_columns_spec otn S n hlook hinj hrows kv.2 d
      (fun c hc => hcols c (List.mem_append_left _ hc)) hS
    obtain ⟨d2, h1, h2, h3, h4⟩ := ih d1 (fun c hc => hcols c (List.mem_append_right _ hc)) g2
    refine ⟨d2, ?_, h2, h3.trans g3, ?_⟩
    · rw [LogicalTile.columnAtATime_tiles, g1]
      exact h1
    · intro c k hc hk
      obtain ⟨g4a, g4b⟩ := g4 c k hc hk
      obtain ⟨h4a, h4b⟩ := h4 c k hc hk
      refine ⟨?_, fun hd => h4b (g4b hd)⟩
      intro hmem
      rw [hflat] at hmem
      rcases List.mem_append.mp hmem with h | h
      · exact h4b (g4a h)
      · exact h4a h

theorem LogicalTile.MaterializeByTiles_eq (t : LogicalTile) (hty : t.total_tuples_ < OID_MOD)
    (otn : List (Nat × Nat)) (ttc : List (Nat × List Nat)) (d : storage.Tile)
    (mode : storage.LayoutType) :
    t.MaterializeByTiles otn ttc d mode = t.columnAtATime_tiles otn ttc d := by
  have hrow := t.rowAtATime_tiles_eq hty otn ttc d
  unfold LogicalTile.MaterializeByTiles
  simp only [LogicalTile.MaterializeRowAtAtATime, LogicalTile.MaterializeColumnAtATime, hrow,
    ite_self]

/-- A position that is read through position lists without a sentinel entry is never
the sentinel. -/
theorem LogicalTile.position_ne_sentinel (t : LogicalTile)
    (hsent : ∀ pl ∈ t.position_lists_, NULL_OID ∉ pl) (idx r : Nat) :
    t.position idx r ≠ NULL_OID := by
  unfold LogicalTile.position
  by_cases hi : idx < t.position_lists_.length
  · rw [List.getD_eq_getElem _ _ hi]
    by_cases hr : r < (t.position_lists_[idx]).length
    · rw [List.getD_eq_getElem _ _ hr]
      intro h
      apply hsent _ (List.getElem_mem hi)
      rw [← h]
      exact List.getElem_mem hr
    · rw [List.getD_eq_default _ _ (by omega)]
      decide
  · rw [List.getD_eq_default t.position_lists_ [] (by omega)]
    show (0 : Nat) ≠ NULL_OID
    decide

theorem LogicalTile.GetValue_visited (t : LogicalTile) (hty : t.total_tuples_ < OID_MOD)
    (hsent : ∀ pl ∈ t.position_lists_, NULL_OID ∉ pl) (c k : Nat)
    (hc : c < t.schema_.length) (hk : k < t.rows.length) :
    t.GetValue (t.rows.getD k 0) c = some (t.visitedValue c k) := by
  have hr := t.rows_lt hty k hk
  unfold LogicalTile.GetValue PELOTON_ASSERT
  rw [if_pos hc, if_pos hr]
  simp only []
  rw [if_neg (t.position_ne_sentinel hsent _ _)]
  rfl

theorem identity_cols_mem (n : Nat) (kv : Nat × Nat) :
    kv ∈ identity_cols n ↔ kv.1 < n ∧ kv.2 = kv.1 := by
  obtain ⟨a, b⟩ := kv
  simp only [identity_cols, List.mem_map, List.mem_range, Prod.mk.injEq]
  constructor
  · rintro ⟨c, hc, rfl, rfl⟩
    exact ⟨hc, rfl⟩
  · rintro ⟨h1, h2⟩
    exact ⟨a, h1, rfl, h2.symm⟩

/-- C3: on a logical tile that satisfies the invariants of the data model (row count an
`oid_t`, one visibility bit per row, counter equal to the number of visible rows and
small enough for the `int` it is passed in) and whose position lists contain no
sentinel entry, `Materialize()` returns, for either copy strategy and whatever order
the iteration over its two hash maps takes, a tile with `GetTupleCount()` tuple slots
and one column per schema entry, of the type of its origin column, in which row `k`,
column `c` holds `GetValue(r_k, c)`, where `r_k` is the `k`-th visible row id in
ascending order.  (The physical columns have positive length, so that the schema of the
output places them at different offsets.) -/
theorem C3_materialize_copies_visible_rows (t : LogicalTile)
    (order_cols : List (Nat × Nat) → List (Nat × Nat))
    (order_tiles : List (Nat × List Nat) → List (Nat × List Nat))
    (peloton_layout_mode : storage.LayoutType)
    (hcols : ∀ l, (order_cols l).Perm l) (htiles : ∀ l, (order_tiles l).Perm l)
    (hty : t.total_tuples_ < OID_MOD)
    (hlen : t.visible_rows_.length = t.total_tuples_)
    (hcount : t.visible_tuples_ = t.visible_rows_.count true)
    (hint : t.visible_tuples_ < 2147483648)
    (hsent : ∀ pl ∈ t.position_lists_, NULL_OID ∉ pl)
    (hpos : ∀ column ∈ t.schema_,
      0 < (column.base_tile.schema.GetColumn column.origin_column_id).length) :
    ∃ dest, t.Materialize order_cols order_tiles peloton_layout_mode = some dest ∧
      dest.num_tuple_slots = t.GetTupleCount ∧
      dest.GetColumnCount = t.schema_.length ∧
      (∀ c, c < t.schema_.length → dest.schema.GetType c =
        (t.GetColumnInfo c).base_tile.schema.GetType (t.GetColumnInfo c).origin_column_id) ∧
      t.visibleIds.length = t.GetTupleCount ∧
      ∀ k c, k < t.GetTupleCount → c < t.schema_.length →
        some (dest.GetValue k c) = t.GetValue (t.visibleIds.getD k 0) c := by
  have hSlen : t.GetPhysicalSchema.length = t.schema_.length := by
    unfold LogicalTile.GetPhysicalSchema catalog.Schema.ofColumns
    rw [catalog.layout_length, List.length_map]
  have hrowslen : t.rows.length = t.GetTupleCount := by
    rw [t.rows_length hty hlen]
    exact hcount.symm
  -- the column mapping
  have hperm1 := hcols (identity_cols t.GetPhysicalSchema.GetColumnCount)
  have hlook : ∀ c, c < t.schema_.length →
      (order_cols (identity_cols t.GetPhysicalSchema.GetColumnCount)).lookup c = some c := by
    intro c hc
    apply lookup_identity
    · intro kv hkv
      exact ((identity_cols_mem _ kv).mp (hperm1.mem_iff.mp hkv)).2
    · apply hperm1.mem_iff.mpr
      apply (identity_cols_mem _ (c, c)).mpr
      exact ⟨by unfold catalog.Schema.GetColumnCount; omega, rfl⟩
  have hkeys : ∀ c, c ∈ (order_cols (identity_cols t.GetPhysicalSchema.GetColumnCount)).map
      Prod.fst ↔ c < t.schema_.length := by
    intro c
    rw [(hperm1.map Prod.fst).mem_iff]
    simp only [identity_cols, List.map_map, List.mem_map, List.mem_range, Function.comp,
      catalog.Schema.GetColumnCount, hSlen]
    constructor
    · rintro ⟨a, ha, rfl⟩
      exact ha
    · intro h
      exact ⟨c, h, rfl⟩
  -- the tile-to-columns map
  have hflat : ∀ c, c ∈ flat_cols (order_tiles (t.GenerateTileToColMap
      (order_cols (identity_cols t.GetPhysicalSchema.GetColumnCount)) [])) ↔
      c < t.schema_.length := by
    intro c
    unfold flat_cols
    rw [((htiles _).flatMap_right _).mem_iff]
    have := t.GenerateTileToColMap_mem c
      (order_cols (identity_cols t.GetPhysicalSchema.GetColumnCount)) []
    unfold flat_cols at this
    rw [this, hkeys]
    simp
  -- offsets of the output schema
  have hinj : ∀ c c2, c < t.schema_.length → c2 < t.schema_.length → c ≠ c2 →
      t.GetPhysicalSchema.GetOffset c ≠ t.GetPhysicalSchema.GetOffset c2 := by
    intro c c2 hc hc2 hne
    have hp : ∀ col ∈ t.schema_.map
        (fun column => column.base_tile.schema.GetColumn column.origin_column_id),
        0 < col.length := by
      intro col hcol
      obtain ⟨ci, hci, rfl⟩ := List.mem_map.mp hcol
      exact hpos ci hci
    have hlt := catalog.layout_offset_lt _ hp 0
    rcases Nat.lt_or_gt_of_ne hne with h | h
    · exact Nat.ne_of_lt (hlt c c2 h (by rw [List.length_map]; exact hc2))
    · exact Nat.ne_of_gt (hlt c2 c h (by rw [List.length_map]; exact hc))
  obtain ⟨d2, h1, h2, h3, h4⟩ := t.columnAtATime_tiles_spec
    (order_cols (identity_cols t.GetPhysicalSchema.GetColumnCount)) t.GetPhysicalSchema
    t.schema_.length hlook hinj (t.rows_length_le hty)
    (order_tiles (t.GenerateTileToColMap
      (order_cols (identity_cols t.GetPhysicalSchema.GetColumnCount)) []))
    (storage.TileFactory.GetTempTile t.GetPhysicalSchema (storage.to_int t.GetTupleCount))
    (fun c hc => (hflat c).mp hc) rfl
  refine ⟨d2, ?_, ?_, ?_, ?_, ?_, ?_⟩
  · unfold LogicalTile.Materialize
    simp only []
    rw [t.MaterializeByTiles_eq hty]
    exact h1
  · rw [h3]
    exact storage.to_int_slots _ hint
  · unfold storage.Tile.GetColumnCount catalog.Schema.GetColumnCount
    rw [h2, hSlen]
  · intro c hc
    rw [h2]
    unfold LogicalTile.GetPhysicalSchema catalog.Schema.ofColumns catalog.Schema.GetType
    rw [catalog.Schema.GetColumn, catalog.layout_type, List.getD_eq_getElem _ _
      (by rw [List.length_map]; exact hc), List.getElem_map]
    unfold LogicalTile.GetColumnInfo
    rw [List.getD_eq_getElem _ _ hc]
  · rw [← t.rows_eq hty]
    exact hrowslen
  · intro k c hk hc
    rw [← hrowslen] at hk
    rw [← t.rows_eq hty, t.GetValue_visited hty hsent c k hc hk]
    congr 1
    unfold storage.Tile.GetValue storage.Tile.GetValueFast
    rw [h2]
    exact (h4 c k hc hk).1 ((hflat c).mpr hc)

theorem C3_materialize_copies_visible_rows_witness :
    ∃ dest, example_logical_tile.Materialize id id storage.LayoutType.ROW = some dest ∧
      dest.num_tuple_slots = 3 ∧
      dest.GetValue 0 0 = type.Value.data 5 0 ∧
      dest.GetValue 1 1 = type.Value.data 5 21 ∧
      dest.GetValue 2 0 = type.Value.data 5 40 := by
  obtain ⟨dest, h1, h2, _, _, _, h5⟩ := C3_materialize_copies_visible_rows example_logical_tile
    id id storage.LayoutType.ROW (fun l => List.Perm.refl l) (fun l => List.Perm.refl l)
    (by decide) (by decide) (by decide) (by decide) (by decide) (by decide)
  refine ⟨dest, h1, h2, ?_, ?_, ?_⟩
  · have h := h5 0 0 (by decide) (by decide)
    have e : example_logical_tile.GetValue (example_logical_tile.visibleIds.getD 0 0) 0 =
        some (type.Value.data 5 0) := by decide
    rw [e] at h
    exact Option.some.inj h
  · have h := h5 1 1 (by decide) (by decide)
    have e : example_logical_tile.GetValue (example_logical_tile.visibleIds.getD 1 0) 1 =
        some (type.Value.data 5 21) := by decide
    rw [e] at h
    exact Option.some.inj h
  · have h := h5 2 0 (by decide) (by decide)
    have e : example_logical_tile.GetValue (example_logical_tile.visibleIds.getD 2 0) 0 =
        some (type.Value.data 5 40) := by decide
    rw [e] at h
    exact Option.some.inj h

/-! ### Array scan -/

theorem foldl_push_filter (p : Nat → Bool) :
    ∀ (l acc : List Nat),
      l.foldl (fun position_list tuple_id =>
        if p tuple_id = true then position_list ++ [tuple_id] else position_list) acc =
      acc ++ l.filter p := by
  intro l
  induction l with
  | nil => intro acc; simp
  | cons x xs ih =>
    intro acc
    rw [List.foldl_cons, ih, List.filter_cons]
    by_cases hx : p x = true
    · simp [hx]
    · simp [hx]

/-- The loop over the tuple slots builds the list of the matching tuple ids. -/
theorem SeqScanExecutor.build_position_list_eq (e : SeqScanExecutor) (g : storage.TileGroup) :
    e.build_position_list g = e.matching g := by
  unfold SeqScanExecutor.build_position_list SeqScanExecutor.matching
  cases hp : e.predicate_ with
  | none =>
    have := foldl_push_filter (fun _ => true) (List.range g.GetNextTupleSlot) []
    simpa using this
  | some predicate =>
    have := foldl_push_filter
      (fun tuple_id => decide (predicate g tuple_id = type.CmpBool.CmpTrue))
      (List.range g.GetNextTupleSlot) []
    simpa [type.CmpBool.IsTrue] using this

theorem LogicalTile.AddColumns_frame (g : storage.TileGroup) (cols : List Nat) :
    ∀ (t : LogicalTile),
      (t.AddColumns g cols).position_lists_ = t.position_lists_ ∧
      (t.AddColumns g cols).visible_rows_ = t.visible_rows_ ∧
      (t.AddColumns g cols).total_tuples_ = t.total_tuples_ ∧
      (t.AddColumns g cols).visible_tuples_ = t.visible_tuples_ := by
  induction cols with
  | nil => intro t; exact ⟨rfl, rfl, rfl, rfl⟩
  | cons c cs ih =>
    intro t
    exact ih (t.AddColumn (g.GetTileReference (g.layout c).1) (g.layout c).2 0)

/-- The tile that the array scan builds: its only position list is the given one, all
its rows are visible. -/
theorem SeqScanExecutor.scan_tile_spec (e : SeqScanExecutor) (g : storage.TileGroup)
    (pl : PositionList) :
    (e.scan_tile g pl).position_lists_ = [pl] ∧
    (e.scan_tile g pl).visible_rows_ = List.replicate pl.length true ∧
    (e.scan_tile g pl).total_tuples_ = pl.length % OID_MOD ∧
    (e.scan_tile g pl).visible_tuples_ = pl.length % OID_MOD := by
  obtain ⟨h1, h2, _, _⟩ := LogicalTile.AddColumns_frame g e.column_ids_ LogicalTile.fresh
  unfold SeqScanExecutor.scan_tile
  rw [LogicalTile.AddPositionList_first _ pl h1]
  refine ⟨rfl, ?_, rfl, rfl⟩
  show vector_resize (LogicalTile.fresh.AddColumns g e.column_ids_).visible_rows_ pl.length true
    = List.replicate pl.length true
  rw [h2]
  simp [vector_resize, LogicalTile.fresh]

theorem SeqScanExecutor.array_scan_loop_step (e : SeqScanExecutor) (fuel o : Nat)
    (ho : o < e.table_tile_group_count_)
    (hcount : e.table_tile_group_count_ ≤ e.target_table_.length) :
    (e.advance o).array_scan_loop (fuel + 1) =
      if (e.matching (e.group o)).length = 0 then (e.advance (o + 1)).array_scan_loop fuel
      else (some true, e.emitted o) := by
  have hlen : o < e.target_table_.length := by omega
  rw [SeqScanExecutor.array_scan_loop]
  simp only [SeqScanExecutor.advance, PELOTON_ASSERT, if_pos ho, if_pos hlen,
    SeqScanExecutor.build_position_list_eq]
  rfl

/-- Tile groups without a matching tuple are skipped; when none is left `DExecute`
returns false with the cursor at the end of the table. -/
theorem SeqScanExecutor.array_scan_loop_done (e : SeqScanExecutor)
    (hcount : e.table_tile_group_count_ ≤ e.target_table_.length) :
    ∀ (n o : Nat), e.table_tile_group_count_ - o = n → o ≤ e.table_tile_group_count_ →
      (∀ i, o ≤ i → i < e.table_tile_group_count_ → e.matching (e.group i) = []) →
      (e.advance o).array_scan_loop n = (some false, e.advance e.table_tile_group_count_) := by
  intro n
  induction n with
  | zero =>
    intro o hn ho _
    have : o = e.table_tile_group_count_ := by omega
    rw [this]
    rfl
  | succ n ih =>
    intro o hn ho hall
    rw [e.array_scan_loop_step n o (by omega) hcount, hall o (le_refl _) (by omega)]
    simp only [List.length_nil, if_true]
    exact ih (o + 1) (by omega) (by omega) (fun i h1 h2 => hall i (by omega) h2)

/-- The next tile group with a matching tuple is the one whose tile is emitted. -/
theorem SeqScanExecutor.array_scan_loop_emit (e : SeqScanExecutor)
    (hcount : e.table_tile_group_count_ ≤ e.target_table_.length) (i : Nat)
    (hi : i < e.table_tile_group_count_) (hmatch : e.matching (e.group i) ≠ []) :
    ∀ (n o fuel : Nat), i - o = n → o ≤ i → i - o < fuel →
      (∀ j, o ≤ j → j < i → e.matching (e.group j) = []) →
      (e.advance o).array_scan_loop fuel = (some true, e.emitted i) := by
  intro n
  induction n with
  | zero =>
    intro o fuel hn ho hfuel _
    have hoi : o = i := by omega
    subst hoi
    obtain ⟨f, rfl⟩ : ∃ f, fuel = f + 1 := ⟨fuel - 1, by omega⟩
    rw [e.array_scan_loop_step f o hi hcount, if_neg]
    intro h0
    exact hmatch (List.length_eq_zero.mp h0)
  | succ n ih =>
    intro o fuel hn ho hfuel hskip
    obtain ⟨f, rfl⟩ : ∃ f, fuel = f + 1 := ⟨fuel - 1, by omega⟩
    rw [e.array_scan_loop_step f o (by omega) hcount, hskip o (le_refl _) (by omega)]
    simp only [List.length_nil, if_true]
    exact ih (o + 1) f (by omega) (by omega) (by omega) (fun j h1 h2 => hskip j (by omega) h2)

theorem SeqScanExecutor.advance_self (e : SeqScanExecutor) :
    e.advance e.current_tile_group_offset_ = e := rfl

/-- C10: in the array scan, for an executor whose group count does not exceed the
number of tile groups of the table and whose cursor is within the count:
(1) when `i` is the next tile group, in table order from the cursor on, with a matching
tuple, `DExecute` returns true, leaves the cursor behind `i` and emits a tile whose
only position list is the list of the matching tuple ids of group `i`, which is not
empty; the groups before `i`, which have no matching tuple, are skipped;
(2) when no group from the cursor on has a matching tuple, `DExecute` returns false with
the cursor at the group count;
(3) `DExecute` returns false only in case (2), with every group consumed;
(4) `DExecute` returns true only in case (1), for the next group with a matching tuple;
(5) the matching tuple ids of a group are the ids `t < GetNextTupleSlot()` such that
there is no predicate or the predicate evaluates to true on `t`, in ascending order. -/
theorem C10_array_scan_emits_next_matching_group (e : SeqScanExecutor)
    (hcount : e.table_tile_group_count_ ≤ e.target_table_.length)
    (hcur : e.current_tile_group_offset_ ≤ e.table_tile_group_count_) :
    (∀ i, e.current_tile_group_offset_ ≤ i → i < e.table_tile_group_count_ →
      (∀ j, e.current_tile_group_offset_ ≤ j → j < i → e.matching (e.group j) = []) →
      e.matching (e.group i) ≠ [] →
      e.DExecute_HEAPARRAYSCAN = (some true, e.emitted i) ∧
      (e.emitted i).current_tile_group_offset_ = i + 1 ∧
      ∃ tile, (e.emitted i).output_ = some tile ∧
        tile.position_lists_ = [e.matching (e.group i)] ∧
        tile.visible_rows_ = List.replicate (e.matching (e.group i)).length true) ∧
    ((∀ i, e.current_tile_group_offset_ ≤ i → i < e.table_tile_group_count_ →
        e.matching (e.group i) = []) →
      e.DExecute_HEAPARRAYSCAN = (some false, e.advance e.table_tile_group_count_)) ∧
    (e.DExecute_HEAPARRAYSCAN.1 = some false →
      e.DExecute_HEAPARRAYSCAN.2.current_tile_group_offset_ = e.table_tile_group_count_ ∧
      ∀ i, e.current_tile_group_offset_ ≤ i → i < e.table_tile_group_count_ →
        e.matching (e.group i) = []) ∧
    (e.DExecute_HEAPARRAYSCAN.1 = some true →
      ∃ i, e.current_tile_group_offset_ ≤ i ∧ i < e.table_tile_group_count_ ∧
        (∀ j, e.current_tile_group_offset_ ≤ j → j < i → e.matching (e.group j) = []) ∧
        e.matching (e.group i) ≠ [] ∧
        e.DExecute_HEAPARRAYSCAN = (some true, e.emitted i)) ∧
    (∀ (g : storage.TileGroup) (tuple_id : Nat), tuple_id ∈ e.matching g ↔
      tuple_id < g.GetNextTupleSlot ∧
        (e.predicate_ = none ∨
          ∃ predicate, e.predicate_ = some predicate ∧
            predicate g tuple_id = type.CmpBool.CmpTrue)) ∧
    (∀ (g : storage.TileGroup), (e.matching g).Pairwise (fun a b => a < b)) := by
  have hemit : ∀ i, e.current_tile_group_offset_ ≤ i → i < e.table_tile_group_count_ →
      (∀ j, e.current_tile_group_offset_ ≤ j → j < i → e.matching (e.group j) = []) →
      e.matching (e.group i) ≠ [] →
      e.DExecute_HEAPARRAYSCAN = (some true, e.emitted i) := by
    intro i h1 h2 hskip hmatch
    have := SeqScanExecutor.array_scan_loop_emit e hcount i h2 hmatch
      (i - e.current_tile_group_offset_) e.current_tile_group_offset_
      (e.table_tile_group_count_ - e.current_tile_group_offset_) rfl h1 (by omega) hskip
    rw [e.advance_self] at this
    exact this
  have hdone : (∀ i, e.current_tile_group_offset_ ≤ i → i < e.table_tile_group_count_ →
        e.matching (e.group i) = []) →
      e.DExecute_HEAPARRAYSCAN = (some false, e.advance e.table_tile_group_count_) := by
    intro hall
    have := SeqScanExecutor.array_scan_loop_done e hcount
      (e.table_tile_group_count_ - e.current_tile_group_offset_) e.current_tile_group_offset_
      rfl hcur hall
    rw [e.advance_self] at this
    exact this
  have hcases : (∃ i, e.current_tile_group_offset_ ≤ i ∧ i < e.table_tile_group_count_ ∧
        (∀ j, e.current_tile_group_offset_ ≤ j → j < i → e.matching (e.group j) = []) ∧
        e.matching (e.group i) ≠ []) ∨
      (∀ i, e.current_tile_group_offset_ ≤ i → i < e.table_tile_group_count_ →
        e.matching (e.group i) = []) := by
    by_cases hex : ∃ i, e.current_tile_group_offset_ ≤ i ∧ i < e.table_tile_group_count_ ∧
        e.matching (e.group i) ≠ []
    · left
      have hfirst := Nat.find_spec hex
      refine ⟨Nat.find hex, hfirst.1, hfirst.2.1, ?_, hfirst.2.2⟩
      intro j hj1 hj2
      by_contra hne
      exact Nat.find_min hex hj2 ⟨hj1, by omega, hne⟩
    · right
      intro i h1 h2
      by_contra hne
      exact hex ⟨i, h1, h2, hne⟩
  refine ⟨?_, hdone, ?_, ?_, ?_, ?_⟩
  · intro i h1 h2 hskip hmatch
    refine ⟨hemit i h1 h2 hskip hmatch, rfl, _, rfl, ?_, ?_⟩
    · exact (e.scan_tile_spec _ _).1
    · exact (e.scan_tile_spec _ _).2.1
  · intro hfalse
    rcases hcases with ⟨i, h1, h2, hskip, hmatch⟩ | hall
    · rw [hemit i h1 h2 hskip hmatch] at hfalse
      simp at hfalse
    · rw [hdone hall]
      exact ⟨rfl, hall⟩
  · intro htrue
    rcases hcases with ⟨i, h1, h2, hskip, hmatch⟩ | hall
    · exact ⟨i, h1, h2, hskip, hmatch, hemit i h1 h2 hskip hmatch⟩
    · rw [hdone hall] at htrue
      simp at htrue
  · intro g tuple_id
    unfold SeqScanExecutor.matching
    rw [List.mem_filter, List.mem_range]
    cases hp : e.predicate_ with
    | none => simp
    | some predicate => simp
  · intro g
    unfold SeqScanExecutor.matching
    exact List.Pairwise.filter _ (List.pairwise_lt_range _)

theorem C10_array_scan_emits_next_matching_group_witness :
    example_executor.DExecute_HEAPARRAYSCAN = (some true, example_executor.emitted 1) ∧
    example_executor.matching (example_executor.group 1) = [0, 2] ∧
    (example_executor.emitted 1).DExecute_HEAPARRAYSCAN =
      (some false, (example_executor.emitted 1).advance 3) :=
  ⟨((C10_array_scan_emits_next_matching_group example_executor (by decide) (by decide)).1 1
      (by decide) (by decide) (by decide) (by decide)).1,
   by decide,
   (C10_array_scan_emits_next_matching_group (example_executor.emitted 1) (by decide)
      (by decide)).2.1 (by decide)⟩

/-! ### Storage manager -/

theorem storage.map_find_erase_self {κ ν : Type} [DecidableEq κ] (m : List (κ × ν)) (k : κ) :
    storage.map_find (storage.map_erase m k) k = none := by
  induction m with
  | nil => rfl
  | cons entry rest ih =>
    obtain ⟨key, value⟩ := entry
    unfold storage.map_erase at ih ⊢
    rw [List.filter_cons]
    by_cases h : key = k
    · have hp : decide ((key, value).1 ≠ k) = false := by simp [h]
      simp only [hp, Bool.false_eq_true, if_false]
      exact ih
    · have hp : decide ((key, value).1 ≠ k) = true := by simp [h]
      simp only [hp, if_true]
      rw [storage.map_find, if_neg h]
      exact ih

theorem storage.map_find_erase_ne {κ ν : Type} [DecidableEq κ] (m : List (κ × ν)) (k k2 : κ)
    (hne : k2 ≠ k) :
    storage.map_find (storage.map_erase m k2) k = storage.map_find m k := by
  induction m with
  | nil => rfl
  | cons entry rest ih =>
    obtain ⟨key, value⟩ := entry
    unfold storage.map_erase at ih ⊢
    rw [List.filter_cons]
    by_cases h : key = k2
    · have hk : ¬ key = k := fun hk => hne (h.symm.trans hk)
      have hp : decide ((key, value).1 ≠ k2) = false := by simp [h]
      simp only [hp, Bool.false_eq_true, if_false]
      rw [ih, storage.map_find, if_neg hk]
    · have hp : decide ((key, value).1 ≠ k2) = true := by simp [h]
      simp only [hp, if_true]
      rw [storage.map_find, storage.map_find, ih]

theorem storage.StorageManager.GetTileGroup_add (sm : storage.StorageManager)
    (oid location k : Nat) :
    (sm.AddTileGroup oid location).GetTileGroup k =
      if oid = k then storage.Location.found location else sm.GetTileGroup k := by
  unfold storage.StorageManager.GetTileGroup storage.StorageManager.AddTileGroup
    storage.CuckooMap.Find storage.CuckooMap.Upsert
  simp only [storage.map_find]
  by_cases h : oid = k
  · rw [if_pos h, if_pos h]
  · rw [if_neg h, if_neg h, storage.map_find_erase_ne _ _ _ h]

theorem storage.StorageManager.GetTileGroup_drop (sm : storage.StorageManager) (oid k : Nat) :
    (sm.DropTileGroup oid).GetTileGroup k =
      if oid = k then storage.Location.null else sm.GetTileGroup k := by
  unfold storage.StorageManager.GetTileGroup storage.StorageManager.DropTileGroup
    storage.CuckooMap.Find storage.CuckooMap.Erase
  by_cases h : oid = k
  · rw [if_pos h, h, storage.map_find_erase_self]
  · rw [if_neg h, storage.map_find_erase_ne _ _ _ h]

/-- C18: after every sequence of `AddTileGroup(oid, g)` and `DropTileGroup(oid)` calls on
the identity map, `GetTileGroup(oid)` is the group of the last `AddTileGroup` for the
oid when no drop of the oid follows it, the empty sentinel when the last call for the
oid is a drop, and what it was before the sequence (the empty sentinel on a new storage
manager) when no call is about the oid; it always returns, and a call about one oid
leaves the result for every other oid unchanged. -/
theorem C18_identity_map_last_call_wins (calls : List storage.LocatorCall) :
    ∀ (sm : storage.StorageManager) (oid : Nat),
      ((sm.runLocator calls).GetTileGroup oid =
        match storage.LocatorCall.lastFor oid calls with
        | some (some location) => storage.Location.found location
        | some none => storage.Location.null
        | none => sm.GetTileGroup oid) ∧
      (∀ call : storage.LocatorCall, call.oid ≠ oid →
        (sm.runLocator [call]).GetTileGroup oid = sm.GetTileGroup oid) ∧
      (({} : storage.StorageManager).GetTileGroup oid = storage.Location.null) := by
  induction calls with
  | nil =>
    intro sm oid
    refine ⟨rfl, ?_, rfl⟩
    intro call hne
    cases call with
    | add o location =>
      have ho : ¬ o = oid := hne
      show (sm.AddTileGroup o location).GetTileGroup oid = _
      rw [storage.StorageManager.GetTileGroup_add, if_neg ho]
    | drop o =>
      have ho : ¬ o = oid := hne
      show (sm.DropTileGroup o).GetTileGroup oid = _
      rw [storage.StorageManager.GetTileGroup_drop, if_neg ho]
  | cons call rest ih =>
    intro sm oid
    refine ⟨?_, ?_, rfl⟩
    · cases call with
      | add o location =>
        have h := (ih (sm.AddTileGroup o location) oid).1
        show ((sm.AddTileGroup o location).runLocator rest).GetTileGroup oid = _
        rw [h, storage.LocatorCall.lastFor]
        cases storage.LocatorCall.lastFor oid rest with
        | some effect => cases effect <;> rfl
        | none =>
          simp only []
          rw [storage.StorageManager.GetTileGroup_add]
          by_cases ho : o = oid
          · rw [if_pos ho, if_pos ho]
          · rw [if_neg ho, if_neg ho]
      | drop o =>
        have h := (ih (sm.DropTileGroup o) oid).1
        show ((sm.DropTileGroup o).runLocator rest).GetTileGroup oid = _
        rw [h, storage.LocatorCall.lastFor]
        cases storage.LocatorCall.lastFor oid rest with
        | some effect => cases effect <;> rfl
        | none =>
          simp only []
          rw [storage.StorageManager.GetTileGroup_drop]
          by_cases ho : o = oid
          · rw [if_pos ho, if_pos ho]
          · rw [if_neg ho, if_neg ho]
    · exact (ih sm oid).2.1

/-- C19 (evaluation of the code): for a key that was never registered,
`GetTileGroupByBTree` dereferences the iterator `end()` that `find` returns, so it has
no defined result, while `GetHopscotchKValue` and `GetCuckooKValue` compare with
`end()`, respectively start from a null pointer, and return null. -/
theorem C19_btree_lookup_of_absent_key_is_undefined :
    (∀ (sm : storage.StorageManager) (table_id tile_group_offset : Nat),
      storage.map_find sm.tile_group_tree_ (table_id, tile_group_offset) = none →
      sm.GetTileGroupByBTree table_id tile_group_offset = storage.Location.undefined) ∧
    ({} : storage.StorageManager).GetTileGroupByBTree 1 0 = storage.Location.undefined ∧
    ({} : storage.StorageManager).GetHopscotchKValue (1, 0) = storage.Location.null ∧
    ({} : storage.StorageManager).GetCuckooKValue (1, 0) = storage.Location.null := by
  refine ⟨?_, rfl, rfl, rfl⟩
  intro sm table_id tile_group_offset h
  unfold storage.StorageManager.GetTileGroupByBTree
  rw [h]

/-- C20 (evaluation of the code): `AddToHopscotchMap(k, 200)` after
`AddToHopscotchMap(k, 100)` leaves `GetHopscotchKValue(k)` at the first group, 100,
because `insert` does not replace the entry of a key that is present; the same two
calls on the cuckoo map, which uses `Upsert`, leave the second group, 200. -/
theorem C20_hopscotch_insert_keeps_first_registration :
    (((({} : storage.StorageManager).AddToHopscotchMap (1, 0) 100).2.AddToHopscotchMap
      (1, 0) 200).2.GetHopscotchKValue (1, 0) = storage.Location.found 100) ∧
    (((({} : storage.StorageManager).AddToHopscotchMap (1, 0) 100).2.AddToHopscotchMap
      (1, 0) 200).1 = true) ∧
    (((({} : storage.StorageManager).AddToCuckooMap (1, 0) 100).2.AddToCuckooMap
      (1, 0) 200).2.GetCuckooKValue (1, 0) = storage.Location.found 200) := by
  refine ⟨?_, ?_, ?_⟩ <;> decide

/-! ### Predicate extraction -/

/-- C12: on every expression tree on which it reads no null pointer and no parameter out
of range, `GetPredicateInfo` returns and has appended to `infos` the triples of the
specification: for an AND node those of the left child followed by those of the right
child, for a comparison `=`, `<`, `<=`, `>`, `>=` whose right child is a constant or a
bound parameter exactly one triple (column id of the left child, operator, constant or
parameter value), and nothing for any other expression; the null expression appends
nothing. -/
theorem C12_predicate_info_flattens_conjunctions (param_values : List type.Value)
    (expr : expression.AbstractExpression) :
    ∀ (infos : List Predicate_Inf), well_formed param_values expr →
      GetPredicateInfo param_values expr infos =
        some (infos ++ flattened_triples param_values expr) := by
  induction expr with
  | null =>
    intro infos _
    simp [GetPredicateInfo, flattened_triples]
  | node expr_type left right value value_idx column_id ihl ihr =>
    intro infos hwf
    unfold well_formed at hwf
    unfold GetPredicateInfo flattened_triples
    by_cases hand : expr_type = expression.ExpressionType.CONJUNCTION_AND
    · rw [if_pos hand] at hwf
      rw [if_pos hand, if_pos hand, ihl infos hwf.1, Option.some_bind, ihr _ hwf.2,
        List.append_assoc]
    · rw [if_neg hand] at hwf
      rw [if_neg hand, if_neg hand]
      by_cases hcmp : expr_type.isSimpleComparison = true
      · rw [if_pos hcmp] at hwf
        rw [if_pos hcmp, if_pos hcmp]
        unfold GetPredicateInfo_comparison
        cases right with
        | null => exact absurd hwf id
        | node right_type r0 r1 right_value right_idx right_col =>
          simp only [] at hwf ⊢
          by_cases hconst : right_type = expression.ExpressionType.VALUE_CONSTANT
          · rw [if_pos hconst] at hwf
            cases left with
            | null => exact absurd rfl hwf
            | node lt l0 l1 lv li lc =>
              simp only [hconst, true_or, if_true]
          · rw [if_neg hconst] at hwf
            by_cases hparam : right_type = expression.ExpressionType.VALUE_PARAMETER
            · rw [if_pos hparam] at hwf
              cases left with
              | null => exact absurd rfl hwf.1
              | node lt l0 l1 lv li lc =>
                have hidx : param_values[right_idx]? =
                    some (param_values.getD right_idx type.Value.default) := by
                  rw [List.getD_eq_getElem _ _ hwf.2, List.getElem?_eq_getElem hwf.2]
                simp only [hparam, or_true, if_true, hidx]
                simp
            · simp only [hconst, hparam, or_self, if_false]
              cases left <;> simp [hconst, hparam]
      · rw [if_neg hcmp, if_neg hcmp]
        simp

theorem C12_predicate_info_flattens_conjunctions_witness :
    GetPredicateInfo [type.Value.data 5 9]
      (expression.binary expression.ExpressionType.CONJUNCTION_AND
        (expression.compare_constant expression.ExpressionType.COMPARE_GREATERTHAN 0
          (type.Value.data 5 3))
        (expression.binary expression.ExpressionType.CONJUNCTION_AND
          (expression.binary expression.ExpressionType.COMPARE_LESSTHAN
            (expression.tuple_value 0) (expression.parameter_value 0))
          (expression.compare_constant expression.ExpressionType.COMPARE_NOTEQUAL 1
            (type.Value.data 5 4)))) [] =
    some [⟨0, expression.ExpressionType.COMPARE_GREATERTHAN, type.Value.data 5 3⟩,
          ⟨0, expression.ExpressionType.COMPARE_LESSTHAN, type.Value.data 5 9⟩] :=
  C12_predicate_info_flattens_conjunctions [type.Value.data 5 9] _ []
    (by simp [well_formed, expression.binary, expression.compare_constant,
      expression.tuple_value, expression.constant_value, expression.parameter_value,
      expression.ExpressionType.isSimpleComparison])

/-! ### Column-store and hash scans -/

theorem GetPredicateInfo_range_predicate (param_values : List type.Value) (column_id : Int)
    (low high : type.Value) :
    GetPredicateInfo param_values (range_predicate column_id low high) [] =
      some [⟨column_id, expression.ExpressionType.COMPARE_GREATERTHAN, low⟩,
            ⟨column_id, expression.ExpressionType.COMPARE_LESSTHAN, high⟩] := rfl

theorem GetPredicateInfo_range_predicate_swapped (param_values : List type.Value)
    (column_id : Int) (low high : type.Value) :
    GetPredicateInfo param_values (range_predicate_swapped column_id low high) [] =
      some [⟨column_id, expression.ExpressionType.COMPARE_LESSTHAN, high⟩,
            ⟨column_id, expression.ExpressionType.COMPARE_GREATERTHAN, low⟩] := rfl

theorem GetPredicateInfo_point_predicate (param_values : List type.Value) (column_id : Int)
    (k : type.Value) :
    GetPredicateInfo param_values (point_predicate column_id k) [] =
      some [⟨column_id, expression.ExpressionType.COMPARE_EQUAL, k⟩] := rfl

/-- The tile that the column-store branch emits for a range of tile groups. -/
theorem SeqScanExecutor.DExecute_KVSCAN_range (cap : Nat) (e : SeqScanExecutor)
    (column_id : Int) (low high : type.Value) (hcap : 0 < cap)
    (hinfos : e.predicate_infos = [])
    (hexpr : e.predicate_expr_ = range_predicate column_id low high ∨
      e.predicate_expr_ = range_predicate_swapped column_id low high) :
    ∃ tile : LogicalTileKV,
      (e.DExecute_KVSCAN cap).1 = some false ∧
      (e.DExecute_KVSCAN cap).2.output_kv_ = some tile ∧
      tile.tile_group_st_ = low.to_uint32 / cap ∧
      tile.tile_group_ed_ = high.to_uint32 / cap ∧
      tile.visible_range_ = [(low.to_uint32 % cap, low.to_uint32 / cap),
        (high.to_uint32 % cap, high.to_uint32 / cap)] ∧
      tile.is_point_ = false ∧
      tile.total_tuples_ = SeqScanExecutor.range_total_tuple low.to_uint32 high.to_uint32 ∧
      tile.table_id_ = e.table_id := by
  have hne : cap ≠ 0 := Nat.pos_iff_ne_zero.mp hcap
  rcases hexpr with h | h
  · have hg := GetPredicateInfo_range_predicate e.param_values_ column_id low high
    simp only [SeqScanExecutor.DExecute_KVSCAN, h, hinfos, hg]
    simp [range_predicate, expression.binary, hne, SeqScanExecutor.range_bounds,
      LogicalTileKV.AddTileTupleVisible, PELOTON_ASSERT, LogicalTileKV.AddTableColumns,
      LogicalTileKV.fresh]
  · have hg := GetPredicateInfo_range_predicate_swapped e.param_values_ column_id low high
    simp only [SeqScanExecutor.DExecute_KVSCAN, h, hinfos, hg]
    simp [range_predicate_swapped, expression.binary, hne, SeqScanExecutor.range_bounds,
      LogicalTileKV.AddTileTupleVisible, PELOTON_ASSERT, LogicalTileKV.AddTableColumns,
      LogicalTileKV.fresh]

/-- The tile that the column-store branch emits for a single predicate info. -/
theorem SeqScanExecutor.DExecute_KVSCAN_point (cap : Nat) (e : SeqScanExecutor)
    (column_id : Int) (k : type.Value) (hcap : 0 < cap)
    (hinfos : e.predicate_infos = [])
    (hexpr : e.predicate_expr_ = point_predicate column_id k) :
    ∃ tile : LogicalTileKV,
      (e.DExecute_KVSCAN cap).1 = some false ∧
      (e.DExecute_KVSCAN cap).2.output_kv_ = some tile ∧
      tile.tile_group_st_ = k.to_uint32 / cap ∧
      tile.tile_group_ed_ = e.table_tile_group_count_ ∧
      tile.visible_range_ = [(k.to_uint32 % cap, k.to_uint32 / cap)] ∧
      tile.is_point_ = true ∧
      tile.total_tuples_ = 1 ∧
      tile.table_id_ = e.table_id := by
  have hne : cap ≠ 0 := Nat.pos_iff_ne_zero.mp hcap
  have hg := GetPredicateInfo_point_predicate e.param_values_ column_id k
  simp only [SeqScanExecutor.DExecute_KVSCAN, hexpr, hinfos, hg]
  simp [point_predicate, expression.compare_constant, expression.binary, hne,
    LogicalTileKV.AddTileTupleVisible, PELOTON_ASSERT, LogicalTileKV.AddTableColumns,
    LogicalTileKV.fresh]

/-- The tile that the column-store branch emits when there is no predicate. -/
theorem SeqScanExecutor.DExecute_KVSCAN_no_predicate (cap : Nat) (e : SeqScanExecutor)
    (hexpr : e.predicate_expr_ = expression.AbstractExpression.null) :
    ∃ tile : LogicalTileKV,
      (e.DExecute_KVSCAN cap).1 = some false ∧
      (e.DExecute_KVSCAN cap).2.output_kv_ = some tile ∧
      tile.tile_group_st_ = 0 ∧
      tile.tile_group_ed_ = e.table_tile_group_count_ ∧
      tile.visible_range_ = [] ∧
      tile.is_point_ = e.is_point ∧
      tile.total_tuples_ = e.total_tuple ∧
      tile.table_id_ = e.table_id := by
  simp only [SeqScanExecutor.DExecute_KVSCAN, hexpr, GetPredicateInfo]
  simp [LogicalTileKV.AddTileTupleVisible, PELOTON_ASSERT, LogicalTileKV.AddTableColumns,
    LogicalTileKV.fresh]

theorem type.Value.to_uint32_lt (v : type.Value) : v.to_uint32 < OID_MOD := by
  cases v with
  | data t payload =>
    show (payload % 4294967296).toNat < 4294967296
    omega
  | null t => show 2147483648 < 4294967296; omega

/-- The count of the range case in plain arithmetic: `0` for equal keys, otherwise
`k_high_ - k_low_ - 1` modulo `2^32`; for `k_low_ ≤ k_high_` nothing wraps. -/
theorem SeqScanExecutor.range_total_tuple_eq (k_low_ k_high_ : Nat) (hl : k_low_ < OID_MOD)
    (hh : k_high_ < OID_MOD) :
    SeqScanExecutor.range_total_tuple k_low_ k_high_ =
        (if k_high_ = k_low_ then 0 else (k_high_ + OID_MOD - k_low_ - 1) % OID_MOD) ∧
      (k_low_ ≤ k_high_ →
        SeqScanExecutor.range_total_tuple k_low_ k_high_ = k_high_ - k_low_ - 1) := by
  unfold SeqScanExecutor.range_total_tuple OID_MOD at *
  constructor
  · split_ifs <;> omega
  · intro hle
    split_ifs <;> omega

/-- C16 (as amended): in the column-store and hash scans with group capacity
`cap = TEST_TUPLES_PER_TILEGROUP`, on the first `DExecute` of an executor: a range
predicate `low < column < high` (conjuncts in either order) yields a tile whose range of
tile groups is `[low / cap, high / cap]` with the offsets `low mod cap` and
`high mod cap`; a single equality `column = k` yields a tile whose range starts at the
group `k / cap`, with the one offset `k mod cap`, flagged as a point scan with tuple
count 1, while the end of its range stays the number of tile groups of the table; with
no predicate the range is `[0, number of tile groups]` and no offset is recorded. -/
theorem C16_tile_group_range_of_predicate (cap : Nat) (e : SeqScanExecutor) (hcap : 0 < cap)
    (hinfos : e.predicate_infos = []) :
    (∀ (column_id : Int) (low high : type.Value),
      e.predicate_expr_ = range_predicate column_id low high ∨
        e.predicate_expr_ = range_predicate_swapped column_id low high →
      ∃ tile : LogicalTileKV,
        (e.DExecute_KVSCAN cap).2.output_kv_ = some tile ∧
        tile.tile_group_st_ = low.to_uint32 / cap ∧
        tile.tile_group_ed_ = high.to_uint32 / cap ∧
        tile.visible_range_ = [(low.to_uint32 % cap, low.to_uint32 / cap),
          (high.to_uint32 % cap, high.to_uint32 / cap)] ∧
        tile.is_point_ = false) ∧
    (∀ (column_id : Int) (k : type.Value),
      e.predicate_expr_ = point_predicate column_id k →
      ∃ tile : LogicalTileKV,
        (e.DExecute_KVSCAN cap).2.output_kv_ = some tile ∧
        tile.tile_group_st_ = k.to_uint32 / cap ∧
        tile.tile_group_ed_ = e.table_tile_group_count_ ∧
        tile.visible_range_ = [(k.to_uint32 % cap, k.to_uint32 / cap)] ∧
        tile.is_point_ = true ∧
        tile.total_tuples_ = 1) ∧
    (e.predicate_expr_ = expression.AbstractExpression.null →
      ∃ tile : LogicalTileKV,
        (e.DExecute_KVSCAN cap).2.output_kv_ = some tile ∧
        tile.tile_group_st_ = 0 ∧
        tile.tile_group_ed_ = e.table_tile_group_count_ ∧
        tile.visible_range_ = []) := by
  refine ⟨?_, ?_, ?_⟩
  · intro column_id low high hexpr
    obtain ⟨tile, _, hout, hst, hed, hrange, hpoint, _, _⟩ :=
      SeqScanExecutor.DExecute_KVSCAN_range cap e column_id low high hcap hinfos hexpr
    exact ⟨tile, hout, hst, hed, hrange, hpoint⟩
  · intro column_id k hexpr
    obtain ⟨tile, _, hout, hst, hed, hrange, hpoint, htotal, _⟩ :=
      SeqScanExecutor.DExecute_KVSCAN_point cap e column_id k hcap hinfos hexpr
    exact ⟨tile, hout, hst, hed, hrange, hpoint, htotal⟩
  · intro hexpr
    obtain ⟨tile, _, hout, hst, hed, hrange, _, _, _⟩ :=
      SeqScanExecutor.DExecute_KVSCAN_no_predicate cap e hexpr
    exact ⟨tile, hout, hst, hed, hrange⟩

theorem C16_tile_group_range_of_predicate_witness :
    ∃ tile : LogicalTileKV,
      ((example_kv_executor (range_predicate 0 (type.Value.data 5 3)
          (type.Value.data 5 12))).DExecute_KVSCAN 5).2.output_kv_ = some tile ∧
      tile.tile_group_st_ = (type.Value.data 5 3).to_uint32 / 5 ∧
      tile.tile_group_ed_ = (type.Value.data 5 12).to_uint32 / 5 ∧
      tile.visible_range_ =
        [((type.Value.data 5 3).to_uint32 % 5, (type.Value.data 5 3).to_uint32 / 5),
          ((type.Value.data 5 12).to_uint32 % 5, (type.Value.data 5 12).to_uint32 / 5)] ∧
      tile.is_point_ = false :=
  (C16_tile_group_range_of_predicate 5
    (example_kv_executor (range_predicate 0 (type.Value.data 5 3) (type.Value.data 5 12)))
    (by decide) rfl).1 0 (type.Value.data 5 3) (type.Value.data 5 12) (Or.inl rfl)

/-- C16 (counterexample): with capacity 5, a table of three tile groups and the predicate
`column = 7`, the emitted tile starts its range at the group `7 / 5 = 1` but ends it at
3, the number of tile groups of the table, not at `7 / 5`. -/
theorem C16_point_scan_range_end_is_group_count :
    ∃ tile : LogicalTileKV,
      ((example_kv_executor (point_predicate 0 (type.Value.data 5 7))).DExecute_KVSCAN 5).2.output_kv_
        = some tile ∧
      tile.is_point_ = true ∧
      tile.tile_group_st_ = 1 ∧
      tile.tile_group_ed_ = 3 ∧
      ¬ (tile.tile_group_st_ = (type.Value.data 5 7).to_uint32 / 5 ∧
        tile.tile_group_ed_ = (type.Value.data 5 7).to_uint32 / 5) :=
  ⟨_, rfl, rfl, rfl, rfl, fun h => absurd h.2 (by decide)⟩

/-- C17: in the column-store and hash scans, for a range predicate whose bounds are the
32-bit keys `low` and `high`, the tuple count stored in the emitted tile is 0 when
`high = low` and `high - low - 1` in the arithmetic of `uint32_t` otherwise; for every
`low ≤ high` it is `high - low - 1` without wrapping and equals the number of integers
strictly between `low` and `high`. -/
theorem C17_range_tuple_count_is_open_interval (cap : Nat) (e : SeqScanExecutor)
    (column_id : Int) (low high : type.Value) (hcap : 0 < cap)
    (hinfos : e.predicate_infos = [])
    (hexpr : e.predicate_expr_ = range_predicate column_id low high ∨
      e.predicate_expr_ = range_predicate_swapped column_id low high) :
    ∃ tile : LogicalTileKV,
      (e.DExecute_KVSCAN cap).2.output_kv_ = some tile ∧
      tile.total_tuples_ =
        (if high.to_uint32 = low.to_uint32 then 0
         else (high.to_uint32 + OID_MOD - low.to_uint32 - 1) % OID_MOD) ∧
      (low.to_uint32 ≤ high.to_uint32 →
        tile.total_tuples_ = high.to_uint32 - low.to_uint32 - 1 ∧
        tile.total_tuples_ = (Finset.Ioo low.to_uint32 high.to_uint32).card) := by
  obtain ⟨tile, _, hout, _, _, _, _, htotal, _⟩ :=
    SeqScanExecutor.DExecute_KVSCAN_range cap e column_id low high hcap hinfos hexpr
  have harith := SeqScanExecutor.range_total_tuple_eq low.to_uint32 high.to_uint32
    (type.Value.to_uint32_lt low) (type.Value.to_uint32_lt high)
  refine ⟨tile, hout, ?_, ?_⟩
  · rw [htotal]
    exact harith.1
  · intro hle
    rw [htotal, Nat.card_Ioo]
    exact ⟨harith.2 hle, harith.2 hle⟩

theorem C17_range_tuple_count_is_open_interval_witness :
    ∃ tile : LogicalTileKV,
      ((example_kv_executor (range_predicate_swapped 0 (type.Value.data 5 3)
          (type.Value.data 5 12))).DExecute_KVSCAN 5).2.output_kv_ = some tile ∧
      tile.total_tuples_ =
        (if (type.Value.data 5 12).to_uint32 = (type.Value.data 5 3).to_uint32 then 0
         else ((type.Value.data 5 12).to_uint32 + OID_MOD - (type.Value.data 5 3).to_uint32 - 1)
           % OID_MOD) ∧
      ((type.Value.data 5 3).to_uint32 ≤ (type.Value.data 5 12).to_uint32 →
        tile.total_tuples_ =
          (type.Value.data 5 12).to_uint32 - (type.Value.data 5 3).to_uint32 - 1 ∧
        tile.total_tuples_ =
          (Finset.Ioo (type.Value.data 5 3).to_uint32 (type.Value.data 5 12).to_uint32).card) :=
  C17_range_tuple_count_is_open_interval 5
    (example_kv_executor (range_predicate_swapped 0 (type.Value.data 5 3)
      (type.Value.data 5 12))) 0 (type.Value.data 5 3) (type.Value.data 5 12)
    (by decide) rfl (Or.inr rfl)

/-! ### Scan over a child executor -/

/-- C11 (evaluation of the code at the failing input): the child outputs a tile of three
visible rows and the predicate is false on row 0, null on row 1 and true on row 2.  The
scan over the child emits the tile with row 1 still visible (only row 0 was
invalidated, two rows are counted), whereas the scan of a table keeps only the tuples
on which the predicate is true: in the example table the tuple 1 of the group 11, on
which the predicate is null, is not in the position list. -/
theorem C11_child_scan_keeps_null_rows_visible :
    (example_child_executor.DExecute_child 3).1 = some true ∧
    ((example_child_executor.DExecute_child 3).2.output_.map
      (fun tile => (tile.visible_rows_, tile.visible_tuples_))) = some ([false, true, true], 2) ∧
    (example_child_executor.predicate_on_tile_.map
      (fun predicate => predicate LogicalTile.fresh 1)) = some type.CmpBool.NULL ∧
    example_executor.build_position_list (example_table.getD 1 storage.TileGroup.none) = [0, 2] := by
  refine ⟨by decide, by decide, rfl, by decide⟩

/-! ### Sparse index -/

/-- C15 (evaluation of the code at the failing input): a table with tile groups of
capacity 4 and the columns `(id, val)` is filled with the rows `id = 0..9` in order.
The row `(7, 107)` is stored in slot 3 of the tile group at offset 1, but the sparse
index holds `(4, 6)` under the key 2 that the scan consults for this group (and
`(0, 2)`, `(8, 9)` for the other two), so the ordered scan with the predicate `id = 7`
skips all three tile groups: its first `DExecute` returns false and emits no tile.
With the predicate `id = 6` the same scan emits slot 2 of that group. -/
theorem C15_point_scan_misses_last_slot_row :
    example_stored_row 1 3 = some (type.Value.data 5 7, type.Value.data 5 107) ∧
    example_table_of_ten.map (fun s => s.1.sparse_index) =
      some [(3, type.Value.data 5 8, type.Value.data 5 9),
            (2, type.Value.data 5 4, type.Value.data 5 6),
            (1, type.Value.data 5 0, type.Value.data 5 2)] ∧
    example_point_scan 7 = some (some false, none) ∧
    example_point_scan 6 = some (some true, some [[2]]) := by
  refine ⟨by decide, by decide, by decide, by decide⟩

/-- C13 (evaluation of the code at the failing input): the only tile group of the table
holds the leading values 4, 5, 6, 7 and the sparse index holds the bounds `(4, 7)` for
it, which bound them all.  For the predicate `5 < id < 9` written as
`id > 5 AND id < 9` the ordered scan evaluates the group and emits the slots 2 and 3
(the rows 6 and 7).  For the same predicate written as `id < 9 AND id > 5` it takes
the first constant, 9, as the lower end and skips the group because 9 is greater than
the stored maximum 7: it returns false and emits nothing. -/
theorem C13_swapped_conjuncts_skip_qualifying_group :
    example_leading_values = some [type.Value.data 5 4, type.Value.data 5 5,
      type.Value.data 5 6, type.Value.data 5 7] ∧
    example_table_of_four.map (fun s => s.1.sparse_index) =
      some [(1, type.Value.data 5 4, type.Value.data 5 7)] ∧
    example_range_scan (range_predicate 0 (type.Value.data 5 5) (type.Value.data 5 9)) =
      some (some true, some [[2, 3]]) ∧
    example_range_scan (range_predicate_swapped 0 (type.Value.data 5 5) (type.Value.data 5 9)) =
      some (some false, none) := by
  refine ⟨by decide, by decide, by decide, by decide⟩

/-! ### Tuple slots and the sparse index -/

theorem storage.Tile.SetValue_schema (tile : storage.Tile) (value : type.Value) (t c : Nat) :
    (tile.SetValue value t c).schema = tile.schema ∧
      (tile.SetValue value t c).num_tuple_slots = tile.num_tuple_slots := ⟨rfl, rfl⟩

/-- The fold of `SetValue` over a list of columns keeps the schema and the number of
slots, writes only the row `slot`, and leaves a cell of that row as it is when no
column of the list lies at its byte offset. -/
theorem storage.Tile.foldl_SetValue (val : Nat → type.Value) (slot : Nat) (cols : List Nat) :
    ∀ tile : storage.Tile,
      let folded := cols.foldl (fun tl c => tl.SetValue (val c) slot c) tile
      folded.schema = tile.schema ∧ folded.num_tuple_slots = tile.num_tuple_slots ∧
      (∀ t o, t ≠ slot → folded.cells t o = tile.cells t o) ∧
      (∀ o, (∀ c ∈ cols, tile.schema.GetOffset c ≠ o) → folded.cells slot o = tile.cells slot o) := by
  induction cols with
  | nil => intro tile; exact ⟨rfl, rfl, fun _ _ _ => rfl, fun _ _ => rfl⟩
  | cons c rest ih =>
    intro tile
    obtain ⟨hs, hn, hrow, hcell⟩ := ih (tile.SetValue (val c) slot c)
    refine ⟨hs, hn, ?_, ?_⟩
    · intro t o ht
      show (rest.foldl _ (tile.SetValue (val c) slot c)).cells t o = _
      rw [hrow t o ht]
      show (if t = slot ∧ o = _ then _ else _) = _
      rw [if_neg (fun h => ht h.1)]
    · intro o hall
      show (rest.foldl _ (tile.SetValue (val c) slot c)).cells slot o = _
      rw [hcell o (fun c1 hc1 => hall c1 (List.mem_cons_of_mem _ hc1))]
      show (if slot = slot ∧ o = _ then _ else _) = _
      rw [if_neg (fun h => hall c (List.mem_cons_self _ _) h.2.symm)]

/-- The effect of `Tile::CopyTuple` from the column 0 of the tuple on, on a tile whose
column 0 shares its byte offset with no other column. -/
theorem storage.Tile.CopyTuple_leading (tile : storage.Tile) (tuple : storage.Tuple) (slot : Nat)
    (hlen : 0 < tile.schema.length)
    (hoff : ∀ j, 0 < j → j < tile.schema.length →
      tile.schema.GetOffset j ≠ tile.schema.GetOffset 0) :
    (tile.CopyTuple tuple slot 0).schema = tile.schema ∧
    (tile.CopyTuple tuple slot 0).num_tuple_slots = tile.num_tuple_slots ∧
    (∀ t c, t ≠ slot → (tile.CopyTuple tuple slot 0).GetValue t c = tile.GetValue t c) ∧
    (tile.CopyTuple tuple slot 0).GetValue slot 0 = tuple.GetValue 0 := by
  obtain ⟨n, hn⟩ : ∃ n, tile.schema.length = n + 1 := ⟨tile.schema.length - 1, by omega⟩
  have hrange : List.range tile.schema.GetColumnCount = 0 :: List.range' 1 n := by
    show List.range tile.schema.length = _
    rw [hn, List.range_eq_range', List.range'_succ]
  have hfold := storage.Tile.foldl_SetValue (fun c => tuple.GetValue (0 + c)) slot
    (List.range' 1 n) (tile.SetValue (tuple.GetValue (0 + 0)) slot 0)
  have hcopy : tile.CopyTuple tuple slot 0 =
      (List.range' 1 n).foldl (fun tl c => tl.SetValue (tuple.GetValue (0 + c)) slot c)
        (tile.SetValue (tuple.GetValue (0 + 0)) slot 0) := by
    unfold storage.Tile.CopyTuple
    rw [hrange, List.foldl_cons]
  obtain ⟨hs, hslots, hrow, hcell⟩ := hfold
  rw [hcopy]
  refine ⟨hs, hslots, ?_, ?_⟩
  · intro t c ht
    unfold storage.Tile.GetValue storage.Tile.GetValueFast
    rw [hs, hrow t _ ht]
    show (if t = slot ∧ _ = _ then _ else _) = _
    rw [if_neg (fun h => ht h.1)]
    rfl
  · unfold storage.Tile.GetValue storage.Tile.GetValueFast
    rw [hs, hcell]
    · show (if slot = slot ∧ _ = _ then _ else _) = _
      rw [if_pos ⟨rfl, rfl⟩]
    · intro c hc
      rw [List.mem_range'_1] at hc
      exact hoff c (by omega) (by omega)

theorem storage.TileGroup.GetAllocatedTupleCount_leading (g : storage.TileGroup) (cap : Nat)
    (hg : g.leading_first cap) : g.GetAllocatedTupleCount = cap := by
  obtain ⟨_, tile, rest, htiles, hslots, _, _⟩ := hg
  unfold storage.TileGroup.GetAllocatedTupleCount storage.TileGroup.GetTileReference
  rw [htiles]
  exact hslots

/-- The effect of `InsertTuple` on a tile group that has an empty slot: the slot is the
next one, the leading value of the tuple is stored in it, and the leading values of
the other slots are as before. -/
theorem storage.TileGroup.InsertTuple_leading (g : storage.TileGroup) (cap : Nat)
    (tuple : storage.Tuple) (hg : g.leading_first cap) (hnext : g.next_tuple_slot < cap) :
    ∃ g1 : storage.TileGroup,
      g.InsertTuple (some tuple) = (g.next_tuple_slot, g1) ∧
      g1.next_tuple_slot = g.next_tuple_slot + 1 ∧
      g1.tile_group_id = g.tile_group_id ∧
      g1.leading_first cap ∧
      g1.GetValue g.next_tuple_slot 0 = tuple.GetValue 0 ∧
      (∀ s, s ≠ g.next_tuple_slot → g1.GetValue s 0 = g.GetValue s 0) := by
  have halloc := storage.TileGroup.GetAllocatedTupleCount_leading g cap hg
  obtain ⟨hlay, tile, rest, htiles, hslots, hlen, hoff⟩ := hg
  obtain ⟨hs, hn, hrow, hcell⟩ :=
    storage.Tile.CopyTuple_leading tile tuple g.next_tuple_slot hlen hoff
  refine ⟨({ g with next_tuple_slot := g.next_tuple_slot + 1 } : storage.TileGroup).CopyTuple
    tuple g.next_tuple_slot, ?_, rfl, rfl, ?_, ?_, ?_⟩
  · unfold storage.TileGroup.InsertTuple
    rw [if_pos (by rw [halloc]; exact hnext)]
  · refine ⟨hlay, tile.CopyTuple tuple g.next_tuple_slot 0,
      storage.TileGroup.CopyTuple_tiles tuple g.next_tuple_slot rest
        (0 + tile.schema.GetColumnCount), ?_, ?_, ?_, ?_⟩
    · show storage.TileGroup.CopyTuple_tiles tuple g.next_tuple_slot g.tiles 0 = _
      rw [htiles]
      rfl
    · rw [hn]; exact hslots
    · rw [hs]; exact hlen
    · rw [hs]; exact hoff
  · show (storage.TileGroup.GetTileReference _ (g.layout 0).1).GetValue _ (g.layout 0).2 = _
    rw [hlay]
    show ((storage.TileGroup.CopyTuple_tiles tuple g.next_tuple_slot g.tiles 0).getD 0
      storage.Tile.none).GetValue _ 0 = _
    rw [htiles]
    exact hcell
  · intro s hne
    show (storage.TileGroup.GetTileReference _ (g.layout 0).1).GetValue _ (g.layout 0).2 =
      (g.GetTileReference (g.layout 0).1).GetValue _ (g.layout 0).2
    rw [hlay]
    show ((storage.TileGroup.CopyTuple_tiles tuple g.next_tuple_slot g.tiles 0).getD 0
      storage.Tile.none).GetValue _ 0 = (g.tiles.getD 0 storage.Tile.none).GetValue _ 0
    rw [htiles]
    exact hrow s 0 hne

theorem storage.map_find_unique_insert {κ ν : Type} [DecidableEq κ] (m : List (κ × ν))
    (k k2 : κ) (v : ν) (habsent : storage.map_find m k = none) :
    storage.map_find (storage.unique_insert m k v) k2 =
      if k = k2 then some v else storage.map_find m k2 := by
  unfold storage.unique_insert
  rw [habsent]
  rfl

theorem storage.CuckooMap.Find_Upsert {κ ν : Type} [DecidableEq κ] (m : List (κ × ν))
    (k k2 : κ) (v : ν) :
    storage.CuckooMap.Find (storage.CuckooMap.Upsert m k v) k2 =
      if k = k2 then some v else storage.CuckooMap.Find m k2 := by
  unfold storage.CuckooMap.Find storage.CuckooMap.Upsert
  by_cases h : k = k2
  · rw [if_pos h]
    show (if k = k2 then some v else _) = _
    rw [if_pos h]
  · rw [if_neg h]
    show (if k = k2 then some v else _) = _
    rw [if_neg h]
    exact storage.map_find_erase_ne m k2 k h

/-- The two statements of `GetEmptyTupleSlot` on the sparse index leave the pair under
the key `(oid_t)tile_group_count_` and change no other entry and no other member. -/
theorem storage.DataTable.update_sparse_index_spec (table : storage.DataTable)
    (tp_0 tp_slot : type.Value) :
    (∀ k, storage.CuckooMap.Find (table.update_sparse_index tp_0 tp_slot).sparse_index k =
      if table.tile_group_count_ % OID_MOD = k then some (tp_0, tp_slot)
      else storage.CuckooMap.Find table.sparse_index k) ∧
    (table.update_sparse_index tp_0 tp_slot).tile_group_count_ = table.tile_group_count_ ∧
    (table.update_sparse_index tp_0 tp_slot).active_tilegroup_count_ =
      table.active_tilegroup_count_ ∧
    (table.update_sparse_index tp_0 tp_slot).tuples_per_tilegroup_ =
      table.tuples_per_tilegroup_ ∧
    (table.update_sparse_index tp_0 tp_slot).default_layout_ = table.default_layout_ ∧
    (table.update_sparse_index tp_0 tp_slot).tile_schemas_ = table.tile_schemas_ ∧
    (table.update_sparse_index tp_0 tp_slot).table_oid = table.table_oid ∧
    (table.update_sparse_index tp_0 tp_slot).database_oid = table.database_oid ∧
    (table.update_sparse_index tp_0 tp_slot).active_tile_groups_ = table.active_tile_groups_ := by
  unfold storage.DataTable.update_sparse_index
  by_cases hc : storage.CuckooMap.Contains table.sparse_index (table.tile_group_count_ % OID_MOD)
      = true
  · rw [if_pos hc]
    refine ⟨?_, rfl, rfl, rfl, rfl, rfl, rfl, rfl, rfl⟩
    intro k
    have hsome : (storage.map_find table.sparse_index (table.tile_group_count_ % OID_MOD)).isSome
        = true := hc
    show storage.CuckooMap.Find (storage.CuckooMap.Update _ _ _) k = _
    unfold storage.CuckooMap.Update
    rw [if_pos hsome]
    exact storage.CuckooMap.Find_Upsert _ _ _ _
  · rw [if_neg hc]
    refine ⟨?_, rfl, rfl, rfl, rfl, rfl, rfl, rfl, rfl⟩
    intro k
    have hsome : ¬ (storage.map_find table.sparse_index (table.tile_group_count_ % OID_MOD)).isSome
        = true := hc
    show storage.CuckooMap.Find (storage.CuckooMap.Insert _ _ _) k = _
    unfold storage.CuckooMap.Insert
    rw [if_neg hsome]
    rfl

theorem storage.StorageManager.AddTileGroupWithOffset_spec (sm : storage.StorageManager)
    (database_id table_id tile_group_offset tile_group_id location : Nat)
    (location_prev : Option Nat)
    (hdb : ∃ db, sm.GetDatabaseWithOid database_id = some db ∧ db.name = "default_database") :
    ∃ sm1 : storage.StorageManager,
      sm.AddTileGroupWithOffset database_id table_id tile_group_offset tile_group_id location
        location_prev = (some (), sm1) ∧
      sm1.databases_ = sm.databases_ ∧
      sm1.tile_group_tree_ =
        storage.unique_insert sm.tile_group_tree_ (table_id, tile_group_offset) location := by
  obtain ⟨db, hfind, hname⟩ := hdb
  have hfind1 : ({ sm with tile_group_locator_ :=
      storage.CuckooMap.Upsert sm.tile_group_locator_ tile_group_id location } :
      storage.StorageManager).GetDatabaseWithOid database_id = some db := hfind
  unfold storage.StorageManager.AddTileGroupWithOffset
  simp only [hfind1, hname, if_true]
  cases location_prev with
  | none => exact ⟨_, rfl, rfl, rfl⟩
  | some prev => exact ⟨_, rfl, rfl, rfl⟩

/-- The effect of `AddDefaultTileGroup(0)` on a table with one active tile group in a
default database, when the ordered tree has no entry yet for the next offset. -/
theorem storage.DataTable.AddDefaultTileGroup_spec (table : storage.DataTable)
    (rt : storage.Runtime) (x : Option Nat)
    (hactive : table.active_tile_groups_ = [x])
    (hdb : ∃ db, rt.manager.GetDatabaseWithOid table.database_oid = some db ∧
      db.name = "default_database")
    (hcount : table.tile_group_count_ < OID_MOD)
    (hunreg : storage.map_find rt.manager.tile_group_tree_
      (table.table_oid, table.tile_group_count_) = none) :
    (table.AddDefaultTileGroup rt 0).1 = some (table.GetTileGroupWithLayout rt).1.GetTileGroupId ∧
    (table.AddDefaultTileGroup rt 0).2.1.active_tile_groups_ = [some rt.next_address] ∧
    (table.AddDefaultTileGroup rt 0).2.1.tile_group_count_ = table.tile_group_count_ + 1 ∧
    (table.AddDefaultTileGroup rt 0).2.1.active_tilegroup_count_ = table.active_tilegroup_count_ ∧
    (table.AddDefaultTileGroup rt 0).2.1.tuples_per_tilegroup_ = table.tuples_per_tilegroup_ ∧
    (table.AddDefaultTileGroup rt 0).2.1.default_layout_ = table.default_layout_ ∧
    (table.AddDefaultTileGroup rt 0).2.1.tile_schemas_ = table.tile_schemas_ ∧
    (table.AddDefaultTileGroup rt 0).2.1.table_oid = table.table_oid ∧
    (table.AddDefaultTileGroup rt 0).2.1.database_oid = table.database_oid ∧
    (table.AddDefaultTileGroup rt 0).2.1.sparse_index = table.sparse_index ∧
    (table.AddDefaultTileGroup rt 0).2.1.number_of_tuples_ = table.number_of_tuples_ ∧
    (table.AddDefaultTileGroup rt 0).2.2.next_address = rt.next_address + 1 ∧
    (table.AddDefaultTileGroup rt 0).2.2.recycled_slots = rt.recycled_slots ∧
    (∀ a, (table.AddDefaultTileGroup rt 0).2.2.tile_groups a =
      if a = rt.next_address then some (table.GetTileGroupWithLayout rt).1
      else rt.tile_groups a) ∧
    (table.AddDefaultTileGroup rt 0).2.2.manager.databases_ = rt.manager.databases_ ∧
    (∀ k, storage.map_find (table.AddDefaultTileGroup rt 0).2.2.manager.tile_group_tree_ k =
      if (table.table_oid, table.tile_group_count_) = k then some rt.next_address
      else storage.map_find rt.manager.tile_group_tree_ k) := by
  obtain ⟨sm1, hadd, hdbs, htree⟩ :=
    storage.StorageManager.AddTileGroupWithOffset_spec (table.GetTileGroupWithLayout rt).2.manager
      table.database_oid table.table_oid (table.tile_group_count_ % OID_MOD)
      (table.GetTileGroupWithLayout rt).1.GetTileGroupId rt.next_address table.tile_group_pre hdb
  have hE : table.AddDefaultTileGroup rt 0 =
      (some (table.GetTileGroupWithLayout rt).1.GetTileGroupId,
        { table with
          tile_groups_ := table.tile_groups_ ++ [(table.GetTileGroupWithLayout rt).1.GetTileGroupId]
          active_tile_groups_ := table.active_tile_groups_.set 0 (some rt.next_address)
          tile_group_array_ := table.tile_group_array_ ++ [rt.next_address]
          tile_group_count_ := table.tile_group_count_ + 1
          tile_group_pre := some rt.next_address
          tile_group_id_latest := (table.GetTileGroupWithLayout rt).1.GetTileGroupId },
        { ((table.GetTileGroupWithLayout rt).2.store rt.next_address
            (table.GetTileGroupWithLayout rt).1) with
          next_address := rt.next_address + 1
          manager := sm1 }) := by
    unfold storage.DataTable.AddDefaultTileGroup
    simp only []
    have hnext : (table.GetTileGroupWithLayout rt).2.next_address = rt.next_address := rfl
    rw [hnext]
    have hm : ({ (table.GetTileGroupWithLayout rt).2.store rt.next_address
        (table.GetTileGroupWithLayout rt).1 with next_address := rt.next_address + 1 } :
        storage.Runtime).manager = (table.GetTileGroupWithLayout rt).2.manager := rfl
    rw [hm, hadd]
  rw [hE]
  rw [Nat.mod_eq_of_lt hcount] at htree
  refine ⟨rfl, ?_, rfl, rfl, rfl, rfl, rfl, rfl, rfl, rfl, rfl, rfl, rfl, fun a => rfl, ?_, ?_⟩
  · show table.active_tile_groups_.set 0 (some rt.next_address) = _
    rw [hactive]
    rfl
  · show sm1.databases_ = _
    rw [hdbs]
    rfl
  · intro k
    show storage.map_find sm1.tile_group_tree_ k = _
    rw [htree]
    exact storage.map_find_unique_insert _ _ _ _ hunreg

/-- The tile group that `GetTileGroupWithLayout` builds for a table whose leading column
is column 0 of the first tile has no tuple yet and has the leading column first. -/
theorem storage.DataTable.GetTileGroupWithLayout_leading (table : storage.DataTable)
    (rt : storage.Runtime) (cap : Nat) (hcap : table.tuples_per_tilegroup_ = cap)
    (hlay : table.default_layout_ 0 = (0, 0))
    (hsch : ∃ s0 rest, table.tile_schemas_ = s0 :: rest ∧ 0 < s0.length ∧
      ∀ j, 0 < j → j < s0.length → s0.GetOffset j ≠ s0.GetOffset 0) :
    (table.GetTileGroupWithLayout rt).1.leading_first cap ∧
      (table.GetTileGroupWithLayout rt).1.next_tuple_slot = 0 := by
  obtain ⟨s0, rest, hs, hlen, hoff⟩ := hsch
  refine ⟨⟨hlay, ?_⟩, rfl⟩
  have htiles : (table.GetTileGroupWithLayout rt).1.tiles =
      (List.range table.tile_schemas_.length).map (fun tile_itr =>
        ({ addr := Nat.pair (table.GetTileGroupWithLayout rt).1.tile_group_id tile_itr
           schema := table.tile_schemas_.getD tile_itr []
           num_tuple_slots := table.tuples_per_tilegroup_
           cells := fun _ _ => type.Value.null 0 } : storage.Tile)) := rfl
  rw [hs, List.length_cons, List.range_eq_range', List.range'_succ, List.map_cons] at htiles
  exact ⟨_, _, htiles, hcap, hlen, hoff⟩

/-- The equation of `GetEmptyTupleSlot` for a tuple on a table with one active tile group
that has an empty slot, in a default database and without recycled slots: the tuple
goes into the next slot of the active tile group, a tile group is added when that slot
is the last one, and the sparse index is updated afterwards. -/
theorem storage.DataTable.GetEmptyTupleSlot_eq (table : storage.DataTable) (rt : storage.Runtime)
    (cap : Nat) (tuple : storage.Tuple) (address : Nat) (g g1 : storage.TileGroup)
    (hcap : cap < OID_MOD)
    (hcount : table.active_tilegroup_count_ = 1)
    (hrecycled : storage.map_find rt.recycled_slots table.table_oid = none)
    (hactive : table.active_tile_groups_ = [some address])
    (hheap : rt.tile_groups address = some g)
    (hnext : g.next_tuple_slot < cap)
    (hinsert : g.InsertTuple (some tuple) = (g.next_tuple_slot, g1))
    (halloc : g1.GetAllocatedTupleCount = cap)
    (added : Option Nat × storage.DataTable × storage.Runtime)
    (hadded : added =
      if g.next_tuple_slot + 1 = cap then table.AddDefaultTileGroup (rt.store address g1) 0
      else (some g1.GetTileGroupId, table, rt.store address g1))
    (hsome : added.1.isSome = true)
    (hdb : ∃ db, added.2.2.manager.GetDatabaseWithOid added.2.1.database_oid = some db ∧
      db.name = "default_database") :
    table.GetEmptyTupleSlot rt (some tuple) =
      (some (({ block := g1.GetTileGroupId, offset := g.next_tuple_slot } :
          storage.ItemPointer).SetLocation address),
        added.2.1.update_sparse_index (g1.GetValue 0 0) (tuple.GetValue 0), added.2.2) := by
  obtain ⟨db, hfind, hname⟩ := hdb
  have hfree : rt.ReturnFreeSlot table.table_oid = (storage.INVALID_ITEMPOINTER, rt) := by
    unfold storage.Runtime.ReturnFreeSlot
    rw [hrecycled]
  have hnull : storage.INVALID_ITEMPOINTER.IsNull = true := by decide
  have hvalid : g.next_tuple_slot ≠ INVALID_OID := by
    unfold INVALID_OID
    unfold OID_MOD at *
    omega
  have hlast : (g.next_tuple_slot = (cap + OID_MOD - 1) % OID_MOD) ↔ g.next_tuple_slot + 1 = cap := by
    unfold OID_MOD at *
    omega
  have hadded1 : (if g.next_tuple_slot = (cap + OID_MOD - 1) % OID_MOD then
      table.AddDefaultTileGroup (rt.store address g1) 0
      else (some g1.GetTileGroupId, table, rt.store address g1)) = added := by
    rw [hadded]
    by_cases h : g.next_tuple_slot + 1 = cap
    · rw [if_pos h, if_pos (hlast.mpr h)]
    · rw [if_neg h, if_neg (fun h1 => h (hlast.mp h1))]
  obtain ⟨r, table1, rt2⟩ := added
  obtain ⟨id, rfl⟩ := Option.isSome_iff_exists.mp hsome
  unfold storage.DataTable.GetEmptyTupleSlot
  simp only [hfree, hnull, hcount, hactive, Nat.mod_one, List.getD_cons_zero, hheap, hinsert,
    hvalid, halloc, hadded1, hfind, hname, if_true, if_false, one_ne_zero, Bool.true_eq_false]

theorem storage.StorageManager.GetDatabaseWithOid_congr (sm sm1 : storage.StorageManager)
    (h : sm1.databases_ = sm.databases_) (database_oid : Nat) :
    sm1.GetDatabaseWithOid database_oid = sm.GetDatabaseWithOid database_oid := by
  unfold storage.StorageManager.GetDatabaseWithOid
  rw [h]

/-- An insert that does not take the last slot of the active tile group keeps the
invariant of the sparse index. -/
theorem storage.DataTable.SparseInv_step_room (table : storage.DataTable) (rt : storage.Runtime)
    (cap : Nat) (b : Int) (tuple : storage.Tuple) (ty : TypeId) (v : Int)
    (hinv : table.SparseInv rt cap b) (hlead : tuple.GetValue 0 = type.Value.data ty v)
    (hb : b ≤ v) (hcap : cap < OID_MOD) (hfit : table.tile_group_count_ + 1 < OID_MOD)
    (address : Nat) (g g1 : storage.TileGroup)
    (hact : table.active_tile_groups_ = [some address])
    (htreeA : storage.map_find rt.manager.tile_group_tree_
      (table.table_oid, table.tile_group_count_ - 1) = some address)
    (hheap : rt.tile_groups address = some g) (hnext : g.next_tuple_slot < cap)
    (hdistinct : ∀ o, o + 1 < table.tile_group_count_ →
      storage.map_find rt.manager.tile_group_tree_ (table.table_oid, o) ≠ some address)
    (hentry : 0 < g.next_tuple_slot → ∃ ty0 v0 ty1 mx,
      g.GetValue 0 0 = type.Value.data ty0 v0 ∧
      storage.CuckooMap.Find table.sparse_index table.tile_group_count_ =
        some (type.Value.data ty0 v0, type.Value.data ty1 mx) ∧
      mx ≤ b ∧
      ∀ s, s < g.next_tuple_slot → ∃ ty v, g.GetValue s 0 = type.Value.data ty v ∧
        v0 ≤ v ∧ v ≤ mx)
    (hins : g.InsertTuple (some tuple) = (g.next_tuple_slot, g1))
    (hnext1 : g1.next_tuple_slot = g.next_tuple_slot + 1)
    (hlf1 : g1.leading_first cap)
    (hval1 : g1.GetValue g.next_tuple_slot 0 = tuple.GetValue 0)
    (hrest1 : ∀ s, s ≠ g.next_tuple_slot → g1.GetValue s 0 = g.GetValue s 0)
    (hroom : ¬ g.next_tuple_slot + 1 = cap) :
    (table.GetEmptyTupleSlot rt (some tuple)).1.isSome = true ∧
    (table.GetEmptyTupleSlot rt (some tuple)).2.1.SparseInv
      (table.GetEmptyTupleSlot rt (some tuple)).2.2 cap v ∧
    (table.GetEmptyTupleSlot rt (some tuple)).2.1.tile_group_count_ ≤
      table.tile_group_count_ + 1 := by
  have halloc := storage.TileGroup.GetAllocatedTupleCount_leading g1 cap hlf1
  have hE := storage.DataTable.GetEmptyTupleSlot_eq table rt cap tuple address g g1 hcap
    hinv.active_count hinv.no_recycled hact hheap hnext hins halloc
    (some g1.GetTileGroupId, table, rt.store address g1) (by rw [if_neg hroom]) rfl hinv.database
  rw [hE]
  obtain ⟨hfindU, hcountU, hactcU, hcapU, hlayU, hschU, htoidU, hdoidU, hactgU⟩ :=
    storage.DataTable.update_sparse_index_spec table (g1.GetValue 0 0) (tuple.GetValue 0)
  have hmod : table.tile_group_count_ % OID_MOD = table.tile_group_count_ :=
    Nat.mod_eq_of_lt (by omega)
  refine ⟨rfl, ?_, ?_⟩
  · show (table.update_sparse_index (g1.GetValue 0 0) (tuple.GetValue 0)).SparseInv
      (rt.store address g1) cap v
    refine ⟨hactcU.trans hinv.active_count, hcapU.trans hinv.cap_eq, ?_, ?_, ?_, ?_, ?_, ?_, ?_,
      ?_, ?_⟩
    · rw [hlayU]; exact hinv.layout0
    · rw [hschU]; exact hinv.schemas
    · rw [htoidU]; exact hinv.no_recycled
    · rw [hdoidU]; exact hinv.database
    · rw [hcountU]; exact hinv.count_pos
    · intro o ho
      rw [htoidU]
      rw [hcountU] at ho
      exact hinv.unregistered o ho
    · intro o ho
      rw [hcountU] at ho
      rw [htoidU]
      obtain ⟨a, g2, ht, hh, hlt, hl⟩ := hinv.groups o ho
      by_cases ha : a = address
      · refine ⟨a, g1, ht, ?_, hlt, hlf1⟩
        show (if a = address then some g1 else rt.tile_groups a) = some g1
        rw [if_pos ha]
      · refine ⟨a, g2, ht, ?_, hlt, hl⟩
        show (if a = address then some g1 else rt.tile_groups a) = some g2
        rw [if_neg ha]
        exact hh
    · refine ⟨address, g1, hactgU.trans hact, ?_, ?_, by omega, ?_, ?_⟩
      · rw [htoidU, hcountU]; exact htreeA
      · show (if address = address then some g1 else rt.tile_groups address) = some g1
        rw [if_pos rfl]
      · intro o ho
        rw [hcountU] at ho
        rw [htoidU]
        exact hdistinct o ho
      · intro _
        rw [hcountU, hfindU, if_pos hmod, hlead]
        by_cases hzero : g.next_tuple_slot = 0
        · have h0 : g1.GetValue 0 0 = type.Value.data ty v := by
            rw [← hlead, ← hval1, hzero]
          refine ⟨ty, v, ty, v, h0, by rw [h0], le_refl v, ?_⟩
          intro s hs
          have hs0 : s = 0 := by omega
          rw [hs0]
          exact ⟨ty, v, h0, le_refl v, le_refl v⟩
        · obtain ⟨ty0, v0, ty1, mx, hv0, _, hmx, hall⟩ := hentry (by omega)
          have h0 : g1.GetValue 0 0 = type.Value.data ty0 v0 := by
            rw [hrest1 0 (fun h => hzero h.symm)]
            exact hv0
          have hv0mx : v0 ≤ mx := by
            obtain ⟨ty2, v2, hv2, hlo, hhi⟩ := hall 0 (by omega)
            exact le_trans hlo hhi
          refine ⟨ty0, v0, ty, v, h0, by rw [h0], le_refl v, ?_⟩
          intro s hs
          by_cases hsn : s = g.next_tuple_slot
          · refine ⟨ty, v, ?_, by omega, le_refl v⟩
            rw [hsn, hval1, hlead]
          · obtain ⟨ty2, v2, hv2, hlo, hhi⟩ := hall s (by omega)
            refine ⟨ty2, v2, ?_, hlo, by omega⟩
            rw [hrest1 s hsn]
            exact hv2
    · intro o ho a g2 ht hh s hs hne
      rw [hcountU] at ho
      rw [htoidU] at ht
      have ha : a ≠ address := fun h => hdistinct o ho (h ▸ ht)
      have hh2 : rt.tile_groups a = some g2 := by
        have : (if a = address then some g1 else rt.tile_groups a) = some g2 := hh
        rw [if_neg ha] at this
        exact this
      obtain ⟨mn, mx, hf, hw⟩ := hinv.full o ho a g2 ht hh2 s hs hne
      refine ⟨mn, mx, ?_, hw⟩
      rw [hfindU, if_neg (by omega)]
      exact hf
  · show (table.update_sparse_index (g1.GetValue 0 0) (tuple.GetValue 0)).tile_group_count_ ≤ _
    rw [hcountU]
    omega

/-- An insert that takes the last slot of the active tile group keeps the invariant of
the sparse index: the tile group that is added becomes the active one, and the entry
of the tile group that is now full is the one it had before the insert. -/
theorem storage.DataTable.SparseInv_step_last (table : storage.DataTable) (rt : storage.Runtime)
    (cap : Nat) (b : Int) (tuple : storage.Tuple) (v : Int)
    (hinv : table.SparseInv rt cap b)
    (hcap : cap < OID_MOD) (hfit : table.tile_group_count_ + 1 < OID_MOD)
    (address : Nat) (g g1 : storage.TileGroup)
    (hact : table.active_tile_groups_ = [some address])
    (htreeA : storage.map_find rt.manager.tile_group_tree_
      (table.table_oid, table.tile_group_count_ - 1) = some address)
    (hheap : rt.tile_groups address = some g) (hnext : g.next_tuple_slot < cap)
    (hdistinct : ∀ o, o + 1 < table.tile_group_count_ →
      storage.map_find rt.manager.tile_group_tree_ (table.table_oid, o) ≠ some address)
    (hentry : 0 < g.next_tuple_slot → ∃ ty0 v0 ty1 mx,
      g.GetValue 0 0 = type.Value.data ty0 v0 ∧
      storage.CuckooMap.Find table.sparse_index table.tile_group_count_ =
        some (type.Value.data ty0 v0, type.Value.data ty1 mx) ∧
      mx ≤ b ∧
      ∀ s, s < g.next_tuple_slot → ∃ ty v, g.GetValue s 0 = type.Value.data ty v ∧
        v0 ≤ v ∧ v ≤ mx)
    (hins : g.InsertTuple (some tuple) = (g.next_tuple_slot, g1))
    (hnext1 : g1.next_tuple_slot = g.next_tuple_slot + 1)
    (hlf1 : g1.leading_first cap)
    (hrest1 : ∀ s, s ≠ g.next_tuple_slot → g1.GetValue s 0 = g.GetValue s 0)
    (hlast : g.next_tuple_slot + 1 = cap) :
    (table.GetEmptyTupleSlot rt (some tuple)).1.isSome = true ∧
    (table.GetEmptyTupleSlot rt (some tuple)).2.1.SparseInv
      (table.GetEmptyTupleSlot rt (some tuple)).2.2 cap v ∧
    (table.GetEmptyTupleSlot rt (some tuple)).2.1.tile_group_count_ ≤
      table.tile_group_count_ + 1 := by
  have halloc := storage.TileGroup.GetAllocatedTupleCount_leading g1 cap hlf1
  have hcount_pos := hinv.count_pos
  obtain ⟨hA1, hAact, hAcount, hAactc, hAcap, hAlay, hAsch, hAtoid, hAdoid, hAsparse, _, hAnext,
      hArec, hAheap, hAdbs, hAtree⟩ :=
    storage.DataTable.AddDefaultTileGroup_spec table (rt.store address g1) (some address) hact
      hinv.database (by omega) (hinv.unregistered table.tile_group_count_ (le_refl _))
  obtain ⟨hnewlf, hnewnext⟩ :=
    storage.DataTable.GetTileGroupWithLayout_leading table (rt.store address g1) cap hinv.cap_eq
      hinv.layout0 hinv.schemas
  have hdbA : ∃ db, (table.AddDefaultTileGroup (rt.store address g1) 0).2.2.manager.GetDatabaseWithOid
      (table.AddDefaultTileGroup (rt.store address g1) 0).2.1.database_oid = some db ∧
      db.name = "default_database" := by
    rw [hAdoid, storage.StorageManager.GetDatabaseWithOid_congr _ _ hAdbs]
    exact hinv.database
  have hE := storage.DataTable.GetEmptyTupleSlot_eq table rt cap tuple address g g1 hcap
    hinv.active_count hinv.no_recycled hact hheap hnext hins halloc
    (table.AddDefaultTileGroup (rt.store address g1) 0) (by rw [if_pos hlast])
    (by rw [hA1]; rfl) hdbA
  rw [hE]
  obtain ⟨hfindU, hcountU, hactcU, hcapU, hlayU, hschU, htoidU, hdoidU, hactgU⟩ :=
    storage.DataTable.update_sparse_index_spec
      (table.AddDefaultTileGroup (rt.store address g1) 0).2.1 (g1.GetValue 0 0) (tuple.GetValue 0)
  have hmod : (table.AddDefaultTileGroup (rt.store address g1) 0).2.1.tile_group_count_ % OID_MOD =
      table.tile_group_count_ + 1 := by
    rw [hAcount]
    exact Nat.mod_eq_of_lt hfit
  have hnextaddr : (rt.store address g1).next_address = rt.next_address := rfl
  have hstore : ∀ a, (rt.store address g1).tile_groups a =
      if a = address then some g1 else rt.tile_groups a := fun _ => rfl
  have hkey : ∀ o, o ≠ table.tile_group_count_ →
      ¬ (table.table_oid, table.tile_group_count_) = (table.table_oid, o) :=
    fun o ho h => ho (Prod.mk.inj h).2.symm
  have holdaddr : ∀ o a, o < table.tile_group_count_ →
      storage.map_find rt.manager.tile_group_tree_ (table.table_oid, o) = some a →
      a < rt.next_address := by
    intro o a ho ht
    obtain ⟨a2, g2, ht2, _, hlt, _⟩ := hinv.groups o ho
    rw [ht] at ht2
    rw [Option.some.inj ht2]
    exact hlt
  refine ⟨rfl, ?_, ?_⟩
  · show ((table.AddDefaultTileGroup (rt.store address g1) 0).2.1.update_sparse_index
      (g1.GetValue 0 0) (tuple.GetValue 0)).SparseInv
        (table.AddDefaultTileGroup (rt.store address g1) 0).2.2 cap v
    refine ⟨hactcU.trans (hAactc.trans hinv.active_count), hcapU.trans (hAcap.trans hinv.cap_eq),
      ?_, ?_, ?_, ?_, ?_, ?_, ?_, ?_, ?_⟩
    · rw [hlayU, hAlay]; exact hinv.layout0
    · rw [hschU, hAsch]; exact hinv.schemas
    · rw [htoidU, hAtoid, hArec]; exact hinv.no_recycled
    · rw [hdoidU]; exact hdbA
    · rw [hcountU, hAcount]; omega
    · intro o ho
      rw [hcountU, hAcount] at ho
      rw [htoidU, hAtoid, hAtree, if_neg (hkey o (by omega))]
      exact hinv.unregistered o (by omega)
    · intro o ho
      rw [hcountU, hAcount] at ho
      rw [htoidU, hAtoid]
      by_cases hoc : o = table.tile_group_count_
      · refine ⟨rt.next_address, (table.GetTileGroupWithLayout (rt.store address g1)).1, ?_, ?_,
          ?_, hnewlf⟩
        · rw [hAtree, hoc, if_pos rfl]
          rfl
        · rw [hAheap, hnextaddr, if_pos rfl]
        · rw [hAnext, hnextaddr]; omega
      · obtain ⟨a, g2, ht, hh, hlt, hl⟩ := hinv.groups o (by omega)
        have hane : a ≠ (rt.store address g1).next_address := by rw [hnextaddr]; omega
        by_cases ha : a = address
        · refine ⟨a, g1, ?_, ?_, ?_, hlf1⟩
          · rw [hAtree, if_neg (hkey o hoc)]; exact ht
          · rw [hAheap, if_neg hane, hstore, if_pos ha]
          · rw [hAnext, hnextaddr]; omega
        · refine ⟨a, g2, ?_, ?_, ?_, hl⟩
          · rw [hAtree, if_neg (hkey o hoc)]; exact ht
          · rw [hAheap, if_neg hane, hstore, if_neg ha]; exact hh
          · rw [hAnext, hnextaddr]; omega
    · refine ⟨rt.next_address, (table.GetTileGroupWithLayout (rt.store address g1)).1,
        hactgU.trans hAact, ?_, ?_, by rw [hnewnext]; omega, ?_, ?_⟩
      · rw [htoidU, hAtoid, hcountU, hAcount, hAtree, Nat.add_sub_cancel, if_pos rfl]
        rfl
      · rw [hAheap, hnextaddr, if_pos rfl]
      · intro o ho
        rw [hcountU, hAcount] at ho
        rw [htoidU, hAtoid, hAtree, if_neg (hkey o (by omega))]
        intro ht
        have := holdaddr o rt.next_address (by omega) ht
        omega
      · intro hpos
        rw [hnewnext] at hpos
        omega
    · intro o ho a g2 ht hh s hs hne
      rw [hcountU, hAcount] at ho
      rw [htoidU, hAtoid, hAtree, if_neg (hkey o (by omega))] at ht
      have halt := holdaddr o a (by omega) ht
      have hane : a ≠ (rt.store address g1).next_address := by rw [hnextaddr]; omega
      rw [hAheap, if_neg hane, hstore] at hh
      have hfind : storage.CuckooMap.Find
          ((table.AddDefaultTileGroup (rt.store address g1) 0).2.1.update_sparse_index
            (g1.GetValue 0 0) (tuple.GetValue 0)).sparse_index (o + 1) =
          storage.CuckooMap.Find table.sparse_index (o + 1) := by
        rw [hfindU, hmod, if_neg (by omega), hAsparse]
      rw [hfind]
      by_cases hoc : o + 1 = table.tile_group_count_
      · have hoa : o = table.tile_group_count_ - 1 := by omega
        have ht2 : storage.map_find rt.manager.tile_group_tree_
            (table.table_oid, table.tile_group_count_ - 1) = some a := by
          rw [← hoa]; exact ht
        rw [htreeA] at ht2
        have ha : a = address := (Option.some.inj ht2).symm
        rw [if_pos ha] at hh
        have hg2 : g2 = g1 := (Option.some.inj hh).symm
        rw [hg2, hnext1] at hs
        have hsn : s < g.next_tuple_slot := by omega
        obtain ⟨ty0, v0, ty1, mx, _, hf, _, hall⟩ := hentry (by omega)
        obtain ⟨ty2, v2, hv2, hlo, hhi⟩ := hall s hsn
        refine ⟨type.Value.data ty0 v0, type.Value.data ty1 mx, ?_, ?_⟩
        · rw [hoc]; exact hf
        · rw [hg2, hrest1 s (by omega), hv2]
          exact ⟨hlo, hhi⟩
      · have ha : a ≠ address := fun h => hdistinct o (by omega) (h ▸ ht)
        rw [if_neg ha] at hh
        exact hinv.full o (by omega) a g2 ht hh s hs hne
  · show ((table.AddDefaultTileGroup (rt.store address g1) 0).2.1.update_sparse_index
      (g1.GetValue 0 0) (tuple.GetValue 0)).tile_group_count_ ≤ _
    rw [hcountU, hAcount]

/-- One insert of a leading value that is not below the values inserted before keeps
the invariant of the sparse index, and returns an item pointer. -/
theorem storage.DataTable.SparseInv_step (table : storage.DataTable) (rt : storage.Runtime)
    (cap : Nat) (b : Int) (tuple : storage.Tuple) (ty : TypeId) (v : Int)
    (hinv : table.SparseInv rt cap b) (hlead : tuple.GetValue 0 = type.Value.data ty v)
    (hb : b ≤ v) (hcap : cap < OID_MOD) (hfit : table.tile_group_count_ + 1 < OID_MOD) :
    (table.GetEmptyTupleSlot rt (some tuple)).1.isSome = true ∧
    (table.GetEmptyTupleSlot rt (some tuple)).2.1.SparseInv
      (table.GetEmptyTupleSlot rt (some tuple)).2.2 cap v ∧
    (table.GetEmptyTupleSlot rt (some tuple)).2.1.tile_group_count_ ≤
      table.tile_group_count_ + 1 := by
  obtain ⟨address, g, hact, htreeA, hheap, hnext, hdistinct, hentry⟩ := hinv.active
  have hlf : g.leading_first cap := by
    obtain ⟨a2, g2, ht2, hh2, _, hl2⟩ :=
      hinv.groups (table.tile_group_count_ - 1) (by have := hinv.count_pos; omega)
    rw [htreeA] at ht2
    rw [← Option.some.inj ht2, hheap] at hh2
    rw [Option.some.inj hh2]
    exact hl2
  obtain ⟨g1, hins, hnext1, _, hlf1, hval1, hrest1⟩ :=
    storage.TileGroup.InsertTuple_leading g cap tuple hlf hnext
  by_cases hlast : g.next_tuple_slot + 1 = cap
  · exact storage.DataTable.SparseInv_step_last table rt cap b tuple v hinv hcap hfit address g g1
      hact htreeA hheap hnext hdistinct hentry hins hnext1 hlf1 hrest1 hlast
  · exact storage.DataTable.SparseInv_step_room table rt cap b tuple ty v hinv hlead hb hcap hfit
      address g g1 hact htreeA hheap hnext hdistinct hentry hins hnext1 hlf1 hval1 hrest1 hlast

/-- Inserts of tuples whose leading values are integers in non-decreasing order all
return, and keep the invariant of the sparse index. -/
theorem storage.DataTable.SparseInv_insert_all (cap : Nat) (hcap : cap < OID_MOD) :
    ∀ (tuples : List storage.Tuple) (keys : List Int) (table : storage.DataTable)
      (rt : storage.Runtime) (b : Int),
      List.Forall₂ (fun tuple key => ∃ ty, storage.Tuple.GetValue tuple 0 = type.Value.data ty key)
        tuples keys →
      (∀ key ∈ keys, b ≤ key) → keys.Pairwise (fun x y => x ≤ y) →
      table.SparseInv rt cap b →
      table.tile_group_count_ + tuples.length < OID_MOD →
      ∃ (table1 : storage.DataTable) (rt1 : storage.Runtime) (b1 : Int),
        storage.DataTable.insert_all tuples table rt = some (table1, rt1) ∧
        table1.SparseInv rt1 cap b1 ∧
        table1.tile_group_count_ ≤ table.tile_group_count_ + tuples.length := by
  intro tuples
  induction tuples with
  | nil =>
    intro keys table rt b _ _ _ hinv _
    exact ⟨table, rt, b, rfl, hinv, le_refl _⟩
  | cons tuple rest ih =>
    intro keys table rt b hkeys hb hsorted hinv hfit
    cases hkeys with
    | cons hhead htail =>
      rename_i key krest
      obtain ⟨ty, hlead⟩ := hhead
      rw [List.length_cons] at hfit
      obtain ⟨hsome, hinv1, hcount1⟩ :=
        storage.DataTable.SparseInv_step table rt cap b tuple ty key hinv hlead
          (hb key (List.mem_cons_self _ _)) hcap (by omega)
      rw [List.pairwise_cons] at hsorted
      rcases hr : table.GetEmptyTupleSlot rt (some tuple) with ⟨res, table1, rt1⟩
      rw [hr] at hsome hinv1 hcount1
      obtain ⟨p, hp⟩ := Option.isSome_iff_exists.mp hsome
      have hres : res = some p := hp
      obtain ⟨table2, rt2, b2, hrun, hinv2, hcount2⟩ :=
        ih krest table1 rt1 key htail hsorted.1 hsorted.2 hinv1
          (by have : table1.tile_group_count_ ≤ table.tile_group_count_ + 1 := hcount1; omega)
      refine ⟨table2, rt2, b2, ?_, hinv2, ?_⟩
      · unfold storage.DataTable.insert_all
        rw [hr, hres]
        exact hrun
      · have : table1.tile_group_count_ ≤ table.tile_group_count_ + 1 := hcount1
        rw [List.length_cons]
        omega

/-- The constructor of a table with one active tile group, in a default database whose
ordered tree holds no entry of the table yet, leaves the invariant of the sparse
index, with one tile group. -/
theorem storage.DataTable.create_SparseInv (rt0 : storage.Runtime)
    (database_oid table_oid cap : Nat) (tile_schemas : List catalog.Schema)
    (default_layout : Nat → Nat × Nat) (b : Int) (hcap0 : 0 < cap)
    (hlay : default_layout 0 = (0, 0))
    (hsch : ∃ s0 rest, tile_schemas = s0 :: rest ∧ 0 < s0.length ∧
      ∀ j, 0 < j → j < s0.length → s0.GetOffset j ≠ s0.GetOffset 0)
    (hrec : storage.map_find rt0.recycled_slots table_oid = none)
    (hdb : ∃ db, rt0.manager.GetDatabaseWithOid database_oid = some db ∧
      db.name = "default_database")
    (htree : ∀ o, storage.map_find rt0.manager.tile_group_tree_ (table_oid, o) = none) :
    ∃ (table : storage.DataTable) (rt : storage.Runtime),
      storage.DataTable.create rt0 database_oid table_oid cap tile_schemas default_layout 1 =
        (some (), table, rt) ∧
      table.SparseInv rt cap b ∧ table.tile_group_count_ = 1 := by
  obtain ⟨hA1, hAact, hAcount, hAactc, hAcap, hAlay, hAsch, hAtoid, hAdoid, _, _, hAnext,
      hArec, hAheap, hAdbs, hAtree⟩ :=
    storage.DataTable.AddDefaultTileGroup_spec
      ({ database_oid := database_oid, table_oid := table_oid, tuples_per_tilegroup_ := cap,
         tile_schemas_ := tile_schemas, default_layout_ := default_layout,
         active_tilegroup_count_ := 1,
         active_tile_groups_ := List.replicate 1 none } : storage.DataTable)
      rt0 none rfl hdb (by unfold OID_MOD; show 0 < 4294967296; omega) (htree 0)
  obtain ⟨hnewlf, hnewnext⟩ :=
    storage.DataTable.GetTileGroupWithLayout_leading
      ({ database_oid := database_oid, table_oid := table_oid, tuples_per_tilegroup_ := cap,
         tile_schemas_ := tile_schemas, default_layout_ := default_layout,
         active_tilegroup_count_ := 1,
         active_tile_groups_ := List.replicate 1 none } : storage.DataTable)
      rt0 cap rfl hlay hsch
  rcases hr : storage.DataTable.AddDefaultTileGroup
      ({ database_oid := database_oid, table_oid := table_oid, tuples_per_tilegroup_ := cap,
         tile_schemas_ := tile_schemas, default_layout_ := default_layout,
         active_tilegroup_count_ := 1,
         active_tile_groups_ := List.replicate 1 none } : storage.DataTable) rt0 0
    with ⟨res, table, rt⟩
  rw [hr] at hA1 hAact hAcount hAactc hAcap hAlay hAsch hAtoid
  rw [hr] at hAdoid hAnext hArec hAheap hAdbs hAtree
  have hres : res = some _ := hA1
  have hcount : table.tile_group_count_ = 1 := hAcount
  have hkey : ∀ o, o ≠ 0 → ¬ (table_oid, 0) = (table_oid, o) :=
    fun o ho h => ho (Prod.mk.inj h).2.symm
  refine ⟨table, rt, ?_, ?_, hcount⟩
  · unfold storage.DataTable.create storage.DataTable.construct_loop
    rw [hr, hres]
    rfl
  · refine ⟨hAactc, hAcap, ?_, ?_, ?_, ?_, ?_, ?_, ?_, ?_, ?_⟩
    · rw [hAlay]; exact hlay
    · rw [hAsch]; exact hsch
    · rw [hAtoid, hArec]; exact hrec
    · rw [hAdoid, storage.StorageManager.GetDatabaseWithOid_congr _ _ hAdbs]; exact hdb
    · rw [hcount]; omega
    · intro o ho
      rw [hcount] at ho
      rw [hAtoid, hAtree]
      show (if (table_oid, 0) = (table_oid, o) then _ else _) = none
      rw [if_neg (hkey o (by omega))]
      exact htree o
    · intro o ho
      rw [hcount] at ho
      have ho0 : o = 0 := by omega
      refine ⟨rt0.next_address, _, ?_, ?_, ?_, hnewlf⟩
      · rw [hAtoid, hAtree, ho0]
        show (if (table_oid, 0) = (table_oid, 0) then _ else _) = _
        rw [if_pos rfl]
      · rw [hAheap, if_pos rfl]
      · rw [hAnext]; omega
    · refine ⟨rt0.next_address, _, hAact, ?_, ?_, by rw [hnewnext]; exact hcap0, ?_, ?_⟩
      · rw [hAtoid, hAtree, hcount]
        show (if (table_oid, 0) = (table_oid, 0) then _ else _) = _
        rw [if_pos rfl]
      · rw [hAheap, if_pos rfl]
      · intro o ho
        rw [hcount] at ho
        omega
      · intro hpos
        rw [hnewnext] at hpos
        omega
    · intro o ho
      rw [hcount] at ho
      omega

/-- In a state that satisfies the invariant of the sparse index, the ordered scan finds
a tile group for every offset below the number of tile groups, and the entry it
consults for a tile group bounds the leading value of every tuple of the group that is
not in the last slot. -/
theorem storage.DataTable.SparseInv_bounds (table : storage.DataTable) (rt : storage.Runtime)
    (cap : Nat) (b : Int) (hinv : table.SparseInv rt cap b)
    (hfit : table.tile_group_count_ < OID_MOD) :
    (∀ offset, offset < table.tile_group_count_ → ∃ address g,
      rt.manager.GetTileGroupByBTree table.table_oid offset = storage.Location.found address ∧
      rt.tile_groups address = some g) ∧
    (∀ offset slot v, table.stored_leading_value rt offset slot = some v → slot + 1 ≠ cap →
      ∃ min max, table.consulted_entry offset = some (min, max) ∧ v.within min max) := by
  constructor
  · intro offset ho
    obtain ⟨a, g, ht, hh, _, _⟩ := hinv.groups offset ho
    refine ⟨a, g, ?_, hh⟩
    unfold storage.StorageManager.GetTileGroupByBTree
    rw [ht]
  · intro offset slot v hstored hne
    unfold storage.DataTable.stored_leading_value storage.StorageManager.GetTileGroupByBTree
      at hstored
    by_cases ho : offset < table.tile_group_count_
    · obtain ⟨a, g, ht, hh, _, _⟩ := hinv.groups offset ho
      rw [ht] at hstored
      simp only [hh, Option.some_bind] at hstored
      by_cases hslot : slot < g.GetNextTupleSlot
      · rw [if_pos hslot] at hstored
        have hv : g.GetValue slot 0 = v := Option.some.inj hstored
        have hs : slot < g.next_tuple_slot := hslot
        unfold storage.DataTable.consulted_entry
        rw [Nat.mod_eq_of_lt (by omega)]
        by_cases hlast : offset + 1 = table.tile_group_count_
        · obtain ⟨address, g2, _, htreeA, hheap, _, _, hentry⟩ := hinv.active
          have hoa : table.tile_group_count_ - 1 = offset := by omega
          rw [hoa, ht] at htreeA
          rw [← Option.some.inj htreeA, hh] at hheap
          rw [← Option.some.inj hheap] at hentry
          obtain ⟨ty0, v0, ty1, mx, _, hf, _, hall⟩ := hentry (by omega)
          obtain ⟨ty2, v2, hv2, hlo, hhi⟩ := hall slot hs
          refine ⟨_, _, by rw [hlast]; exact hf, ?_⟩
          rw [← hv, hv2]
          exact ⟨hlo, hhi⟩
        · obtain ⟨mn, mx, hf, hw⟩ := hinv.full offset (by omega) a g ht hh slot hs hne
          exact ⟨mn, mx, hf, hv ▸ hw⟩
      · rw [if_neg hslot] at hstored
        exact absurd hstored (by simp)
    · rw [hinv.unregistered offset (by omega)] at hstored
      exact absurd hstored (by simp)

/-- C14 (as amended): a table with one active tile group is constructed in a default
database (no recycled slots, no entry of the table in the ordered tree yet) and tuples
whose leading values are integers in non-decreasing order are inserted through
`GetEmptyTupleSlot`.  Then every insert returns, the ordered scan finds a tile group
for every offset below the number of tile groups, and for every tile group the sparse
index entry that the scan consults for it is a pair `(min, max)` with
`min ≤ v ≤ max` for the leading value `v` of every tuple stored in the group in a slot
other than the group's last slot. -/
theorem C14_sparse_entry_bounds_sorted_inserts (rt0 : storage.Runtime)
    (database_oid table_oid cap : Nat) (tile_schemas : List catalog.Schema)
    (default_layout : Nat → Nat × Nat) (tuples : List storage.Tuple) (keys : List Int)
    (hcap0 : 0 < cap) (hcap : cap < OID_MOD) (hlen : tuples.length + 1 < OID_MOD)
    (hlay : default_layout 0 = (0, 0))
    (hsch : ∃ s0 rest, tile_schemas = s0 :: rest ∧ 0 < s0.length ∧
      ∀ j, 0 < j → j < s0.length → s0.GetOffset j ≠ s0.GetOffset 0)
    (hrec : storage.map_find rt0.recycled_slots table_oid = none)
    (hdb : ∃ db, rt0.manager.GetDatabaseWithOid database_oid = some db ∧
      db.name = "default_database")
    (htree : ∀ o, storage.map_find rt0.manager.tile_group_tree_ (table_oid, o) = none)
    (hkeys : List.Forall₂
      (fun tuple key => ∃ ty, storage.Tuple.GetValue tuple 0 = type.Value.data ty key)
      tuples keys)
    (hsorted : keys.Pairwise (fun x y => x ≤ y)) :
    ∃ (table : storage.DataTable) (rt : storage.Runtime),
      storage.DataTable.create_and_insert rt0 database_oid table_oid cap tile_schemas
        default_layout tuples = some (table, rt) ∧
      (∀ offset, offset < table.tile_group_count_ → ∃ address g,
        rt.manager.GetTileGroupByBTree table.table_oid offset = storage.Location.found address ∧
        rt.tile_groups address = some g) ∧
      (∀ offset slot v, table.stored_leading_value rt offset slot = some v → slot + 1 ≠ cap →
        ∃ min max, table.consulted_entry offset = some (min, max) ∧ v.within min max) := by
  have hstart : ∃ b : Int, ∀ key ∈ keys, b ≤ key := by
    cases keys with
    | nil => exact ⟨0, fun _ h => absurd h (List.not_mem_nil _)⟩
    | cons k ks =>
      refine ⟨k, fun key hkey => ?_⟩
      rcases List.mem_cons.mp hkey with h | h
      · rw [h]
      · exact (List.pairwise_cons.mp hsorted).1 key h
  obtain ⟨b, hb⟩ := hstart
  obtain ⟨table0, rt1, hcreate, hinv0, hcount0⟩ :=
    storage.DataTable.create_SparseInv rt0 database_oid table_oid cap tile_schemas default_layout
      b hcap0 hlay hsch hrec hdb htree
  obtain ⟨table, rt, b1, hrun, hinv, hcount⟩ :=
    storage.DataTable.SparseInv_insert_all cap hcap tuples keys table0 rt1 b hkeys hb hsorted
      hinv0 (by rw [hcount0]; omega)
  refine ⟨table, rt, ?_, storage.DataTable.SparseInv_bounds table rt cap b1 hinv
    (by rw [hcount0] at hcount; omega)⟩
  unfold storage.DataTable.create_and_insert
  rw [hcreate]
  exact hrun

theorem C14_sparse_entry_bounds_sorted_inserts_witness :
    ∃ (table : storage.DataTable) (rt : storage.Runtime),
      storage.DataTable.create_and_insert example_runtime 1 7 4
        [[⟨5, 0, true, 4⟩, ⟨5, 4, true, 4⟩]] (fun c => (0, c))
        [example_tuple 0, example_tuple 1, example_tuple 1, example_tuple 2, example_tuple 5] =
          some (table, rt) ∧
      (∀ offset, offset < table.tile_group_count_ → ∃ address g,
        rt.manager.GetTileGroupByBTree table.table_oid offset = storage.Location.found address ∧
        rt.tile_groups address = some g) ∧
      (∀ offset slot v, table.stored_leading_value rt offset slot = some v → slot + 1 ≠ 4 →
        ∃ min max, table.consulted_entry offset = some (min, max) ∧ v.within min max) :=
  C14_sparse_entry_bounds_sorted_inserts example_runtime 1 7 4
    [[⟨5, 0, true, 4⟩, ⟨5, 4, true, 4⟩]] (fun c => (0, c))
    [example_tuple 0, example_tuple 1, example_tuple 1, example_tuple 2, example_tuple 5]
    [0, 1, 1, 2, 5] (by decide) (by decide) (by decide) rfl
    ⟨_, _, rfl, by decide, fun j h0 h2 => by
      have hj : j = 1 := by
        have : j < 2 := h2
        omega
      rw [hj]
      decide⟩
    rfl ⟨_, rfl, rfl⟩ (fun _ => rfl)
    (List.Forall₂.cons ⟨5, rfl⟩ (List.Forall₂.cons ⟨5, rfl⟩ (List.Forall₂.cons ⟨5, rfl⟩
      (List.Forall₂.cons ⟨5, rfl⟩ (List.Forall₂.cons ⟨5, rfl⟩ List.Forall₂.nil)))))
    (by decide)

/-- C14 (counterexample): the rows with `id = 5` and then `id = 3` are inserted into a
fresh table with tile groups of capacity 4.  Both are stored in the tile group at
offset 0, in the slots 0 and 1, and the entry that the ordered scan consults for this
group is `(5, 3)`: the leading value of the group's first tuple and the one inserted
last.  It bounds neither of the two stored values. -/
theorem C14_unsorted_inserts_break_the_bound :
    example_table_unsorted.bind (fun s => s.1.stored_leading_value s.2 0 0) =
      some (type.Value.data 5 5) ∧
    example_table_unsorted.bind (fun s => s.1.stored_leading_value s.2 0 1) =
      some (type.Value.data 5 3) ∧
    example_table_unsorted.bind (fun s => s.1.consulted_entry 0) =
      some (type.Value.data 5 5, type.Value.data 5 3) ∧
    ¬ (type.Value.data 5 5).within (type.Value.data 5 5) (type.Value.data 5 3) ∧
    ¬ (type.Value.data 5 3).within (type.Value.data 5 5) (type.Value.data 5 3) := by
  refine ⟨by decide, by decide, by decide, by decide, by decide⟩

/-! ### Backends of the storage manager -/

/-- C21 (evaluation of the code at the failing input): the key `(7, 0)` is registered
through the three backends for the tile group at the address 100 and then, again
through the three backends, for the one at the address 200.  The ordered tree and the
hopscotch map, which `insert`, still hold the first tile group; the cuckoo map, which
upserts, holds the second: the three lookups do not agree. -/
theorem C21_backends_disagree_after_second_registration :
    example_registered_twice.GetTileGroupByBTree 7 0 = storage.Location.found 100 ∧
    example_registered_twice.GetHopscotchKValue (7, 0) = storage.Location.found 100 ∧
    example_registered_twice.GetCuckooKValue (7, 0) = storage.Location.found 200 ∧
    example_registered_twice.GetTileGroup 2 = storage.Location.found 200 := by
  refine ⟨by decide, by decide, by decide, by decide⟩

/-! ### Choice of the copy strategy -/

/-- C28 (as amended): `MaterializeByTiles` copies through `MaterializeRowAtAtATime` or
through `MaterializeColumnAtATime` according to `row_wise_materialization`, and that
flag is false, so that the copy is column-at-a-time, exactly when the layout is
`COLUMN` or the layout is `HYBRID` and the destination tile has at most 20 columns;
for `ROW`, and for `HYBRID` with more than 20 columns, the copy is row-at-a-time. -/
theorem C28_copy_strategy_by_layout (t : LogicalTile)
    (old_to_new_cols : List (Nat × Nat)) (tile_to_cols : List (Nat × List Nat))
    (dest_tile : storage.Tile) (peloton_layout_mode : storage.LayoutType) :
    (t.MaterializeByTiles old_to_new_cols tile_to_cols dest_tile peloton_layout_mode =
      if LogicalTile.row_wise_materialization dest_tile peloton_layout_mode = true then
        t.MaterializeRowAtAtATime old_to_new_cols tile_to_cols dest_tile
      else t.MaterializeColumnAtATime old_to_new_cols tile_to_cols dest_tile) ∧
    (LogicalTile.row_wise_materialization dest_tile peloton_layout_mode = false ↔
      peloton_layout_mode = storage.LayoutType.COLUMN ∨
      (peloton_layout_mode = storage.LayoutType.HYBRID ∧ dest_tile.GetColumnCount ≤ 20)) ∧
    LogicalTile.row_wise_materialization dest_tile storage.LayoutType.ROW = true ∧
    (20 < dest_tile.GetColumnCount →
      LogicalTile.row_wise_materialization dest_tile storage.LayoutType.HYBRID = true) := by
  refine ⟨rfl, ?_, rfl, ?_⟩
  · unfold LogicalTile.row_wise_materialization
    cases peloton_layout_mode <;> simp
  · intro h
    unfold LogicalTile.row_wise_materialization
    simp
    omega

theorem C28_copy_strategy_by_layout_witness :
    20 < (example_dest_tile 21).GetColumnCount ∧
    LogicalTile.row_wise_materialization (example_dest_tile 21) storage.LayoutType.HYBRID = true :=
  ⟨by decide, (C28_copy_strategy_by_layout LogicalTile.fresh [] [] (example_dest_tile 21)
    storage.LayoutType.HYBRID).2.2.2 (by decide)⟩

/-- C28 (counterexample): for the layout `HYBRID` and a destination tile of two columns,
below the threshold of 20, `row_wise_materialization` is false and `MaterializeByTiles`
is the column-at-a-time copy; for `HYBRID` and a destination tile of 21 columns the
flag is true and the copy is row-at-a-time. -/
theorem C28_hybrid_below_threshold_is_column_at_a_time :
    (example_dest_tile 2).GetColumnCount = 2 ∧
    LogicalTile.row_wise_materialization (example_dest_tile 2) storage.LayoutType.HYBRID = false ∧
    (∀ (t : LogicalTile) (old_to_new_cols : List (Nat × Nat))
      (tile_to_cols : List (Nat × List Nat)),
      t.MaterializeByTiles old_to_new_cols tile_to_cols (example_dest_tile 2)
          storage.LayoutType.HYBRID =
        t.MaterializeColumnAtATime old_to_new_cols tile_to_cols (example_dest_tile 2)) ∧
    (example_dest_tile 21).GetColumnCount = 21 ∧
    LogicalTile.row_wise_materialization (example_dest_tile 21) storage.LayoutType.HYBRID = true := by
  refine ⟨by decide, by decide, fun _ _ _ => rfl, by decide, by decide⟩

/-! ### Allocation of tuple slots -/

theorem storage.StorageManager.AddTileGroupWithOffset_effect (sm : storage.StorageManager)
    (database_id table_id tile_group_offset tile_group_id location : Nat)
    (location_prev : Option Nat) (db : storage.Database)
    (hfind : sm.GetDatabaseWithOid database_id = some db) :
    ∃ sm1 : storage.StorageManager,
      sm.AddTileGroupWithOffset database_id table_id tile_group_offset tile_group_id location
        location_prev = (some (), sm1) ∧
      sm1.databases_ = sm.databases_ ∧
      sm1.tile_group_oid_ = sm.tile_group_oid_ ∧
      sm1.tile_group_locator_ =
        storage.CuckooMap.Upsert sm.tile_group_locator_ tile_group_id location ∧
      sm1.tile_group_tree_ =
        (if db.name = "default_database" then
          storage.unique_insert sm.tile_group_tree_ (table_id, tile_group_offset) location
        else sm.tile_group_tree_) := by
  have hfind1 : ({ sm with tile_group_locator_ :=
      storage.CuckooMap.Upsert sm.tile_group_locator_ tile_group_id location } :
      storage.StorageManager).GetDatabaseWithOid database_id = some db := hfind
  unfold storage.StorageManager.AddTileGroupWithOffset
  simp only [hfind1]
  by_cases hname : db.name = "default_database"
  · simp only [hname, if_true]
    cases location_prev with
    | none => exact ⟨_, rfl, rfl, rfl, rfl, rfl⟩
    | some prev => exact ⟨_, rfl, rfl, rfl, rfl, rfl⟩
  · simp only [hname, if_false]
    exact ⟨_, rfl, rfl, rfl, rfl, rfl⟩

/-- The effect of `AddDefaultTileGroup` in a runtime that holds the database of the
table: it returns the id of the new tile group, which is the next tile group id of the
storage manager; the tile group is allocated at the next address, registered in the
identity map and, for `default_database`, in the ordered tree under the offset
`tile_group_count_`, appended to the table and made the active tile group
`active_tile_group_id`, and the count is one more. -/
theorem storage.DataTable.AddDefaultTileGroup_effect (table : storage.DataTable)
    (rt : storage.Runtime) (active_tile_group_id : Nat) (db : storage.Database)
    (hdb : rt.manager.GetDatabaseWithOid table.database_oid = some db) :
    (table.AddDefaultTileGroup rt active_tile_group_id).1 =
      some ((rt.manager.tile_group_oid_ + 1) % OID_MOD) ∧
    (table.AddDefaultTileGroup rt active_tile_group_id).2.1.active_tile_groups_ =
      table.active_tile_groups_.set active_tile_group_id (some rt.next_address) ∧
    (table.AddDefaultTileGroup rt active_tile_group_id).2.1.tile_group_count_ =
      table.tile_group_count_ + 1 ∧
    (table.AddDefaultTileGroup rt active_tile_group_id).2.1.tile_groups_ =
      table.tile_groups_ ++ [(rt.manager.tile_group_oid_ + 1) % OID_MOD] ∧
    (table.AddDefaultTileGroup rt active_tile_group_id).2.1.tile_group_array_ =
      table.tile_group_array_ ++ [rt.next_address] ∧
    (table.AddDefaultTileGroup rt active_tile_group_id).2.1.active_tilegroup_count_ =
      table.active_tilegroup_count_ ∧
    (table.AddDefaultTileGroup rt active_tile_group_id).2.1.tuples_per_tilegroup_ =
      table.tuples_per_tilegroup_ ∧
    (table.AddDefaultTileGroup rt active_tile_group_id).2.1.default_layout_ =
      table.default_layout_ ∧
    (table.AddDefaultTileGroup rt active_tile_group_id).2.1.tile_schemas_ = table.tile_schemas_ ∧
    (table.AddDefaultTileGroup rt active_tile_group_id).2.1.table_oid = table.table_oid ∧
    (table.AddDefaultTileGroup rt active_tile_group_id).2.1.database_oid = table.database_oid ∧
    (table.AddDefaultTileGroup rt active_tile_group_id).2.1.sparse_index = table.sparse_index ∧
    (table.AddDefaultTileGroup rt active_tile_group_id).2.1.number_of_tuples_ =
      table.number_of_tuples_ ∧
    (table.AddDefaultTileGroup rt active_tile_group_id).2.2.next_address = rt.next_address + 1 ∧
    (table.AddDefaultTileGroup rt active_tile_group_id).2.2.recycled_slots = rt.recycled_slots ∧
    (∀ a, (table.AddDefaultTileGroup rt active_tile_group_id).2.2.tile_groups a =
      if a = rt.next_address then some (table.GetTileGroupWithLayout rt).1
      else rt.tile_groups a) ∧
    (table.AddDefaultTileGroup rt active_tile_group_id).2.2.manager.databases_ =
      rt.manager.databases_ ∧
    (table.AddDefaultTileGroup rt active_tile_group_id).2.2.manager.tile_group_oid_ =
      (rt.manager.tile_group_oid_ + 1) % OID_MOD ∧
    (table.AddDefaultTileGroup rt active_tile_group_id).2.2.manager.tile_group_locator_ =
      storage.CuckooMap.Upsert rt.manager.tile_group_locator_
        ((rt.manager.tile_group_oid_ + 1) % OID_MOD) rt.next_address ∧
    (table.AddDefaultTileGroup rt active_tile_group_id).2.2.manager.tile_group_tree_ =
      (if db.name = "default_database" then
        storage.unique_insert rt.manager.tile_group_tree_
          (table.table_oid, table.tile_group_count_ % OID_MOD) rt.next_address
      else rt.manager.tile_group_tree_) := by
  obtain ⟨sm1, hadd, hdbs, hoid, hloc, htree⟩ :=
    storage.StorageManager.AddTileGroupWithOffset_effect
      (table.GetTileGroupWithLayout rt).2.manager
      table.database_oid table.table_oid (table.tile_group_count_ % OID_MOD)
      (table.GetTileGroupWithLayout rt).1.GetTileGroupId rt.next_address table.tile_group_pre
      db hdb
  have hE : table.AddDefaultTileGroup rt active_tile_group_id =
      (some (table.GetTileGroupWithLayout rt).1.GetTileGroupId,
        { table with
          tile_groups_ := table.tile_groups_ ++ [(table.GetTileGroupWithLayout rt).1.GetTileGroupId]
          active_tile_groups_ :=
            table.active_tile_groups_.set active_tile_group_id (some rt.next_address)
          tile_group_array_ := table.tile_group_array_ ++ [rt.next_address]
          tile_group_count_ := table.tile_group_count_ + 1
          tile_group_pre := some rt.next_address
          tile_group_id_latest := (table.GetTileGroupWithLayout rt).1.GetTileGroupId },
        { ((table.GetTileGroupWithLayout rt).2.store rt.next_address
            (table.GetTileGroupWithLayout rt).1) with
          next_address := rt.next_address + 1
          manager := sm1 }) := by
    unfold storage.DataTable.AddDefaultTileGroup
    simp only []
    have hnext : (table.GetTileGroupWithLayout rt).2.next_address = rt.next_address := rfl
    rw [hnext]
    have hm : ({ (table.GetTileGroupWithLayout rt).2.store rt.next_address
        (table.GetTileGroupWithLayout rt).1 with next_address := rt.next_address + 1 } :
        storage.Runtime).manager = (table.GetTileGroupWithLayout rt).2.manager := rfl
    rw [hm, hadd]
  rw [hE]
  refine ⟨rfl, rfl, rfl, rfl, rfl, rfl, rfl, rfl, rfl, rfl, rfl, rfl, rfl, rfl, rfl,
    fun a => rfl, ?_, ?_, ?_, ?_⟩
  · show sm1.databases_ = _
    rw [hdbs]; rfl
  · show sm1.tile_group_oid_ = _
    rw [hoid]; rfl
  · show sm1.tile_group_locator_ = _
    rw [hloc]; rfl
  · show sm1.tile_group_tree_ = _
    rw [htree]; rfl

theorem storage.TileGroup.CopyTuple_alloc (g : storage.TileGroup) (tuple : storage.Tuple)
    (slot : Nat) :
    (g.CopyTuple tuple slot).GetAllocatedTupleCount = g.GetAllocatedTupleCount ∧
    (g.CopyTuple tuple slot).next_tuple_slot = g.next_tuple_slot ∧
    (g.CopyTuple tuple slot).tile_group_id = g.tile_group_id := by
  refine ⟨?_, rfl, rfl⟩
  unfold storage.TileGroup.GetAllocatedTupleCount storage.TileGroup.GetTileReference
    storage.TileGroup.CopyTuple
  cases htiles : g.tiles with
  | nil => rfl
  | cons tile rest =>
    show (tile.CopyTuple tuple slot 0).num_tuple_slots = tile.num_tuple_slots
    exact (storage.Tile.foldl_SetValue (fun c => tuple.GetValue (0 + c)) slot
      (List.range tile.schema.GetColumnCount) tile).2.1

/-- The effect of `InsertTuple` on the header of a tile group that has an empty slot. -/
theorem storage.TileGroup.InsertTuple_slot (g : storage.TileGroup) (tuple : storage.Tuple)
    (hnext : g.next_tuple_slot < g.GetAllocatedTupleCount) :
    (g.InsertTuple (some tuple)).1 = g.next_tuple_slot ∧
    (g.InsertTuple (some tuple)).2.next_tuple_slot = g.next_tuple_slot + 1 ∧
    (g.InsertTuple (some tuple)).2.GetAllocatedTupleCount = g.GetAllocatedTupleCount ∧
    (g.InsertTuple (some tuple)).2.tile_group_id = g.tile_group_id := by
  have hE : g.InsertTuple (some tuple) = (g.next_tuple_slot,
      ({ g with next_tuple_slot := g.next_tuple_slot + 1 } : storage.TileGroup).CopyTuple tuple
        g.next_tuple_slot) := by
    unfold storage.TileGroup.InsertTuple
    rw [if_pos hnext]
  rw [hE]
  obtain ⟨h1, h2, h3⟩ := storage.TileGroup.CopyTuple_alloc
    ({ g with next_tuple_slot := g.next_tuple_slot + 1 } : storage.TileGroup) tuple
    g.next_tuple_slot
  exact ⟨rfl, h2, h1, h3⟩

/-- The equation of `GetEmptyTupleSlot` for a tuple on a table with one active tile group
that has an empty slot, without recycled slots, in a runtime that holds the database
of the table. -/
theorem storage.DataTable.GetEmptyTupleSlot_eq_any (table : storage.DataTable)
    (rt : storage.Runtime) (cap : Nat) (tuple : storage.Tuple) (address : Nat)
    (g g1 : storage.TileGroup) (hcap : cap < OID_MOD)
    (hcount : table.active_tilegroup_count_ = 1)
    (hrecycled : storage.map_find rt.recycled_slots table.table_oid = none)
    (hactive : table.active_tile_groups_ = [some address])
    (hheap : rt.tile_groups address = some g)
    (hnext : g.next_tuple_slot < cap)
    (hinsert : g.InsertTuple (some tuple) = (g.next_tuple_slot, g1))
    (halloc : g1.GetAllocatedTupleCount = cap)
    (added : Option Nat × storage.DataTable × storage.Runtime)
    (hadded : added =
      if g.next_tuple_slot + 1 = cap then table.AddDefaultTileGroup (rt.store address g1) 0
      else (some g1.GetTileGroupId, table, rt.store address g1))
    (hsome : added.1.isSome = true) (db : storage.Database)
    (hdb : added.2.2.manager.GetDatabaseWithOid added.2.1.database_oid = some db) :
    table.GetEmptyTupleSlot rt (some tuple) =
      (some (({ block := g1.GetTileGroupId, offset := g.next_tuple_slot } :
          storage.ItemPointer).SetLocation address),
        (if db.name = "default_database" then
          added.2.1.update_sparse_index (g1.GetValue 0 0) (tuple.GetValue 0)
        else added.2.1), added.2.2) := by
  have hfree : rt.ReturnFreeSlot table.table_oid = (storage.INVALID_ITEMPOINTER, rt) := by
    unfold storage.Runtime.ReturnFreeSlot
    rw [hrecycled]
  have hnull : storage.INVALID_ITEMPOINTER.IsNull = true := by decide
  have hvalid : g.next_tuple_slot ≠ INVALID_OID := by
    unfold INVALID_OID
    unfold OID_MOD at *
    omega
  have hlast : (g.next_tuple_slot = (cap + OID_MOD - 1) % OID_MOD) ↔ g.next_tuple_slot + 1 = cap := by
    unfold OID_MOD at *
    omega
  have hadded1 : (if g.next_tuple_slot = (cap + OID_MOD - 1) % OID_MOD then
      table.AddDefaultTileGroup (rt.store address g1) 0
      else (some g1.GetTileGroupId, table, rt.store address g1)) = added := by
    rw [hadded]
    by_cases h : g.next_tuple_slot + 1 = cap
    · rw [if_pos h, if_pos (hlast.mpr h)]
    · rw [if_neg h, if_neg (fun h1 => h (hlast.mp h1))]
  obtain ⟨r, table1, rt2⟩ := added
  obtain ⟨id, rfl⟩ := Option.isSome_iff_exists.mp hsome
  unfold storage.DataTable.GetEmptyTupleSlot
  simp only [hfree, hnull, hcount, hactive, Nat.mod_one, List.getD_cons_zero, hheap, hinsert,
    hvalid, halloc, hadded1, hdb, if_true, if_false, one_ne_zero, Bool.true_eq_false]

theorem succ_div_mod_of_last (n cap : Nat) (h : n % cap + 1 = cap) :
    (n + 1) / cap = n / cap + 1 ∧ (n + 1) % cap = 0 := by
  have hpos : 0 < cap := by omega
  have hn : n + 1 = cap * (n / cap + 1) := by
    have := Nat.div_add_mod n cap
    rw [Nat.mul_add, Nat.mul_one]
    omega
  rw [hn]
  exact ⟨Nat.mul_div_cancel_left _ hpos, Nat.mul_mod_right _ _⟩

theorem succ_div_mod_of_room (n cap : Nat) (h : n % cap + 1 < cap) :
    (n + 1) / cap = n / cap ∧ (n + 1) % cap = n % cap + 1 := by
  have hpos : 0 < cap := by omega
  have hn : n + 1 = cap * (n / cap) + (n % cap + 1) := by
    have := Nat.div_add_mod n cap
    omega
  rw [hn, Nat.mul_add_div hpos, Nat.mul_add_mod, Nat.div_eq_of_lt h, Nat.mod_eq_of_lt h]
  exact ⟨rfl, rfl⟩

/-- The statements of `GetEmptyTupleSlot` on the sparse index, which are made for a table
of `default_database` only, change no member of the table but the sparse index. -/
theorem storage.DataTable.update_sparse_index_frame (table : storage.DataTable)
    (c : Prop) [Decidable c] (tp_0 tp_slot : type.Value) :
    (if c then table.update_sparse_index tp_0 tp_slot else table).tile_group_count_ =
      table.tile_group_count_ ∧
    (if c then table.update_sparse_index tp_0 tp_slot else table).active_tilegroup_count_ =
      table.active_tilegroup_count_ ∧
    (if c then table.update_sparse_index tp_0 tp_slot else table).tuples_per_tilegroup_ =
      table.tuples_per_tilegroup_ ∧
    (if c then table.update_sparse_index tp_0 tp_slot else table).tile_schemas_ =
      table.tile_schemas_ ∧
    (if c then table.update_sparse_index tp_0 tp_slot else table).table_oid = table.table_oid ∧
    (if c then table.update_sparse_index tp_0 tp_slot else table).database_oid =
      table.database_oid ∧
    (if c then table.update_sparse_index tp_0 tp_slot else table).active_tile_groups_ =
      table.active_tile_groups_ ∧
    (if c then table.update_sparse_index tp_0 tp_slot else table).tile_group_array_ =
      table.tile_group_array_ ∧
    (if c then table.update_sparse_index tp_0 tp_slot else table).tile_groups_ =
      table.tile_groups_ := by
  by_cases hc : c
  · rw [if_pos hc]
    unfold storage.DataTable.update_sparse_index
    by_cases hk : storage.CuckooMap.Contains table.sparse_index
        (table.tile_group_count_ % OID_MOD) = true
    · rw [if_pos hk]
      exact ⟨rfl, rfl, rfl, rfl, rfl, rfl, rfl, rfl, rfl⟩
    · rw [if_neg hk]
      exact ⟨rfl, rfl, rfl, rfl, rfl, rfl, rfl, rfl, rfl⟩
  · rw [if_neg hc]
    exact ⟨rfl, rfl, rfl, rfl, rfl, rfl, rfl, rfl, rfl⟩

/-- The tile group that `GetTileGroupWithLayout` builds for a table with at least one
tile schema has `tuples_per_tilegroup_` tuple slots, none of them in use. -/
theorem storage.DataTable.GetTileGroupWithLayout_alloc (table : storage.DataTable)
    (rt : storage.Runtime) (hsch : table.tile_schemas_ ≠ []) :
    (table.GetTileGroupWithLayout rt).1.GetAllocatedTupleCount = table.tuples_per_tilegroup_ ∧
      (table.GetTileGroupWithLayout rt).1.next_tuple_slot = 0 := by
  refine ⟨?_, rfl⟩
  obtain ⟨s0, rest, hs⟩ := List.exists_cons_of_ne_nil hsch
  have htiles : (table.GetTileGroupWithLayout rt).1.tiles =
      (List.range table.tile_schemas_.length).map (fun tile_itr =>
        ({ addr := Nat.pair (table.GetTileGroupWithLayout rt).1.tile_group_id tile_itr
           schema := table.tile_schemas_.getD tile_itr []
           num_tuple_slots := table.tuples_per_tilegroup_
           cells := fun _ _ => type.Value.null 0 } : storage.Tile)) := rfl
  rw [hs, List.length_cons, List.range_eq_range', List.range'_succ, List.map_cons] at htiles
  unfold storage.TileGroup.GetAllocatedTupleCount storage.TileGroup.GetTileReference
  rw [htiles]
  rfl

/-- One insert into a table in the state `FillInv` for `n` inserts returns the slot
`n % cap` and leaves the state for `n + 1` inserts.  When the slot is the last one of
the active tile group, `cap - 1`, a tile group is appended and becomes the active one
and the count goes up by one; otherwise the tile groups, the active one and the count
stay. -/
theorem storage.DataTable.FillInv_step (table : storage.DataTable) (rt : storage.Runtime)
    (cap n : Nat) (tuple : storage.Tuple) (hinv : table.FillInv rt cap n)
    (hcap0 : 0 < cap) (hcap : cap < OID_MOD) :
    (∃ p, (table.GetEmptyTupleSlot rt (some tuple)).1 = some p ∧ p.offset = n % cap) ∧
    (table.GetEmptyTupleSlot rt (some tuple)).2.1.FillInv
      (table.GetEmptyTupleSlot rt (some tuple)).2.2 cap (n + 1) ∧
    (if n % cap + 1 = cap then
      ∃ a, (table.GetEmptyTupleSlot rt (some tuple)).2.1.tile_group_array_ =
          table.tile_group_array_ ++ [a] ∧
        (table.GetEmptyTupleSlot rt (some tuple)).2.1.active_tile_groups_ = [some a] ∧
        (table.GetEmptyTupleSlot rt (some tuple)).2.1.tile_group_count_ =
          table.tile_group_count_ + 1
    else
      (table.GetEmptyTupleSlot rt (some tuple)).2.1.tile_group_array_ =
          table.tile_group_array_ ∧
        (table.GetEmptyTupleSlot rt (some tuple)).2.1.active_tile_groups_ =
          table.active_tile_groups_ ∧
        (table.GetEmptyTupleSlot rt (some tuple)).2.1.tile_group_count_ =
          table.tile_group_count_) := by
  have hcount := hinv.count_eq
  have hlen := hinv.array_length
  have hpos : 0 < table.tile_group_count_ := by rw [hcount]; exact Nat.succ_pos _
  obtain ⟨address, hact, harrA, hdistinct⟩ := hinv.active
  obtain ⟨db, hdb⟩ := hinv.database
  obtain ⟨a2, g, harr2, hheap, haddrlt, halloc, hnextg⟩ :=
    hinv.groups (table.tile_group_count_ - 1) (by omega)
  rw [harrA] at harr2
  rw [← Option.some.inj harr2] at hheap haddrlt
  rw [if_pos (by omega)] at hnextg
  have hmodlt : n % cap < cap := Nat.mod_lt n hcap0
  have hnext : g.next_tuple_slot < cap := by rw [hnextg]; exact hmodlt
  obtain ⟨hslot, hnext1, halloc1, _⟩ :=
    storage.TileGroup.InsertTuple_slot g tuple (by rw [halloc]; exact hnext)
  have hins : g.InsertTuple (some tuple) = (g.next_tuple_slot, (g.InsertTuple (some tuple)).2) :=
    Prod.ext hslot rfl
  rw [halloc] at halloc1
  have hstore : ∀ a, (rt.store address (g.InsertTuple (some tuple)).2).tile_groups a =
      if a = address then some (g.InsertTuple (some tuple)).2 else rt.tile_groups a :=
    fun _ => rfl
  by_cases hlast : n % cap + 1 = cap
  · obtain ⟨hdiv, hmod⟩ := succ_div_mod_of_last n cap hlast
    obtain ⟨hA1, hAact, hAcount, _, hAarr, hAactc, hAcap, _, hAsch, hAtoid, hAdoid, _, _, hAnext,
        hArec, hAheap, hAdbs, _, _, _⟩ :=
      storage.DataTable.AddDefaultTileGroup_effect table
        (rt.store address (g.InsertTuple (some tuple)).2) 0 db hdb
    obtain ⟨hnewalloc, hnewnext⟩ := storage.DataTable.GetTileGroupWithLayout_alloc table
      (rt.store address (g.InsertTuple (some tuple)).2) hinv.schemas
    have hdbA : (table.AddDefaultTileGroup (rt.store address (g.InsertTuple (some tuple)).2)
        0).2.2.manager.GetDatabaseWithOid
        (table.AddDefaultTileGroup (rt.store address (g.InsertTuple (some tuple)).2)
          0).2.1.database_oid = some db := by
      rw [hAdoid, storage.StorageManager.GetDatabaseWithOid_congr _ _ hAdbs]
      exact hdb
    have hE := storage.DataTable.GetEmptyTupleSlot_eq_any table rt cap tuple address g
      (g.InsertTuple (some tuple)).2 hcap hinv.active_count hinv.no_recycled hact hheap hnext hins
      halloc1 (table.AddDefaultTileGroup (rt.store address (g.InsertTuple (some tuple)).2) 0)
      (by rw [if_pos (by rw [hnextg]; exact hlast)]) (by rw [hA1]; rfl) db hdbA
    rw [hE]
    obtain ⟨hcountU, hactcU, hcapU, hschU, htoidU, hdoidU, hactgU, harrU, _⟩ :=
      storage.DataTable.update_sparse_index_frame
        (table.AddDefaultTileGroup (rt.store address (g.InsertTuple (some tuple)).2) 0).2.1
        (db.name = "default_database") ((g.InsertTuple (some tuple)).2.GetValue 0 0)
        (tuple.GetValue 0)
    have hnextaddr : (rt.store address (g.InsertTuple (some tuple)).2).next_address =
        rt.next_address := rfl
    have hactive1 : (table.AddDefaultTileGroup (rt.store address (g.InsertTuple (some tuple)).2)
        0).2.1.active_tile_groups_ = [some rt.next_address] := by
      rw [hAact, hact]; rfl
    have harrget : ∀ o, o < table.tile_group_count_ →
        (table.tile_group_array_ ++ [rt.next_address])[o]? = table.tile_group_array_[o]? :=
      fun o ho => List.getElem?_append_left (by omega)
    have harrlast : (table.tile_group_array_ ++ [rt.next_address])[table.tile_group_count_]? =
        some rt.next_address := by
      rw [← hlen]; exact List.getElem?_concat_length _ _
    refine ⟨⟨_, rfl, by rw [hnextg]; rfl⟩, ?_, ?_⟩
    · refine ⟨hactcU.trans (hAactc.trans hinv.active_count),
        hcapU.trans (hAcap.trans hinv.cap_eq), ?_, ?_, ?_, ?_, ?_, ?_, ?_⟩
      · rw [hschU, hAsch]; exact hinv.schemas
      · rw [htoidU, hAtoid, hArec]; exact hinv.no_recycled
      · rw [hdoidU]; exact ⟨db, hdbA⟩
      · rw [hcountU, hAcount, hdiv, hcount]
      · rw [harrU, hAarr, hcountU, hAcount, List.length_append, hlen]; rfl
      · intro o ho
        rw [hcountU, hAcount] at ho
        rw [harrU, hAarr, hcountU, hAcount, hnextaddr]
        by_cases hoc : o = table.tile_group_count_
        · refine ⟨rt.next_address,
            (table.GetTileGroupWithLayout (rt.store address (g.InsertTuple (some tuple)).2)).1,
            by rw [hoc]; exact harrlast, ?_, ?_, ?_, ?_⟩
          · show (table.AddDefaultTileGroup _ 0).2.2.tile_groups rt.next_address = _
            rw [hAheap, hnextaddr, if_pos rfl]
          · show rt.next_address < (table.AddDefaultTileGroup _ 0).2.2.next_address
            rw [hAnext, hnextaddr]; omega
          · rw [hnewalloc]; exact hinv.cap_eq
          · rw [hnewnext, if_pos (by omega), hmod]
        · obtain ⟨a, g2, harr, hh, hlt, hal, hnx⟩ := hinv.groups o (by omega)
          have hane : a ≠ (rt.store address (g.InsertTuple (some tuple)).2).next_address := by
            rw [hnextaddr]; omega
          by_cases hoa : o + 1 = table.tile_group_count_
          · have hoa2 : o = table.tile_group_count_ - 1 := by omega
            rw [hoa2, harrA] at harr
            have ha : a = address := (Option.some.inj harr).symm
            refine ⟨a, (g.InsertTuple (some tuple)).2, ?_, ?_, ?_, halloc1, ?_⟩
            · rw [harrget o (by omega), hoa2, harrA, ha]
            · show (table.AddDefaultTileGroup _ 0).2.2.tile_groups a = _
              rw [hAheap, if_neg hane, hstore, if_pos ha]
            · show a < (table.AddDefaultTileGroup _ 0).2.2.next_address
              rw [hAnext, hnextaddr]; omega
            · rw [hnext1, hnextg, if_neg (by omega)]; exact hlast
          · have ha : a ≠ address := fun h => hdistinct o (by omega) (h ▸ harr)
            refine ⟨a, g2, ?_, ?_, ?_, hal, ?_⟩
            · rw [harrget o (by omega)]; exact harr
            · show (table.AddDefaultTileGroup _ 0).2.2.tile_groups a = _
              rw [hAheap, if_neg hane, hstore, if_neg ha]; exact hh
            · show a < (table.AddDefaultTileGroup _ 0).2.2.next_address
              rw [hAnext, hnextaddr]; omega
            · rw [hnx, if_neg hoa, if_neg (by omega)]
      · refine ⟨rt.next_address, hactgU.trans hactive1, ?_, ?_⟩
        · rw [harrU, hAarr, hcountU, hAcount, hnextaddr, Nat.add_sub_cancel]
          exact harrlast
        · intro o ho
          rw [hcountU, hAcount] at ho
          rw [harrU, hAarr, hnextaddr, harrget o (by omega)]
          obtain ⟨a, _, harr, _, hlt, _, _⟩ := hinv.groups o (by omega)
          rw [harr]
          intro h
          have := Option.some.inj h
          omega
    · rw [if_pos hlast]
      refine ⟨rt.next_address, ?_, hactgU.trans hactive1, ?_⟩
      · rw [harrU, hAarr]; rfl
      · rw [hcountU, hAcount]
  · have hroom : n % cap + 1 < cap := by omega
    obtain ⟨hdiv, hmod⟩ := succ_div_mod_of_room n cap hroom
    have hE := storage.DataTable.GetEmptyTupleSlot_eq_any table rt cap tuple address g
      (g.InsertTuple (some tuple)).2 hcap hinv.active_count hinv.no_recycled hact hheap hnext hins
      halloc1 (some (g.InsertTuple (some tuple)).2.GetTileGroupId, table,
        rt.store address (g.InsertTuple (some tuple)).2)
      (by rw [if_neg (by rw [hnextg]; exact hlast)]) rfl db hdb
    rw [hE]
    obtain ⟨hcountU, hactcU, hcapU, hschU, htoidU, hdoidU, hactgU, harrU, _⟩ :=
      storage.DataTable.update_sparse_index_frame table
        (db.name = "default_database") ((g.InsertTuple (some tuple)).2.GetValue 0 0)
        (tuple.GetValue 0)
    refine ⟨⟨_, rfl, by rw [hnextg]; rfl⟩, ?_, ?_⟩
    · refine ⟨hactcU.trans hinv.active_count, hcapU.trans hinv.cap_eq, ?_, ?_, ?_, ?_, ?_, ?_, ?_⟩
      · rw [hschU]; exact hinv.schemas
      · rw [htoidU]; exact hinv.no_recycled
      · rw [hdoidU]; exact ⟨db, hdb⟩
      · rw [hcountU, hdiv, hcount]
      · rw [harrU, hcountU]; exact hlen
      · intro o ho
        rw [hcountU] at ho
        rw [harrU, hcountU]
        obtain ⟨a, g2, harr, hh, hlt, hal, hnx⟩ := hinv.groups o ho
        by_cases hoa : o + 1 = table.tile_group_count_
        · have hoa2 : o = table.tile_group_count_ - 1 := by omega
          have harr2 := harr
          rw [hoa2, harrA] at harr2
          have ha : a = address := (Option.some.inj harr2).symm
          refine ⟨a, (g.InsertTuple (some tuple)).2, harr, ?_, hlt, halloc1, ?_⟩
          · show (rt.store address _).tile_groups a = _
            rw [hstore, if_pos ha]
          · rw [hnext1, hnextg, if_pos hoa, hmod]
        · have ha : a ≠ address := fun h => hdistinct o (by omega) (h ▸ harr)
          refine ⟨a, g2, harr, ?_, hlt, hal, ?_⟩
          · show (rt.store address _).tile_groups a = _
            rw [hstore, if_neg ha]; exact hh
          · rw [hnx, if_neg hoa, if_neg hoa]
      · refine ⟨address, hactgU.trans hact, ?_, ?_⟩
        · rw [harrU, hcountU]; exact harrA
        · intro o ho
          rw [hcountU] at ho
          rw [harrU]
          exact hdistinct o ho
    · rw [if_neg hlast]
      exact ⟨harrU, hactgU, hcountU⟩

/-- The constructor of a table with one active tile group and at least one tile schema,
in a runtime that holds the database of the table, leaves the state `FillInv` for no
insert. -/
theorem storage.DataTable.create_FillInv (rt0 : storage.Runtime)
    (database_oid table_oid cap : Nat) (tile_schemas : List catalog.Schema)
    (default_layout : Nat → Nat × Nat) (hsch : tile_schemas ≠ [])
    (hrec : storage.map_find rt0.recycled_slots table_oid = none)
    (hdb : ∃ db, rt0.manager.GetDatabaseWithOid database_oid = some db) :
    ∃ (table : storage.DataTable) (rt : storage.Runtime),
      storage.DataTable.create rt0 database_oid table_oid cap tile_schemas default_layout 1 =
        (some (), table, rt) ∧
      table.FillInv rt cap 0 := by
  obtain ⟨db, hfind⟩ := hdb
  obtain ⟨hA1, hAact, hAcount, _, hAarr, hAactc, hAcap, _, hAsch, hAtoid, hAdoid, _, _, hAnext,
      hArec, hAheap, hAdbs, _, _, _⟩ :=
    storage.DataTable.AddDefaultTileGroup_effect
      ({ database_oid := database_oid, table_oid := table_oid, tuples_per_tilegroup_ := cap,
         tile_schemas_ := tile_schemas, default_layout_ := default_layout,
         active_tilegroup_count_ := 1,
         active_tile_groups_ := List.replicate 1 none } : storage.DataTable) rt0 0 db hfind
  obtain ⟨hnewalloc, hnewnext⟩ :=
    storage.DataTable.GetTileGroupWithLayout_alloc
      ({ database_oid := database_oid, table_oid := table_oid, tuples_per_tilegroup_ := cap,
         tile_schemas_ := tile_schemas, default_layout_ := default_layout,
         active_tilegroup_count_ := 1,
         active_tile_groups_ := List.replicate 1 none } : storage.DataTable) rt0 hsch
  rcases hr : storage.DataTable.AddDefaultTileGroup
      ({ database_oid := database_oid, table_oid := table_oid, tuples_per_tilegroup_ := cap,
         tile_schemas_ := tile_schemas, default_layout_ := default_layout,
         active_tilegroup_count_ := 1,
         active_tile_groups_ := List.replicate 1 none } : storage.DataTable) rt0 0
    with ⟨res, table, rt⟩
  rw [hr] at hA1 hAact hAcount hAarr hAactc hAcap hAsch hAtoid
  rw [hr] at hAdoid hAnext hArec hAheap hAdbs
  have hres : res = some _ := hA1
  have hcount : table.tile_group_count_ = 1 := hAcount
  have harr : table.tile_group_array_ = [rt0.next_address] := hAarr
  refine ⟨table, rt, ?_, ?_⟩
  · unfold storage.DataTable.create storage.DataTable.construct_loop
    rw [hr, hres]
    rfl
  · refine ⟨hAactc, hAcap, ?_, ?_, ?_, ?_, ?_, ?_, ?_⟩
    · rw [hAsch]; exact hsch
    · rw [hAtoid, hArec]; exact hrec
    · rw [hAdoid, storage.StorageManager.GetDatabaseWithOid_congr _ _ hAdbs]
      exact ⟨db, hfind⟩
    · rw [hcount, Nat.zero_div]
    · rw [harr, hcount]; rfl
    · intro o ho
      rw [hcount] at ho
      have ho0 : o = 0 := by omega
      refine ⟨rt0.next_address, _, by rw [harr, ho0]; rfl, ?_, ?_, hnewalloc, ?_⟩
      · rw [hAheap, if_pos rfl]
      · rw [hAnext]; omega
      · rw [hnewnext, hcount, ho0, if_pos rfl, Nat.zero_mod]
    · refine ⟨rt0.next_address, hAact, by rw [harr, hcount]; rfl, ?_⟩
      intro o ho
      rw [hcount] at ho
      omega

/-- Inserts into a table in the state `FillInv` all return and leave the state
`FillInv` for the number of inserts made. -/
theorem storage.DataTable.FillInv_insert_all (cap : Nat) (hcap0 : 0 < cap) (hcap : cap < OID_MOD) :
    ∀ (tuples : List storage.Tuple) (table : storage.DataTable) (rt : storage.Runtime) (n : Nat),
      table.FillInv rt cap n →
      ∃ (table1 : storage.DataTable) (rt1 : storage.Runtime),
        storage.DataTable.insert_all tuples table rt = some (table1, rt1) ∧
        table1.FillInv rt1 cap (n + tuples.length) := by
  intro tuples
  induction tuples with
  | nil =>
    intro table rt n hinv
    exact ⟨table, rt, rfl, hinv⟩
  | cons tuple rest ih =>
    intro table rt n hinv
    obtain ⟨⟨p, hp, _⟩, hinv1, _⟩ :=
      storage.DataTable.FillInv_step table rt cap n tuple hinv hcap0 hcap
    rcases hr : table.GetEmptyTupleSlot rt (some tuple) with ⟨res, table1, rt1⟩
    rw [hr] at hp hinv1
    have hres : res = some p := hp
    obtain ⟨table2, rt2, hrun, hinv2⟩ := ih table1 rt1 (n + 1) hinv1
    refine ⟨table2, rt2, ?_, ?_⟩
    · unfold storage.DataTable.insert_all
      rw [hr, hres]
      exact hrun
    · have hlen : n + (tuple :: rest).length = n + 1 + rest.length := by
        rw [List.length_cons]; omega
      rw [hlen]
      exact hinv2

/-- The constructor followed by `n` inserts returns and leaves the state `FillInv` for
`n` inserts. -/
theorem storage.DataTable.create_and_insert_FillInv (rt0 : storage.Runtime)
    (database_oid table_oid cap : Nat) (tile_schemas : List catalog.Schema)
    (default_layout : Nat → Nat × Nat) (tuples : List storage.Tuple)
    (hcap0 : 0 < cap) (hcap : cap < OID_MOD) (hsch : tile_schemas ≠ [])
    (hrec : storage.map_find rt0.recycled_slots table_oid = none)
    (hdb : ∃ db, rt0.manager.GetDatabaseWithOid database_oid = some db) :
    ∃ (table : storage.DataTable) (rt : storage.Runtime),
      storage.DataTable.create_and_insert rt0 database_oid table_oid cap tile_schemas
        default_layout tuples = some (table, rt) ∧
      table.FillInv rt cap tuples.length := by
  obtain ⟨table0, rt1, hcreate, hinv0⟩ :=
    storage.DataTable.create_FillInv rt0 database_oid table_oid cap tile_schemas default_layout
      hsch hrec hdb
  obtain ⟨table, rt, hrun, hinv⟩ :=
    storage.DataTable.FillInv_insert_all cap hcap0 hcap tuples table0 rt1 0 hinv0
  rw [Nat.zero_add] at hinv
  refine ⟨table, rt, ?_, hinv⟩
  unfold storage.DataTable.create_and_insert
  rw [hcreate]
  exact hrun

/-- In the state `FillInv` for `n` inserts the tile groups hold, in creation order,
`cap` tuples each, but for the last one, which holds `n % cap`. -/
theorem storage.DataTable.FillInv_fill (table : storage.DataTable) (rt : storage.Runtime)
    (cap n : Nat) (hinv : table.FillInv rt cap n) :
    table.fill rt = List.replicate (n / cap) (some cap) ++ [some (n % cap)] := by
  have hcount := hinv.count_eq
  have hlen := hinv.array_length
  apply List.ext_getElem?
  intro i
  unfold storage.DataTable.fill
  rw [List.getElem?_map]
  by_cases hi : i < table.tile_group_count_
  · obtain ⟨a, g, harr, hh, _, _, hnx⟩ := hinv.groups i hi
    rw [harr]
    show some ((rt.tile_groups a).map storage.TileGroup.GetNextTupleSlot) = _
    rw [hh]
    show some (some g.next_tuple_slot) = _
    rw [hnx]
    by_cases hlast : i + 1 = table.tile_group_count_
    · have hin : i = (List.replicate (n / cap) (some cap)).length := by
        rw [List.length_replicate]; omega
      rw [if_pos hlast, hin, List.getElem?_concat_length]
    · have hin : i < (List.replicate (n / cap) (some cap)).length := by
        rw [List.length_replicate]; omega
      rw [if_neg hlast, List.getElem?_append_left hin, List.getElem?_replicate_of_lt (by omega)]
  · have h1 : table.tile_group_array_[i]? = none :=
      List.getElem?_eq_none (by omega)
    have h2 : (List.replicate (n / cap) (some cap) ++ [some (n % cap)])[i]? = none :=
      List.getElem?_eq_none (by
        rw [List.length_append, List.length_replicate, List.length_singleton]; omega)
    rw [h1, h2]
    rfl

/-- C22: a table with one active tile group and tile groups of `cap` tuple slots is
constructed in a runtime that holds its database and has no recycled slot for it, and
`N` tuples are inserted through `GetEmptyTupleSlot`, one after the other.  Every
insert returns; afterwards the table has `N / cap + 1` tile groups, which is the
ceiling of `N / cap` or one more; in creation order they hold `cap, …, cap, N mod cap`
tuples, and the last of them is the active one.  The insert number `k` (from 0) takes
the slot `k mod cap`; when that is the slot `cap - 1` it appends a tile group, makes it
the active one and raises the count by one, and otherwise it leaves the tile groups,
the active one and the count as they are. -/
theorem C22_groups_fill_in_creation_order (rt0 : storage.Runtime)
    (database_oid table_oid cap : Nat) (tile_schemas : List catalog.Schema)
    (default_layout : Nat → Nat × Nat) (tuples : List storage.Tuple)
    (hcap0 : 0 < cap) (hcap : cap < OID_MOD) (hsch : tile_schemas ≠ [])
    (hrec : storage.map_find rt0.recycled_slots table_oid = none)
    (hdb : ∃ db, rt0.manager.GetDatabaseWithOid database_oid = some db) :
    (∃ (table : storage.DataTable) (rt : storage.Runtime),
      storage.DataTable.create_and_insert rt0 database_oid table_oid cap tile_schemas
        default_layout tuples = some (table, rt) ∧
      table.tile_group_count_ = tuples.length / cap + 1 ∧
      (tuples.length + cap - 1) / cap ≤ table.tile_group_count_ ∧
      table.tile_group_count_ ≤ (tuples.length + cap - 1) / cap + 1 ∧
      table.fill rt =
        List.replicate (tuples.length / cap) (some cap) ++ [some (tuples.length % cap)] ∧
      ∃ a, table.active_tile_groups_ = [some a] ∧ table.tile_group_array_.getLast? = some a) ∧
    (∀ (k : Nat) (tuple : storage.Tuple), k < tuples.length →
      ∃ (table_k : storage.DataTable) (rt_k : storage.Runtime),
        storage.DataTable.create_and_insert rt0 database_oid table_oid cap tile_schemas
          default_layout (tuples.take k) = some (table_k, rt_k) ∧
        (∃ p, (table_k.GetEmptyTupleSlot rt_k (some tuple)).1 = some p ∧ p.offset = k % cap) ∧
        (if k % cap + 1 = cap then
          ∃ a, (table_k.GetEmptyTupleSlot rt_k (some tuple)).2.1.tile_group_array_ =
              table_k.tile_group_array_ ++ [a] ∧
            (table_k.GetEmptyTupleSlot rt_k (some tuple)).2.1.active_tile_groups_ = [some a] ∧
            (table_k.GetEmptyTupleSlot rt_k (some tuple)).2.1.tile_group_count_ =
              table_k.tile_group_count_ + 1
        else
          (table_k.GetEmptyTupleSlot rt_k (some tuple)).2.1.tile_group_array_ =
              table_k.tile_group_array_ ∧
            (table_k.GetEmptyTupleSlot rt_k (some tuple)).2.1.active_tile_groups_ =
              table_k.active_tile_groups_ ∧
            (table_k.GetEmptyTupleSlot rt_k (some tuple)).2.1.tile_group_count_ =
              table_k.tile_group_count_)) := by
  constructor
  · obtain ⟨table, rt, hrun, hinv⟩ :=
      storage.DataTable.create_and_insert_FillInv rt0 database_oid table_oid cap tile_schemas
        default_layout tuples hcap0 hcap hsch hrec hdb
    have hcount := hinv.count_eq
    obtain ⟨a, hact, harr, _⟩ := hinv.active
    refine ⟨table, rt, hrun, hcount, ?_, ?_,
      storage.DataTable.FillInv_fill table rt cap tuples.length hinv, a, hact, ?_⟩
    · rw [hcount]
      have h1 : (tuples.length + cap - 1) / cap ≤ (tuples.length + cap) / cap :=
        Nat.div_le_div_right (by omega)
      rw [Nat.add_div_right _ hcap0] at h1
      exact h1
    · rw [hcount]
      have h1 : tuples.length / cap ≤ (tuples.length + cap - 1) / cap :=
        Nat.div_le_div_right (by omega)
      omega
    · rw [List.getLast?_eq_getElem?, hinv.array_length]
      exact harr
  · intro k tuple hk
    obtain ⟨table_k, rt_k, hrun, hinv⟩ :=
      storage.DataTable.create_and_insert_FillInv rt0 database_oid table_oid cap tile_schemas
        default_layout (tuples.take k) hcap0 hcap hsch hrec hdb
    have hlen : (tuples.take k).length = k := by
      rw [List.length_take]; omega
    rw [hlen] at hinv
    obtain ⟨hp, _, hstep⟩ :=
      storage.DataTable.FillInv_step table_k rt_k cap k tuple hinv hcap0 hcap
    exact ⟨table_k, rt_k, hrun, hp, hstep⟩

theorem C22_groups_fill_in_creation_order_witness :
    ∃ (table : storage.DataTable) (rt : storage.Runtime),
      storage.DataTable.create_and_insert example_runtime 1 7 4
        [[⟨5, 0, true, 4⟩, ⟨5, 4, true, 4⟩]] (fun c => (0, c))
        ((List.range 10).map (fun id => example_tuple (Int.ofNat id))) = some (table, rt) ∧
      table.tile_group_count_ = 3 ∧
      (10 + 4 - 1) / 4 ≤ table.tile_group_count_ ∧
      table.tile_group_count_ ≤ (10 + 4 - 1) / 4 + 1 ∧
      table.fill rt = [some 4, some 4, some 2] ∧
      ∃ a, table.active_tile_groups_ = [some a] ∧ table.tile_group_array_.getLast? = some a :=
  (C22_groups_fill_in_creation_order example_runtime 1 7 4
    [[⟨5, 0, true, 4⟩, ⟨5, 4, true, 4⟩]] (fun c => (0, c))
    ((List.range 10).map (fun id => example_tuple (Int.ofNat id)))
    (by decide) (by decide) (by decide) rfl ⟨_, rfl⟩).1

/-! ### Publication of tile groups -/

theorem storage.TileGroup.InsertTuple_id (g : storage.TileGroup) (tuple : Option storage.Tuple) :
    (g.InsertTuple tuple).2.tile_group_id = g.tile_group_id := by
  unfold storage.TileGroup.InsertTuple
  by_cases h : g.next_tuple_slot < g.GetAllocatedTupleCount
  · rw [if_pos h]
    cases tuple <;> rfl
  · rw [if_neg h]

theorem storage.Runtime.heap_step_refl (rt : storage.Runtime) : rt.heap_step rt :=
  ⟨rfl, rfl, fun _ h => h, fun _ g h => ⟨g, h, rfl⟩⟩

theorem storage.Runtime.heap_step_trans (rt rt1 rt2 : storage.Runtime)
    (h1 : rt.heap_step rt1) (h2 : rt1.heap_step rt2) : rt.heap_step rt2 := by
  refine ⟨h2.1.trans h1.1, h2.2.1.trans h1.2.1, fun a ha => h2.2.2.1 a (h1.2.2.1 a ha), ?_⟩
  intro a g hg
  obtain ⟨g1, hg1, hid1⟩ := h1.2.2.2 a g hg
  obtain ⟨g2, hg2, hid2⟩ := h2.2.2.2 a g1 hg1
  exact ⟨g2, hg2, hid2.trans hid1⟩

theorem storage.Runtime.heap_step_ReturnFreeSlot (rt : storage.Runtime) (table_oid : Nat) :
    rt.heap_step (rt.ReturnFreeSlot table_oid).2 := by
  unfold storage.Runtime.ReturnFreeSlot
  cases storage.map_find rt.recycled_slots table_oid with
  | none => exact storage.Runtime.heap_step_refl rt
  | some q => exact ⟨rfl, rfl, fun _ h => h, fun _ g h => ⟨g, h, rfl⟩⟩

theorem storage.Runtime.heap_step_store (rt : storage.Runtime) (address : Nat)
    (g g1 : storage.TileGroup) (hg : rt.tile_groups address = some g)
    (hid : g1.tile_group_id = g.tile_group_id) : rt.heap_step (rt.store address g1) := by
  refine ⟨rfl, rfl, ?_, ?_⟩
  · intro a h0
    have ha : a ≠ address := by
      intro ha
      rw [ha, hg] at h0
      cases h0
    simp [storage.Runtime.store, ha, h0]
  intro a g0 h0
  by_cases ha : a = address
  · subst ha
    rw [hg] at h0
    cases h0
    exact ⟨g1, by simp [storage.Runtime.store], hid⟩
  · exact ⟨g0, by simp [storage.Runtime.store, ha, h0], rfl⟩

theorem storage.DataTable.same_groups_refl (table : storage.DataTable) :
    table.same_groups table := ⟨rfl, rfl, rfl, rfl⟩

theorem storage.DataTable.same_groups_update_sparse_index (table : storage.DataTable)
    (first latest : type.Value) :
    table.same_groups (table.update_sparse_index first latest) := by
  unfold storage.DataTable.update_sparse_index
  simp only []
  split <;> exact ⟨rfl, rfl, rfl, rfl⟩

/-- What a call of `GetEmptyTupleSlot` that returns has done: a change of the runtime that
keeps the storage manager and the id of every tile group, then at most one
`AddDefaultTileGroup`, and a change of the table that keeps its id sequence and its
count. -/
theorem storage.DataTable.GetEmptyTupleSlot_decompose (table : storage.DataTable)
    (rt : storage.Runtime) (tuple : Option storage.Tuple) (p : storage.ItemPointer)
    (table1 : storage.DataTable) (rt1 : storage.Runtime)
    (h : table.GetEmptyTupleSlot rt tuple = (some p, table1, rt1)) :
    ∃ rt0 : storage.Runtime, rt.heap_step rt0 ∧
      ((table.same_groups table1 ∧ rt1 = rt0) ∨
       (∃ i, (table.AddDefaultTileGroup rt0 i).1.isSome = true ∧
         (table.AddDefaultTileGroup rt0 i).2.1.same_groups table1 ∧
         rt1 = (table.AddDefaultTileGroup rt0 i).2.2)) := by
  have hret := storage.Runtime.heap_step_ReturnFreeSlot rt table.table_oid
  unfold storage.DataTable.GetEmptyTupleSlot at h
  simp only [] at h
  generalize rt.ReturnFreeSlot table.table_oid = returned at h hret
  split at h
  · split at h
    · split at h
      · split at h
        · rename_i address _ _ tile_group hg
          simp only [Prod.mk.injEq] at h
          obtain ⟨_, ht, hr⟩ := h
          subst ht; subst hr
          exact ⟨returned.2.store address (tile_group.CopyTuple _ returned.1.offset),
            storage.Runtime.heap_step_trans _ _ _ hret
            (storage.Runtime.heap_step_store _ address tile_group
              (tile_group.CopyTuple _ returned.1.offset) hg rfl),
            Or.inl ⟨storage.DataTable.same_groups_refl _, rfl⟩⟩
        · simp at h
      · simp at h
    · simp only [Prod.mk.injEq] at h
      obtain ⟨_, ht, hr⟩ := h
      subst ht; subst hr
      exact ⟨_, hret, Or.inl ⟨storage.DataTable.same_groups_refl _, rfl⟩⟩
  · split at h
    · simp at h
    · split at h
      · simp at h
      · split at h
        · simp at h
        · split at h
          · simp at h
          · rename_i address _ _ tile_group0 hg _
            have hstore : rt.heap_step
                (returned.2.store address (tile_group0.InsertTuple tuple).2) :=
              storage.Runtime.heap_step_trans _ _ _ hret
                (storage.Runtime.heap_step_store _ address tile_group0 _ hg
                  (storage.TileGroup.InsertTuple_id tile_group0 tuple))
            by_cases hlast : (tile_group0.InsertTuple tuple).1 =
                ((tile_group0.InsertTuple tuple).2.GetAllocatedTupleCount + OID_MOD - 1) % OID_MOD
            · rw [if_pos hlast] at h
              refine ⟨_, hstore, Or.inr ⟨table.number_of_tuples_ % table.active_tilegroup_count_, ?_⟩⟩
              rcases hadd : table.AddDefaultTileGroup
                  (returned.2.store address (tile_group0.InsertTuple tuple).2)
                  (table.number_of_tuples_ % table.active_tilegroup_count_) with ⟨res, table2, rt2⟩
              rw [hadd] at h
              cases res with
              | none => simp at h
              | some id =>
                simp only [] at h
                cases tuple with
                | none => simp at h
                | some tuple0 =>
                  simp only [] at h
                  split at h
                  · simp at h
                  · simp only [Prod.mk.injEq] at h
                    obtain ⟨_, ht, hr⟩ := h
                    subst ht; subst hr
                    refine ⟨rfl, ?_, rfl⟩
                    split
                    · exact storage.DataTable.same_groups_update_sparse_index _ _ _
                    · exact storage.DataTable.same_groups_refl _
            · rw [if_neg hlast] at h
              refine ⟨_, hstore, Or.inl ?_⟩
              simp only [] at h
              cases tuple with
              | none => simp at h
              | some tuple0 =>
                simp only [] at h
                split at h
                · simp at h
                · simp only [Prod.mk.injEq] at h
                  obtain ⟨_, ht, hr⟩ := h
                  subst ht; subst hr
                  refine ⟨?_, rfl⟩
                  split
                  · exact storage.DataTable.same_groups_update_sparse_index _ _ _
                  · exact storage.DataTable.same_groups_refl _

theorem storage.DataTable.PubInv_heap_step (table : storage.DataTable) (rt rt1 : storage.Runtime)
    (h : table.PubInv rt) (hs : rt.heap_step rt1) : table.PubInv rt1 := by
  obtain ⟨hm, hn, hnone, hsome⟩ := hs
  refine ⟨?_, h.ids_length, ?_, ?_, ?_, ?_⟩
  · rw [hm]; exact h.database
  · rw [hm]; exact h.ids_fresh
  · rw [hm]; exact h.unregistered
  · intro a g hg
    rw [hn]
    cases hold : rt.tile_groups a with
    | none => rw [hnone a hold] at hg; cases hg
    | some g0 => exact h.allocated a g0 hold
  · intro i hi
    obtain ⟨id, address, g, hid, hloc, htree, hheap, hgid⟩ := h.pub i hi
    obtain ⟨g1, hg1, hid1⟩ := hsome address g hheap
    refine ⟨id, address, g1, hid, ?_, ?_, hg1, ?_⟩
    · rw [hm]; exact hloc
    · rw [hm]; exact htree
    · exact hid1.trans hgid

theorem storage.DataTable.PubInv_same_groups (table table1 : storage.DataTable)
    (rt : storage.Runtime) (h : table.PubInv rt) (hs : table.same_groups table1) :
    table1.PubInv rt := by
  obtain ⟨hids, hcount, htable, hdb⟩ := hs
  refine ⟨?_, ?_, ?_, ?_, h.allocated, ?_⟩
  · rw [hdb]; exact h.database
  · rw [hids, hcount]; exact h.ids_length
  · rw [hids]; exact h.ids_fresh
  · rw [hcount, htable]; exact h.unregistered
  · intro i hi
    rw [hcount] at hi
    obtain ⟨id, address, g, hid, hloc, htree, hheap, hgid⟩ := h.pub i hi
    refine ⟨id, address, g, ?_, hloc, ?_, hheap, hgid⟩
    · rw [hids]; exact hid
    · rw [htable]; exact htree

/-- The step `AddDefaultTileGroup` on a table of `default_database`: it returns, the new
tile group is published under the old count before the count has advanced, and the
tile groups published before stay so. -/
theorem storage.DataTable.PubInv_AddDefaultTileGroup (table : storage.DataTable)
    (rt : storage.Runtime) (active_tile_group_id : Nat) (h : table.PubInv rt)
    (hoid : rt.manager.tile_group_oid_ + 1 < OID_MOD)
    (hcount : table.tile_group_count_ < OID_MOD) :
    (table.AddDefaultTileGroup rt active_tile_group_id).1.isSome = true ∧
    (table.AddDefaultTileGroup rt active_tile_group_id).2.1.PubInv
      (table.AddDefaultTileGroup rt active_tile_group_id).2.2 ∧
    (table.AddDefaultTileGroup rt active_tile_group_id).2.2.manager.tile_group_oid_ =
      rt.manager.tile_group_oid_ + 1 ∧
    (table.AddDefaultTileGroup rt active_tile_group_id).2.1.tile_group_count_ =
      table.tile_group_count_ + 1 := by
  obtain ⟨db, hdb, hname⟩ := h.database
  obtain ⟨hres, -, hcnt, hids, -, -, -, -, -, htab, hdbo, -, -, hnext, -, hheap, hdbs, hoid2,
    hloc, htree⟩ := storage.DataTable.AddDefaultTileGroup_effect table rt active_tile_group_id db hdb
  rw [Nat.mod_eq_of_lt hoid] at hres hids hoid2 hloc
  rw [if_pos hname, Nat.mod_eq_of_lt hcount] at htree
  have habsent := h.unregistered table.tile_group_count_ (Nat.le_refl _)
  refine ⟨by rw [hres]; rfl, ?_, hoid2, hcnt⟩
  refine ⟨?_, ?_, ?_, ?_, ?_, ?_⟩
  · refine ⟨db, ?_, hname⟩
    rw [hdbo, ← hdb]
    exact storage.StorageManager.GetDatabaseWithOid_congr _ _ hdbs _
  · rw [hids, hcnt, List.length_append, h.ids_length]; rfl
  · intro id hmem
    rw [hids, List.mem_append] at hmem
    rw [hoid2]
    rcases hmem with hmem | hmem
    · exact Nat.le_succ_of_le (h.ids_fresh id hmem)
    · rw [List.mem_singleton] at hmem
      rw [hmem]
  · intro o ho
    rw [hcnt] at ho
    rw [htree, htab, storage.map_find_unique_insert _ _ _ _ habsent]
    have hne : ¬ (table.table_oid, table.tile_group_count_) = (table.table_oid, o) := by
      intro heq
      have := (Prod.mk.inj heq).2
      omega
    rw [if_neg hne]
    exact h.unregistered o (by omega)
  · intro a g hg
    rw [hheap] at hg
    rw [hnext]
    by_cases ha : a = rt.next_address
    · omega
    · rw [if_neg ha] at hg
      exact Nat.lt_succ_of_lt (h.allocated a g hg)
  · intro i hi
    rw [hcnt] at hi
    unfold storage.DataTable.published
    rw [htab, hids]
    unfold storage.StorageManager.GetTileGroup storage.StorageManager.GetTileGroupByBTree
    rw [hloc, htree]
    simp only [storage.CuckooMap.Find_Upsert, storage.map_find_unique_insert _ _ _ _ habsent]
    by_cases hlast : i = table.tile_group_count_
    · refine ⟨rt.manager.tile_group_oid_ + 1, rt.next_address,
        (table.GetTileGroupWithLayout rt).1, ?_, ?_, ?_, ?_, ?_⟩
      · rw [hlast, ← h.ids_length]
        simp
      · rw [if_pos rfl]
      · rw [hlast, if_pos rfl]
      · rw [hheap, if_pos rfl]
      · show (rt.manager.tile_group_oid_ + 1) % OID_MOD = _
        exact Nat.mod_eq_of_lt hoid
    · have hi2 : i < table.tile_group_count_ := by omega
      obtain ⟨id, address, g, hid, hloc0, htree0, hheap0, hgid⟩ := h.pub i hi2
      have hfresh : id ≤ rt.manager.tile_group_oid_ :=
        h.ids_fresh id (List.getElem?_mem hid)
      have haddr : address < rt.next_address := h.allocated address g hheap0
      refine ⟨id, address, g, ?_, ?_, ?_, ?_, hgid⟩
      · rw [List.getElem?_append_left (by rw [h.ids_length]; exact hi2)]
        exact hid
      · have hne : ¬ rt.manager.tile_group_oid_ + 1 = id := by omega
        rw [if_neg hne]
        exact hloc0
      · have hne : ¬ (table.table_oid, table.tile_group_count_) = (table.table_oid, i) := by
          intro heq
          exact hlast (Prod.mk.inj heq).2.symm
        rw [if_neg hne]
        exact htree0
      · rw [hheap, if_neg (by omega)]
        exact hheap0

theorem storage.DataTable.PubInv_GetEmptyTupleSlot (table : storage.DataTable)
    (rt : storage.Runtime) (tuple : Option storage.Tuple) (p : storage.ItemPointer)
    (table1 : storage.DataTable) (rt1 : storage.Runtime) (h : table.PubInv rt)
    (hoid : rt.manager.tile_group_oid_ + 1 < OID_MOD)
    (hcount : table.tile_group_count_ < OID_MOD)
    (hrun : table.GetEmptyTupleSlot rt tuple = (some p, table1, rt1)) :
    table1.PubInv rt1 ∧ rt1.manager.tile_group_oid_ ≤ rt.manager.tile_group_oid_ + 1 ∧
    table1.tile_group_count_ ≤ table.tile_group_count_ + 1 := by
  obtain ⟨rt0, hstep, hcase⟩ :=
    storage.DataTable.GetEmptyTupleSlot_decompose table rt tuple p table1 rt1 hrun
  have h0 := storage.DataTable.PubInv_heap_step table rt rt0 h hstep
  have hm : rt0.manager = rt.manager := hstep.1
  rcases hcase with ⟨hsame, hrt⟩ | ⟨i, _, hsame, hrt⟩
  · rw [hrt]
    refine ⟨storage.DataTable.PubInv_same_groups table table1 rt0 h0 hsame, ?_, ?_⟩
    · rw [hm]; exact Nat.le_succ _
    · rw [hsame.2.1]; exact Nat.le_succ _
  · obtain ⟨_, hinv, ho, hc⟩ :=
      storage.DataTable.PubInv_AddDefaultTileGroup table rt0 i h0 (by rw [hm]; exact hoid) hcount
    rw [hrt]
    refine ⟨storage.DataTable.PubInv_same_groups _ table1 _ hinv hsame, ?_, ?_⟩
    · rw [ho, hm]
    · rw [hsame.2.1, hc]

theorem storage.DataTable.PubInv_run_calls : ∀ (calls : List storage.TableCall)
    (table : storage.DataTable) (rt : storage.Runtime)
    (table1 : storage.DataTable) (rt1 : storage.Runtime), table.PubInv rt →
    rt.manager.tile_group_oid_ + calls.length < OID_MOD →
    table.tile_group_count_ + calls.length < OID_MOD →
    storage.DataTable.run_calls calls table rt = some (table1, rt1) → table1.PubInv rt1
  | [], table, rt, table1, rt1, h, _, _, hrun => by
    simp only [storage.DataTable.run_calls, Option.some.injEq, Prod.mk.injEq] at hrun
    rw [← hrun.1, ← hrun.2]
    exact h
  | storage.TableCall.addDefaultTileGroup :: rest, table, rt, table1, rt1, h, hoid, hcount,
      hrun => by
    rw [List.length_cons] at hoid hcount
    unfold storage.DataTable.run_calls at hrun
    unfold storage.DataTable.AddDefaultTileGroupActive at hrun
    by_cases hz : table.active_tilegroup_count_ = 0
    · rw [if_pos hz] at hrun
      cases hrun
    · rw [if_neg hz] at hrun
      obtain ⟨_, hinv, ho, hc⟩ := storage.DataTable.PubInv_AddDefaultTileGroup table rt
        (table.number_of_tuples_ % table.active_tilegroup_count_) h (by omega) (by omega)
      rcases hadd : table.AddDefaultTileGroup rt
          (table.number_of_tuples_ % table.active_tilegroup_count_) with ⟨res, table2, rt2⟩
      rw [hadd] at hrun hinv ho hc
      cases res with
      | none => cases hrun
      | some id =>
        exact storage.DataTable.PubInv_run_calls rest table2 rt2 table1 rt1 hinv
          (by simp only [] at ho; omega) (by simp only [] at hc; omega) hrun
  | storage.TableCall.getEmptyTupleSlot tuple :: rest, table, rt, table1, rt1, h, hoid, hcount,
      hrun => by
    rw [List.length_cons] at hoid hcount
    unfold storage.DataTable.run_calls at hrun
    rcases hget : table.GetEmptyTupleSlot rt tuple with ⟨res, table2, rt2⟩
    rw [hget] at hrun
    cases res with
    | none => cases hrun
    | some p =>
      obtain ⟨hinv, ho, hc⟩ := storage.DataTable.PubInv_GetEmptyTupleSlot table rt tuple p
        table2 rt2 h (by omega) (by omega) hget
      exact storage.DataTable.PubInv_run_calls rest table2 rt2 table1 rt1 hinv
        (by omega) (by omega) hrun

theorem storage.DataTable.PubInv_construct_loop : ∀ (rounds i : Nat)
    (table : storage.DataTable) (rt : storage.Runtime), table.PubInv rt →
    rt.manager.tile_group_oid_ + rounds < OID_MOD →
    table.tile_group_count_ + rounds < OID_MOD →
    (storage.DataTable.construct_loop rounds i table rt).1 = some () ∧
    (storage.DataTable.construct_loop rounds i table rt).2.1.PubInv
      (storage.DataTable.construct_loop rounds i table rt).2.2 ∧
    (storage.DataTable.construct_loop rounds i table rt).2.2.manager.tile_group_oid_ =
      rt.manager.tile_group_oid_ + rounds ∧
    (storage.DataTable.construct_loop rounds i table rt).2.1.tile_group_count_ =
      table.tile_group_count_ + rounds
  | 0, _, _, _, h, _, _ => ⟨rfl, h, rfl, rfl⟩
  | rounds + 1, i, table, rt, h, hoid, hcount => by
    obtain ⟨_, hinv, ho, hc⟩ := storage.DataTable.PubInv_AddDefaultTileGroup table rt i h
      (by omega) (by omega)
    unfold storage.DataTable.construct_loop
    rcases hadd : table.AddDefaultTileGroup rt i with ⟨res, table2, rt2⟩
    rw [hadd] at hinv ho hc
    simp only [] at ho hc hinv
    cases res with
    | none =>
      have h1 := (storage.DataTable.PubInv_AddDefaultTileGroup table rt i h
        (by omega) (by omega)).1
      rw [hadd] at h1
      cases h1
    | some id =>
      obtain ⟨hr, hinv2, ho2, hc2⟩ := storage.DataTable.PubInv_construct_loop rounds (i + 1)
        table2 rt2 hinv (by omega) (by omega)
      exact ⟨hr, hinv2, by rw [ho2, ho]; omega, by rw [hc2, hc]; omega⟩

/-- Claim C23, as the code has it.  A table of `default_database` is constructed in a
runtime in which the ordered tree holds no entry of the table and every tile group lies
below the next address, and then `AddDefaultTileGroup()` and `GetEmptyTupleSlot` are
called in any order, the tile-group oid counter not wrapping around.  In the state
after the constructor and after every call that returned, every offset `i` below the
count of the table is published: the id sequence of the table holds an id for it, the
identity map and the ordered tree under `(table_id, i)` give the address of a tile
group for it, and that tile group has this id.  `AddDefaultTileGroup` makes these
registrations and advances the count in one step; the sparse index is no part of
it. -/
theorem C23_groups_below_count_are_published (rt : storage.Runtime)
    (database_oid table_oid tuples_per_tilegroup : Nat) (tile_schemas : List catalog.Schema)
    (default_layout : Nat → Nat × Nat) (active_tilegroup_count : Nat)
    (calls : List storage.TableCall) (table1 : storage.DataTable) (rt1 : storage.Runtime)
    (hdb : ∃ db, rt.manager.GetDatabaseWithOid database_oid = some db ∧
      db.name = "default_database")
    (hnew : ∀ o, storage.map_find rt.manager.tile_group_tree_ (table_oid, o) = none)
    (halloc : ∀ a g, rt.tile_groups a = some g → a < rt.next_address)
    (hoid : rt.manager.tile_group_oid_ + active_tilegroup_count + calls.length < OID_MOD)
    (hrun : storage.DataTable.create_and_run rt database_oid table_oid tuples_per_tilegroup
      tile_schemas default_layout active_tilegroup_count calls = some (table1, rt1)) :
    ∀ i, i < table1.tile_group_count_ → table1.published rt1 i := by
  unfold storage.DataTable.create_and_run storage.DataTable.create at hrun
  simp only [] at hrun
  have hinit : storage.DataTable.PubInv
      { database_oid := database_oid, table_oid := table_oid,
        tuples_per_tilegroup_ := tuples_per_tilegroup, tile_schemas_ := tile_schemas,
        default_layout_ := default_layout, active_tilegroup_count_ := active_tilegroup_count,
        active_tile_groups_ := List.replicate active_tilegroup_count none } rt :=
    ⟨hdb, rfl, fun _ hmem => (by cases hmem), fun o _ => hnew o, halloc,
      fun i hi => absurd hi (Nat.not_lt_zero i)⟩
  obtain ⟨hr, hinv, ho, hc⟩ := storage.DataTable.PubInv_construct_loop active_tilegroup_count 0
    _ rt hinit (by omega) (by show 0 + active_tilegroup_count < OID_MOD; omega)
  rcases hloop : storage.DataTable.construct_loop active_tilegroup_count 0
      { database_oid := database_oid, table_oid := table_oid,
        tuples_per_tilegroup_ := tuples_per_tilegroup, tile_schemas_ := tile_schemas,
        default_layout_ := default_layout, active_tilegroup_count_ := active_tilegroup_count,
        active_tile_groups_ := List.replicate active_tilegroup_count none } rt
    with ⟨res, table0, rt0⟩
  rw [hloop] at hrun hinv ho hc
  simp only [] at ho hc hinv
  cases res with
  | none => cases hrun
  | some u =>
    have hc0 : table0.tile_group_count_ = active_tilegroup_count := by
      rw [hc]; exact Nat.zero_add _
    exact (storage.DataTable.PubInv_run_calls calls table0 rt0 table1 rt1 hinv
      (by omega) (by omega) hrun).pub

theorem C23_groups_below_count_are_published_witness :
    ∃ (table : storage.DataTable) (rt : storage.Runtime),
      storage.DataTable.create_and_run example_runtime 1 7 4
        [[⟨5, 0, true, 4⟩, ⟨5, 4, true, 4⟩]] (fun c => (0, c)) 1 storage.example_calls =
        some (table, rt) ∧
      table.tile_group_count_ = 3 ∧
      ∀ i, i < table.tile_group_count_ → table.published rt i := by
  rcases hrun : storage.DataTable.create_and_run example_runtime 1 7 4
      [[⟨5, 0, true, 4⟩, ⟨5, 4, true, 4⟩]] (fun c => (0, c)) 1 storage.example_calls
    with _ | ⟨table, rt⟩
  · have hsome : (storage.DataTable.create_and_run example_runtime 1 7 4
        [[⟨5, 0, true, 4⟩, ⟨5, 4, true, 4⟩]] (fun c => (0, c)) 1
        storage.example_calls).isSome = true := by decide
    rw [hrun] at hsome
    cases hsome
  · have hcount : (storage.DataTable.create_and_run example_runtime 1 7 4
        [[⟨5, 0, true, 4⟩, ⟨5, 4, true, 4⟩]] (fun c => (0, c)) 1
        storage.example_calls).map (fun s => s.1.tile_group_count_) = some 3 := by decide
    rw [hrun] at hcount
    exact ⟨table, rt, rfl, Option.some.inj hcount,
      C23_groups_below_count_are_published example_runtime 1 7 4
        [[⟨5, 0, true, 4⟩, ⟨5, 4, true, 4⟩]] (fun c => (0, c)) 1 storage.example_calls
        table rt ⟨⟨1, "default_database"⟩, rfl, rfl⟩ (fun _ => rfl)
        (fun _ _ h => by cases h) (by decide) hrun⟩

/-- Claim C23 as stated fails for the sparse index and, outside `default_database`, for
the ordered tree.  Right after the construction of a table of `default_database` the
count is 1 and the tile group at the offset 0 is in the identity map and in the
ordered tree, but the sparse index is empty: it has an entry neither under the key 0
nor under the key 1, which the scan consults for the offset 0.  Right after the
construction of a table of another database the count is 1 and the ordered tree has
no entry under `(table_id, 0)`. -/
theorem C23_count_advanced_before_sparse_index_entry :
    ((storage.DataTable.create example_runtime 1 7 4
        [[⟨5, 0, true, 4⟩, ⟨5, 4, true, 4⟩]] (fun c => (0, c)) 1).1 = some () ∧
     (storage.DataTable.create example_runtime 1 7 4
        [[⟨5, 0, true, 4⟩, ⟨5, 4, true, 4⟩]] (fun c => (0, c)) 1).2.1.tile_group_count_ = 1 ∧
     storage.CuckooMap.Find (storage.DataTable.create example_runtime 1 7 4
        [[⟨5, 0, true, 4⟩, ⟨5, 4, true, 4⟩]] (fun c => (0, c)) 1).2.1.sparse_index 0 = none ∧
     (storage.DataTable.create example_runtime 1 7 4
        [[⟨5, 0, true, 4⟩, ⟨5, 4, true, 4⟩]] (fun c => (0, c)) 1).2.1.consulted_entry 0 = none) ∧
    ((storage.DataTable.create storage.example_runtime_other 2 7 4
        [[⟨5, 0, true, 4⟩, ⟨5, 4, true, 4⟩]] (fun c => (0, c)) 1).1 = some () ∧
     (storage.DataTable.create storage.example_runtime_other 2 7 4
        [[⟨5, 0, true, 4⟩, ⟨5, 4, true, 4⟩]] (fun c => (0, c)) 1).2.1.tile_group_count_ = 1 ∧
     (storage.DataTable.create storage.example_runtime_other 2 7 4
        [[⟨5, 0, true, 4⟩, ⟨5, 4, true, 4⟩]] (fun c => (0, c)) 1).2.2.manager.GetTileGroupByBTree
        7 0 = storage.Location.undefined) := by
  decide

/-! ### Transformation of a tile group -/

theorem storage.map_find_none_of_lt {ν : Type} : ∀ (m : List (Nat × ν)) (k : Nat),
    (∀ e ∈ m, k < e.1) → storage.map_find m k = none
  | [], _, _ => rfl
  | (k0, v0) :: rest, k, h => by
    have h0 : k < k0 := h (k0, v0) (List.mem_cons_self _ _)
    have hne : ¬ k0 = k := by omega
    show (if k0 = k then some v0 else storage.map_find rest k) = none
    rw [if_neg hne]
    exact storage.map_find_none_of_lt rest k (fun e he => h e (List.mem_cons_of_mem _ he))

/-- Every entry of the map after `m[k] = v` is the new entry or an entry of the map
before. -/
theorem storage.ordered_map_set_mem {ν : Type} : ∀ (m : List (Nat × ν)) (k : Nat) (v : ν)
    (e : Nat × ν), e ∈ storage.ordered_map_set m k v → e = (k, v) ∨ e ∈ m
  | [], k, v, e, h => by
    simp only [storage.ordered_map_set, List.mem_singleton] at h
    exact Or.inl h
  | (k0, v0) :: rest, k, v, e, h => by
    unfold storage.ordered_map_set at h
    by_cases h1 : k < k0
    · rw [if_pos h1] at h
      rcases List.mem_cons.1 h with h | h
      · exact Or.inl h
      · exact Or.inr h
    · rw [if_neg h1] at h
      by_cases h2 : k = k0
      · rw [if_pos h2] at h
        rcases List.mem_cons.1 h with h | h
        · exact Or.inl h
        · exact Or.inr (List.mem_cons_of_mem _ h)
      · rw [if_neg h2] at h
        rcases List.mem_cons.1 h with h | h
        · exact Or.inr (by rw [h]; exact List.mem_cons_self _ _)
        · rcases storage.ordered_map_set_mem rest k v e h with h | h
          · exact Or.inl h
          · exact Or.inr (List.mem_cons_of_mem _ h)

/-- The assignment `m[k] = v` keeps the keys of a map in increasing order. -/
theorem storage.ordered_map_set_sorted {ν : Type} : ∀ (m : List (Nat × ν)) (k : Nat) (v : ν),
    (m.map Prod.fst).Sorted (· < ·) →
    ((storage.ordered_map_set m k v).map Prod.fst).Sorted (· < ·)
  | [], k, v, _ => by simp [storage.ordered_map_set]
  | (k0, v0) :: rest, k, v, h => by
    rw [List.map_cons, List.sorted_cons] at h
    unfold storage.ordered_map_set
    by_cases h1 : k < k0
    · rw [if_pos h1, List.map_cons, List.sorted_cons]
      refine ⟨?_, by rw [List.map_cons, List.sorted_cons]; exact h⟩
      intro b hb
      rw [List.map_cons, List.mem_cons] at hb
      rcases hb with hb | hb
      · rw [hb]; exact h1
      · exact Nat.lt_trans h1 (h.1 b hb)
    · rw [if_neg h1]
      by_cases h2 : k = k0
      · rw [if_pos h2, List.map_cons, List.sorted_cons, h2]
        exact h
      · rw [if_neg h2, List.map_cons, List.sorted_cons]
        refine ⟨?_, storage.ordered_map_set_sorted rest k v h.2⟩
        intro b hb
        obtain ⟨e, he, heb⟩ := List.mem_map.1 hb
        rcases storage.ordered_map_set_mem rest k v e he with he | he
        · rw [← heb, he]
          show k0 < k
          omega
        · rw [← heb]
          exact h.1 e.1 (List.mem_map_of_mem _ he)

/-- A lookup after the assignment `m[k] = v` in a map with increasing keys. -/
theorem storage.map_find_ordered_map_set {ν : Type} : ∀ (m : List (Nat × ν)) (k k2 : Nat) (v : ν),
    (m.map Prod.fst).Sorted (· < ·) →
    storage.map_find (storage.ordered_map_set m k v) k2 =
      if k = k2 then some v else storage.map_find m k2
  | [], k, k2, v, _ => rfl
  | (k0, v0) :: rest, k, k2, v, h => by
    rw [List.map_cons, List.sorted_cons] at h
    unfold storage.ordered_map_set
    by_cases h1 : k < k0
    · rw [if_pos h1]
      rfl
    · rw [if_neg h1]
      by_cases h2 : k = k0
      · rw [if_pos h2]
        show (if k = k2 then some v else storage.map_find rest k2) =
          if k = k2 then some v else (if k0 = k2 then some v0 else storage.map_find rest k2)
        by_cases h3 : k = k2
        · rw [if_pos h3, if_pos h3]
        · rw [if_neg h3, if_neg h3, if_neg (by omega)]
      · rw [if_neg h2]
        show (if k0 = k2 then some v0 else
            storage.map_find (storage.ordered_map_set rest k v) k2) =
          if k = k2 then some v else (if k0 = k2 then some v0 else storage.map_find rest k2)
        rw [storage.map_find_ordered_map_set rest k k2 v h.2]
        by_cases h3 : k0 = k2
        · rw [if_pos h3, if_pos h3, if_neg (by omega)]
        · rw [if_neg h3, if_neg h3]

/-- The keys of a map are the keys that a lookup finds. -/
theorem storage.map_find_isSome_iff {ν : Type} : ∀ (m : List (Nat × ν)) (k : Nat),
    (storage.map_find m k).isSome = true ↔ k ∈ m.map Prod.fst
  | [], k => by simp [storage.map_find]
  | (k0, v0) :: rest, k => by
    show (if k0 = k then some v0 else storage.map_find rest k).isSome = true ↔ _
    by_cases h : k0 = k
    · rw [if_pos h]
      simp [h]
    · rw [if_neg h, storage.map_find_isSome_iff rest k]
      simp only [List.map_cons, List.mem_cons]
      constructor
      · exact Or.inr
      · rintro (h2 | h2)
        · exact absurd h2.symm h
        · exact h2

/-- In a map with increasing keys a lookup finds the entry of a key. -/
theorem storage.map_find_of_mem {ν : Type} : ∀ (m : List (Nat × ν)) (k : Nat) (v : ν),
    (m.map Prod.fst).Sorted (· < ·) → (k, v) ∈ m → storage.map_find m k = some v
  | [], _, _, _, h => by cases h
  | (k0, v0) :: rest, k, v, hs, h => by
    rw [List.map_cons, List.sorted_cons] at hs
    show (if k0 = k then some v0 else storage.map_find rest k) = some v
    rcases List.mem_cons.1 h with h | h
    · cases h
      rw [if_pos rfl]
    · have hlt : k0 < k := hs.1 k (List.mem_map_of_mem Prod.fst h)
      rw [if_neg (by omega)]
      exact storage.map_find_of_mem rest k v hs.2 h

theorem storage.mem_of_map_find {ν : Type} : ∀ (m : List (Nat × ν)) (k : Nat) (v : ν),
    storage.map_find m k = some v → (k, v) ∈ m
  | [], _, _, h => by cases h
  | (k0, v0) :: rest, k, v, h => by
    change (if k0 = k then some v0 else storage.map_find rest k) = some v at h
    by_cases h1 : k0 = k
    · rw [if_pos h1] at h
      cases h
      rw [h1]
      exact List.mem_cons_self _ _
    · rw [if_neg h1] at h
      exact List.mem_cons_of_mem _ (storage.mem_of_map_find rest k v h)

/-- Increasing natural numbers that come with every smaller number are the numbers
`0, 1, 2, …` in order. -/
theorem storage.sorted_closed_getElem (l : List Nat) (hs : l.Sorted (· < ·))
    (hc : ∀ x ∈ l, ∀ y, y < x → y ∈ l) : ∀ i, i < l.length → l[i]? = some i := by
  intro i
  induction i using Nat.strong_induction_on with
  | _ i ih =>
    intro hi
    have hge : i ≤ l[i] := by
      cases i with
      | zero => exact Nat.zero_le _
      | succ p =>
        have hp := ih p (Nat.lt_succ_self p) (by omega)
        have hp2 : l[p] = p := by
          rw [List.getElem?_eq_getElem (by omega)] at hp
          exact Option.some.inj hp
        have hlt : l[p] < l[p + 1] :=
          List.pairwise_iff_getElem.1 hs p (p + 1) (by omega) hi (Nat.lt_succ_self p)
        omega
    rw [List.getElem?_eq_getElem hi]
    congr 1
    by_contra hne
    have hgt : i < l[i] := by omega
    have hmem : i ∈ l := hc l[i] (List.getElem_mem _) i hgt
    obtain ⟨p, hp, hpi⟩ := List.getElem_of_mem hmem
    rcases Nat.lt_trichotomy p i with h | h | h
    · have := ih p h hp
      rw [List.getElem?_eq_getElem hp, hpi] at this
      have := Option.some.inj this
      omega
    · subst h
      omega
    · have := List.pairwise_iff_getElem.1 hs i p hi hp h
      omega

/-- In a map whose keys are the numbers `0, 1, 2, …` in order, the entry of a key is at
the position of the key. -/
theorem storage.map_find_getElem {ν : Type} (m : List (Nat × ν)) (k : Nat) (v : ν)
    (hs : (m.map Prod.fst).Sorted (· < ·))
    (hc : ∀ x ∈ m.map Prod.fst, ∀ y, y < x → y ∈ m.map Prod.fst)
    (hfind : storage.map_find m k = some v) : m[k]? = some (k, v) := by
  have hmem : (k, v) ∈ m := storage.mem_of_map_find m k v hfind
  obtain ⟨p, hp, hpe⟩ := List.getElem_of_mem hmem
  have hkey := storage.sorted_closed_getElem (m.map Prod.fst) hs hc p
    (by rw [List.length_map]; exact hp)
  rw [List.getElem?_map, List.getElem?_eq_getElem hp, hpe] at hkey
  have hpk : k = p := Option.some.inj hkey
  rw [hpk, List.getElem?_eq_getElem hp, hpe, hpk]

theorem storage.TransformTileGroupSchema_inv_step (tile_group : storage.TileGroup)
    (layout : Nat → Nat × Nat) (handled : List Nat)
    (schemas : List (Nat × List (Nat × catalog.Column))) (c : Nat)
    (h : storage.TransformTileGroupSchema_inv tile_group layout handled schemas) :
    storage.TransformTileGroupSchema_inv tile_group layout (handled ++ [c])
      (storage.ordered_map_set schemas (layout c).1
        (storage.ordered_map_set ((storage.map_find schemas (layout c).1).getD []) (layout c).2
          ((tile_group.GetTileReference (tile_group.layout c).1).schema.GetColumn
            (tile_group.layout c).2))) := by
  have hs0 : (((storage.map_find schemas (layout c).1).getD []).map Prod.fst).Sorted (· < ·) := by
    cases hf : storage.map_find schemas (layout c).1 with
    | none => simp
    | some inner => exact h.inner_sorted _ inner hf
  have houter := fun k2 => storage.map_find_ordered_map_set schemas (layout c).1 k2
    (storage.ordered_map_set ((storage.map_find schemas (layout c).1).getD []) (layout c).2
      ((tile_group.GetTileReference (tile_group.layout c).1).schema.GetColumn
        (tile_group.layout c).2)) h.sorted
  have hinner := fun j2 => storage.map_find_ordered_map_set
    ((storage.map_find schemas (layout c).1).getD []) (layout c).2 j2
    ((tile_group.GetTileReference (tile_group.layout c).1).schema.GetColumn
      (tile_group.layout c).2) hs0
  refine ⟨storage.ordered_map_set_sorted _ _ _ h.sorted, ?_, ?_, ?_, ?_⟩
  · intro k inner hf
    rw [houter] at hf
    by_cases hk : (layout c).1 = k
    · rw [if_pos hk] at hf
      rw [← Option.some.inj hf]
      exact storage.ordered_map_set_sorted _ _ _ hs0
    · rw [if_neg hk] at hf
      exact h.inner_sorted k inner hf
  · intro k inner hf j col hj
    rw [houter] at hf
    by_cases hk : (layout c).1 = k
    · rw [if_pos hk] at hf
      rw [← Option.some.inj hf, hinner] at hj
      by_cases hj0 : (layout c).2 = j
      · rw [if_pos hj0] at hj
        exact ⟨c, by simp, by rw [← hk, ← hj0], (Option.some.inj hj).symm⟩
      · rw [if_neg hj0] at hj
        cases hold : storage.map_find schemas (layout c).1 with
        | none =>
          rw [hold] at hj
          cases hj
        | some inner0 =>
          rw [hold] at hj
          obtain ⟨c2, hc2, hl2, hcol⟩ := h.from_column _ inner0 hold j col hj
          exact ⟨c2, List.mem_append_left _ hc2, by rw [hl2, hk], hcol⟩
    · rw [if_neg hk] at hf
      obtain ⟨c2, hc2, hl2, hcol⟩ := h.from_column k inner hf j col hj
      exact ⟨c2, List.mem_append_left _ hc2, hl2, hcol⟩
  · intro k inner hf
    rw [houter] at hf
    by_cases hk : (layout c).1 = k
    · exact ⟨c, by simp, hk⟩
    · rw [if_neg hk] at hf
      obtain ⟨c2, hc2, hl2⟩ := h.nonempty k inner hf
      exact ⟨c2, List.mem_append_left _ hc2, hl2⟩
  · intro c2 hc2
    rw [houter]
    by_cases hk : (layout c).1 = (layout c2).1
    · rw [if_pos hk]
      refine ⟨_, rfl, ?_⟩
      rw [hinner]
      by_cases hj0 : (layout c).2 = (layout c2).2
      · rw [if_pos hj0]; rfl
      · rw [if_neg hj0]
        rcases List.mem_append.1 hc2 with hc2 | hc2
        · obtain ⟨inner0, hf0, hsome⟩ := h.present c2 hc2
          rw [hk, hf0]
          exact hsome
        · rw [List.mem_singleton] at hc2
          rw [hc2] at hj0
          exact absurd rfl hj0
    · rw [if_neg hk]
      rcases List.mem_append.1 hc2 with hc2 | hc2
      · exact h.present c2 hc2
      · rw [List.mem_singleton] at hc2
        rw [hc2] at hk
        exact absurd rfl hk

theorem storage.TransformTileGroupSchema_inv_loop (tile_group : storage.TileGroup)
    (layout : Nat → Nat × Nat) : ∀ (cs handled : List Nat)
    (schemas : List (Nat × List (Nat × catalog.Column))),
    storage.TransformTileGroupSchema_inv tile_group layout handled schemas →
    storage.TransformTileGroupSchema_inv tile_group layout (handled ++ cs)
      (storage.TransformTileGroupSchema_schemas tile_group layout cs schemas)
  | [], handled, schemas, h => by
    rw [List.append_nil]
    exact h
  | c :: rest, handled, schemas, h => by
    have hstep := storage.TransformTileGroupSchema_inv_step tile_group layout handled schemas c h
    have := storage.TransformTileGroupSchema_inv_loop tile_group layout rest (handled ++ [c]) _
      hstep
    rw [List.append_assoc, List.singleton_append] at this
    exact this

/-- The map that the first loop of `TransformTileGroupSchema` builds for a layout which
uses the tile offsets and, in each tile, the column offsets without a gap: the entry of
a tile offset is at the position of the tile offset, and the column that the layout
places at `(k, j)` is at the position `j` of the entry of `k`. -/
theorem storage.TransformTileGroupSchema_schemas_spec (tile_group : storage.TileGroup)
    (layout : Nat → Nat × Nat) (column_count : Nat)
    (htiles : ∀ c, c < column_count → ∀ k, k < (layout c).1 →
      ∃ c2, c2 < column_count ∧ (layout c2).1 = k)
    (hcolumns : ∀ c, c < column_count → ∀ j, j < (layout c).2 →
      ∃ c2, c2 < column_count ∧ layout c2 = ((layout c).1, j))
    (c : Nat) (hc : c < column_count) :
    ∃ inner, (storage.TransformTileGroupSchema_schemas tile_group layout
        (List.range column_count) [])[(layout c).1]? = some ((layout c).1, inner) ∧
      (layout c).2 < inner.length ∧
      ∀ e ∈ inner, ∃ c2, c2 < column_count ∧
        e.2 = (tile_group.GetTileReference (tile_group.layout c2).1).schema.GetColumn
          (tile_group.layout c2).2 := by
  have hinit : storage.TransformTileGroupSchema_inv tile_group layout [] [] :=
    ⟨List.sorted_nil, fun _ _ h => (by cases h), fun _ _ h => (by cases h),
      fun _ _ h => (by cases h), fun _ h => (by cases h)⟩
  have hinv := storage.TransformTileGroupSchema_inv_loop tile_group layout
    (List.range column_count) [] [] hinit
  rw [List.nil_append] at hinv
  generalize storage.TransformTileGroupSchema_schemas tile_group layout
    (List.range column_count) [] = schemas at hinv
  have hpresent : ∀ c2, c2 < column_count → ∃ inner,
      storage.map_find schemas (layout c2).1 = some inner ∧
      (storage.map_find inner (layout c2).2).isSome = true :=
    fun c2 h2 => hinv.present c2 (List.mem_range.2 h2)
  have hclosed : ∀ x ∈ schemas.map Prod.fst, ∀ y, y < x → y ∈ schemas.map Prod.fst := by
    intro x hx y hy
    rw [← storage.map_find_isSome_iff] at hx
    obtain ⟨inner, hf⟩ := Option.isSome_iff_exists.1 hx
    obtain ⟨c1, hc1, hk1⟩ := hinv.nonempty x inner hf
    obtain ⟨c2, hc2, hk2⟩ := htiles c1 (List.mem_range.1 hc1) y (by rw [hk1]; exact hy)
    obtain ⟨inner2, hf2, _⟩ := hpresent c2 hc2
    rw [← storage.map_find_isSome_iff, ← hk2, hf2]
    rfl
  obtain ⟨inner, hf, hsome⟩ := hpresent c hc
  have hpos := storage.map_find_getElem schemas (layout c).1 inner hinv.sorted hclosed hf
  have hsorted := hinv.inner_sorted _ inner hf
  have hclosed2 : ∀ x ∈ inner.map Prod.fst, ∀ y, y < x → y ∈ inner.map Prod.fst := by
    intro x hx y hy
    rw [← storage.map_find_isSome_iff] at hx
    obtain ⟨col, hcol⟩ := Option.isSome_iff_exists.1 hx
    obtain ⟨c1, hc1, hl1, _⟩ := hinv.from_column _ inner hf x col hcol
    obtain ⟨c2, hc2, hl2⟩ := hcolumns c1 (List.mem_range.1 hc1) y (by rw [hl1]; exact hy)
    obtain ⟨inner2, hf2, hsome2⟩ := hpresent c2 hc2
    rw [hl2, hl1] at hf2 hsome2
    rw [hf] at hf2
    rw [← storage.map_find_isSome_iff, Option.some.inj hf2]
    exact hsome2
  refine ⟨inner, hpos, ?_, ?_⟩
  · obtain ⟨col, hcol⟩ := Option.isSome_iff_exists.1 hsome
    have := storage.map_find_getElem inner (layout c).2 col hsorted hclosed2 hcol
    by_contra hge
    rw [List.getElem?_eq_none (by omega)] at this
    cases this
  · intro e he
    have hfe : storage.map_find inner e.1 = some e.2 :=
      storage.map_find_of_mem inner e.1 e.2 hsorted he
    obtain ⟨c2, hc2, _, hcol⟩ := hinv.from_column _ inner hf e.1 e.2 hfe
    exact ⟨c2, List.mem_range.1 hc2, hcol⟩

theorem storage.TileGroup.GetTileReference_SetTile (g : storage.TileGroup) (k i : Nat)
    (tile : storage.Tile) (hk : k < g.tiles.length) :
    (g.SetTile k tile).GetTileReference i = if i = k then tile else g.GetTileReference i := by
  unfold storage.TileGroup.SetTile storage.TileGroup.GetTileReference
  simp only [List.getD_eq_getElem?_getD, List.getElem?_set]
  by_cases h : i = k
  · subst h
    simp [hk]
  · have h2 : ¬ k = i := fun e => h e.symm
    simp [h, h2]

/-- The inner loop of `SetTransformedTileGroup` for one column: it keeps the layout, the
header and the schemas of the new tile group, and writes the values of the column for
the tuple slots of the list at the place of the column in the new tile group, and
nothing else. -/
theorem storage.SetTransformedTileGroup_tuples_spec (orig : storage.TileGroup) (c : Nat) :
    ∀ (ts : List Nat) (g : storage.TileGroup), (g.layout c).1 < g.tiles.length →
      (storage.SetTransformedTileGroup_tuples orig c ts g).layout = g.layout ∧
      (storage.SetTransformedTileGroup_tuples orig c ts g).tile_group_id = g.tile_group_id ∧
      (storage.SetTransformedTileGroup_tuples orig c ts g).tiles.length = g.tiles.length ∧
      (∀ i, ((storage.SetTransformedTileGroup_tuples orig c ts g).GetTileReference i).schema =
        (g.GetTileReference i).schema) ∧
      (∀ i t o, ((storage.SetTransformedTileGroup_tuples orig c ts g).GetTileReference i).cells t o =
        if i = (g.layout c).1 ∧ t ∈ ts ∧
            o = (g.GetTileReference (g.layout c).1).schema.GetOffset (g.layout c).2 then
          (orig.GetTileReference (orig.layout c).1).GetValue t (orig.layout c).2
        else (g.GetTileReference i).cells t o)
  | [], g, _ => by
    refine ⟨rfl, rfl, rfl, fun _ => rfl, ?_⟩
    intro i t o
    simp [storage.SetTransformedTileGroup_tuples]
  | t0 :: rest, g, hk => by
    have hlen : (g.SetTile (g.layout c).1 ((g.GetTileReference (g.layout c).1).SetValue
        ((orig.GetTileReference (orig.layout c).1).GetValue t0 (orig.layout c).2) t0
        (g.layout c).2)).tiles.length = g.tiles.length := by
      simp [storage.TileGroup.SetTile]
    have href := fun i => storage.TileGroup.GetTileReference_SetTile g (g.layout c).1 i
      ((g.GetTileReference (g.layout c).1).SetValue
        ((orig.GetTileReference (orig.layout c).1).GetValue t0 (orig.layout c).2) t0
        (g.layout c).2) hk
    obtain ⟨h1, h2, h3, h4, h5⟩ := storage.SetTransformedTileGroup_tuples_spec orig c rest
      (g.SetTile (g.layout c).1 ((g.GetTileReference (g.layout c).1).SetValue
        ((orig.GetTileReference (orig.layout c).1).GetValue t0 (orig.layout c).2) t0
        (g.layout c).2)) (by rw [hlen]; exact hk)
    have hschema : ∀ i, ((g.SetTile (g.layout c).1 ((g.GetTileReference (g.layout c).1).SetValue
        ((orig.GetTileReference (orig.layout c).1).GetValue t0 (orig.layout c).2) t0
        (g.layout c).2)).GetTileReference i).schema = (g.GetTileReference i).schema := by
      intro i
      rw [href]
      by_cases hi : i = (g.layout c).1
      · rw [if_pos hi, hi]; rfl
      · rw [if_neg hi]
    unfold storage.SetTransformedTileGroup_tuples
    refine ⟨h1, h2, h3.trans hlen, fun i => (h4 i).trans (hschema i), ?_⟩
    intro i t o
    rw [h5 i t o, href i]
    have hl : (g.SetTile (g.layout c).1 ((g.GetTileReference (g.layout c).1).SetValue
        ((orig.GetTileReference (orig.layout c).1).GetValue t0 (orig.layout c).2) t0
        (g.layout c).2)).layout = g.layout := rfl
    rw [hl, hschema]
    by_cases hi : i = (g.layout c).1
    · rw [if_pos hi]
      by_cases ho : o = (g.GetTileReference (g.layout c).1).schema.GetOffset (g.layout c).2
      · by_cases ht : t = t0
        · subst ht
          by_cases htr : t ∈ rest
          · rw [if_pos ⟨hi, htr, ho⟩, if_pos ⟨hi, List.mem_cons_of_mem _ htr, ho⟩]
          · rw [if_neg (fun h => htr h.2.1), if_pos ⟨hi, List.mem_cons_self _ _, ho⟩]
            simp [storage.Tile.SetValue, storage.Tile.SetValueFast, ho]
        · by_cases htr : t ∈ rest
          · rw [if_pos ⟨hi, htr, ho⟩, if_pos ⟨hi, List.mem_cons_of_mem _ htr, ho⟩]
          · have hnot : ¬ t ∈ t0 :: rest := by
              intro hm
              rcases List.mem_cons.1 hm with hm | hm
              · exact ht hm
              · exact htr hm
            rw [if_neg (fun h => htr h.2.1), if_neg (fun h => hnot h.2.1)]
            simp [storage.Tile.SetValue, storage.Tile.SetValueFast, ht, hi]
      · rw [if_neg (fun h => ho h.2.2), if_neg (fun h => ho h.2.2)]
        simp [storage.Tile.SetValue, storage.Tile.SetValueFast, ho, hi]
    · rw [if_neg hi, if_neg (fun h => hi h.1), if_neg (fun h => hi h.1)]

/-- The outer loop of `SetTransformedTileGroup`: it keeps the layout, the header and the
schemas of the new tile group, and leaves a cell as it is when no column of the list
lies at its place. -/
theorem storage.SetTransformedTileGroup_columns_frame (orig : storage.TileGroup) (tc : Nat) :
    ∀ (cs : List Nat) (g : storage.TileGroup),
      (∀ c ∈ cs, (g.layout c).1 < g.tiles.length) →
      (storage.SetTransformedTileGroup_columns orig tc cs g).layout = g.layout ∧
      (storage.SetTransformedTileGroup_columns orig tc cs g).tile_group_id = g.tile_group_id ∧
      (storage.SetTransformedTileGroup_columns orig tc cs g).tiles.length = g.tiles.length ∧
      (∀ i, ((storage.SetTransformedTileGroup_columns orig tc cs g).GetTileReference i).schema =
        (g.GetTileReference i).schema) ∧
      (∀ i t o, (∀ c ∈ cs, ¬ ((g.layout c).1 = i ∧
          (g.GetTileReference i).schema.GetOffset (g.layout c).2 = o)) →
        ((storage.SetTransformedTileGroup_columns orig tc cs g).GetTileReference i).cells t o =
          (g.GetTileReference i).cells t o)
  | [], g, _ => ⟨rfl, rfl, rfl, fun _ => rfl, fun _ _ _ _ => rfl⟩
  | c0 :: rest, g, hr => by
    obtain ⟨a1, a2, a3, a4, a5⟩ := storage.SetTransformedTileGroup_tuples_spec orig c0
      (List.range tc) g (hr c0 (List.mem_cons_self _ _))
    obtain ⟨b1, b2, b3, b4, b5⟩ := storage.SetTransformedTileGroup_columns_frame orig tc rest
      (storage.SetTransformedTileGroup_tuples orig c0 (List.range tc) g)
      (by
        intro c hc
        rw [a1, a3]
        exact hr c (List.mem_cons_of_mem _ hc))
    unfold storage.SetTransformedTileGroup_columns
    refine ⟨b1.trans a1, b2.trans a2, b3.trans a3, fun i => (b4 i).trans (a4 i), ?_⟩
    intro i t o hno
    rw [b5 i t o, a5 i t o]
    · have h0 := hno c0 (List.mem_cons_self _ _)
      rw [if_neg]
      intro h
      apply h0
      refine ⟨h.1.symm, ?_⟩
      rw [h.2.2, h.1]
    · intro c hc
      rw [a1, a4]
      exact hno c (List.mem_cons_of_mem _ hc)

/-- The outer loop of `SetTransformedTileGroup` writes the values of a column of the list
for the tuple slots below `tc` at the place of the column in the new tile group, when
no other column of the list lies at that place. -/
theorem storage.SetTransformedTileGroup_columns_hit (orig : storage.TileGroup) (tc : Nat) :
    ∀ (cs : List Nat) (g : storage.TileGroup),
      (∀ c ∈ cs, (g.layout c).1 < g.tiles.length) →
      ∀ c ∈ cs, ∀ t, t < tc →
      (∀ c2 ∈ cs, c2 ≠ c → ¬ ((g.layout c2).1 = (g.layout c).1 ∧
        (g.GetTileReference (g.layout c).1).schema.GetOffset (g.layout c2).2 =
          (g.GetTileReference (g.layout c).1).schema.GetOffset (g.layout c).2)) →
      ((storage.SetTransformedTileGroup_columns orig tc cs g).GetTileReference
          (g.layout c).1).cells t
        ((g.GetTileReference (g.layout c).1).schema.GetOffset (g.layout c).2) =
        (orig.GetTileReference (orig.layout c).1).GetValue t (orig.layout c).2
  | [], _, _, c, hc, _, _, _ => by cases hc
  | c0 :: rest, g, hr, c, hc, t, ht, hdist => by
    obtain ⟨a1, a2, a3, a4, a5⟩ := storage.SetTransformedTileGroup_tuples_spec orig c0
      (List.range tc) g (hr c0 (List.mem_cons_self _ _))
    have hr2 : ∀ c ∈ rest, ((storage.SetTransformedTileGroup_tuples orig c0 (List.range tc)
        g).layout c).1 < (storage.SetTransformedTileGroup_tuples orig c0 (List.range tc)
        g).tiles.length := by
      intro c hc
      rw [a1, a3]
      exact hr c (List.mem_cons_of_mem _ hc)
    unfold storage.SetTransformedTileGroup_columns
    by_cases hin : c ∈ rest
    · have := storage.SetTransformedTileGroup_columns_hit orig tc rest
        (storage.SetTransformedTileGroup_tuples orig c0 (List.range tc) g) hr2 c hin t ht
        (by
          intro c2 hc2 hne
          rw [a1, a4]
          exact hdist c2 (List.mem_cons_of_mem _ hc2) hne)
      rw [a1, a4] at this
      exact this
    · have hc0 : c = c0 := by
        rcases List.mem_cons.1 hc with h | h
        · exact h
        · exact absurd h hin
      obtain ⟨b1, b2, b3, b4, b5⟩ := storage.SetTransformedTileGroup_columns_frame orig tc rest
        (storage.SetTransformedTileGroup_tuples orig c0 (List.range tc) g) hr2
      rw [b5, a5, hc0, if_pos ⟨rfl, List.mem_range.2 ht, rfl⟩]
      intro c2 hc2
      rw [a1, a4]
      have hne : c2 ≠ c := fun e => hin (e ▸ hc2)
      exact hdist c2 (List.mem_cons_of_mem _ hc2) hne

theorem storage.SetTransformedTileGroup_tuples_id (orig : storage.TileGroup) (c : Nat) :
    ∀ (ts : List Nat) (g : storage.TileGroup),
      (storage.SetTransformedTileGroup_tuples orig c ts g).tile_group_id = g.tile_group_id ∧
      (storage.SetTransformedTileGroup_tuples orig c ts g).layout = g.layout
  | [], _ => ⟨rfl, rfl⟩
  | _ :: rest, g => by
    unfold storage.SetTransformedTileGroup_tuples
    exact storage.SetTransformedTileGroup_tuples_id orig c rest _

/-- The copy of `SetTransformedTileGroup` keeps the id and the layout of the new tile
group. -/
theorem storage.SetTransformedTileGroup_columns_frame_id (orig : storage.TileGroup) (tc : Nat) :
    ∀ (cs : List Nat) (g : storage.TileGroup),
      (storage.SetTransformedTileGroup_columns orig tc cs g).GetTileGroupId = g.GetTileGroupId ∧
      (storage.SetTransformedTileGroup_columns orig tc cs g).layout = g.layout
  | [], _ => ⟨rfl, rfl⟩
  | c :: rest, g => by
    unfold storage.SetTransformedTileGroup_columns
    obtain ⟨h1, h2⟩ := storage.SetTransformedTileGroup_columns_frame_id orig tc rest
      (storage.SetTransformedTileGroup_tuples orig c (List.range tc) g)
    obtain ⟨h3, h4⟩ := storage.SetTransformedTileGroup_tuples_id orig c (List.range tc) g
    exact ⟨h1.trans h3, h2.trans h4⟩

theorem storage.TileGroupFactory.GetTileGroup_schema (sm : storage.StorageManager)
    (tile_group_id : Nat) (schemas : List catalog.Schema) (layout : Nat → Nat × Nat)
    (tuple_count i : Nat) :
    ((storage.TileGroupFactory.GetTileGroup sm tile_group_id schemas layout
      tuple_count).1.GetTileReference i).schema = schemas.getD i [] := by
  unfold storage.TileGroupFactory.GetTileGroup storage.TileGroup.GetTileReference
  simp only [List.getD_eq_getElem?_getD, List.getElem?_map]
  by_cases hi : i < schemas.length
  · rw [List.getElem?_range hi]
    rfl
  · rw [List.getElem?_eq_none (by rw [List.length_range]; omega),
      List.getElem?_eq_none (by omega)]
    rfl

/-- The values of the transformed tile group.  When the target layout is one-to-one on
the columns and uses the tile offsets and, in each tile, the column offsets without a
gap, and the columns have a positive length, the tile group that
`SetTransformedTileGroup` has filled holds, at the place where the target layout
locates a column, the value that the original tile group holds at the place where its
own layout locates the column, for every tuple slot that was allocated. -/
theorem storage.SetTransformedTileGroup_values (orig : storage.TileGroup)
    (layout : Nat → Nat × Nat) (column_count : Nat) (sm : storage.StorageManager)
    (tile_group_id tuple_count tc : Nat)
    (hinj : ∀ c c2, c < column_count → c2 < column_count → layout c = layout c2 → c = c2)
    (htiles : ∀ c, c < column_count → ∀ k, k < (layout c).1 →
      ∃ c2, c2 < column_count ∧ (layout c2).1 = k)
    (hcolumns : ∀ c, c < column_count → ∀ j, j < (layout c).2 →
      ∃ c2, c2 < column_count ∧ layout c2 = ((layout c).1, j))
    (hlen : ∀ c, c < column_count →
      0 < ((orig.GetTileReference (orig.layout c).1).schema.GetColumn (orig.layout c).2).length)
    (c t : Nat) (hc : c < column_count) (ht : t < tc) :
    (storage.SetTransformedTileGroup_columns orig tc (List.range column_count)
      (storage.TileGroupFactory.GetTileGroup sm tile_group_id
        (storage.TransformTileGroupSchema orig layout column_count) layout
        tuple_count).1).GetValue t c = orig.GetValue t c := by
  have hspec := storage.TransformTileGroupSchema_schemas_spec orig layout column_count
    htiles hcolumns
  have hschema := storage.TileGroupFactory.GetTileGroup_schema sm tile_group_id
    (storage.TransformTileGroupSchema orig layout column_count) layout tuple_count
  have htl : (storage.TileGroupFactory.GetTileGroup sm tile_group_id
      (storage.TransformTileGroupSchema orig layout column_count) layout
      tuple_count).1.tiles.length =
      (storage.TransformTileGroupSchema_schemas orig layout (List.range column_count)
        []).length := by
    simp [storage.TileGroupFactory.GetTileGroup, storage.TransformTileGroupSchema]
  have hlay : (storage.TileGroupFactory.GetTileGroup sm tile_group_id
      (storage.TransformTileGroupSchema orig layout column_count) layout
      tuple_count).1.layout = layout := rfl
  generalize storage.TileGroupFactory.GetTileGroup sm tile_group_id
      (storage.TransformTileGroupSchema orig layout column_count) layout
      tuple_count = created at hschema htl hlay
  have hsch : ∀ c2, c2 < column_count → ∃ inner : List (Nat × catalog.Column),
      (layout c2).1 < created.1.tiles.length ∧
      (storage.TransformTileGroupSchema_schemas orig layout (List.range column_count)
        [])[(layout c2).1]? = some ((layout c2).1, inner) ∧
      (created.1.GetTileReference (layout c2).1).schema =
        catalog.Schema.layout (inner.map (fun e => e.2)) 0 ∧
      (layout c2).2 < inner.length ∧
      ∀ col ∈ inner.map (fun e => e.2), 0 < col.length := by
    intro c2 hc2
    obtain ⟨inner, hget, hj, hval⟩ := hspec c2 hc2
    have hlt : (layout c2).1 < (storage.TransformTileGroupSchema_schemas orig layout
        (List.range column_count) []).length := by
      by_contra hge
      rw [List.getElem?_eq_none (by omega)] at hget
      cases hget
    refine ⟨inner, by rw [htl]; exact hlt, hget, ?_, hj, ?_⟩
    · rw [hschema]
      unfold storage.TransformTileGroupSchema
      rw [List.getD_eq_getElem?_getD, List.getElem?_map, hget]
      rfl
    · intro col hcol
      obtain ⟨e, he, hecol⟩ := List.mem_map.1 hcol
      obtain ⟨c3, hc3, hcol3⟩ := hval e he
      rw [← hecol, hcol3]
      exact hlen c3 hc3
  obtain ⟨inner, hrange, hget, hsc, hj, hpos⟩ := hsch c hc
  have hhit := storage.SetTransformedTileGroup_columns_hit orig tc (List.range column_count)
    created.1
    (by
      intro c2 hc2
      rw [hlay]
      exact (hsch c2 (List.mem_range.1 hc2)).choose_spec.1)
    c (List.mem_range.2 hc) t ht
    (by
      intro c2 hc2 hne
      rw [hlay]
      rintro ⟨hk, hoff⟩
      obtain ⟨inner2, _, hget2, _, hj2, _⟩ := hsch c2 (List.mem_range.1 hc2)
      rw [hk, hget] at hget2
      have hin : inner2 = inner := by
        have := Option.some.inj hget2
        exact (Prod.mk.inj this).2.symm
      rw [hin] at hj2
      rw [hsc] at hoff
      unfold catalog.Schema.GetOffset catalog.Schema.GetColumn at hoff
      have hjne : (layout c2).2 ≠ (layout c).2 := by
        intro hje
        exact hne (hinj c2 c (List.mem_range.1 hc2) hc (Prod.ext hk hje))
      have hl : ((inner.map (fun e => e.2))).length = inner.length := List.length_map _ _
      rcases Nat.lt_or_gt_of_ne hjne with hlt | hgt
      · have := catalog.layout_offset_lt (inner.map (fun e => e.2)) hpos 0 _ _ hlt
          (by rw [hl]; exact hj)
        omega
      · have := catalog.layout_offset_lt (inner.map (fun e => e.2)) hpos 0 _ _ hgt
          (by rw [hl]; exact hj2)
        omega)
  obtain ⟨b1, _, _, b4, _⟩ := storage.SetTransformedTileGroup_columns_frame orig tc
    (List.range column_count) created.1
    (by
      intro c2 hc2
      rw [hlay]
      exact (hsch c2 (List.mem_range.1 hc2)).choose_spec.1)
  rw [hlay] at hhit
  unfold storage.TileGroup.GetValue storage.Tile.GetValue storage.Tile.GetValueFast
  simp only []
  rw [b1, hlay, b4]
  exact hhit

/-- The call `TransformTileGroup` for an offset of the table whose tile group exists, when
the layout difference is not below the threshold and the two layouts have the same
number of columns. -/
theorem storage.DataTable.TransformTileGroup_eq (table : storage.DataTable)
    (rt : storage.Runtime)
    (GetLayoutDifference : (Nat → Nat × Nat) → (Nat → Nat × Nat) → ℚ)
    (GetColumnCount : (Nat → Nat × Nat) → Nat) (tile_group_offset : Nat) (theta : ℚ)
    (address : Nat) (tile_group : storage.TileGroup)
    (hin : tile_group_offset < table.tile_groups_.length)
    (hloc : rt.manager.GetTileGroup (table.tile_groups_.getD tile_group_offset INVALID_OID) =
      storage.Location.found address)
    (hheap : rt.tile_groups address = some tile_group)
    (hcols : GetColumnCount table.default_layout_ = GetColumnCount tile_group.layout)
    (hdiff : ¬ GetLayoutDifference tile_group.layout table.default_layout_ < theta) :
    table.TransformTileGroup rt GetLayoutDifference GetColumnCount tile_group_offset theta =
      (some (some rt.next_address),
        { rt with
          manager := (storage.TileGroupFactory.GetTileGroup rt.manager
            tile_group.GetTileGroupId
            (storage.TransformTileGroupSchema tile_group table.default_layout_
              (GetColumnCount table.default_layout_))
            table.default_layout_ tile_group.GetAllocatedTupleCount).2.AddTileGroup
              (table.tile_groups_.getD tile_group_offset INVALID_OID) rt.next_address
          tile_groups := fun a =>
            if a = rt.next_address then
              some { storage.SetTransformedTileGroup_columns tile_group
                  tile_group.GetAllocatedTupleCount
                  (List.range (GetColumnCount table.default_layout_))
                  (storage.TileGroupFactory.GetTileGroup rt.manager tile_group.GetTileGroupId
                    (storage.TransformTileGroupSchema tile_group table.default_layout_
                      (GetColumnCount table.default_layout_))
                    table.default_layout_ tile_group.GetAllocatedTupleCount).1 with
                next_tuple_slot := tile_group.next_tuple_slot }
            else rt.tile_groups a
          next_address := rt.next_address + 1 }) := by
  unfold storage.DataTable.TransformTileGroup
  rw [if_neg (by omega)]
  simp only []
  rw [hloc]
  simp only []
  rw [hheap]
  simp only []
  rw [if_neg hdiff]
  unfold storage.SetTransformedTileGroup
  have hl : (storage.TileGroupFactory.GetTileGroup rt.manager tile_group.GetTileGroupId
      (storage.TransformTileGroupSchema tile_group table.default_layout_
        (GetColumnCount table.default_layout_))
      table.default_layout_ tile_group.GetAllocatedTupleCount).1.layout =
      table.default_layout_ := rfl
  rw [hl, if_pos hcols]

theorem storage.DataTable.TransformTileGroup_below (table : storage.DataTable)
    (rt : storage.Runtime)
    (GetLayoutDifference : (Nat → Nat × Nat) → (Nat → Nat × Nat) → ℚ)
    (GetColumnCount : (Nat → Nat × Nat) → Nat) (tile_group_offset : Nat) (theta : ℚ)
    (address : Nat) (tile_group : storage.TileGroup)
    (hin : tile_group_offset < table.tile_groups_.length)
    (hloc : rt.manager.GetTileGroup (table.tile_groups_.getD tile_group_offset INVALID_OID) =
      storage.Location.found address)
    (hheap : rt.tile_groups address = some tile_group)
    (hdiff : GetLayoutDifference tile_group.layout table.default_layout_ < theta) :
    table.TransformTileGroup rt GetLayoutDifference GetColumnCount tile_group_offset theta =
      (some none, rt) := by
  unfold storage.DataTable.TransformTileGroup
  rw [if_neg (by omega)]
  simp only []
  rw [hloc]
  simp only []
  rw [hheap]
  simp only []
  rw [if_pos hdiff]

/-- Claim C25, as the code has it.  An offset outside the table gives the null pointer
and leaves everything as it is.  For an offset of the table whose tile group exists
and has as many columns as the default layout, `TransformTileGroup` builds and
registers a new tile group if and only if the layout difference is at least `theta`:
then it returns the new tile group, which has the id of the original one and the
default layout, and the identity map gives the new tile group for the id at the
offset.  When the difference is below `theta` it returns the null pointer and leaves
everything, the identity map included, as it is. -/
theorem C25_transform_iff_difference_at_least_theta (table : storage.DataTable)
    (rt : storage.Runtime)
    (GetLayoutDifference : (Nat → Nat × Nat) → (Nat → Nat × Nat) → ℚ)
    (GetColumnCount : (Nat → Nat × Nat) → Nat) (tile_group_offset : Nat) (theta : ℚ) :
    (table.tile_groups_.length ≤ tile_group_offset →
      table.TransformTileGroup rt GetLayoutDifference GetColumnCount tile_group_offset theta =
        (some none, rt)) ∧
    (∀ (address : Nat) (tile_group : storage.TileGroup),
      tile_group_offset < table.tile_groups_.length →
      rt.manager.GetTileGroup (table.tile_groups_.getD tile_group_offset INVALID_OID) =
        storage.Location.found address →
      rt.tile_groups address = some tile_group →
      GetColumnCount table.default_layout_ = GetColumnCount tile_group.layout →
      ((∃ a, (table.TransformTileGroup rt GetLayoutDifference GetColumnCount tile_group_offset
          theta).1 = some (some a)) ↔
        theta ≤ GetLayoutDifference tile_group.layout table.default_layout_) ∧
      (theta ≤ GetLayoutDifference tile_group.layout table.default_layout_ →
        (table.TransformTileGroup rt GetLayoutDifference GetColumnCount tile_group_offset
          theta).1 = some (some rt.next_address) ∧
        (table.TransformTileGroup rt GetLayoutDifference GetColumnCount tile_group_offset
          theta).2.manager.GetTileGroup
            (table.tile_groups_.getD tile_group_offset INVALID_OID) =
          storage.Location.found rt.next_address ∧
        ∃ g, (table.TransformTileGroup rt GetLayoutDifference GetColumnCount tile_group_offset
            theta).2.tile_groups rt.next_address = some g ∧
          g.GetTileGroupId = tile_group.GetTileGroupId ∧
          g.layout = table.default_layout_) ∧
      (GetLayoutDifference tile_group.layout table.default_layout_ < theta →
        table.TransformTileGroup rt GetLayoutDifference GetColumnCount tile_group_offset
          theta = (some none, rt))) := by
  constructor
  · intro hout
    unfold storage.DataTable.TransformTileGroup
    rw [if_pos hout]
  · intro address tile_group hin hloc hheap hcols
    have hbelow := storage.DataTable.TransformTileGroup_below table rt GetLayoutDifference
      GetColumnCount tile_group_offset theta address tile_group hin hloc hheap
    have heq := storage.DataTable.TransformTileGroup_eq table rt GetLayoutDifference
      GetColumnCount tile_group_offset theta address tile_group hin hloc hheap hcols
    refine ⟨?_, ?_, hbelow⟩
    · constructor
      · rintro ⟨a, ha⟩
        by_contra hlt
        rw [hbelow (lt_of_not_le hlt)] at ha
        cases ha
      · intro hle
        rw [heq (not_lt_of_le hle)]
        exact ⟨_, rfl⟩
    · intro hle
      rw [heq (not_lt_of_le hle)]
      refine ⟨rfl, ?_, ?_⟩
      · unfold storage.StorageManager.GetTileGroup storage.StorageManager.AddTileGroup
        simp only []
        rw [storage.CuckooMap.Find_Upsert, if_pos rfl]
      · refine ⟨_, if_pos rfl, ?_, ?_⟩
        · exact (storage.SetTransformedTileGroup_columns_frame_id tile_group _ _ _).1
        · exact (storage.SetTransformedTileGroup_columns_frame_id tile_group _ _ _).2

theorem C25_transform_iff_difference_at_least_theta_witness :
    storage.example_transform_table.TransformTileGroup storage.example_transform_runtime
      (fun _ _ => 1) (fun _ => 2) 5 1 = (some none, storage.example_transform_runtime) ∧
    ((storage.example_transform_table.TransformTileGroup storage.example_transform_runtime
        (fun _ _ => 1) (fun _ => 2) 0 (1 / 2)).1 = some (some 2) ∧
      (storage.example_transform_table.TransformTileGroup storage.example_transform_runtime
        (fun _ _ => 1) (fun _ => 2) 0 (1 / 2)).2.manager.GetTileGroup 1 =
          storage.Location.found 2 ∧
      ∃ g, (storage.example_transform_table.TransformTileGroup
          storage.example_transform_runtime (fun _ _ => 1) (fun _ => 2) 0
          (1 / 2)).2.tile_groups 2 = some g ∧
        g.GetTileGroupId = 1 ∧ g.layout = fun c => (c, 0)) ∧
    storage.example_transform_table.TransformTileGroup storage.example_transform_runtime
      (fun _ _ => 1) (fun _ => 2) 0 2 = (some none, storage.example_transform_runtime) :=
  ⟨(C25_transform_iff_difference_at_least_theta storage.example_transform_table
      storage.example_transform_runtime (fun _ _ => 1) (fun _ => 2) 5 1).1 (by decide),
    ((C25_transform_iff_difference_at_least_theta storage.example_transform_table
      storage.example_transform_runtime (fun _ _ => 1) (fun _ => 2) 0 (1 / 2)).2 1
      storage.example_row_group (by decide) (by decide) rfl rfl).2.1 (by norm_num),
    ((C25_transform_iff_difference_at_least_theta storage.example_transform_table
      storage.example_transform_runtime (fun _ _ => 1) (fun _ => 2) 0 2).2 1
      storage.example_row_group (by decide) (by decide) rfl rfl).2.2 (by norm_num)⟩

/-- Claim C25 as stated fails when the layout difference equals `theta`: the guard of
`TransformTileGroup` is `diff < theta`, so at `diff = theta = 1` the call does not
return the null pointer but the new tile group at the address 2, and the identity map
gives for the id 1 the new tile group instead of the original one at the address 1. -/
theorem C25_difference_equal_to_theta_transforms :
    (storage.example_transform_table.TransformTileGroup storage.example_transform_runtime
      (fun _ _ => 1) (fun _ => 2) 0 1).1 = some (some 2) ∧
    storage.example_transform_runtime.manager.GetTileGroup 1 = storage.Location.found 1 ∧
    (storage.example_transform_table.TransformTileGroup storage.example_transform_runtime
      (fun _ _ => 1) (fun _ => 2) 0 1).2.manager.GetTileGroup 1 =
        storage.Location.found 2 := by
  decide

/-- Claim C26.  `TransformTileGroup` is called for an offset of the table whose tile group
exists, lies below the next address and has as many columns as the default layout,
and the layout difference is not below `theta`, so that the transformation is made.
The default layout is one-to-one on the columns and uses the tile offsets and, in each
tile, the column offsets without a gap, and the columns have a positive length.  Then
the call returns a new tile group that the identity map gives for the id at the
offset; it has the id of the original tile group and the default layout; for every
column `c` and every tuple slot `t` below the allocated tuple count of the original
tile group, the value that the new layout locates at `(t, c)` in the new tile group is
the value that the old layout locates at `(t, c)` in the original one; the header is
the header of the original tile group; and the original tile group is at its address
as it was. -/
theorem C26_transformation_preserves_values (table : storage.DataTable)
    (rt : storage.Runtime)
    (GetLayoutDifference : (Nat → Nat × Nat) → (Nat → Nat × Nat) → ℚ)
    (GetColumnCount : (Nat → Nat × Nat) → Nat) (tile_group_offset : Nat) (theta : ℚ)
    (address : Nat) (tile_group : storage.TileGroup)
    (hin : tile_group_offset < table.tile_groups_.length)
    (hloc : rt.manager.GetTileGroup (table.tile_groups_.getD tile_group_offset INVALID_OID) =
      storage.Location.found address)
    (hheap : rt.tile_groups address = some tile_group)
    (haddress : address < rt.next_address)
    (hcols : GetColumnCount table.default_layout_ = GetColumnCount tile_group.layout)
    (hdiff : theta ≤ GetLayoutDifference tile_group.layout table.default_layout_)
    (hinj : ∀ c c2, c < GetColumnCount table.default_layout_ →
      c2 < GetColumnCount table.default_layout_ →
      table.default_layout_ c = table.default_layout_ c2 → c = c2)
    (htiles : ∀ c, c < GetColumnCount table.default_layout_ →
      ∀ k, k < (table.default_layout_ c).1 →
      ∃ c2, c2 < GetColumnCount table.default_layout_ ∧ (table.default_layout_ c2).1 = k)
    (hcolumns : ∀ c, c < GetColumnCount table.default_layout_ →
      ∀ j, j < (table.default_layout_ c).2 →
      ∃ c2, c2 < GetColumnCount table.default_layout_ ∧
        table.default_layout_ c2 = ((table.default_layout_ c).1, j))
    (hlen : ∀ c, c < GetColumnCount table.default_layout_ →
      0 < ((tile_group.GetTileReference (tile_group.layout c).1).schema.GetColumn
        (tile_group.layout c).2).length) :
    ∃ g : storage.TileGroup,
      (table.TransformTileGroup rt GetLayoutDifference GetColumnCount tile_group_offset
        theta).1 = some (some rt.next_address) ∧
      (table.TransformTileGroup rt GetLayoutDifference GetColumnCount tile_group_offset
        theta).2.tile_groups rt.next_address = some g ∧
      (table.TransformTileGroup rt GetLayoutDifference GetColumnCount tile_group_offset
        theta).2.manager.GetTileGroup
          (table.tile_groups_.getD tile_group_offset INVALID_OID) =
        storage.Location.found rt.next_address ∧
      g.GetTileGroupId = tile_group.GetTileGroupId ∧
      g.layout = table.default_layout_ ∧
      (∀ c t, c < GetColumnCount table.default_layout_ →
        t < tile_group.GetAllocatedTupleCount → g.GetValue t c = tile_group.GetValue t c) ∧
      g.next_tuple_slot = tile_group.next_tuple_slot ∧
      (table.TransformTileGroup rt GetLayoutDifference GetColumnCount tile_group_offset
        theta).2.tile_groups address = some tile_group := by
  rw [storage.DataTable.TransformTileGroup_eq table rt GetLayoutDifference GetColumnCount
    tile_group_offset theta address tile_group hin hloc hheap hcols (not_lt_of_le hdiff)]
  refine ⟨_, rfl, if_pos rfl, ?_, ?_, ?_, ?_, rfl, ?_⟩
  · unfold storage.StorageManager.GetTileGroup storage.StorageManager.AddTileGroup
    simp only []
    rw [storage.CuckooMap.Find_Upsert, if_pos rfl]
  · exact (storage.SetTransformedTileGroup_columns_frame_id tile_group _ _ _).1
  · exact (storage.SetTransformedTileGroup_columns_frame_id tile_group _ _ _).2
  · intro c t hc ht
    exact storage.SetTransformedTileGroup_values tile_group table.default_layout_
      (GetColumnCount table.default_layout_) rt.manager tile_group.GetTileGroupId
      tile_group.GetAllocatedTupleCount tile_group.GetAllocatedTupleCount
      hinj htiles hcolumns hlen c t hc ht
  · show (if address = rt.next_address then _ else rt.tile_groups address) = some tile_group
    rw [if_neg (by omega)]
    exact hheap

theorem C26_transformation_preserves_values_witness :
    ∃ g : storage.TileGroup,
      (storage.example_transform_table.TransformTileGroup storage.example_transform_runtime
        (fun _ _ => 1) (fun _ => 2) 0 1).1 = some (some 2) ∧
      (storage.example_transform_table.TransformTileGroup storage.example_transform_runtime
        (fun _ _ => 1) (fun _ => 2) 0 1).2.tile_groups 2 = some g ∧
      (storage.example_transform_table.TransformTileGroup storage.example_transform_runtime
        (fun _ _ => 1) (fun _ => 2) 0 1).2.manager.GetTileGroup 1 =
          storage.Location.found 2 ∧
      g.GetTileGroupId = 1 ∧
      g.layout = (fun c => (c, 0)) ∧
      (∀ c t, c < 2 → t < 4 → g.GetValue t c = storage.example_row_group.GetValue t c) ∧
      g.next_tuple_slot = 3 ∧
      (storage.example_transform_table.TransformTileGroup storage.example_transform_runtime
        (fun _ _ => 1) (fun _ => 2) 0 1).2.tile_groups 1 = some storage.example_row_group :=
  C26_transformation_preserves_values storage.example_transform_table
    storage.example_transform_runtime (fun _ _ => 1) (fun _ => 2) 0 1 1
    storage.example_row_group (by decide) (by decide) rfl (by decide) rfl (le_refl _)
    (fun c c2 _ _ h => (Prod.mk.inj h).1)
    (fun c hc k hk => ⟨k, Nat.lt_trans hk hc, rfl⟩)
    (fun c _ j hj => absurd hj (Nat.not_lt_zero j))
    (by decide)

/-! ### Insertion and the NOT NULL constraint -/

theorem storage.DataTable.AddDefaultTileGroup_number_of_tuples (table : storage.DataTable)
    (rt : storage.Runtime) (i : Nat) :
    (table.AddDefaultTileGroup rt i).2.1.number_of_tuples_ = table.number_of_tuples_ := by
  unfold storage.DataTable.AddDefaultTileGroup
  simp only []
  split <;> rfl

theorem storage.DataTable.update_sparse_index_number_of_tuples (table : storage.DataTable)
    (tp_0 tp_slot : type.Value) :
    (table.update_sparse_index tp_0 tp_slot).number_of_tuples_ = table.number_of_tuples_ := by
  unfold storage.DataTable.update_sparse_index
  simp only []
  split <;> rfl

/-- The allocation of a tuple slot does not count the tuple: `number_of_tuples_` is as
before, whatever the call ends in. -/
theorem storage.DataTable.GetEmptyTupleSlot_number_of_tuples (table : storage.DataTable)
    (rt : storage.Runtime) (tuple : Option storage.Tuple) :
    (table.GetEmptyTupleSlot rt tuple).2.1.number_of_tuples_ = table.number_of_tuples_ := by
  unfold storage.DataTable.GetEmptyTupleSlot
  simp only []
  split
  · split
    · split
      · split <;> rfl
      · rfl
    · rfl
  · split
    · rfl
    · split
      · rfl
      · split
        · rfl
        · split
          · rfl
          · rename_i address _ _ tile_group0 hg _
            by_cases hlast : (tile_group0.InsertTuple tuple).1 =
                ((tile_group0.InsertTuple tuple).2.GetAllocatedTupleCount + OID_MOD - 1) % OID_MOD
            · rw [if_pos hlast]
              have hadd := storage.DataTable.AddDefaultTileGroup_number_of_tuples table
                (((rt.ReturnFreeSlot table.table_oid).2).store address
                  (tile_group0.InsertTuple tuple).2)
                (table.number_of_tuples_ % table.active_tilegroup_count_)
              rcases hres : table.AddDefaultTileGroup
                  (((rt.ReturnFreeSlot table.table_oid).2).store address
                    (tile_group0.InsertTuple tuple).2)
                  (table.number_of_tuples_ % table.active_tilegroup_count_)
                with ⟨res, table2, rt2⟩
              rw [hres] at hadd
              simp only [] at hadd
              cases res with
              | none => exact hadd
              | some id =>
                simp only []
                cases tuple with
                | none => exact hadd
                | some tuple0 =>
                  simp only []
                  split
                  · exact hadd
                  · simp only []
                    split
                    · rw [storage.DataTable.update_sparse_index_number_of_tuples]
                      exact hadd
                    · exact hadd
            · rw [if_neg hlast]
              simp only []
              cases tuple with
              | none => rfl
              | some tuple0 =>
                simp only []
                split
                · rfl
                · simp only []
                  split
                  · rw [storage.DataTable.update_sparse_index_number_of_tuples]
                  · rfl

/-- A tuple with a null value in a column that has a NOT NULL constraint and does not
allow null makes the first loop of `CheckConstraints` throw. -/
theorem storage.DataTable.CheckConstraints_not_null_throws (schema : storage.TableConstraints)
    (tuple : storage.Tuple) (column_id : Nat)
    (hallow : schema.AllowNull column_id = false)
    (hnull : (tuple.GetValue column_id).IsNull = true) :
    ∀ columns : List Nat, column_id ∈ columns →
      storage.DataTable.CheckConstraints_not_null schema tuple columns = true
  | [], h => by cases h
  | c :: rest, h => by
    unfold storage.DataTable.CheckConstraints_not_null
    by_cases hc : schema.AllowNull c = false ∧ storage.DataTable.CheckNotNulls tuple c = false
    · rw [if_pos hc]
    · rw [if_neg hc]
      rcases List.mem_cons.1 h with h | h
      · exfalso
        apply hc
        rw [← h]
        refine ⟨hallow, ?_⟩
        unfold storage.DataTable.CheckNotNulls
        rw [hnull]
        rfl
      · exact storage.DataTable.CheckConstraints_not_null_throws schema tuple column_id
          hallow hnull rest h

/-- Claim C24, as the code has it.  A tuple violates a NOT NULL constraint of the table:
it is null in a column that is among the NOT NULL columns of the schema and does not
allow null; its leading value is not the integer `INT32_MAX - 1`.  Then
`InsertTuple(tuple, transaction, index_entry_ptr, check_fk)` first takes a tuple slot
through `GetEmptyTupleSlot`, which copies the tuple into the slot, and when that call
returns a valid item pointer, `InsertTuple` does not return: `CheckConstraints` throws
a `ConstraintException`, and the table and the tile groups are left as
`GetEmptyTupleSlot` left them, with the copy of the tuple in its slot.  The tuple
count of the table is unchanged in every case. -/
theorem C24_not_null_violation_throws_after_copy (table : storage.DataTable)
    (rt : storage.Runtime) (schema : storage.TableConstraints) (index_count : Nat)
    (InsertInIndexes : storage.Tuple → storage.ItemPointer → Option storage.ItemPointer)
    (CheckForeignKeyConstraints : storage.Tuple → Bool) (tuple : storage.Tuple)
    (check_fk : Bool) (column_id : Nat)
    (hcolumn : column_id ∈ schema.GetNotNullColumns)
    (hallow : schema.AllowNull column_id = false)
    (hnull : (tuple.GetValue column_id).IsNull = true)
    (hleading : ¬ ((tuple.GetValue 0).GetTypeId = type.TypeId.INTEGER ∧
      (tuple.GetValue 0).CompareEquals (type.Value.data type.TypeId.INTEGER (2147483647 - 1)) =
        type.CmpBool.CmpTrue)) :
    (∀ location, (table.GetEmptyTupleSlot rt (some tuple)).1 = some location →
      location.block ≠ INVALID_OID →
      table.InsertTuple rt schema index_count InsertInIndexes CheckForeignKeyConstraints
        tuple check_fk =
        (storage.Outcome.ConstraintException, (table.GetEmptyTupleSlot rt (some tuple)).2.1,
          (table.GetEmptyTupleSlot rt (some tuple)).2.2)) ∧
    (table.InsertTuple rt schema index_count InsertInIndexes CheckForeignKeyConstraints
      tuple check_fk).2.1.number_of_tuples_ = table.number_of_tuples_ := by
  have hthrow : storage.DataTable.CheckConstraints schema tuple =
      storage.Outcome.ConstraintException := by
    unfold storage.DataTable.CheckConstraints
    rw [if_pos (storage.DataTable.CheckConstraints_not_null_throws schema tuple column_id
      hallow hnull _ hcolumn)]
  have hloc : ∀ (table1 : storage.DataTable) (location : storage.ItemPointer),
      table1.InsertTuple_location schema index_count InsertInIndexes
        CheckForeignKeyConstraints tuple location check_fk =
        (storage.Outcome.ConstraintException, table1) := by
    intro table1 location
    unfold storage.DataTable.InsertTuple_location
    rw [hthrow]
  have hcount := storage.DataTable.GetEmptyTupleSlot_number_of_tuples table rt (some tuple)
  unfold storage.DataTable.InsertTuple
  simp only []
  rw [if_neg hleading]
  rcases hslot : table.GetEmptyTupleSlot rt (some tuple) with ⟨res, table1, rt1⟩
  rw [hslot] at hcount
  simp only [] at hcount
  cases res with
  | none =>
    refine ⟨?_, hcount⟩
    intro location h
    cases h
  | some location0 =>
    simp only []
    rw [hloc]
    simp only []
    constructor
    · intro location h hvalid
      have hl : location0 = location := Option.some.inj h
      rw [hl, if_neg hvalid]
    · by_cases hv : location0.block = INVALID_OID
      · rw [if_pos hv]
        exact hcount
      · rw [if_neg hv]
        exact hcount

theorem C24_not_null_violation_throws_after_copy_witness :
    storage.example_fresh_table.1.InsertTuple storage.example_fresh_table.2
        storage.example_constraints 0 (fun _ _ => none) (fun _ => true)
        [type.Value.data 5 5, type.Value.null 5] false =
      (storage.Outcome.ConstraintException,
        (storage.example_fresh_table.1.GetEmptyTupleSlot storage.example_fresh_table.2
          (some [type.Value.data 5 5, type.Value.null 5])).2.1,
        (storage.example_fresh_table.1.GetEmptyTupleSlot storage.example_fresh_table.2
          (some [type.Value.data 5 5, type.Value.null 5])).2.2) ∧
    (storage.example_fresh_table.1.InsertTuple storage.example_fresh_table.2
        storage.example_constraints 0 (fun _ _ => none) (fun _ => true)
        [type.Value.data 5 5, type.Value.null 5] false).2.1.number_of_tuples_ =
      storage.example_fresh_table.1.number_of_tuples_ :=
  ⟨(C24_not_null_violation_throws_after_copy storage.example_fresh_table.1
      storage.example_fresh_table.2 storage.example_constraints 0 (fun _ _ => none)
      (fun _ => true) [type.Value.data 5 5, type.Value.null 5] false 1
      (by decide) (by decide) (by decide) (by decide)).1
      { block := 1, offset := 0, tile_group_location_ := some 1 } (by decide) (by decide),
    (C24_not_null_violation_throws_after_copy storage.example_fresh_table.1
      storage.example_fresh_table.2 storage.example_constraints 0 (fun _ _ => none)
      (fun _ => true) [type.Value.data 5 5, type.Value.null 5] false 1
      (by decide) (by decide) (by decide) (by decide)).2⟩

/-- Claim C24 as stated fails.  The tuple `(5, null)` is inserted into the empty example
table, whose column 1 is NOT NULL.  `InsertTuple` does not return the invalid item
pointer: it ends in a `ConstraintException`.  The tuple count stays 0, but the tile
group of the table, which had no tuple slot in use, now has the slot 0 in use, and the
slot holds the values `(5, null)` of the tuple. -/
theorem C24_violating_tuple_throws_and_stays_in_slot :
    (storage.example_fresh_table.1.InsertTuple storage.example_fresh_table.2
        storage.example_constraints 0 (fun _ _ => none) (fun _ => true)
        [type.Value.data 5 5, type.Value.null 5] false).1 =
      storage.Outcome.ConstraintException ∧
    (storage.example_fresh_table.1.InsertTuple storage.example_fresh_table.2
        storage.example_constraints 0 (fun _ _ => none) (fun _ => true)
        [type.Value.data 5 5, type.Value.null 5] false).1 ≠
      storage.Outcome.returned storage.INVALID_ITEMPOINTER ∧
    (storage.example_fresh_table.1.InsertTuple storage.example_fresh_table.2
        storage.example_constraints 0 (fun _ _ => none) (fun _ => true)
        [type.Value.data 5 5, type.Value.null 5] false).2.1.number_of_tuples_ = 0 ∧
    (storage.example_fresh_table.2.tile_groups 1).map
        (fun g => g.GetNextTupleSlot) = some 0 ∧
    ((storage.example_fresh_table.1.InsertTuple storage.example_fresh_table.2
        storage.example_constraints 0 (fun _ _ => none) (fun _ => true)
        [type.Value.data 5 5, type.Value.null 5] false).2.2.tile_groups 1).map
        (fun g => (g.GetNextTupleSlot, g.GetValue 0 0, g.GetValue 0 1)) =
      some (1, type.Value.data 5 5, type.Value.null 5) := by
  decide

/-! ### Readers of the column store -/

theorem storage.collect_map {α β : Type} (f : α → Option β) (g : α → β) :
    ∀ l : List α, (∀ x ∈ l, f x = some (g x)) → storage.collect (l.map f) = some (l.map g)
  | [], _ => rfl
  | x :: rest, h => by
    have hx := h x (List.mem_cons_self _ _)
    have hrest := storage.collect_map f g rest (fun y hy => h y (List.mem_cons_of_mem _ hy))
    simp only [List.map_cons, hx, storage.collect, hrest, Option.map_some']

theorem read_range_map {α : Type} (f : Nat → α) (n first last : Nat) (hlast : last ≤ n) :
    read_range ((List.range n).map f) first last =
      some ((List.range' first (last - first)).map f) := by
  unfold read_range
  apply storage.collect_map
  intro tp htp
  rw [List.mem_range'_1] at htp
  rw [List.getElem?_map, List.getElem?_range (by omega)]
  rfl

/-- The values of a column for the rows of a tile group. -/
theorem block_eq_range' {α : Type} (v : Nat → α) (cap g : Nat) :
    (List.range cap).map (fun r => v (g * cap + r)) = (List.range' (g * cap) cap).map v := by
  rw [List.range'_eq_map_range, List.map_map]
  rfl

/-- The blocks of consecutive tile groups, one after the other, are the values of the
column for the rows of these tile groups in order. -/
theorem blocks_flatten {α : Type} (v : Nat → α) (cap : Nat) :
    ∀ (k g0 : Nat), ((List.range' g0 k).map (fun g =>
        (List.range cap).map (fun r => v (g * cap + r)))).flatten =
      (List.range' (g0 * cap) (k * cap)).map v
  | 0, g0 => by simp
  | k + 1, g0 => by
    rw [List.range'_succ, List.map_cons, List.flatten_cons, blocks_flatten v cap k (g0 + 1),
      block_eq_range', ← List.map_append]
    congr 1
    have h1 : (g0 + 1) * cap = g0 * cap + cap := Nat.succ_mul g0 cap
    have h2 : (k + 1) * cap = k * cap + cap := Nat.succ_mul k cap
    rw [h1, h2, ← List.range'_append_1]

theorem range_map_getElem? {α β : Type} (g : Option α → β) :
    ∀ l : List α, (List.range l.length).map (fun i => g (l[i]?)) = l.map (fun x => g (some x))
  | [] => rfl
  | x :: rest => by
    rw [List.length_cons, List.range_succ_eq_map, List.map_cons, List.map_map, List.map_cons]
    congr 1
    · rw [List.getElem?_cons_zero]
    · rw [← range_map_getElem? g rest]
      apply List.map_congr_left
      intro i _
      simp

theorem storage.Runtime.GetBlocks_filterMap (rt : storage.Runtime)
    (tree : List ((Nat × Nat × Nat) × Nat)) (table_id column_id cap : Nat)
    (v : Nat → type.Value) :
    ∀ gs : List Nat,
      (∀ g ∈ gs, ∃ address tile, storage.map_find tree (table_id, column_id, g) = some address ∧
        rt.tiles address = some tile ∧ tile.num_tuple_slots = cap ∧
        ∀ r, r < cap → tile.GetValue r 0 = v (g * cap + r)) →
      rt.GetBlocks (gs.filterMap (fun g => storage.map_find tree (table_id, column_id, g))) =
        some (gs.map (fun g => (List.range cap).map (fun r => v (g * cap + r))))
  | [], _ => rfl
  | g :: rest, h => by
    obtain ⟨address, tile, hfind, htile, hslots, hval⟩ := h g (List.mem_cons_self _ _)
    have hrest := storage.Runtime.GetBlocks_filterMap rt tree table_id column_id cap v rest
      (fun g2 hg2 => h g2 (List.mem_cons_of_mem _ hg2))
    unfold storage.Runtime.GetBlocks at hrest ⊢
    rw [List.filterMap_cons, hfind]
    simp only [List.map_cons, htile, Option.map_some', storage.collect, hrest]
    congr 2
    unfold storage.Tile.GetBlock storage.Tile.GetAllocatedTupleCount
    rw [hslots]
    apply List.map_congr_left
    intro r hr
    exact hval r (List.mem_range.1 hr)

/-- The vector that the readers of the ordered trees build for a column when the two
bounds lie in the same tile group: the values of the rows strictly between them. -/
theorem LogicalTileKV.column_tile_in_range_same (t : LogicalTileKV) (v : Nat → type.Value)
    (cap st a b : Nat) (hab : a < b) (hb : b < cap) (hcap : cap < OID_MOD)
    (hsame : t.tile_group_st_ = t.tile_group_ed_) :
    t.column_tile_in_range a b
        ((List.range' st 1).map (fun g => (List.range cap).map (fun r => v (g * cap + r)))) =
      some ((List.range' (st * cap + a + 1) (b - a - 1)).map v) := by
  unfold LogicalTileKV.column_tile_in_range
  have hmod : (a + 1) % OID_MOD = a + 1 := Nat.mod_eq_of_lt (by omega)
  simp only [hsame, if_true, hmod, List.range'_one, List.map_cons, List.map_nil,
    List.length_singleton, List.getElem?_cons_zero, Option.some_bind]
  by_cases hlt : a + 1 < b
  · rw [if_pos hlt, read_range_map _ cap (a + 1) b (by omega), block_eq_range']
    simp only [Nat.one_ne_zero, if_false, Nat.lt_irrefl, List.drop_succ_cons, List.drop_nil,
      List.take_nil, List.flatten_nil, Option.some_bind, List.append_nil]
    rw [List.range'_eq_map_range, List.map_map]
    congr 1
    rw [List.range'_eq_map_range (st * cap + a + 1), List.map_map]
    have hl : b - (a + 1) = b - a - 1 := by omega
    rw [hl]
    apply List.map_congr_left
    intro r _
    show v (st * cap + (a + 1 + r)) = v (st * cap + a + 1 + r)
    congr 1
    omega
  · rw [if_neg hlt]
    have hl : b - a - 1 = 0 := by omega
    rw [hl]
    simp

/-- The vector that the readers of the ordered trees build for a column when the bounds
lie in different tile groups: the values of the rows behind the lower bound up to the
upper bound, the row of the upper bound included. -/
theorem LogicalTileKV.column_tile_in_range_diff (t : LogicalTileKV) (v : Nat → type.Value)
    (cap st m a b : Nat) (ha : a < cap) (hb : b < cap) (hcap : cap < OID_MOD)
    (hdiff : t.tile_group_st_ ≠ t.tile_group_ed_) :
    t.column_tile_in_range a b
        ((List.range' st (m + 2)).map (fun g =>
          (List.range cap).map (fun r => v (g * cap + r)))) =
      some ((List.range' (st * cap + a + 1) ((cap - a - 1) + m * cap + (b + 1))).map v) := by
  unfold LogicalTileKV.column_tile_in_range
  have hmoda : (a + 1) % OID_MOD = a + 1 := Nat.mod_eq_of_lt (by omega)
  have hmodb : (b + 1) % OID_MOD = b + 1 := Nat.mod_eq_of_lt (by omega)
  have hlen : ((List.range' st (m + 2)).map (fun g =>
      (List.range cap).map (fun r => v (g * cap + r)))).length = m + 2 := by simp
  have h0 : ((List.range' st (m + 2)).map (fun g =>
      (List.range cap).map (fun r => v (g * cap + r))))[0]? =
      some ((List.range cap).map (fun r => v (st * cap + r))) := by
    rw [List.getElem?_map, List.getElem?_range' _ _ (by omega)]
    simp
  have hlast : ((List.range' st (m + 2)).map (fun g =>
      (List.range cap).map (fun r => v (g * cap + r))))[m + 2 - 1]? =
      some ((List.range cap).map (fun r => v ((st + 1 + m) * cap + r))) := by
    rw [List.getElem?_map, List.getElem?_range' _ _ (by omega)]
    have : st + 1 * (m + 2 - 1) = st + 1 + m := by omega
    rw [this]
    rfl
  have hmid : (((List.range' st (m + 2)).map (fun g =>
      (List.range cap).map (fun r => v (g * cap + r)))).drop 1).take (m + 2 - 1 - 1) =
      (List.range' (st + 1) m).map (fun g => (List.range cap).map (fun r => v (g * cap + r))) := by
    have h1 : m + 2 - 1 - 1 = m := by omega
    have h2 : List.range' (st + 1) (m + 1) =
        List.range' (st + 1) m ++ List.range' (st + 1 + m) 1 := by
      rw [List.range'_append_1, Nat.add_comm 1 m]
    rw [← List.map_drop, ← List.map_take, h1, List.range'_succ, List.drop_succ_cons,
      List.drop_zero, h2, List.take_left' (by simp)]
  simp only [hdiff, if_false, hlen, h0, hlast, hmid, hmoda, hmodb, Option.some_bind,
    List.length_map, List.length_range]
  rw [if_neg (by omega), if_pos (by omega)]
  simp only [Option.some_bind]
  rw [read_range_map _ cap (a + 1) cap (Nat.le_refl _),
    read_range_map _ cap 0 (b + 1) (by omega), blocks_flatten]
  simp only [Option.some_bind]
  congr 1
  have e1 : (List.range' (a + 1) (cap - (a + 1))).map (fun r => v (st * cap + r)) =
      (List.range' (st * cap + a + 1) (cap - a - 1)).map v := by
    rw [List.range'_eq_map_range, List.map_map, List.range'_eq_map_range (st * cap + a + 1),
      List.map_map]
    have hl : cap - (a + 1) = cap - a - 1 := by omega
    rw [hl]
    apply List.map_congr_left
    intro r _
    show v (st * cap + (a + 1 + r)) = v (st * cap + a + 1 + r)
    congr 1
    omega
  have e2 : (List.range' 0 (b + 1 - 0)).map (fun r => v ((st + 1 + m) * cap + r)) =
      (List.range' ((st + 1 + m) * cap) (b + 1)).map v := by
    rw [List.range'_eq_map_range, List.map_map, List.range'_eq_map_range ((st + 1 + m) * cap),
      List.map_map]
    apply List.map_congr_left
    intro r _
    show v ((st + 1 + m) * cap + (0 + r)) = v ((st + 1 + m) * cap + r)
    congr 1
    omega
  rw [e1, e2, ← List.map_append, ← List.map_append]
  congr 1
  have p1 : (st + 1) * cap = st * cap + a + 1 + (cap - a - 1) := by
    rw [Nat.succ_mul]; omega
  have p2 : (st + 1 + m) * cap = st * cap + a + 1 + (cap - a - 1 + m * cap) := by
    rw [Nat.add_mul, Nat.succ_mul]; omega
  rw [p1, p2, List.range'_append_1, Nat.add_comm (m * cap) (cap - a - 1),
    List.range'_append_1]
  congr 1
  omega

/-- The loop `project by partition` on vectors that hold, for each column, the values of
the rows from `s` on: the first `total_tuples_` rows, row by row. -/
theorem LogicalTileKV.project_by_partition_spec (t : LogicalTileKV) (val : Nat → Nat → type.Value)
    (s n : Nat) (htotal : t.total_tuples_ ≤ n) :
    t.project_by_partition (t.column_ids_.map (fun c => (List.range' s n).map (val c))) =
      some (((List.range' s t.total_tuples_).map (fun row =>
        t.column_ids_.map (fun c => val c row))).flatten) := by
  unfold LogicalTileKV.project_by_partition
  have hrow : ∀ row ∈ List.range t.total_tuples_,
      storage.collect ((List.range t.column_ids_.length).map (fun i =>
        ((t.column_ids_.map (fun c => (List.range' s n).map (val c)))[i]?).bind
          (fun column_tile => column_tile[row]?))) =
      some (t.column_ids_.map (fun c => val c (s + row))) := by
    intro row hrow
    have hlen : t.column_ids_.length =
        (t.column_ids_.map (fun c => (List.range' s n).map (val c))).length := by simp
    rw [hlen, range_map_getElem? (fun o => o.bind (fun column_tile => column_tile[row]?)),
      List.map_map]
    apply storage.collect_map
    intro c _
    show (some ((List.range' s n).map (val c))).bind (fun column_tile => column_tile[row]?) = _
    rw [Option.some_bind, List.getElem?_map,
      List.getElem?_range' _ _ (by have := List.mem_range.1 hrow; omega)]
    simp
  rw [storage.collect_map _ _ _ hrow, Option.map_some']
  congr 2
  rw [List.range'_eq_map_range, List.map_map]
  rfl

/-- The text that the two readers of the ordered trees share, on a range tile for the
bounds `low < high`, when the call for a column gives the blocks of the column for the
tile groups of the range: the values of the rows strictly between the bounds, row by
row. -/
theorem LogicalTileKV.tree_rows_spec (t : LogicalTileKV)
    (column_tiles : Nat → Option (List (List type.Value))) (cap : Nat)
    (val : Nat → Nat → type.Value) (low high : Nat)
    (hcap0 : 0 < cap) (hcap : cap < OID_MOD) (hlow : low < high)
    (hrange : t.visible_range_ = [(low % cap, low / cap), (high % cap, high / cap)])
    (hst : t.tile_group_st_ = low / cap) (hed : t.tile_group_ed_ = high / cap)
    (htotal : t.total_tuples_ = high - low - 1)
    (htiles : ∀ c ∈ t.column_ids_, column_tiles c =
      some ((List.range' (low / cap) (high / cap + 1 - low / cap)).map (fun g =>
        (List.range cap).map (fun r => val c (g * cap + r))))) :
    t.tree_rows column_tiles =
      some (((List.range' (low + 1) (high - low - 1)).map (fun row =>
        t.column_ids_.map (fun c => val c row))).flatten) := by
  have hle : low / cap ≤ high / cap := Nat.div_le_div_right (Nat.le_of_lt hlow)
  have hl : low / cap * cap + low % cap = low := by
    rw [Nat.mul_comm]; exact Nat.div_add_mod low cap
  have hh : high / cap * cap + high % cap = high := by
    rw [Nat.mul_comm]; exact Nat.div_add_mod high cap
  have ha : low % cap < cap := Nat.mod_lt _ hcap0
  have hb : high % cap < cap := Nat.mod_lt _ hcap0
  unfold LogicalTileKV.tree_rows
  rw [hrange]
  simp only []
  by_cases hsame : low / cap = high / cap
  · have hts : t.tile_group_st_ = t.tile_group_ed_ := by rw [hst, hed, hsame]
    have hab : low % cap < high % cap := by
      rw [hsame] at hl
      omega
    have hn : high % cap - low % cap - 1 = high - low - 1 := by
      rw [hsame] at hl
      omega
    have hcols : storage.collect (t.column_ids_.map (fun column_id =>
        (column_tiles column_id).bind (t.column_tile_in_range (low % cap) (high % cap)))) =
        some (t.column_ids_.map (fun c =>
          (List.range' (low + 1) (high - low - 1)).map (val c))) := by
      apply storage.collect_map
      intro c hc
      rw [htiles c hc, Option.some_bind]
      have h1 : high / cap + 1 - low / cap = 1 := by omega
      rw [h1, LogicalTileKV.column_tile_in_range_same t (val c) cap (low / cap) (low % cap)
        (high % cap) hab hb hcap hts, hl, hn]
    rw [hcols, Option.some_bind, ← htotal]
    exact LogicalTileKV.project_by_partition_spec t val (low + 1) t.total_tuples_ (Nat.le_refl _)
  · have hts : t.tile_group_st_ ≠ t.tile_group_ed_ := by rw [hst, hed]; exact hsame
    obtain ⟨m, hm⟩ : ∃ m, high / cap = low / cap + 1 + m :=
      ⟨high / cap - low / cap - 1, by omega⟩
    have hn : cap - low % cap - 1 + m * cap + (high % cap + 1) = high - low := by
      rw [hm, Nat.add_mul, Nat.succ_mul] at hh
      omega
    have hcols : storage.collect (t.column_ids_.map (fun column_id =>
        (column_tiles column_id).bind (t.column_tile_in_range (low % cap) (high % cap)))) =
        some (t.column_ids_.map (fun c =>
          (List.range' (low + 1) (high - low)).map (val c))) := by
      apply storage.collect_map
      intro c hc
      rw [htiles c hc, Option.some_bind]
      have h1 : high / cap + 1 - low / cap = m + 2 := by omega
      rw [h1, LogicalTileKV.column_tile_in_range_diff t (val c) cap (low / cap) m (low % cap)
        (high % cap) ha hb hcap hts, hl, hn]
    rw [hcols, Option.some_bind, ← htotal]
    exact LogicalTileKV.project_by_partition_spec t val (low + 1) (high - low)
      (by rw [htotal]; omega)

/-- Claim C29.  The column store holds, in each of the two ordered trees, for every
requested column `c` and every tile group offset `g` up to that of `high`, a tile with
`cap` tuple slots whose slot `r` holds the value `val c (g * cap + r)` of the row
`g * cap + r`; the range iterator of the second tree visits the entries between its two
keys, both included, in order.  For the range tile of the bounds `low < high` (tile
groups `low / cap` to `high / cap`, offsets `low mod cap` and `high mod cap`, tuple
count `high - low - 1`), `GetGoogleKValsAsStrings` and `GetMassKValsAsStrings` both
return, row by row and in the order of the requested columns, the values of the rows
`low + 1, …, high - 1`, whether the bounds lie in the same tile group or not. -/
theorem C29_tree_readers_return_rows_between_bounds (rt : storage.Runtime)
    (scan : List ((Nat × Nat × Nat) × Nat) → Nat → Nat → Nat → Nat → List Nat)
    (cap : Nat) (val : Nat → Nat → type.Value) (low high : Nat) (t : LogicalTileKV)
    (hcap0 : 0 < cap) (hcap : cap < OID_MOD) (hlow : low < high)
    (hgoogle : ∀ c ∈ t.column_ids_, ∀ g, g ≤ high / cap → ∃ address tile,
      storage.map_find rt.manager.column_google_tree_ (t.table_id_, c, g) = some address ∧
      rt.tiles address = some tile ∧ tile.num_tuple_slots = cap ∧
      ∀ r, r < cap → tile.GetValue r 0 = val c (g * cap + r))
    (hmass : ∀ c ∈ t.column_ids_, ∀ g, g ≤ high / cap → ∃ address tile,
      storage.map_find rt.manager.column_mass_tree_ (t.table_id_, c, g) = some address ∧
      rt.tiles address = some tile ∧ tile.num_tuple_slots = cap ∧
      ∀ r, r < cap → tile.GetValue r 0 = val c (g * cap + r))
    (hscan : ∀ c ∈ t.column_ids_,
      scan rt.manager.column_mass_tree_ t.table_id_ c (low / cap) (high / cap) =
        storage.ordered_range rt.manager.column_mass_tree_ t.table_id_ c (low / cap)
          (high / cap))
    (hrange : t.visible_range_ = [(low % cap, low / cap), (high % cap, high / cap)])
    (hst : t.tile_group_st_ = low / cap) (hed : t.tile_group_ed_ = high / cap)
    (htotal : t.total_tuples_ = high - low - 1) :
    t.GetGoogleKValsAsStrings rt =
      some (((List.range' (low + 1) (high - low - 1)).map (fun row =>
        t.column_ids_.map (fun c => val c row))).flatten) ∧
    t.GetMassKValsAsStrings rt scan =
      some (((List.range' (low + 1) (high - low - 1)).map (fun row =>
        t.column_ids_.map (fun c => val c row))).flatten) := by
  have hle : low / cap ≤ high / cap := Nat.div_le_div_right (Nat.le_of_lt hlow)
  constructor
  · unfold LogicalTileKV.GetGoogleKValsAsStrings
    apply LogicalTileKV.tree_rows_spec t _ cap val low high hcap0 hcap hlow hrange hst hed htotal
    intro c hc
    unfold storage.Runtime.GetGoogleTreeKValues
    rw [hst, hed, if_pos hle]
    unfold storage.ordered_range
    apply storage.Runtime.GetBlocks_filterMap
    intro g hg
    rw [List.mem_range'_1] at hg
    exact hgoogle c hc g (by omega)
  · unfold LogicalTileKV.GetMassKValsAsStrings
    apply LogicalTileKV.tree_rows_spec t _ cap val low high hcap0 hcap hlow hrange hst hed htotal
    intro c hc
    unfold storage.Runtime.GetMassBtreeKValues
    rw [hst, hed]
    by_cases hsame : low / cap = high / cap
    · rw [if_pos hsame]
      obtain ⟨address, tile, hfind, htile, hslots, hval⟩ := hmass c hc (low / cap) hle
      rw [hfind]
      simp only []
      have h1 : high / cap + 1 - low / cap = 1 := by omega
      rw [h1]
      have := storage.Runtime.GetBlocks_filterMap rt rt.manager.column_mass_tree_ t.table_id_
        c cap (val c) [low / cap]
        (by
          intro g hg
          rw [List.mem_singleton] at hg
          rw [hg]
          exact ⟨address, tile, hfind, htile, hslots, hval⟩)
      simp only [List.filterMap_cons, hfind, List.filterMap_nil] at this
      rw [this]
      rfl
    · rw [if_neg hsame, hscan c hc]
      unfold storage.ordered_range
      apply storage.Runtime.GetBlocks_filterMap
      intro g hg
      rw [List.mem_range'_1] at hg
      exact hmass c hc g (by omega)

/-- The example column store holds, in both ordered trees, the tile of every column and
tile group of the table 7. -/
theorem example_column_store_tiles (c g : Nat) (hc : c ∈ [0, 1]) (hg : g ≤ 2) :
    (∃ address tile,
      storage.map_find example_column_store.manager.column_google_tree_ (7, c, g) =
        some address ∧
      example_column_store.tiles address = some tile ∧ tile.num_tuple_slots = 4 ∧
      ∀ r, r < 4 → tile.GetValue r 0 = type.Value.data 5 ((100 * c + (g * 4 + r) : Nat) : Int)) ∧
    (∃ address tile,
      storage.map_find example_column_store.manager.column_mass_tree_ (7, c, g) =
        some address ∧
      example_column_store.tiles address = some tile ∧ tile.num_tuple_slots = 4 ∧
      ∀ r, r < 4 → tile.GetValue r 0 =
        type.Value.data 5 ((100 * c + (g * 4 + r) : Nat) : Int)) := by
  have hval : ∀ r, (example_column_tile c g).GetValue r 0 =
      type.Value.data 5 ((100 * c + (g * 4 + r) : Nat) : Int) := by
    intro r
    show type.Value.data 5 ((100 * c + 4 * g + r : Nat) : Int) = _
    congr 2
    omega
  have hc2 : c = 0 ∨ c = 1 := by simpa using hc
  have hg2 : g = 0 ∨ g = 1 ∨ g = 2 := by omega
  rcases hc2 with rfl | rfl <;> rcases hg2 with rfl | rfl | rfl <;>
    exact ⟨⟨_, _, rfl, rfl, rfl, fun r _ => hval r⟩, ⟨_, _, rfl, rfl, rfl, fun r _ => hval r⟩⟩

theorem C29_tree_readers_return_rows_between_bounds_witness :
    (example_range_tile 2 9 [0, 1]).GetGoogleKValsAsStrings example_column_store =
      some (((List.range' (2 + 1) (9 - 2 - 1)).map (fun row =>
        [0, 1].map (fun c => type.Value.data 5 ((100 * c + row : Nat) : Int)))).flatten) ∧
    (example_range_tile 2 9 [0, 1]).GetMassKValsAsStrings example_column_store inclusive_scan =
      some (((List.range' (2 + 1) (9 - 2 - 1)).map (fun row =>
        [0, 1].map (fun c => type.Value.data 5 ((100 * c + row : Nat) : Int)))).flatten) :=
  C29_tree_readers_return_rows_between_bounds example_column_store inclusive_scan 4
    (fun c row => type.Value.data 5 ((100 * c + row : Nat) : Int)) 2 9
    (example_range_tile 2 9 [0, 1]) (by decide) (by decide) (by decide)
    (fun c hc g hg => (example_column_store_tiles c g hc hg).1)
    (fun c hc g hg => (example_column_store_tiles c g hc hg).2)
    (fun _ _ => rfl) rfl rfl rfl rfl

/-- Claim C30 fails on the example column store.  For the range tile of the bounds
`1 < id < 3` with the columns 0 and 1, `GetGoogleKValsAsStrings` returns the row 2,
while `GetHopscotchKValuesAsStrings` and `GetCuckooKValuesAsStrings` return the rows 1
and 2: their loops start at `tuple_id_st`, the row of the lower bound, where the
reader of the ordered tree starts at `tuple_id_st + 1`.  The same holds when the
bounds lie in different tile groups (`2 < id < 9`, column 0): rows 3 to 8 against rows
2 to 8. -/
theorem C30_hash_readers_include_lower_bound_row :
    (example_range_tile 1 3 [0, 1]).GetGoogleKValsAsStrings example_column_store =
      some [type.Value.data 5 2, type.Value.data 5 102] ∧
    (example_range_tile 1 3 [0, 1]).GetHopscotchKValuesAsStrings example_column_store =
      some [type.Value.data 5 1, type.Value.data 5 101,
        type.Value.data 5 2, type.Value.data 5 102] ∧
    (example_range_tile 1 3 [0, 1]).GetCuckooKValuesAsStrings example_column_store =
      some [type.Value.data 5 1, type.Value.data 5 101,
        type.Value.data 5 2, type.Value.data 5 102] ∧
    (example_range_tile 2 9 [0]).GetGoogleKValsAsStrings example_column_store =
      some [type.Value.data 5 3, type.Value.data 5 4, type.Value.data 5 5,
        type.Value.data 5 6, type.Value.data 5 7, type.Value.data 5 8] ∧
    (example_range_tile 2 9 [0]).GetHopscotchKValuesAsStrings example_column_store =
      some [type.Value.data 5 2, type.Value.data 5 3, type.Value.data 5 4,
        type.Value.data 5 5, type.Value.data 5 6, type.Value.data 5 7,
        type.Value.data 5 8] ∧
    (example_range_tile 2 9 [0]).GetCuckooKValuesAsStrings example_column_store =
      some [type.Value.data 5 2, type.Value.data 5 3, type.Value.data 5 4,
        type.Value.data 5 5, type.Value.data 5 6, type.Value.data 5 7,
        type.Value.data 5 8] := by
  decide

end executor
end peloton
